import Mathlib

/-!
# Forward projection kernel (`kernel_forward.c`)

A shallow embedding of `Ray_Tracer_Forward` and `Forward_Projection` in exact
arithmetic over an ordered field `K`, followed by theorems about them.

Conventions of the embedding.

* The C type `DataType` is an ordered field `K` with a floor function; the
  rationals give executable instances.  The slab test divides by a direction
  component that can be zero, so its values live in `ExtVal K`, the field
  extended by the IEEE results of such a division (`+inf`, `-inf`, `NaN`).
* `SQRT`, `cos`, `sin` and `PI` are parameters.
* `int` is `Int` (no overflow); `(int) x` truncates toward zero.
* The local `index` of `Ray_Tracer_Forward` is declared without a value; its
  initial content is the parameter `index0`.
* Every `while (1)` loop takes a fuel argument; `Outcome.outOfFuel` says that
  the fuel ran out before the loop returned.
* Each accumulation into `sino` is also appended to a ghost `trace`, the voxel
  that was read together with the length it was multiplied by.
-/

namespace RayTracer

/-- Values of `DataType` in the slab test: a number of `K`, or one of the three
IEEE results of a division by zero. -/
inductive ExtVal (K : Type) where
  | fin (a : K)
  | pinf
  | ninf
  | nan
  deriving DecidableEq

structure Vector3D (K : Type) where
  x : K
  y : K
  z : K
  deriving DecidableEq

structure Vector3DInt where
  x : Int
  y : Int
  z : Int
  deriving DecidableEq

structure Array3D (α : Type) where
  index1Size : Int
  index2Size : Int
  index3Size : Int
  data : Int → Int → Int → α

/-- What a call of `Ray_Tracer_Forward` comes to. `ret sino trace` is a normal
return of `sino` after the accumulations listed in `trace`; `nanOperand` says
that the slab test left a `lambda_min` or `lambda_max` that is not a number and
the code went on computing with it, which this embedding does not follow. -/
inductive Outcome (K : Type) where
  | outOfFuel
  | nanOperand
  | ret (sino : K) (trace : List (Vector3DInt × K))
  deriving DecidableEq

section Macros

variable {K : Type} [LinearOrderedField K] [FloorRing K]

/-- Modelled from the spec: the macro `ARRAY3DData` is not in the source file;
it is the read accessor of the dense 3D array. -/
def ARRAY3DData {α : Type} (a : Array3D α) (i j k : Int) : α := a.data i j k

/-- The comparison `a < b` of C on `DataType`, false when an operand is NaN. -/
def ExtVal.lt : ExtVal K → ExtVal K → Bool
  | .fin a, .fin b => decide (a < b)
  | .fin _, .pinf => true
  | .ninf, .fin _ => true
  | .ninf, .pinf => true
  | _, _ => false

/-- The comparison `a >= b` of C on `DataType`, false when an operand is NaN. -/
def ExtVal.ge : ExtVal K → ExtVal K → Bool
  | .fin a, .fin b => decide (b ≤ a)
  | .pinf, .fin _ => true
  | .pinf, .pinf => true
  | .pinf, .ninf => true
  | .fin _, .ninf => true
  | .ninf, .ninf => true
  | _, _ => false

/-- The quotient `n / d` of C on `DataType`: a number when `d` is not zero, and
the IEEE result of a division by (positive) zero otherwise. -/
def ExtVal.quot (n d : K) : ExtVal K :=
  if d = 0 then (if 0 < n then .pinf else if n < 0 then .ninf else .nan)
  else .fin (n / d)

/-- Modelled from the spec: the macro `MIN` is not in the source file; it is
the conditional `((a) < (b)) ? (a) : (b)`. -/
def MIN (a b : ExtVal K) : ExtVal K := if a.lt b then a else b

/-- Modelled from the spec: the macro `MAX` is not in the source file; it is
the conditional `((a) > (b)) ? (a) : (b)`. -/
def MAX (a b : ExtVal K) : ExtVal K := if b.lt a then a else b

/-- Modelled from the spec: the macro `LAMBDA_X` is not in the source file; it
is the parametric distance `L * (i - x_s) / (x_d - x_s)` at which the ray from
`x_s` to `x_d` crosses the grid plane `x = i`. -/
def LAMBDA_X (i : Int) (x_s x_d L : K) : ExtVal K :=
  ExtVal.quot (L * ((i : K) - x_s)) (x_d - x_s)

/-- Modelled from the spec: the macro `LAMBDA_Y`, as `LAMBDA_X` on the y axis. -/
def LAMBDA_Y (j : Int) (y_s y_d L : K) : ExtVal K :=
  ExtVal.quot (L * ((j : K) - y_s)) (y_d - y_s)

/-- Modelled from the spec: the macro `LAMBDA_Z`, as `LAMBDA_X` on the z axis. -/
def LAMBDA_Z (k : Int) (z_s z_d L : K) : ExtVal K :=
  ExtVal.quot (L * ((k : K) - z_s)) (z_d - z_s)

/-- The cast `(int) x` of C: truncation toward zero. -/
def toInt (x : K) : Int := if 0 ≤ x then ⌊x⌋ else ⌈x⌉

end Macros

section Tracer

variable {K : Type} [LinearOrderedField K] [FloorRing K]

/-- The variables of `Ray_Tracer_Forward` that the marching loops change. -/
structure MarchState (K : Type) where
  v : Vector3DInt
  Tx : K
  Ty : K
  Tz : K
  sino : K
  trace : List (Vector3DInt × K)

/-- The variables of `Ray_Tracer_Forward` that the marching loops only read. -/
structure Env (K : Type) where
  image : Array3D K
  N_x : Int
  N_y : Int
  N_z : Int
  signx : Int
  signy : Int
  signz : Int
  Len : Vector3D K

/-- How a block of statements ends: by a `return`, or by falling through. -/
inductive Flow (K : Type) where
  | ret (o : Outcome K)
  | next (st : MarchState K)

/-- The statements `length = len; sino += ARRAY3DData(image, v.x, v.y, v.z) * length;`. -/
def MarchState.acc (e : Env K) (st : MarchState K) (length : K) : MarchState K :=
  { st with
    sino := st.sino + ARRAY3DData e.image st.v.x st.v.y st.v.z * length
    trace := st.trace ++ [(st.v, length)] }

/-- The statement `v.x += signx;`. -/
def MarchState.stepX (e : Env K) (st : MarchState K) : MarchState K :=
  { st with v := { st.v with x := st.v.x + e.signx } }

/-- The statement `v.y += signy;`. -/
def MarchState.stepY (e : Env K) (st : MarchState K) : MarchState K :=
  { st with v := { st.v with y := st.v.y + e.signy } }

/-- The statement `v.z += signz;`. -/
def MarchState.stepZ (e : Env K) (st : MarchState K) : MarchState K :=
  { st with v := { st.v with z := st.v.z + e.signz } }

/-- The statement `return sino;`. -/
def MarchState.done (st : MarchState K) : Flow K := .ret (.ret st.sino st.trace)

/-- The test `v.x >= N_x || v.x < 0`. -/
def outX (e : Env K) (st : MarchState K) : Bool := decide (st.v.x ≥ e.N_x ∨ st.v.x < 0)

/-- The test `v.y >= N_y || v.y < 0`. -/
def outY (e : Env K) (st : MarchState K) : Bool := decide (st.v.y ≥ e.N_y ∨ st.v.y < 0)

/-- The test `v.z >= N_z || v.z < 0`. -/
def outZ (e : Env K) (st : MarchState K) : Bool := decide (st.v.z ≥ e.N_z ∨ st.v.z < 0)

/-- The one-axis walk of lines 168-176. -/
def walkX (e : Env K) : Nat → MarchState K → Outcome K
  | 0, _ => .outOfFuel
  | n + 1, st =>
    let st := st.acc e 1
    let st := st.stepX e
    if outX e st then .ret (st.sino * e.Len.x) st.trace else walkX e n st

/-- The one-axis walk of lines 407-414. -/
def walkY (e : Env K) : Nat → MarchState K → Outcome K
  | 0, _ => .outOfFuel
  | n + 1, st =>
    let st := st.acc e 1
    let st := st.stepY e
    if outY e st then .ret (st.sino * e.Len.y) st.trace else walkY e n st

/-- The loop `while (Tz >= Tx)` of lines 214-224 and 329-339. -/
def whileTzTx (e : Env K) : Nat → MarchState K → Flow K
  | 0, _ => .ret .outOfFuel
  | n + 1, st =>
    if st.Tz ≥ st.Tx then
      let st := st.acc e st.Tx
      let st := { st with Tz := st.Tz - st.Tx }
      let st := st.stepX e
      if outX e st then st.done else whileTzTx e n st
    else .next st

/-- The loop `while (Ty >= Tx)` of lines 265-275 and 377-387. -/
def whileTyTx (e : Env K) : Nat → MarchState K → Flow K
  | 0, _ => .ret .outOfFuel
  | n + 1, st =>
    if st.Ty ≥ st.Tx then
      let st := st.acc e st.Tx
      let st := { st with Ty := st.Ty - st.Tx }
      let st := st.stepX e
      if outX e st then st.done else whileTyTx e n st
    else .next st

/-- The loop `while (Tz >= Ty)` of lines 442-452 and 548-558. -/
def whileTzTy (e : Env K) : Nat → MarchState K → Flow K
  | 0, _ => .ret .outOfFuel
  | n + 1, st =>
    if st.Tz ≥ st.Ty then
      let st := st.acc e st.Ty
      let st := { st with Tz := st.Tz - st.Ty }
      let st := st.stepY e
      if outY e st then st.done else whileTzTy e n st
    else .next st

/-- The loop `while (Tx >= Ty)` of lines 490-500 and 595-605. -/
def whileTxTy (e : Env K) : Nat → MarchState K → Flow K
  | 0, _ => .ret .outOfFuel
  | n + 1, st =>
    if st.Tx ≥ st.Ty then
      let st := st.acc e st.Ty
      let st := { st with Tx := st.Tx - st.Ty }
      let st := st.stepY e
      if outY e st then st.done else whileTxTy e n st
    else .next st

/-- Lines 185-236 and again 306-350: x dominant, the z plane is nearer than
the y plane. -/
def xCrossZ (e : Env K) (fuel : Nat) (st : MarchState K) : Flow K :=
  if st.Tz < st.Tx then
    let st := st.acc e st.Tz
    let st := { st with Tx := st.Tx - st.Tz }
    let st := { st with Tz := e.Len.z }
    let st := st.stepZ e
    if outZ e st then st.done else .next st
  else
    let st := st.acc e st.Tx
    let st := { st with Tz := st.Tz - st.Tx }
    let st := { st with Tx := e.Len.x }
    let st := st.stepX e
    if outX e st then st.done
    else
      match whileTzTx e fuel st with
      | .ret o => .ret o
      | .next st =>
        let st := st.acc e st.Tz
        let st := { st with Tx := st.Tx - st.Tz }
        let st := { st with Tz := e.Len.z }
        let st := st.stepZ e
        if outZ e st then st.done else .next st

/-- Lines 242-287 and again 354-399: x dominant, the y plane is not farther
than the z plane. -/
def xCrossY (e : Env K) (fuel : Nat) (st : MarchState K) : Flow K :=
  if st.Ty < st.Tx then
    let st := st.acc e st.Ty
    let st := { st with Tx := st.Tx - st.Ty }
    let st := { st with Ty := e.Len.y }
    let st := st.stepY e
    if outY e st then st.done else .next st
  else
    let st := st.acc e st.Tx
    let st := { st with Ty := st.Ty - st.Tx }
    let st := { st with Tx := e.Len.x }
    let st := st.stepX e
    if outX e st then st.done
    else
      match whileTyTx e fuel st with
      | .ret o => .ret o
      | .next st =>
        let st := st.acc e st.Ty
        let st := { st with Tx := st.Tx - st.Ty }
        let st := { st with Ty := e.Len.y }
        let st := st.stepY e
        if outY e st then st.done else .next st

/-- Lines 420-463 and again 526-569: y dominant, the z plane is nearer than
the x plane. -/
def yCrossZ (e : Env K) (fuel : Nat) (st : MarchState K) : Flow K :=
  if st.Tz < st.Ty then
    let st := st.acc e st.Tz
    let st := { st with Ty := st.Ty - st.Tz }
    let st := { st with Tz := e.Len.z }
    let st := st.stepZ e
    if outZ e st then st.done else .next st
  else
    let st := st.acc e st.Ty
    let st := { st with Tz := st.Tz - st.Ty }
    let st := { st with Ty := e.Len.y }
    let st := st.stepY e
    if outY e st then st.done
    else
      match whileTzTy e fuel st with
      | .ret o => .ret o
      | .next st =>
        let st := st.acc e st.Tz
        let st := { st with Ty := st.Ty - st.Tz }
        let st := { st with Tz := e.Len.z }
        let st := st.stepZ e
        if outZ e st then st.done else .next st

/-- Lines 468-511 and again 572-617: y dominant, the x plane is not farther
than the z plane. -/
def yCrossX (e : Env K) (fuel : Nat) (st : MarchState K) : Flow K :=
  if st.Tx < st.Ty then
    let st := st.acc e st.Tx
    let st := { st with Ty := st.Ty - st.Tx }
    let st := { st with Tx := e.Len.x }
    let st := st.stepX e
    if outX e st then st.done else .next st
  else
    let st := st.acc e st.Ty
    let st := { st with Tx := st.Tx - st.Ty }
    let st := { st with Ty := e.Len.y }
    let st := st.stepY e
    if outY e st then st.done
    else
      match whileTxTy e fuel st with
      | .ret o => .ret o
      | .next st =>
        let st := st.acc e st.Tx
        let st := { st with Ty := st.Ty - st.Tx }
        let st := { st with Tx := e.Len.x }
        let st := st.stepX e
        if outX e st then st.done else .next st

/-- The marching loop of lines 302-401 (x dominant). -/
def marchX (e : Env K) : Nat → MarchState K → Outcome K
  | 0, _ => .outOfFuel
  | n + 1, st =>
    if st.Tz < st.Ty then
      match xCrossZ e n { st with Ty := st.Ty - st.Tz } with
      | .ret o => o
      | .next st => marchX e n st
    else
      match xCrossY e n { st with Tz := st.Tz - st.Ty } with
      | .ret o => o
      | .next st => marchX e n st

/-- The marching loop of lines 523-619 (y dominant). -/
def marchY (e : Env K) : Nat → MarchState K → Outcome K
  | 0, _ => .outOfFuel
  | n + 1, st =>
    if st.Tz < st.Tx then
      match yCrossZ e n { st with Tx := st.Tx - st.Tz } with
      | .ret o => o
      | .next st => marchY e n st
    else
      match yCrossX e n { st with Tz := st.Tz - st.Tx } with
      | .ret o => o
      | .next st => marchY e n st

/-- The statement `sign = (d > 0) ? 1 : -1` of lines 50-52. -/
def signOf (d : K) : Int := if d > 0 then 1 else -1

/-- The unit-step length of lines 59-61 for a direction component `d`. -/
def unitLen (L d : K) : K := if |d| > 1 / 10000 then L / |d| else 1000000

/-- Lines 95-101 for one axis: the coordinate of the entry point, clamped at 0. -/
def entryCoord (s d L lambda_min : K) : K :=
  if s + lambda_min * d / L > 0 then s + lambda_min * d / L else 0

/-- Lines 104-118 (and 120-132, 134-146) for one axis: the current voxel index
`v`, the index `u` of the next grid plane, and whether the entry coordinate `c`
was taken to lie on a grid plane, from the entry coordinate, the direction
component and its sign. -/
def entryAxis (c dir : K) (sign : Int) : Int × Int × Bool :=
  if |c - ((toInt (c + 1 / 2) : Int) : K)| < 1 / 10000 then
    (if dir < 0 then toInt (c + 1 / 2) - 1 else toInt (c + 1 / 2),
      toInt (c + 1 / 2) + sign, true)
  else
    (toInt c, if dir < 0 then toInt c else toInt (c + 1), false)

/-- Lines 151-159 for one axis: the distance from the source to the next grid
plane `u`, or the sentinel when the direction component is negligible. The
macro `LAMBDA_X` is applied at a denominator that is not zero. -/
def nextLambda (u : Int) (s t L : K) : K :=
  if |t - s| < 1 / 10000 then 1000000 else L * ((u : K) - s) / (t - s)

/-- The value of `index` after lines 104-146. -/
def indexOf (index0 : Int) (onX onY onZ : Bool) : Int :=
  if onX then 1 else if onY then 2 else if onZ then 3 else index0

/-- Lines 163-620: the choice of the dominant axis and of the starting
counters, and the loops. -/
def dispatch (e : Env K) (fuel : Nat) (dx dy : K) (index : Int) (v : Vector3DInt)
    (lambda : Vector3D K) (lambda_0 lambda_max : K) : Outcome K :=
  let start (Tx Ty Tz : K) : MarchState K := ⟨v, Tx, Ty, Tz, 0, []⟩
  if |dx| > |dy| then
    if index = 1 then
      if min lambda.z lambda.y > lambda_max then
        walkX e fuel (start 0 0 0)
      else if lambda.z < lambda.y then
        match xCrossZ e fuel
            (start (lambda.x - lambda_0) (lambda.y - lambda.z) (lambda.z - lambda_0)) with
        | .ret o => o
        | .next st => marchX e fuel st
      else
        match xCrossY e fuel
            (start (lambda.x - lambda_0) (lambda.y - lambda_0) (lambda.z - lambda.y)) with
        | .ret o => o
        | .next st => marchX e fuel st
    else if index = 2 then
      marchX e fuel (start (lambda.x - lambda_0) e.Len.y (lambda.z - lambda_0))
    else
      marchX e fuel (start (lambda.x - lambda_0) (lambda.y - lambda_0) e.Len.z)
  else
    if index = 2 then
      if min lambda.z lambda.x > lambda_max then
        walkY e fuel (start 0 0 0)
      else if lambda.z < lambda.x then
        match yCrossZ e fuel
            (start (lambda.x - lambda.z) (lambda.y - lambda_0) (lambda.z - lambda_0)) with
        | .ret o => o
        | .next st => marchY e fuel st
      else
        match yCrossX e fuel
            (start (lambda.x - lambda_0) (lambda.y - lambda_0) (lambda.z - lambda.x)) with
        | .ret o => o
        | .next st => marchY e fuel st
    else if index = 1 then
      marchY e fuel (start e.Len.x (lambda.y - lambda_0) (lambda.z - lambda_0))
    else
      marchY e fuel (start (lambda.x - lambda_0) (lambda.y - lambda_0) e.Len.z)

/-- Lines 94-620: the part of `Ray_Tracer_Forward` after the slab test, for a
`lambda_min` and a `lambda_max` that are numbers. -/
def marchFromEntry (index0 : Int) (fuel : Nat) (source detector : Vector3D K)
    (N_x N_y N_z : Int) (image : Array3D K) (L lambda_min lambda_max : K) : Outcome K :=
  let Ray_Dir : Vector3D K :=
    ⟨detector.x - source.x, detector.y - source.y, detector.z - source.z⟩
  let e : Env K :=
    ⟨image, N_x, N_y, N_z, signOf Ray_Dir.x, signOf Ray_Dir.y, signOf Ray_Dir.z,
      ⟨unitLen L Ray_Dir.x, unitLen L Ray_Dir.y, unitLen L Ray_Dir.z⟩⟩
  let ez := entryAxis (entryCoord source.z Ray_Dir.z L lambda_min) Ray_Dir.z e.signz
  let ey := entryAxis (entryCoord source.y Ray_Dir.y L lambda_min) Ray_Dir.y e.signy
  let ex := entryAxis (entryCoord source.x Ray_Dir.x L lambda_min) Ray_Dir.x e.signx
  let lambda : Vector3D K :=
    ⟨nextLambda ex.2.1 source.x detector.x L, nextLambda ey.2.1 source.y detector.y L,
      nextLambda ez.2.1 source.z detector.z L⟩
  dispatch e fuel Ray_Dir.x Ray_Dir.y (indexOf index0 ex.2.2 ey.2.2 ez.2.2)
    ⟨ex.1, ey.1, ez.1⟩ lambda lambda_min lambda_max

/-- Lines 65-75: the distance from the source to the entry point. -/
def slabMin (source detector : Vector3D K) (N_x N_y N_z : Int) (L : K) : ExtVal K :=
  MAX (MAX (.fin 0)
        (MIN (LAMBDA_X 0 source.x detector.x L) (LAMBDA_X N_x source.x detector.x L)))
      (MAX (MIN (LAMBDA_Y 0 source.y detector.y L) (LAMBDA_Y N_y source.y detector.y L))
        (MIN (LAMBDA_Z 0 source.z detector.z L) (LAMBDA_Z N_z source.z detector.z L)))

/-- Lines 78-88: the distance from the source to the exit point. -/
def slabMax (source detector : Vector3D K) (N_x N_y N_z : Int) (L : K) : ExtVal K :=
  MIN (MIN (.fin L)
        (MAX (LAMBDA_X 0 source.x detector.x L) (LAMBDA_X N_x source.x detector.x L)))
      (MIN (MAX (LAMBDA_Y 0 source.y detector.y L) (LAMBDA_Y N_y source.y detector.y L))
        (MAX (LAMBDA_Z 0 source.z detector.z L) (LAMBDA_Z N_z source.z detector.z L)))

/-- The length `L` of lines 45-48. -/
def rayLength (SQRT : K → K) (source detector : Vector3D K) : K :=
  SQRT ((detector.x - source.x) * (detector.x - source.x)
    + (detector.y - source.y) * (detector.y - source.y)
    + (detector.z - source.z) * (detector.z - source.z))

/-- The function `Ray_Tracer_Forward` of lines 18-621. -/
def Ray_Tracer_Forward (SQRT : K → K) (index0 : Int) (fuel : Nat)
    (source detector : Vector3D K) (N_x N_y N_z : Int) (image : Array3D K) : Outcome K :=
  let L := rayLength SQRT source detector
  let lambda_min := slabMin source detector N_x N_y N_z L
  let lambda_max := slabMax source detector N_x N_y N_z L
  if lambda_min.ge lambda_max then .ret 0 []
  else
    match lambda_min, lambda_max with
    | .fin lmin, .fin lmax =>
      marchFromEntry index0 fuel source detector N_x N_y N_z image L lmin lmax
    | _, _ => .nanOperand

end Tracer

section Sweep

variable {K : Type} [LinearOrderedField K] [FloorRing K]

/-- The memory `Forward_Projection` works on: the input volume, the output
array, and a ghost log of the output cells written so far. A cell of the output
array holds what the call of `Ray_Tracer_Forward` for it came to. -/
structure Mem (K : Type) where
  image : Array3D K
  sino : Array3D (Outcome K)
  writes : List Vector3DInt

/-- The statement `ARRAY3DData(sino, a, b, c) = aa;`. -/
def Mem.write (m : Mem K) (a b c : Int) (aa : Outcome K) : Mem K :=
  { m with
    sino := { m.sino with
      data := fun i j k => if i = a ∧ j = b ∧ k = c then aa else m.sino.data i j k }
    writes := m.writes ++ [⟨a, b, c⟩] }

/-- A loop `for (i = lo; ...; i++)` running `n` times from `i = lo`. -/
def forLoop {σ : Type} (body : Int → σ → σ) : Nat → Int → σ → σ
  | 0, _, s => s
  | n + 1, i, s => forLoop body n (i + 1) (body i s)

/-- Lines 651-657: the loop over the detector rows `k`. -/
def sweepRows (SQRT : K → K) (index0 : Int → Int → Int → Int) (fuel : Nat)
    (d ssz : K) (q qz : Int) (source : Vector3D K) (detx dety : K) (i j : Int)
    (m : Mem K) : Mem K :=
  forLoop (fun k m =>
      let detector : Vector3D K := ⟨detx, dety, (k : K) * ssz + d⟩
      let aa := Ray_Tracer_Forward SQRT (index0 i j k) fuel source detector
        m.image.index1Size m.image.index2Size m.image.index3Size m.image
      m.write (j + q) (k + qz) i aa)
    (qz + 1 - -qz).toNat (-qz) m

/-- Lines 648-658: the loop over the detector columns `j`. -/
def sweepColumns (SQRT cos sin : K → K) (PI : K) (index0 : Int → Int → Int → Int)
    (fuel : Nat) (D : K) (q : Int) (ss2 d ssz : K) (qz : Int) (source : Vector3D K)
    (thetaS : K) (i : Int) (m : Mem K) : Mem K :=
  forLoop (fun j m =>
      sweepRows SQRT index0 fuel d ssz q qz source
        (D * cos ((j : K) * ss2 + PI + thetaS) + d)
        (D * sin ((j : K) * ss2 + PI + thetaS) + d) i j m)
    (q + 1 - -q).toNat (-q) m

/-- The function `Forward_Projection` of lines 632-661. The pair it loops on is
the running angle `thetaS` and the memory. -/
def Forward_Projection (SQRT cos sin : K → K) (PI : K) (index0 : Int → Int → Int → Int)
    (fuel : Nat) (D : K) (q : Int) (ss d dtheta ssz : K) (qz : Int) (m : Mem K) : Mem K :=
  let NS : Int := toInt (359 / dtheta)
  let dtheta2 := dtheta * PI / 180
  let ss2 := ss * PI / 180
  (forLoop (fun i (st : K × Mem K) =>
      let source : Vector3D K := ⟨D * cos st.1 + d, D * sin st.1 + d, d⟩
      (st.1 + dtheta2,
        sweepColumns SQRT cos sin PI index0 fuel D q ss2 d ssz qz source st.1 i st.2))
    (NS + 1).toNat 0 (0, m)).2

end Sweep

section Geometry

variable {K : Type} [LinearOrderedField K] [FloorRing K]

/-- The point `p` lies in the closed box `[0,N_x] x [0,N_y] x [0,N_z]`. -/
def InBox (p : Vector3D K) (N_x N_y N_z : Int) : Prop :=
  (0 ≤ p.x ∧ p.x ≤ N_x) ∧ (0 ≤ p.y ∧ p.y ≤ N_y) ∧ (0 ≤ p.z ∧ p.z ≤ N_z)

/-- The point of the segment from `source` to `detector` at the fraction `t`
of the way. -/
def pointAt (source detector : Vector3D K) (t : K) : Vector3D K :=
  ⟨source.x + t * (detector.x - source.x), source.y + t * (detector.y - source.y),
    source.z + t * (detector.z - source.z)⟩

/-- The closed segment from `source` to `detector` has a point in the closed box. -/
def SegmentMeetsBox (source detector : Vector3D K) (N_x N_y N_z : Int) : Prop :=
  ∃ t : K, 0 ≤ t ∧ t ≤ 1 ∧ InBox (pointAt source detector t) N_x N_y N_z

/-- For one axis: the interval of distances from the source, along a ray of
length `L` that starts at the coordinate `s` and moves by `d` in all, at which
the coordinate lies in `[i, i + 1]`. When `d = 0` the coordinate stays at `s`:
the interval is all of `[0, L]` when `s` is in `[i, i + 1]`, and the empty
`[L, 0]` otherwise. -/
def axisInterval (s d L : K) (i : Int) : K × K :=
  if d = 0 then (if (i : K) ≤ s ∧ s ≤ (i : K) + 1 then (0, L) else (L, 0))
  else (min (L * ((i : K) - s) / d) (L * ((i : K) + 1 - s) / d),
    max (L * ((i : K) - s) / d) (L * ((i : K) + 1 - s) / d))

/-- The length of the part of the segment from `source` to `detector`, of
length `L`, that lies between the distances `a` and `b` from the source and
inside the unit cell `[i,i+1] x [j,j+1] x [k,k+1]`. -/
def cellLengthBetween (source detector : Vector3D K) (L a b : K) (i j k : Int) : K :=
  max 0
    (min b (min (axisInterval source.x (detector.x - source.x) L i).2
        (min (axisInterval source.y (detector.y - source.y) L j).2
          (axisInterval source.z (detector.z - source.z) L k).2))
      - max a (max (axisInterval source.x (detector.x - source.x) L i).1
        (max (axisInterval source.y (detector.y - source.y) L j).1
          (axisInterval source.z (detector.z - source.z) L k).1)))

/-- The length of the part of the segment from `source` to `detector`, of
length `L`, that lies inside the unit cell `[i,i+1] x [j,j+1] x [k,k+1]`. -/
def cellLength (source detector : Vector3D K) (L : K) (i j k : Int) : K :=
  cellLengthBetween source detector L 0 L i j k

/-- The sum of `f` over the voxels of the grid. -/
def gridSum (N_x N_y N_z : Int) (f : Int → Int → Int → K) : K :=
  ∑ i in Finset.range N_x.toNat, ∑ j in Finset.range N_y.toNat,
    ∑ k in Finset.range N_z.toNat, f i j k

/-- The line integral of the image along the segment: the sum over all voxels
of the voxel's value times the length of the segment inside the voxel's cell. -/
def lineIntegral (source detector : Vector3D K) (L : K) (N_x N_y N_z : Int)
    (image : Array3D K) : K :=
  gridSum N_x N_y N_z fun i j k => image.data i j k * cellLength source detector L i j k

end Geometry

section Grids

/-- The 3x3x3 grid whose voxels all hold 1. -/
def onesGrid : Array3D ℚ := ⟨3, 3, 3, fun _ _ _ => 1⟩

/-- The 3x3x3 grid that is 0 except `image[1][1][1] = 5`. -/
def centreGrid : Array3D ℚ := ⟨3, 3, 3, fun i j k => if i = 1 ∧ j = 1 ∧ k = 1 then 5 else 0⟩

/-- The 3x3x3 grid that is 0 except `image[1][0][1] = 5`. -/
def rowGrid : Array3D ℚ := ⟨3, 3, 3, fun i j k => if i = 1 ∧ j = 0 ∧ k = 1 then 5 else 0⟩

end Grids

end RayTracer

namespace RayTracer

section SweepSpec

variable {K : Type} [LinearOrderedField K] [FloorRing K]

/-- The source point `Forward_Projection` uses at the angle index `i` (lines
645-647, with `thetaS` at `i` times `dtheta2`). -/
def sweepSource (cos sin : K → K) (PI D d dtheta : K) (i : Int) : Vector3D K :=
  ⟨D * cos ((i : K) * (dtheta * PI / 180)) + d, D * sin ((i : K) * (dtheta * PI / 180)) + d, d⟩

/-- The detector point `Forward_Projection` uses at the angle index `i`, the
column `j` and the row `k` (lines 649, 650 and 653, with `thetaS` at `i` times
`dtheta2`). -/
def sweepDetector (cos sin : K → K) (PI D ss d dtheta ssz : K) (i j k : Int) : Vector3D K :=
  ⟨D * cos ((j : K) * (ss * PI / 180) + PI + (i : K) * (dtheta * PI / 180)) + d,
    D * sin ((j : K) * (ss * PI / 180) + PI + (i : K) * (dtheta * PI / 180)) + d,
    (k : K) * ssz + d⟩

/-- What lines 654-656 store in the output cell `c = (j + q, k + qz, i)`: the
result of `Ray_Tracer_Forward` on the ray of the angle index `i = c.z`, the
column `j = c.x - q` and the row `k = c.y - qz`. -/
def sweepCell (SQRT cos sin : K → K) (PI : K) (index0 : Int → Int → Int → Int)
    (fuel : Nat) (D : K) (q : Int) (ss d dtheta ssz : K) (qz : Int) (image : Array3D K)
    (c : Vector3DInt) : Outcome K :=
  Ray_Tracer_Forward SQRT (index0 c.z (c.x - q) (c.y - qz)) fuel
    (sweepSource cos sin PI D d dtheta c.z)
    (sweepDetector cos sin PI D ss d dtheta ssz c.z (c.x - q) (c.y - qz))
    image.index1Size image.index2Size image.index3Size image

/-- The effect of a block of statements `step` on the memory: the input volume
is left as it was; each output cell of the region `R` is written exactly once
more and holds the value `V` gives for it from the input volume; every other
cell is not written and keeps its value. -/
def Frame (step : Mem K → Mem K) (R : Vector3DInt → Prop)
    (V : Array3D K → Vector3DInt → Outcome K) : Prop :=
  ∀ m : Mem K, (step m).image = m.image ∧
    ∀ c : Vector3DInt,
      (R c → List.count c (step m).writes = List.count c m.writes + 1 ∧
        (step m).sino.data c.x c.y c.z = V m.image c) ∧
      (¬ R c → List.count c (step m).writes = List.count c m.writes ∧
        (step m).sino.data c.x c.y c.z = m.sino.data c.x c.y c.z)

end SweepSpec

section LinearitySpec

variable {K : Type} [LinearOrderedField K] [FloorRing K]

/-- Three outcomes, for the images `f`, `g` and `a f + b g`, are of the same
kind, and when they are returns they come with the same trace and the third
value is `a` times the first plus `b` times the second. -/
def Outcome.Linear (a b : K) : Outcome K → Outcome K → Outcome K → Prop
  | .ret x tx, .ret y ty, .ret z tz => tx = tz ∧ ty = tz ∧ z = a * x + b * y
  | .outOfFuel, .outOfFuel, .outOfFuel => True
  | .nanOperand, .nanOperand, .nanOperand => True
  | _, _, _ => False

/-- Three states of the marching loops, for the images `f`, `g` and
`a f + b g`, differ in `sino` only, and the third `sino` is `a` times the first
plus `b` times the second. -/
def MarchState.Linear (a b : K) (s1 s2 s3 : MarchState K) : Prop :=
  s1.v = s3.v ∧ s2.v = s3.v ∧ s1.Tx = s3.Tx ∧ s2.Tx = s3.Tx ∧ s1.Ty = s3.Ty ∧ s2.Ty = s3.Ty ∧
  s1.Tz = s3.Tz ∧ s2.Tz = s3.Tz ∧ s1.trace = s3.trace ∧ s2.trace = s3.trace ∧
  s3.sino = a * s1.sino + b * s2.sino

/-- Three blocks of statements, run for the images `f`, `g` and `a f + b g`,
end the same way, with linearly related outcomes or states. -/
def Flow.Linear (a b : K) : Flow K → Flow K → Flow K → Prop
  | .ret o1, .ret o2, .ret o3 => Outcome.Linear a b o1 o2 o3
  | .next s1, .next s2, .next s3 => MarchState.Linear a b s1 s2 s3
  | _, _, _ => False

end LinearitySpec

section Memories

/-- A memory for a sweep over the 3x3x3 all-ones grid: an output array of
3 x 3 x 4 cells and an empty log of writes. -/
def onesMem : Mem ℚ := ⟨onesGrid, ⟨3, 3, 4, fun _ _ _ => .ret 0 []⟩, []⟩

/-- A 3x3x3 image that is twice the all-ones grid plus three times the
single-voxel grid at the indices of the grid, followed in memory by the value
`7` at every index outside the grid. -/
def mixGrid : Array3D ℚ :=
  ⟨3, 3, 3, fun i j k =>
    if (0 ≤ i ∧ i < 3) ∧ (0 ≤ j ∧ j < 3) ∧ (0 ≤ k ∧ k < 3) then
      2 * onesGrid.data i j k + 3 * centreGrid.data i j k
    else 7⟩

end Memories

end RayTracer

namespace RayTracer

section Reference

variable {K : Type} [LinearOrderedField K] [FloorRing K]

/-- The three axes. -/
inductive Axis where
  | x
  | y
  | z
  deriving DecidableEq

/-- The counter of the axis `a`: `Tx`, `Ty` or `Tz`. -/
def MarchState.counter (st : MarchState K) : Axis → K
  | .x => st.Tx
  | .y => st.Ty
  | .z => st.Tz

/-- The counter of the axis `a` is the minimum of the three counters. -/
def MarchState.IsMin (st : MarchState K) (a : Axis) : Prop :=
  st.counter a ≤ st.Tx ∧ st.counter a ≤ st.Ty ∧ st.counter a ≤ st.Tz

/-- One pass of the reference loop on the picked axis `a`: it adds the image
value of the current voxel times the counter of `a` to the accumulator,
subtracts that counter from the other two, resets it to the unit-step length
of `a` and advances the voxel index of `a` by its sign. -/
def refStep (e : Env K) (a : Axis) (st : MarchState K) : MarchState K :=
  match a with
  | .x =>
    { v := { st.v with x := st.v.x + e.signx }, Tx := e.Len.x, Ty := st.Ty - st.Tx,
      Tz := st.Tz - st.Tx, sino := st.sino + ARRAY3DData e.image st.v.x st.v.y st.v.z * st.Tx,
      trace := st.trace ++ [(st.v, st.Tx)] }
  | .y =>
    { v := { st.v with y := st.v.y + e.signy }, Tx := st.Tx - st.Ty, Ty := e.Len.y,
      Tz := st.Tz - st.Ty, sino := st.sino + ARRAY3DData e.image st.v.x st.v.y st.v.z * st.Ty,
      trace := st.trace ++ [(st.v, st.Ty)] }
  | .z =>
    { v := { st.v with z := st.v.z + e.signz }, Tx := st.Tx - st.Tz, Ty := st.Ty - st.Tz,
      Tz := e.Len.z, sino := st.sino + ARRAY3DData e.image st.v.x st.v.y st.v.z * st.Tz,
      trace := st.trace ++ [(st.v, st.Tz)] }

/-- The voxel index of the axis `a` is outside `[0, extent)`. -/
def outAxis (e : Env K) (a : Axis) (st : MarchState K) : Bool :=
  match a with
  | .x => outX e st
  | .y => outY e st
  | .z => outZ e st

/-- The reference loop: the minimum-of-three state machine. Each pass picks
an axis with `pick`, makes the step `refStep` on it and returns the accumulator
as soon as the advanced voxel index is outside `[0, extent)`. -/
def refMarch (pick : MarchState K → Axis) (e : Env K) : Nat → MarchState K → Outcome K
  | 0, _ => .outOfFuel
  | n + 1, st =>
    if outAxis e (pick st) (refStep e (pick st) st) then
      .ret (refStep e (pick st) st).sino (refStep e (pick st) st).trace
    else refMarch pick e n (refStep e (pick st) st)

/-- A way to pick an axis whose counter is the minimum of the three: `x` if
`Tx` is a minimum, else `y` if `Ty` is not above `Tz`, else `z`. -/
def pickFirstMin (st : MarchState K) : Axis :=
  if st.Tx ≤ st.Ty ∧ st.Tx ≤ st.Tz then .x else if st.Ty ≤ st.Tz then .y else .z

/-- The runs of the minimum-of-three state machine with any way of picking:
`MinRun e st s tr` says that from the state `st` some sequence of steps, each
on an axis whose counter is a minimum, ends by leaving the grid with the
accumulator `s` and the trace `tr`. -/
inductive MinRun (e : Env K) : MarchState K → K → List (Vector3DInt × K) → Prop
  | exit (a : Axis) (st : MarchState K) :
      st.IsMin a → outAxis e a (refStep e a st) = true →
      MinRun e st (refStep e a st).sino (refStep e a st).trace
  | step (a : Axis) (st : MarchState K) (s : K) (tr : List (Vector3DInt × K)) :
      st.IsMin a → outAxis e a (refStep e a st) = false →
      MinRun e (refStep e a st) s tr → MinRun e st s tr

/-- The state `st1` is reached from `st` by steps of the minimum-of-three state
machine that stay in the grid. -/
inductive Reach (e : Env K) : MarchState K → MarchState K → Prop
  | refl (st : MarchState K) : Reach e st st
  | step (a : Axis) (st st1 : MarchState K) :
      st.IsMin a → outAxis e a (refStep e a st) = false →
      Reach e (refStep e a st) st1 → Reach e st st1

/-- The number of steps by `sign` that the index `v` can make and stay in
`[0, N)`. -/
def cap (N v sign : Int) : Nat :=
  if sign = 1 then (if 0 ≤ v + 1 ∧ v + 1 < N then (N - 1 - v).toNat else 0)
  else (if 0 ≤ v - 1 ∧ v - 1 < N then v.toNat else 0)

/-- The signs of the environment are `1` or `-1`, as lines 50-52 set them. -/
def Env.SignsOk (e : Env K) : Prop :=
  (e.signx = 1 ∨ e.signx = -1) ∧ (e.signy = 1 ∨ e.signy = -1) ∧ (e.signz = 1 ∨ e.signz = -1)

/-- The lengths of the unit steps are not negative. -/
def Env.LenOk (e : Env K) : Prop := 0 ≤ e.Len.x ∧ 0 ≤ e.Len.y ∧ 0 ≤ e.Len.z

/-- The counters are not negative. -/
def MarchState.CountersOk (st : MarchState K) : Prop := 0 ≤ st.Tx ∧ 0 ≤ st.Ty ∧ 0 ≤ st.Tz

/-- The number of steps of the marching loops that can stay in the grid. -/
def MarchState.mu (e : Env K) (st : MarchState K) : Nat :=
  cap e.N_x st.v.x e.signx + cap e.N_y st.v.y e.signy + cap e.N_z st.v.z e.signz

/-- The end of the `k`-th interval of an axis with the counter `T` and the
unit-step length `Len`, as a distance from the current point of the ray. -/
def cellHi (T Len : K) (k : Nat) : K := T + (k : K) * Len

/-- The start of the `k`-th interval of an axis, as a distance from the current
point of the ray; the interval `0` starts at the current point. -/
def cellLo (T Len : K) (k : Nat) : K := if k = 0 then 0 else T + ((k : K) - 1) * Len

/-- The length of the ray ahead of the state `st` that lies in the voxel
`kx`, `ky`, `kz` steps away from the current one. -/
def aheadLength (e : Env K) (st : MarchState K) (kx ky kz : Nat) : K :=
  max 0
    (min (cellHi st.Tx e.Len.x kx) (min (cellHi st.Ty e.Len.y ky) (cellHi st.Tz e.Len.z kz))
      - max (cellLo st.Tx e.Len.x kx) (max (cellLo st.Ty e.Len.y ky) (cellLo st.Tz e.Len.z kz)))

/-- The part of the line integral ahead of the state `st`: the sum, over the
voxels the steps can reach inside the grid, of the image value times the length
of the ray in the voxel. -/
def aheadSum (e : Env K) (st : MarchState K) : K :=
  ∑ kx in Finset.range (cap e.N_x st.v.x e.signx + 1),
    ∑ ky in Finset.range (cap e.N_y st.v.y e.signy + 1),
      ∑ kz in Finset.range (cap e.N_z st.v.z e.signz + 1),
        e.image.data (st.v.x + e.signx * kx) (st.v.y + e.signy * ky) (st.v.z + e.signz * kz)
          * aheadLength e st kx ky kz

end Reference

end RayTracer

namespace RayTracer

section SlabSpec

variable {K : Type} [LinearOrderedField K] [FloorRing K]

/-- The distance from the source at which a ray of length `L` from the
coordinate `s` to the coordinate `t` enters the slab `[0, N]` of one axis; `0`
when the coordinate does not change. -/
def axisNear (s t L : K) (N : Int) : K :=
  if t - s = 0 then 0
  else min (L * (((0 : Int) : K) - s) / (t - s)) (L * ((N : K) - s) / (t - s))

/-- The distance from the source at which a ray of length `L` from the
coordinate `s` to the coordinate `t` leaves the slab `[0, N]` of one axis; `L`
when the coordinate does not change. -/
def axisFar (s t L : K) (N : Int) : K :=
  if t - s = 0 then L
  else max (L * (((0 : Int) : K) - s) / (t - s)) (L * ((N : K) - s) / (t - s))

/-- The coordinate `s` of the source changes along the ray, or it stays
strictly inside the slab `[0, N]`. -/
def AxisIn (s t : K) (N : Int) : Prop := t - s ≠ 0 ∨ (0 < s ∧ s < (N : K))

/-- The coordinate `s` of the source does not change along the ray and lies
outside the slab `[0, N]`. -/
def AxisOut (s t : K) (N : Int) : Prop := t - s = 0 ∧ (s < 0 ∨ (N : K) < s)

/-- The facts about one axis that relate the cells of the grid to the steps of
the march: for a ray of length `L` from the coordinate `s` to the coordinate
`tt`, that enters the grid at the distance `t` and leaves it at the distance
`E`, the entry voxel `v`, the sign of the step, the first counter `T` (measured
from the entry point) and the unit-step length `Len`. The cell `k` steps ahead
of `v` occupies the interval from `cellLo T Len k` to `cellHi T Len k` past the
entry point, unless the coordinate does not change and the cell is not the one
of the source; a cell that no step reaches ends before the entry point. -/
structure AxisGeo (s tt L t E : K) (N v sign : Int) (T Len : K) : Prop where
  sign_ok : sign = 1 ∨ sign = -1
  len_nonneg : 0 ≤ Len
  counter_nonneg : 0 ≤ T
  v_range : 0 ≤ v ∧ v < N
  slab : ∀ i : Int, 0 ≤ i → i < N →
    axisNear s tt L N ≤ (axisInterval s (tt - s) L i).1 ∧
      (axisInterval s (tt - s) L i).2 ≤ axisFar s tt L N
  ahead : ∀ k : Nat, k ≤ cap N v sign →
    ((((axisInterval s (tt - s) L (v + sign * k)).2 = t + cellHi T Len k) ∨
        (E ≤ (axisInterval s (tt - s) L (v + sign * k)).2 ∧ E - t ≤ cellHi T Len k)) ∧
      (((axisInterval s (tt - s) L (v + sign * k)).1 = t + cellLo T Len k) ∨
        ((axisInterval s (tt - s) L (v + sign * k)).1 ≤ t ∧ cellLo T Len k = 0))) ∨
    ((axisInterval s (tt - s) L (v + sign * k)).2 ≤ t ∧ E - t ≤ cellLo T Len k)
  behind : ∀ i : Int, 0 ≤ i → i < N → (∀ k : Nat, k ≤ cap N v sign → i ≠ v + sign * k) →
    (axisInterval s (tt - s) L i).2 ≤ t
  moving : tt - s ≠ 0 → ∀ k : Nat, k ≤ cap N v sign →
    (axisInterval s (tt - s) L (v + sign * k)).2 = t + cellHi T Len k

/-- The distance from the source at which the ray is inside the slabs of all
three axes for the first time, clipped at the source. -/
def entryDist (source detector : Vector3D K) (L : K) (N_x N_y N_z : Int) : K :=
  max (max 0 (axisNear source.x detector.x L N_x))
    (max (axisNear source.y detector.y L N_y) (axisNear source.z detector.z L N_z))

/-- The distance from the source at which the ray is inside the slabs of all
three axes for the last time, clipped at the detector. -/
def exitDist (source detector : Vector3D K) (L : K) (N_x N_y N_z : Int) : K :=
  min (min L (axisFar source.x detector.x L N_x))
    (min (axisFar source.y detector.y L N_y) (axisFar source.z detector.z L N_z))

/-- The segment from `source` to `detector` has a point strictly inside the
unit cell `[i,i+1] x [j,j+1] x [k,k+1]`: the voxel `(i, j, k)` is on the path
of the ray. -/
def OnPath (source detector : Vector3D K) (i j k : Int) : Prop :=
  ∃ t : K, 0 ≤ t ∧ t ≤ 1 ∧
    ((i : K) < (pointAt source detector t).x ∧ (pointAt source detector t).x < (i : K) + 1) ∧
    ((j : K) < (pointAt source detector t).y ∧ (pointAt source detector t).y < (j : K) + 1) ∧
    ((k : K) < (pointAt source detector t).z ∧ (pointAt source detector t).z < (k : K) + 1)

end SlabSpec

end RayTracer

namespace RayTracer

section UniformSpec

variable {K : Type} [LinearOrderedField K] [FloorRing K]

end UniformSpec

section Tables

end Tables

end RayTracer

/-! ## Evaluations of `Ray_Tracer_Forward` on concrete rays -/

namespace RayTracer

theorem sqrt_nine : Rat.sqrt 9 = 3 := by
  rw [show (9 : ℚ) = 3 * 3 by norm_num, Rat.sqrt_eq]; norm_num

theorem sqrt_twentyfive : Rat.sqrt 25 = 5 := by
  rw [show (25 : ℚ) = 5 * 5 by norm_num, Rat.sqrt_eq]; norm_num

theorem sqrt_fourhundred : Rat.sqrt 400 = 20 := by
  rw [show (400 : ℚ) = 20 * 20 by norm_num, Rat.sqrt_eq]; norm_num

/-- The ray from `(-1/2, 1/4, 1/4)` to `(1/2, 9/4, 9/4)`, which ends inside the
3x3x3 grid, is marched on to the far face of the grid. -/
theorem eval_inward (i0 : Int) :
    Ray_Tracer_Forward Rat.sqrt i0 9 ⟨-1/2, 1/4, 1/4⟩ ⟨1/2, 9/4, 9/4⟩ 3 3 3 onesGrid
      = .ret (21/8) [(⟨0, 1, 1⟩, 9/8), (⟨0, 2, 1⟩, 0), (⟨0, 2, 2⟩, 3/2)] := by
  have hL : rayLength Rat.sqrt (⟨-1/2, 1/4, 1/4⟩ : Vector3D ℚ) ⟨1/2, 9/4, 9/4⟩ = 3 := by
    norm_num [rayLength, sqrt_nine]
  have h1 : slabMin (⟨-1/2, 1/4, 1/4⟩ : Vector3D ℚ) ⟨1/2, 9/4, 9/4⟩ 3 3 3 3 = .fin (3/2) := by
    norm_num [slabMin, LAMBDA_X, LAMBDA_Y, LAMBDA_Z, ExtVal.quot, MIN, MAX, ExtVal.lt]
  have h2 : slabMax (⟨-1/2, 1/4, 1/4⟩ : Vector3D ℚ) ⟨1/2, 9/4, 9/4⟩ 3 3 3 3 = .fin 3 := by
    norm_num [slabMax, LAMBDA_X, LAMBDA_Y, LAMBDA_Z, ExtVal.quot, MIN, MAX, ExtVal.lt]
  have hx : entryAxis (entryCoord (-1/2 : ℚ) (1/2 - -1/2) 3 (3/2)) (1/2 - -1/2)
      (signOf (1/2 - -1/2 : ℚ)) = (0, 1, true) := by
    norm_num [entryAxis, entryCoord, toInt, signOf, Rat.floor_def', abs_lt, lt_abs, le_abs, abs_le]
  have hy : entryAxis (entryCoord (1/4 : ℚ) (9/4 - 1/4) 3 (3/2)) (9/4 - 1/4)
      (signOf (9/4 - 1/4 : ℚ)) = (1, 2, false) := by
    norm_num [entryAxis, entryCoord, toInt, signOf, Rat.floor_def', abs_lt, lt_abs, le_abs, abs_le]
  simp only [Ray_Tracer_Forward, hL, h1, h2, marchFromEntry, hx, hy]
  norm_num [ExtVal.ge, nextLambda, unitLen, signOf, indexOf, dispatch, abs_lt, lt_abs, le_abs,
    abs_le]
  norm_num [marchY, yCrossZ, yCrossX, whileTzTy, whileTxTy,
    MarchState.acc, MarchState.stepX, MarchState.stepY, MarchState.stepZ, MarchState.done,
    outX, outY, outZ, ARRAY3DData, onesGrid]

/-- The ray from `(1/2, 9/4, 9/4)` to `(-1/2, 1/4, 1/4)` starts inside the 3x3x3
grid, away from every grid plane: `index` keeps its initial content `j0`, and
the dispatch is left to it. -/
theorem eval_outward_dispatch (j0 : Int) :
    Ray_Tracer_Forward Rat.sqrt j0 9 ⟨1/2, 9/4, 9/4⟩ ⟨-1/2, 1/4, 1/4⟩ 3 3 3 onesGrid
      = dispatch ⟨onesGrid, 3, 3, 3, -1, -1, -1, ⟨3, 3/2, 3/2⟩⟩ 9 (-1) (-2) j0 ⟨0, 2, 2⟩
          ⟨3/2, 3/8, 3/8⟩ 0 (3/2) := by
  have hL : rayLength Rat.sqrt (⟨1/2, 9/4, 9/4⟩ : Vector3D ℚ) ⟨-1/2, 1/4, 1/4⟩ = 3 := by
    norm_num [rayLength, sqrt_nine]
  have h1 : slabMin (⟨1/2, 9/4, 9/4⟩ : Vector3D ℚ) ⟨-1/2, 1/4, 1/4⟩ 3 3 3 3 = .fin 0 := by
    norm_num [slabMin, LAMBDA_X, LAMBDA_Y, LAMBDA_Z, ExtVal.quot, MIN, MAX, ExtVal.lt]
  have h2 : slabMax (⟨1/2, 9/4, 9/4⟩ : Vector3D ℚ) ⟨-1/2, 1/4, 1/4⟩ 3 3 3 3 = .fin (3/2) := by
    norm_num [slabMax, LAMBDA_X, LAMBDA_Y, LAMBDA_Z, ExtVal.quot, MIN, MAX, ExtVal.lt]
  have hx : entryAxis (entryCoord (1/2 : ℚ) (-1/2 - 1/2) 3 0) (-1/2 - 1/2)
      (signOf (-1/2 - 1/2 : ℚ)) = (0, 0, false) := by
    norm_num [entryAxis, entryCoord, toInt, signOf, Rat.floor_def', abs_lt, lt_abs, le_abs, abs_le]
  have hy : entryAxis (entryCoord (9/4 : ℚ) (1/4 - 9/4) 3 0) (1/4 - 9/4)
      (signOf (1/4 - 9/4 : ℚ)) = (2, 2, false) := by
    norm_num [entryAxis, entryCoord, toInt, signOf, Rat.floor_def', abs_lt, lt_abs, le_abs, abs_le]
  simp only [Ray_Tracer_Forward, hL, h1, h2, marchFromEntry, hx, hy]
  norm_num [ExtVal.ge, nextLambda, unitLen, signOf, indexOf, abs_lt, lt_abs, le_abs, abs_le]

theorem eval_outward_one :
    Ray_Tracer_Forward Rat.sqrt 1 9 ⟨1/2, 9/4, 9/4⟩ ⟨-1/2, 1/4, 1/4⟩ 3 3 3 onesGrid
      = .ret 3 [(⟨0, 2, 2⟩, 3/8), (⟨0, 1, 2⟩, 0), (⟨0, 1, 1⟩, 3/2), (⟨0, 0, 1⟩, 0),
          (⟨0, 0, 0⟩, 9/8)] := by
  rw [eval_outward_dispatch]
  norm_num [dispatch]
  norm_num [marchY, yCrossZ, yCrossX, whileTzTy, whileTxTy,
    MarchState.acc, MarchState.stepX, MarchState.stepY, MarchState.stepZ, MarchState.done,
    outX, outY, outZ, ARRAY3DData, onesGrid]

theorem eval_outward_two :
    Ray_Tracer_Forward Rat.sqrt 2 9 ⟨1/2, 9/4, 9/4⟩ ⟨-1/2, 1/4, 1/4⟩ 3 3 3 onesGrid
      = .ret (3/2) [(⟨0, 2, 2⟩, 3/8), (⟨0, 1, 2⟩, 0), (⟨0, 1, 1⟩, 9/8)] := by
  rw [eval_outward_dispatch]
  norm_num [dispatch]
  norm_num [marchY, yCrossZ, yCrossX, whileTzTy, whileTxTy,
    MarchState.acc, MarchState.stepX, MarchState.stepY, MarchState.stepZ, MarchState.done,
    outX, outY, outZ, ARRAY3DData, onesGrid]

theorem eval_outward_other (j0 : Int) (h1 : j0 ≠ 1) (h2 : j0 ≠ 2) :
    Ray_Tracer_Forward Rat.sqrt j0 9 ⟨1/2, 9/4, 9/4⟩ ⟨-1/2, 1/4, 1/4⟩ 3 3 3 onesGrid
      = .ret (3/2) [(⟨0, 2, 2⟩, 3/8), (⟨0, 1, 2⟩, 9/8)] := by
  rw [eval_outward_dispatch]
  norm_num [dispatch, h1, h2]
  norm_num [marchY, yCrossZ, yCrossX, whileTzTy, whileTxTy,
    MarchState.acc, MarchState.stepX, MarchState.stepY, MarchState.stepZ, MarchState.done,
    outX, outY, outZ, ARRAY3DData, onesGrid]

/-- The ray from `(5/2 - 1/20000, -1, -1/2)` to `(7/2 - 1/20000, 1, 3/2)` crosses
a corner of the 3x3x3 grid: it enters through the face `y = 0` at
`x = 3 - 1/20000`, which is taken to lie on the grid plane `x = 3`. -/
theorem eval_corner (i0 : Int) :
    Ray_Tracer_Forward Rat.sqrt i0 9 ⟨5/2 - 1/20000, -1, -1/2⟩ ⟨7/2 - 1/20000, 1, 3/2⟩
        3 3 3 onesGrid
      = .ret 3 [(⟨3, 0, 0⟩, 3/4), (⟨3, 0, 1⟩, 3/4), (⟨3, 1, 1⟩, 3/4), (⟨3, 1, 2⟩, 3/4),
          (⟨3, 2, 2⟩, 0)] := by
  have hL : rayLength Rat.sqrt (⟨5/2 - 1/20000, -1, -1/2⟩ : Vector3D ℚ)
      ⟨7/2 - 1/20000, 1, 3/2⟩ = 3 := by
    norm_num [rayLength, sqrt_nine]
  have h1 : slabMin (⟨5/2 - 1/20000, -1, -1/2⟩ : Vector3D ℚ) ⟨7/2 - 1/20000, 1, 3/2⟩ 3 3 3 3
      = .fin (3/2) := by
    norm_num [slabMin, LAMBDA_X, LAMBDA_Y, LAMBDA_Z, ExtVal.quot, MIN, MAX, ExtVal.lt]
  have h2 : slabMax (⟨5/2 - 1/20000, -1, -1/2⟩ : Vector3D ℚ) ⟨7/2 - 1/20000, 1, 3/2⟩ 3 3 3 3
      = .fin (30003/20000) := by
    norm_num [slabMax, LAMBDA_X, LAMBDA_Y, LAMBDA_Z, ExtVal.quot, MIN, MAX, ExtVal.lt]
  have hx : entryAxis (entryCoord (5/2 - 1/20000 : ℚ) (7/2 - 1/20000 - (5/2 - 1/20000)) 3 (3/2))
      (7/2 - 1/20000 - (5/2 - 1/20000)) (signOf (7/2 - 1/20000 - (5/2 - 1/20000) : ℚ))
      = (3, 4, true) := by
    norm_num [entryAxis, entryCoord, toInt, signOf, Rat.floor_def', abs_lt, lt_abs, le_abs, abs_le]
  have hy : entryAxis (entryCoord (-1 : ℚ) (1 - -1) 3 (3/2)) (1 - -1) (signOf (1 - -1 : ℚ))
      = (0, 1, true) := by
    norm_num [entryAxis, entryCoord, toInt, signOf, Rat.floor_def', abs_lt, lt_abs, le_abs, abs_le]
  have hz : entryAxis (entryCoord (-1/2 : ℚ) (3/2 - -1/2) 3 (3/2)) (3/2 - -1/2)
      (signOf (3/2 - -1/2 : ℚ)) = (0, 1, false) := by
    norm_num [entryAxis, entryCoord, toInt, signOf, Rat.floor_def', abs_lt, lt_abs, le_abs, abs_le]
  simp only [Ray_Tracer_Forward, hL, h1, h2, marchFromEntry, hx, hy, hz]
  norm_num [ExtVal.ge, nextLambda, unitLen, signOf, indexOf, dispatch, abs_lt, lt_abs, le_abs,
    abs_le]
  norm_num [marchY, yCrossZ, yCrossX, whileTzTy, whileTxTy,
    MarchState.acc, MarchState.stepX, MarchState.stepY, MarchState.stepZ, MarchState.done,
    outX, outY, outZ, ARRAY3DData, onesGrid]

/-- With `index = 1`, `x` dominant and both other planes beyond `lambda_max`,
the x walk of lines 168-176 is taken. -/
theorem dispatch_walkX {K : Type} [LinearOrderedField K] [FloorRing K]
    (e : Env K) (fuel : Nat) (dx dy : K) (v : Vector3DInt)
    (lambda : Vector3D K) (lambda_0 lambda_max : K) (h : |dx| > |dy|)
    (hm : min lambda.z lambda.y > lambda_max) :
    dispatch e fuel dx dy 1 v lambda lambda_0 lambda_max = walkX e fuel ⟨v, 0, 0, 0, 0, []⟩ := by
  simp only [dispatch, if_pos h, if_pos hm, if_true]

/-- The x walk across a grid of three voxels, from the voxel `(0, j, k)`. -/
theorem walkX_three (e : Env ℚ) (j k : Int) (h3 : e.N_x = 3) (hs : e.signx = 1) :
    walkX e 9 ⟨⟨0, j, k⟩, 0, 0, 0, 0, []⟩
      = .ret ((e.image.data 0 j k + e.image.data 1 j k + e.image.data 2 j k) * e.Len.x)
          [(⟨0, j, k⟩, 1), (⟨1, j, k⟩, 1), (⟨2, j, k⟩, 1)] := by
  simp [walkX, MarchState.acc, MarchState.stepX, outX, ARRAY3DData, h3, hs]

/-- A ray along the x axis from `x = -10` to `x = 10` at `y = 19999/20000`,
`z = 3/2`, through a 3x3x3 grid: `y` is taken to lie on the grid plane `y = 1`,
and the walk reads the voxel row `j = 1`. -/
theorem eval_x_axis_near_plane (i0 : Int) (image : Array3D ℚ) :
    Ray_Tracer_Forward Rat.sqrt i0 9 ⟨-10, 19999/20000, 3/2⟩ ⟨10, 19999/20000, 3/2⟩ 3 3 3 image
      = .ret ((image.data 0 1 1 + image.data 1 1 1 + image.data 2 1 1) * 1)
          [(⟨0, 1, 1⟩, 1), (⟨1, 1, 1⟩, 1), (⟨2, 1, 1⟩, 1)] := by
  have hL : rayLength Rat.sqrt (⟨-10, 19999/20000, 3/2⟩ : Vector3D ℚ)
      ⟨10, 19999/20000, 3/2⟩ = 20 := by
    norm_num [rayLength, sqrt_fourhundred]
  have h1 : slabMin (⟨-10, 19999/20000, 3/2⟩ : Vector3D ℚ) ⟨10, 19999/20000, 3/2⟩ 3 3 3 20
      = .fin 10 := by
    norm_num [slabMin, LAMBDA_X, LAMBDA_Y, LAMBDA_Z, ExtVal.quot, MIN, MAX, ExtVal.lt]
  have h2 : slabMax (⟨-10, 19999/20000, 3/2⟩ : Vector3D ℚ) ⟨10, 19999/20000, 3/2⟩ 3 3 3 20
      = .fin 13 := by
    norm_num [slabMax, LAMBDA_X, LAMBDA_Y, LAMBDA_Z, ExtVal.quot, MIN, MAX, ExtVal.lt]
  have hx : entryAxis (entryCoord (-10 : ℚ) (10 - -10) 20 10) (10 - -10)
      (signOf (10 - -10 : ℚ)) = (0, 1, true) := by
    norm_num [entryAxis, entryCoord, toInt, signOf, Rat.floor_def', abs_lt, lt_abs, le_abs, abs_le]
  have hy : entryAxis (entryCoord (19999/20000 : ℚ) (19999/20000 - 19999/20000) 20 10)
      (19999/20000 - 19999/20000) (signOf (19999/20000 - 19999/20000 : ℚ)) = (1, 0, true) := by
    norm_num [entryAxis, entryCoord, toInt, signOf, Rat.floor_def', abs_lt, lt_abs, le_abs, abs_le]
  have hz : entryAxis (entryCoord (3/2 : ℚ) (3/2 - 3/2) 20 10) (3/2 - 3/2)
      (signOf (3/2 - 3/2 : ℚ)) = (1, 2, false) := by
    norm_num [entryAxis, entryCoord, toInt, signOf, Rat.floor_def', abs_lt, lt_abs, le_abs, abs_le]
  have hn : nextLambda 2 (3/2 : ℚ) (3/2) 20 = 1000000 := by simp [nextLambda]
  have hm : nextLambda 0 (19999/20000 : ℚ) (19999/20000) 20 = 1000000 := by simp [nextLambda]
  have hu : unitLen (20 : ℚ) (10 - -10) = 1 := by
    norm_num [unitLen, abs_lt, lt_abs, le_abs, abs_le]
  have hsg : signOf (10 - -10 : ℚ) = 1 := by norm_num [signOf]
  have hge : ExtVal.ge (ExtVal.fin (10 : ℚ)) (ExtVal.fin 13) = false := by
    norm_num [ExtVal.ge]
  have hi : indexOf i0 true true false = 1 := by simp [indexOf]
  simp only [Ray_Tracer_Forward, hL, h1, h2, marchFromEntry, hx, hy, hz, hge, hi, hn, hm]
  rw [if_neg (by simp), dispatch_walkX _ _ _ _ _ _ _ _ (by norm_num) (by norm_num),
    walkX_three _ _ _ rfl hsg, hu]

/-- The end-to-end example of the specification: the ray from `(-10, 3/2, 3/2)`
to `(10, 3/2, 3/2)` through a 3x3x3 grid reads the voxel row `j = 1`, `k = 1`. -/
theorem eval_x_axis_centre (i0 : Int) (image : Array3D ℚ) :
    Ray_Tracer_Forward Rat.sqrt i0 9 ⟨-10, 3/2, 3/2⟩ ⟨10, 3/2, 3/2⟩ 3 3 3 image
      = .ret ((image.data 0 1 1 + image.data 1 1 1 + image.data 2 1 1) * 1)
          [(⟨0, 1, 1⟩, 1), (⟨1, 1, 1⟩, 1), (⟨2, 1, 1⟩, 1)] := by
  have hL : rayLength Rat.sqrt (⟨-10, 3/2, 3/2⟩ : Vector3D ℚ) ⟨10, 3/2, 3/2⟩ = 20 := by
    norm_num [rayLength, sqrt_fourhundred]
  have h1 : slabMin (⟨-10, 3/2, 3/2⟩ : Vector3D ℚ) ⟨10, 3/2, 3/2⟩ 3 3 3 20 = .fin 10 := by
    norm_num [slabMin, LAMBDA_X, LAMBDA_Y, LAMBDA_Z, ExtVal.quot, MIN, MAX, ExtVal.lt]
  have h2 : slabMax (⟨-10, 3/2, 3/2⟩ : Vector3D ℚ) ⟨10, 3/2, 3/2⟩ 3 3 3 20 = .fin 13 := by
    norm_num [slabMax, LAMBDA_X, LAMBDA_Y, LAMBDA_Z, ExtVal.quot, MIN, MAX, ExtVal.lt]
  have hx : entryAxis (entryCoord (-10 : ℚ) (10 - -10) 20 10) (10 - -10)
      (signOf (10 - -10 : ℚ)) = (0, 1, true) := by
    norm_num [entryAxis, entryCoord, toInt, signOf, Rat.floor_def', abs_lt, lt_abs, le_abs, abs_le]
  have hz : entryAxis (entryCoord (3/2 : ℚ) (3/2 - 3/2) 20 10) (3/2 - 3/2)
      (signOf (3/2 - 3/2 : ℚ)) = (1, 2, false) := by
    norm_num [entryAxis, entryCoord, toInt, signOf, Rat.floor_def', abs_lt, lt_abs, le_abs, abs_le]
  have hn : nextLambda 2 (3/2 : ℚ) (3/2) 20 = 1000000 := by simp [nextLambda]
  have hu : unitLen (20 : ℚ) (10 - -10) = 1 := by
    norm_num [unitLen, abs_lt, lt_abs, le_abs, abs_le]
  have hsg : signOf (10 - -10 : ℚ) = 1 := by norm_num [signOf]
  have hge : ExtVal.ge (ExtVal.fin (10 : ℚ)) (ExtVal.fin 13) = false := by
    norm_num [ExtVal.ge]
  have hi : indexOf i0 true false false = 1 := by simp [indexOf]
  simp only [Ray_Tracer_Forward, hL, h1, h2, marchFromEntry, hx, hz, hge, hi, hn]
  rw [if_neg (by simp), dispatch_walkX _ _ _ _ _ _ _ _ (by norm_num) (by norm_num),
    walkX_three _ _ _ rfl hsg, hu]

/-- The ray from `(3, 4, 5/2)` to `(3, 8, 11/2)` lies in the plane `x = 3` of a
face of the 3x3x3 grid: `LAMBDA_X(3, ...)` is `0/0`, the slab test loses both
the x slab and the clipping at the source, and the march starts at a negative
distance. -/
theorem eval_face_plane (i0 : Int) :
    Ray_Tracer_Forward Rat.sqrt i0 9 ⟨3, 4, 5/2⟩ ⟨3, 8, 11/2⟩ 3 3 3 onesGrid
      = .ret (35/12) [(⟨3, 0, 0⟩, 5/12), (⟨3, 1, 0⟩, 5/4), (⟨3, 2, 0⟩, 0), (⟨3, 2, 1⟩, 5/4)] := by
  have hL : rayLength Rat.sqrt (⟨3, 4, 5/2⟩ : Vector3D ℚ) ⟨3, 8, 11/2⟩ = 5 := by
    norm_num [rayLength, sqrt_twentyfive]
  have h1 : slabMin (⟨3, 4, 5/2⟩ : Vector3D ℚ) ⟨3, 8, 11/2⟩ 3 3 3 5 = .fin (-25/6) := by
    norm_num [slabMin, LAMBDA_X, LAMBDA_Y, LAMBDA_Z, ExtVal.quot, MIN, MAX, ExtVal.lt]
  have h2 : slabMax (⟨3, 4, 5/2⟩ : Vector3D ℚ) ⟨3, 8, 11/2⟩ 3 3 3 5 = .fin (-5/4) := by
    norm_num [slabMax, LAMBDA_X, LAMBDA_Y, LAMBDA_Z, ExtVal.quot, MIN, MAX, ExtVal.lt]
  have hx : entryAxis (entryCoord (3 : ℚ) (3 - 3) 5 (-25/6)) (3 - 3) (signOf (3 - 3 : ℚ))
      = (3, 2, true) := by
    norm_num [entryAxis, entryCoord, toInt, signOf, Rat.floor_def', abs_lt, lt_abs, le_abs, abs_le]
  have hy : entryAxis (entryCoord (4 : ℚ) (8 - 4) 5 (-25/6)) (8 - 4) (signOf (8 - 4 : ℚ))
      = (0, 1, false) := by
    norm_num [entryAxis, entryCoord, toInt, signOf, Rat.floor_def', abs_lt, lt_abs, le_abs, abs_le]
  have hz : entryAxis (entryCoord (5/2 : ℚ) (11/2 - 5/2) 5 (-25/6)) (11/2 - 5/2)
      (signOf (11/2 - 5/2 : ℚ)) = (0, 1, true) := by
    norm_num [entryAxis, entryCoord, toInt, signOf, Rat.floor_def', abs_lt, lt_abs, le_abs, abs_le]
  simp only [Ray_Tracer_Forward, hL, h1, h2, marchFromEntry, hx, hy, hz]
  norm_num [ExtVal.ge, nextLambda, unitLen, signOf, indexOf, dispatch, abs_lt, lt_abs, le_abs,
    abs_le]
  norm_num [marchY, yCrossZ, yCrossX, whileTzTy, whileTxTy,
    MarchState.acc, MarchState.stepX, MarchState.stepY, MarchState.stepZ, MarchState.done,
    outX, outY, outZ, ARRAY3DData, onesGrid]

end RayTracer

/-! ## The corner ray on two more images -/

namespace RayTracer

/-- The same ray on the single-voxel grid: the five voxels read lie outside the
grid, where `centreGrid` holds `0`. -/
theorem eval_corner_centre (i0 : Int) :
    Ray_Tracer_Forward Rat.sqrt i0 9 ⟨5/2 - 1/20000, -1, -1/2⟩ ⟨7/2 - 1/20000, 1, 3/2⟩
        3 3 3 centreGrid
      = .ret 0 [(⟨3, 0, 0⟩, 3/4), (⟨3, 0, 1⟩, 3/4), (⟨3, 1, 1⟩, 3/4), (⟨3, 1, 2⟩, 3/4),
          (⟨3, 2, 2⟩, 0)] := by
  have hL : rayLength Rat.sqrt (⟨5/2 - 1/20000, -1, -1/2⟩ : Vector3D ℚ)
      ⟨7/2 - 1/20000, 1, 3/2⟩ = 3 := by
    norm_num [rayLength, sqrt_nine]
  have h1 : slabMin (⟨5/2 - 1/20000, -1, -1/2⟩ : Vector3D ℚ) ⟨7/2 - 1/20000, 1, 3/2⟩ 3 3 3 3
      = .fin (3/2) := by
    norm_num [slabMin, LAMBDA_X, LAMBDA_Y, LAMBDA_Z, ExtVal.quot, MIN, MAX, ExtVal.lt]
  have h2 : slabMax (⟨5/2 - 1/20000, -1, -1/2⟩ : Vector3D ℚ) ⟨7/2 - 1/20000, 1, 3/2⟩ 3 3 3 3
      = .fin (30003/20000) := by
    norm_num [slabMax, LAMBDA_X, LAMBDA_Y, LAMBDA_Z, ExtVal.quot, MIN, MAX, ExtVal.lt]
  have hx : entryAxis (entryCoord (5/2 - 1/20000 : ℚ) (7/2 - 1/20000 - (5/2 - 1/20000)) 3 (3/2))
      (7/2 - 1/20000 - (5/2 - 1/20000)) (signOf (7/2 - 1/20000 - (5/2 - 1/20000) : ℚ))
      = (3, 4, true) := by
    norm_num [entryAxis, entryCoord, toInt, signOf, Rat.floor_def', abs_lt, lt_abs, le_abs, abs_le]
  have hy : entryAxis (entryCoord (-1 : ℚ) (1 - -1) 3 (3/2)) (1 - -1) (signOf (1 - -1 : ℚ))
      = (0, 1, true) := by
    norm_num [entryAxis, entryCoord, toInt, signOf, Rat.floor_def', abs_lt, lt_abs, le_abs, abs_le]
  have hz : entryAxis (entryCoord (-1/2 : ℚ) (3/2 - -1/2) 3 (3/2)) (3/2 - -1/2)
      (signOf (3/2 - -1/2 : ℚ)) = (0, 1, false) := by
    norm_num [entryAxis, entryCoord, toInt, signOf, Rat.floor_def', abs_lt, lt_abs, le_abs, abs_le]
  simp only [Ray_Tracer_Forward, hL, h1, h2, marchFromEntry, hx, hy, hz]
  norm_num [ExtVal.ge, nextLambda, unitLen, signOf, indexOf, dispatch, abs_lt, lt_abs, le_abs,
    abs_le]
  norm_num [marchY, yCrossZ, yCrossX, whileTzTy, whileTxTy,
    MarchState.acc, MarchState.stepX, MarchState.stepY, MarchState.stepZ, MarchState.done,
    outX, outY, outZ, ARRAY3DData, centreGrid]

/-- The same ray on `mixGrid`: the five voxels read lie outside the grid, where
`mixGrid` holds `7`. -/
theorem eval_corner_mix (i0 : Int) :
    Ray_Tracer_Forward Rat.sqrt i0 9 ⟨5/2 - 1/20000, -1, -1/2⟩ ⟨7/2 - 1/20000, 1, 3/2⟩
        3 3 3 mixGrid
      = .ret 21 [(⟨3, 0, 0⟩, 3/4), (⟨3, 0, 1⟩, 3/4), (⟨3, 1, 1⟩, 3/4), (⟨3, 1, 2⟩, 3/4),
          (⟨3, 2, 2⟩, 0)] := by
  have hL : rayLength Rat.sqrt (⟨5/2 - 1/20000, -1, -1/2⟩ : Vector3D ℚ)
      ⟨7/2 - 1/20000, 1, 3/2⟩ = 3 := by
    norm_num [rayLength, sqrt_nine]
  have h1 : slabMin (⟨5/2 - 1/20000, -1, -1/2⟩ : Vector3D ℚ) ⟨7/2 - 1/20000, 1, 3/2⟩ 3 3 3 3
      = .fin (3/2) := by
    norm_num [slabMin, LAMBDA_X, LAMBDA_Y, LAMBDA_Z, ExtVal.quot, MIN, MAX, ExtVal.lt]
  have h2 : slabMax (⟨5/2 - 1/20000, -1, -1/2⟩ : Vector3D ℚ) ⟨7/2 - 1/20000, 1, 3/2⟩ 3 3 3 3
      = .fin (30003/20000) := by
    norm_num [slabMax, LAMBDA_X, LAMBDA_Y, LAMBDA_Z, ExtVal.quot, MIN, MAX, ExtVal.lt]
  have hx : entryAxis (entryCoord (5/2 - 1/20000 : ℚ) (7/2 - 1/20000 - (5/2 - 1/20000)) 3 (3/2))
      (7/2 - 1/20000 - (5/2 - 1/20000)) (signOf (7/2 - 1/20000 - (5/2 - 1/20000) : ℚ))
      = (3, 4, true) := by
    norm_num [entryAxis, entryCoord, toInt, signOf, Rat.floor_def', abs_lt, lt_abs, le_abs, abs_le]
  have hy : entryAxis (entryCoord (-1 : ℚ) (1 - -1) 3 (3/2)) (1 - -1) (signOf (1 - -1 : ℚ))
      = (0, 1, true) := by
    norm_num [entryAxis, entryCoord, toInt, signOf, Rat.floor_def', abs_lt, lt_abs, le_abs, abs_le]
  have hz : entryAxis (entryCoord (-1/2 : ℚ) (3/2 - -1/2) 3 (3/2)) (3/2 - -1/2)
      (signOf (3/2 - -1/2 : ℚ)) = (0, 1, false) := by
    norm_num [entryAxis, entryCoord, toInt, signOf, Rat.floor_def', abs_lt, lt_abs, le_abs, abs_le]
  simp only [Ray_Tracer_Forward, hL, h1, h2, marchFromEntry, hx, hy, hz]
  norm_num [ExtVal.ge, nextLambda, unitLen, signOf, indexOf, dispatch, abs_lt, lt_abs, le_abs,
    abs_le]
  norm_num [marchY, yCrossZ, yCrossX, whileTzTy, whileTxTy,
    MarchState.acc, MarchState.stepX, MarchState.stepY, MarchState.stepZ, MarchState.done,
    outX, outY, outZ, ARRAY3DData, mixGrid]

end RayTracer

/-! ## A ray in a face plane that ends before the grid -/

namespace RayTracer

theorem sqrt_sixteen : Rat.sqrt 16 = 4 := by
  rw [show (16 : ℚ) = 4 * 4 by norm_num, Rat.sqrt_eq]; norm_num

/-- The ray from `(3, -1000004, 3/2)` to `(3, -1000000, 3/2)`, of length `4`,
lies in the plane `x = 3` of a face of the 3x3x3 grid and ends far before the
grid: `LAMBDA_X(3, ...)` is `0/0`, the slab test loses the clipping at `L`,
`lambda_min = 1000004` is above the sentinel `1000000`, and the march starts
with `Tz = -4`. -/
theorem eval_far_face_plane (i0 : Int) :
    Ray_Tracer_Forward Rat.sqrt i0 9 ⟨3, -1000004, 3/2⟩ ⟨3, -1000000, 3/2⟩ 3 3 3 onesGrid
      = .ret 3 [(⟨3, 0, 1⟩, -4), (⟨3, 0, 0⟩, 5), (⟨3, 1, 0⟩, 1), (⟨3, 2, 0⟩, 1)] := by
  have hL : rayLength Rat.sqrt (⟨3, -1000004, 3/2⟩ : Vector3D ℚ) ⟨3, -1000000, 3/2⟩ = 4 := by
    norm_num [rayLength, sqrt_sixteen]
  have h1 : slabMin (⟨3, -1000004, 3/2⟩ : Vector3D ℚ) ⟨3, -1000000, 3/2⟩ 3 3 3 4
      = .fin 1000004 := by
    norm_num [slabMin, LAMBDA_X, LAMBDA_Y, LAMBDA_Z, ExtVal.quot, MIN, MAX, ExtVal.lt]
  have h2 : slabMax (⟨3, -1000004, 3/2⟩ : Vector3D ℚ) ⟨3, -1000000, 3/2⟩ 3 3 3 4
      = .fin 1000007 := by
    norm_num [slabMax, LAMBDA_X, LAMBDA_Y, LAMBDA_Z, ExtVal.quot, MIN, MAX, ExtVal.lt]
  have hx : entryAxis (entryCoord (3 : ℚ) (3 - 3) 4 1000004) (3 - 3) (signOf (3 - 3 : ℚ))
      = (3, 2, true) := by
    norm_num [entryAxis, entryCoord, toInt, signOf, Rat.floor_def', abs_lt, lt_abs, le_abs, abs_le]
  have hy : entryAxis (entryCoord (-1000004 : ℚ) (-1000000 - -1000004) 4 1000004)
      (-1000000 - -1000004) (signOf (-1000000 - -1000004 : ℚ)) = (0, 1, true) := by
    norm_num [entryAxis, entryCoord, toInt, signOf, Rat.floor_def', abs_lt, lt_abs, le_abs, abs_le]
  have hz : entryAxis (entryCoord (3/2 : ℚ) (3/2 - 3/2) 4 1000004) (3/2 - 3/2)
      (signOf (3/2 - 3/2 : ℚ)) = (1, 2, false) := by
    norm_num [entryAxis, entryCoord, toInt, signOf, Rat.floor_def', abs_lt, lt_abs, le_abs, abs_le]
  simp only [Ray_Tracer_Forward, hL, h1, h2, marchFromEntry, hx, hy, hz]
  norm_num [ExtVal.ge, nextLambda, unitLen, signOf, indexOf, dispatch, abs_lt, lt_abs, le_abs,
    abs_le]
  norm_num [marchY, yCrossZ, yCrossX, whileTzTy, whileTxTy,
    MarchState.acc, MarchState.stepX, MarchState.stepY, MarchState.stepZ, MarchState.done,
    outX, outY, outZ, ARRAY3DData, onesGrid]

end RayTracer

namespace RayTracer

end RayTracer

/-! ## The sweep `Forward_Projection` -/

namespace RayTracer

section FrameLemmas

variable {K : Type}

theorem Frame.congr {step : Mem K → Mem K} {R R2 : Vector3DInt → Prop}
    {V : Array3D K → Vector3DInt → Outcome K} (h : Frame step R V)
    (hR : ∀ c, R2 c ↔ R c) : Frame step R2 V := by
  intro m
  obtain ⟨h1, h2⟩ := h m
  refine ⟨h1, fun c => ⟨fun hc => (h2 c).1 ((hR c).1 hc), fun hc => (h2 c).2 ?_⟩⟩
  exact fun hc2 => hc ((hR c).2 hc2)

theorem Frame.skip (V : Array3D K → Vector3DInt → Outcome K) :
    Frame (fun m : Mem K => m) (fun _ => False) V := by
  intro m
  exact ⟨rfl, fun c => ⟨fun hc => hc.elim, fun _ => ⟨rfl, rfl⟩⟩⟩

theorem Frame.comp {f g : Mem K → Mem K} {R1 R2 : Vector3DInt → Prop}
    {V : Array3D K → Vector3DInt → Outcome K} (hf : Frame f R1 V) (hg : Frame g R2 V)
    (hd : ∀ c, R1 c → R2 c → False) : Frame (fun m => g (f m)) (fun c => R1 c ∨ R2 c) V := by
  intro m
  obtain ⟨hfi, hfc⟩ := hf m
  obtain ⟨hgi, hgc⟩ := hg (f m)
  refine ⟨by rw [hgi, hfi], fun c => ⟨?_, ?_⟩⟩
  · rintro (h1 | h2)
    · have h2 : ¬ R2 c := fun h2 => hd c h1 h2
      obtain ⟨a1, a2⟩ := (hgc c).2 h2
      obtain ⟨b1, b2⟩ := (hfc c).1 h1
      exact ⟨by rw [a1, b1], by rw [a2, b2]⟩
    · have h1 : ¬ R1 c := fun h1 => hd c h1 h2
      obtain ⟨a1, a2⟩ := (hgc c).1 h2
      obtain ⟨b1, _⟩ := (hfc c).2 h1
      exact ⟨by rw [a1, b1], by rw [a2, hfi]⟩
  · intro h
    have h1 : ¬ R1 c := fun h1 => h (Or.inl h1)
    have h2 : ¬ R2 c := fun h2 => h (Or.inr h2)
    obtain ⟨a1, a2⟩ := (hgc c).2 h2
    obtain ⟨b1, b2⟩ := (hfc c).2 h1
    exact ⟨by rw [a1, b1], by rw [a2, b2]⟩

/-- The statement `ARRAY3DData(sino, a, b, c) = aa;` writes the one cell `(a, b, c)`. -/
theorem Frame.write (a b c : Int) (val : Array3D K → Outcome K)
    (V : Array3D K → Vector3DInt → Outcome K) (hV : ∀ img, V img ⟨a, b, c⟩ = val img) :
    Frame (fun m : Mem K => m.write a b c (val m.image)) (fun x => x = ⟨a, b, c⟩) V := by
  intro m
  refine ⟨rfl, fun x => ⟨?_, ?_⟩⟩
  · rintro rfl
    simp [Mem.write, hV]
  · intro hx
    have hx2 : ¬ (x.x = a ∧ x.y = b ∧ x.z = c) := by
      rintro ⟨rfl, rfl, rfl⟩
      exact hx rfl
    have hx3 : ¬ ((⟨a, b, c⟩ : Vector3DInt) = x) := fun h => hx h.symm
    simp [Mem.write, hx2, List.count_cons, hx3]

/-- A `for` loop whose passes write disjoint regions writes their union. -/
theorem forLoop_frame (body : Int → Mem K → Mem K) (R : Int → Vector3DInt → Prop)
    (V : Array3D K → Vector3DInt → Outcome K)
    (hdisj : ∀ t t2 c, R t c → R t2 c → t = t2) :
    ∀ (n : Nat) (lo : Int), (∀ t, lo ≤ t → t < lo + n → Frame (body t) (R t) V) →
      Frame (forLoop body n lo) (fun c => ∃ t, lo ≤ t ∧ t < lo + n ∧ R t c) V := by
  intro n
  induction n with
  | zero =>
    intro lo _
    refine Frame.congr (Frame.skip V) ?_
    intro c
    constructor
    · rintro ⟨t, h1, h2, _⟩
      simp at h2
      omega
    · exact fun h => h.elim
  | succ n ih =>
    intro lo h
    have h1 : Frame (body lo) (R lo) V := h lo le_rfl (by push_cast; omega)
    have h2 := ih (lo + 1) (fun t ht1 ht2 => h t (by omega) (by push_cast; omega))
    have h3 := Frame.comp h1 h2 (by
      rintro c hc ⟨t, ht1, _, hc2⟩
      have := hdisj lo t c hc hc2
      omega)
    have h4 : Frame (forLoop body (n + 1) lo) (fun c => R lo c ∨ ∃ t, lo + 1 ≤ t ∧ t < lo + 1 + (n : Int) ∧ R t c) V := h3
    refine Frame.congr h4 ?_
    intro c
    constructor
    · rintro ⟨t, ht1, ht2, hc⟩
      rcases eq_or_lt_of_le ht1 with rfl | hlt
      · exact Or.inl hc
      · exact Or.inr ⟨t, by omega, by push_cast at ht2; omega, hc⟩
    · rintro (hc | ⟨t, ht1, ht2, hc⟩)
      · exact ⟨lo, le_rfl, by push_cast; omega, hc⟩
      · exact ⟨t, by omega, by push_cast; omega, hc⟩

end FrameLemmas

section SweepLemmas

variable {K : Type} [LinearOrderedField K] [FloorRing K]

/-- Lines 651-657: the loop over the rows writes the cells `(j + q, k + qz, i)`
for `-qz <= k <= qz`, when the source and the detector columns it was given
are those of the angle index `i` and the column `j`. -/
theorem sweepRows_frame (SQRT cos sin : K → K) (PI : K) (index0 : Int → Int → Int → Int)
    (fuel : Nat) (D : K) (q : Int) (ss d dtheta ssz : K) (qz : Int) (i j : Int) :
    Frame
      (sweepRows SQRT index0 fuel d ssz q qz (sweepSource cos sin PI D d dtheta i)
        (sweepDetector cos sin PI D ss d dtheta ssz i j 0).x
        (sweepDetector cos sin PI D ss d dtheta ssz i j 0).y i j)
      (fun c => ∃ k, -qz ≤ k ∧ k < -qz + ((qz + 1 - -qz).toNat : Int) ∧ c = ⟨j + q, k + qz, i⟩)
      (sweepCell SQRT cos sin PI index0 fuel D q ss d dtheta ssz qz) := by
  unfold sweepRows
  apply forLoop_frame _ (fun k c => c = ⟨j + q, k + qz, i⟩)
  · rintro t t2 c rfl h
    injection h with _ h _
    omega
  · intro k _ _
    refine Frame.write (j + q) (k + qz) i
      (fun img => Ray_Tracer_Forward SQRT (index0 i j k) fuel (sweepSource cos sin PI D d dtheta i)
        ⟨(sweepDetector cos sin PI D ss d dtheta ssz i j 0).x,
          (sweepDetector cos sin PI D ss d dtheta ssz i j 0).y, (k : K) * ssz + d⟩
        img.index1Size img.index2Size img.index3Size img) _ ?_
    intro img
    simp [sweepCell, sweepDetector]

/-- Lines 648-658: the loop over the columns. -/
theorem sweepColumns_frame (SQRT cos sin : K → K) (PI : K) (index0 : Int → Int → Int → Int)
    (fuel : Nat) (D : K) (q : Int) (ss d dtheta ssz : K) (qz : Int) (i : Int) :
    Frame
      (sweepColumns SQRT cos sin PI index0 fuel D q (ss * PI / 180) d ssz qz
        (sweepSource cos sin PI D d dtheta i) ((i : K) * (dtheta * PI / 180)) i)
      (fun c => ∃ j, -q ≤ j ∧ j < -q + ((q + 1 - -q).toNat : Int) ∧
        ∃ k, -qz ≤ k ∧ k < -qz + ((qz + 1 - -qz).toNat : Int) ∧ c = ⟨j + q, k + qz, i⟩)
      (sweepCell SQRT cos sin PI index0 fuel D q ss d dtheta ssz qz) := by
  unfold sweepColumns
  apply forLoop_frame _
    (fun j c => ∃ k, -qz ≤ k ∧ k < -qz + ((qz + 1 - -qz).toNat : Int) ∧ c = ⟨j + q, k + qz, i⟩)
  · rintro t t2 c ⟨k, _, _, rfl⟩ ⟨k2, _, _, h⟩
    injection h with h _ _
    omega
  · intro j _ _
    exact sweepRows_frame SQRT cos sin PI index0 fuel D q ss d dtheta ssz qz i j

/-- The running angle `thetaS` of lines 639 and 659 is, at the angle index
`i`, `i` times `dtheta2`: the loop over the angles is a loop on the memory
alone. -/
theorem angles_loop (SQRT cos sin : K → K) (PI : K) (index0 : Int → Int → Int → Int)
    (fuel : Nat) (D : K) (q : Int) (ss d dtheta ssz : K) (qz : Int) :
    ∀ (n : Nat) (lo : Int) (m : Mem K),
      forLoop (fun i (st : K × Mem K) =>
          let source : Vector3D K := ⟨D * cos st.1 + d, D * sin st.1 + d, d⟩
          (st.1 + dtheta * PI / 180,
            sweepColumns SQRT cos sin PI index0 fuel D q (ss * PI / 180) d ssz qz source
              st.1 i st.2))
        n lo ((lo : K) * (dtheta * PI / 180), m)
      = (((lo + n : Int) : K) * (dtheta * PI / 180),
          forLoop (fun i m =>
            sweepColumns SQRT cos sin PI index0 fuel D q (ss * PI / 180) d ssz qz
              (sweepSource cos sin PI D d dtheta i) ((i : K) * (dtheta * PI / 180)) i m)
          n lo m) := by
  intro n
  induction n with
  | zero => intro lo m; simp [forLoop]
  | succ n ih =>
    intro lo m
    have h : (lo : K) * (dtheta * PI / 180) + dtheta * PI / 180
        = ((lo + 1 : Int) : K) * (dtheta * PI / 180) := by push_cast; ring
    simp only [forLoop, h, ih]
    refine Prod.ext ?_ rfl
    show (((lo + 1 + (n : Int) : Int) : K)) * _ = (((lo + ((n + 1 : Nat) : Int) : Int) : K)) * _
    push_cast
    ring

/-- The function `Forward_Projection` writes the cells `(j + q, k + qz, i)` for
`0 <= i <= NS`, `-q <= j <= q` and `-qz <= k <= qz`. -/
theorem Forward_Projection_frame (SQRT cos sin : K → K) (PI : K)
    (index0 : Int → Int → Int → Int) (fuel : Nat) (D : K) (q : Int) (ss d dtheta ssz : K)
    (qz : Int) :
    Frame (Forward_Projection SQRT cos sin PI index0 fuel D q ss d dtheta ssz qz)
      (fun c => ∃ i, 0 ≤ i ∧ i < 0 + (((toInt (359 / dtheta) : Int) + 1).toNat : Int) ∧
        ∃ j, -q ≤ j ∧ j < -q + ((q + 1 - -q).toNat : Int) ∧
        ∃ k, -qz ≤ k ∧ k < -qz + ((qz + 1 - -qz).toNat : Int) ∧ c = ⟨j + q, k + qz, i⟩)
      (sweepCell SQRT cos sin PI index0 fuel D q ss d dtheta ssz qz) := by
  have h := forLoop_frame
    (fun i m => sweepColumns SQRT cos sin PI index0 fuel D q (ss * PI / 180) d ssz qz
      (sweepSource cos sin PI D d dtheta i) ((i : K) * (dtheta * PI / 180)) i m)
    (fun i c => ∃ j, -q ≤ j ∧ j < -q + ((q + 1 - -q).toNat : Int) ∧
        ∃ k, -qz ≤ k ∧ k < -qz + ((qz + 1 - -qz).toNat : Int) ∧ c = ⟨j + q, k + qz, i⟩)
    (sweepCell SQRT cos sin PI index0 fuel D q ss d dtheta ssz qz)
    (by
      rintro t t2 c ⟨j, _, _, k, _, _, rfl⟩ ⟨j2, _, _, k2, _, _, h⟩
      injection h with _ _ h)
    ((toInt (359 / dtheta) : Int) + 1).toNat 0
    (fun i _ _ => sweepColumns_frame SQRT cos sin PI index0 fuel D q ss d dtheta ssz qz i)
  intro m
  have h0 : (0 : K) = ((0 : Int) : K) * (dtheta * PI / 180) := by simp
  have e : Forward_Projection SQRT cos sin PI index0 fuel D q ss d dtheta ssz qz m
      = forLoop (fun i m =>
            sweepColumns SQRT cos sin PI index0 fuel D q (ss * PI / 180) d ssz qz
              (sweepSource cos sin PI D d dtheta i) ((i : K) * (dtheta * PI / 180)) i m)
          ((toInt (359 / dtheta) : Int) + 1).toNat 0 m := by
    unfold Forward_Projection
    simp only []
    rw [h0, angles_loop]
  rw [e]
  exact h m

/-- The cells `Forward_Projection` writes are those of the output grid. -/
theorem sweep_region (q qz NS : Int) (c : Vector3DInt) :
    (∃ i, 0 ≤ i ∧ i < 0 + ((NS + 1).toNat : Int) ∧
        ∃ j, -q ≤ j ∧ j < -q + ((q + 1 - -q).toNat : Int) ∧
        ∃ k, -qz ≤ k ∧ k < -qz + ((qz + 1 - -qz).toNat : Int) ∧ c = ⟨j + q, k + qz, i⟩)
      ↔ (0 ≤ c.x ∧ c.x ≤ 2 * q) ∧ (0 ≤ c.y ∧ c.y ≤ 2 * qz) ∧ (0 ≤ c.z ∧ c.z < NS + 1) := by
  constructor
  · rintro ⟨i, hi1, hi2, j, hj1, hj2, k, hk1, hk2, rfl⟩
    simp only
    omega
  · rintro ⟨⟨h1, h2⟩, ⟨h3, h4⟩, h5, h6⟩
    refine ⟨c.z, h5, by omega, c.x - q, by omega, by omega, c.y - qz, by omega, by omega, ?_⟩
    cases c
    simp

end SweepLemmas

end RayTracer

/-! ## Linearity in the image -/

namespace RayTracer

section LinearityLoops

variable {K : Type} [LinearOrderedField K]

theorem whileTzTx_linear (a b : K) (f g h : Array3D K)
    (hh : ∀ i j k, h.data i j k = a * f.data i j k + b * g.data i j k)
    (N_x N_y N_z signx signy signz : Int) (Len : Vector3D K) :
    ∀ (n : Nat) (s1 s2 s3 : MarchState K), MarchState.Linear a b s1 s2 s3 →
      Flow.Linear a b (whileTzTx ⟨f, N_x, N_y, N_z, signx, signy, signz, Len⟩ n s1)
        (whileTzTx ⟨g, N_x, N_y, N_z, signx, signy, signz, Len⟩ n s2)
        (whileTzTx ⟨h, N_x, N_y, N_z, signx, signy, signz, Len⟩ n s3) := by
  intro n
  induction n with
  | zero => intro s1 s2 s3 _; simp [whileTzTx, Flow.Linear, Outcome.Linear]
  | succ n ih =>
    rintro ⟨v, Tx, Ty, Tz, x, tr⟩ ⟨_, _, _, _, y, _⟩ ⟨_, _, _, _, z, _⟩ hs
    simp only [MarchState.Linear] at hs
    obtain ⟨rfl, rfl, rfl, rfl, rfl, rfl, rfl, rfl, rfl, rfl, rfl⟩ := hs
    simp only [whileTzTx, MarchState.acc, MarchState.stepX, MarchState.done, outX, ARRAY3DData]
    split_ifs
    · simp [Flow.Linear, Outcome.Linear, hh]; ring
    · apply ih
      simp [MarchState.Linear, hh]; ring
    · simp [Flow.Linear, MarchState.Linear]

theorem whileTyTx_linear (a b : K) (f g h : Array3D K)
    (hh : ∀ i j k, h.data i j k = a * f.data i j k + b * g.data i j k)
    (N_x N_y N_z signx signy signz : Int) (Len : Vector3D K) :
    ∀ (n : Nat) (s1 s2 s3 : MarchState K), MarchState.Linear a b s1 s2 s3 →
      Flow.Linear a b (whileTyTx ⟨f, N_x, N_y, N_z, signx, signy, signz, Len⟩ n s1)
        (whileTyTx ⟨g, N_x, N_y, N_z, signx, signy, signz, Len⟩ n s2)
        (whileTyTx ⟨h, N_x, N_y, N_z, signx, signy, signz, Len⟩ n s3) := by
  intro n
  induction n with
  | zero => intro s1 s2 s3 _; simp [whileTyTx, Flow.Linear, Outcome.Linear]
  | succ n ih =>
    rintro ⟨v, Tx, Ty, Tz, x, tr⟩ ⟨_, _, _, _, y, _⟩ ⟨_, _, _, _, z, _⟩ hs
    simp only [MarchState.Linear] at hs
    obtain ⟨rfl, rfl, rfl, rfl, rfl, rfl, rfl, rfl, rfl, rfl, rfl⟩ := hs
    simp only [whileTyTx, MarchState.acc, MarchState.stepX, MarchState.done, outX, ARRAY3DData]
    split_ifs
    · simp [Flow.Linear, Outcome.Linear, hh]; ring
    · apply ih
      simp [MarchState.Linear, hh]; ring
    · simp [Flow.Linear, MarchState.Linear]

theorem whileTzTy_linear (a b : K) (f g h : Array3D K)
    (hh : ∀ i j k, h.data i j k = a * f.data i j k + b * g.data i j k)
    (N_x N_y N_z signx signy signz : Int) (Len : Vector3D K) :
    ∀ (n : Nat) (s1 s2 s3 : MarchState K), MarchState.Linear a b s1 s2 s3 →
      Flow.Linear a b (whileTzTy ⟨f, N_x, N_y, N_z, signx, signy, signz, Len⟩ n s1)
        (whileTzTy ⟨g, N_x, N_y, N_z, signx, signy, signz, Len⟩ n s2)
        (whileTzTy ⟨h, N_x, N_y, N_z, signx, signy, signz, Len⟩ n s3) := by
  intro n
  induction n with
  | zero => intro s1 s2 s3 _; simp [whileTzTy, Flow.Linear, Outcome.Linear]
  | succ n ih =>
    rintro ⟨v, Tx, Ty, Tz, x, tr⟩ ⟨_, _, _, _, y, _⟩ ⟨_, _, _, _, z, _⟩ hs
    simp only [MarchState.Linear] at hs
    obtain ⟨rfl, rfl, rfl, rfl, rfl, rfl, rfl, rfl, rfl, rfl, rfl⟩ := hs
    simp only [whileTzTy, MarchState.acc, MarchState.stepY, MarchState.done, outY, ARRAY3DData]
    split_ifs
    · simp [Flow.Linear, Outcome.Linear, hh]; ring
    · apply ih
      simp [MarchState.Linear, hh]; ring
    · simp [Flow.Linear, MarchState.Linear]

theorem whileTxTy_linear (a b : K) (f g h : Array3D K)
    (hh : ∀ i j k, h.data i j k = a * f.data i j k + b * g.data i j k)
    (N_x N_y N_z signx signy signz : Int) (Len : Vector3D K) :
    ∀ (n : Nat) (s1 s2 s3 : MarchState K), MarchState.Linear a b s1 s2 s3 →
      Flow.Linear a b (whileTxTy ⟨f, N_x, N_y, N_z, signx, signy, signz, Len⟩ n s1)
        (whileTxTy ⟨g, N_x, N_y, N_z, signx, signy, signz, Len⟩ n s2)
        (whileTxTy ⟨h, N_x, N_y, N_z, signx, signy, signz, Len⟩ n s3) := by
  intro n
  induction n with
  | zero => intro s1 s2 s3 _; simp [whileTxTy, Flow.Linear, Outcome.Linear]
  | succ n ih =>
    rintro ⟨v, Tx, Ty, Tz, x, tr⟩ ⟨_, _, _, _, y, _⟩ ⟨_, _, _, _, z, _⟩ hs
    simp only [MarchState.Linear] at hs
    obtain ⟨rfl, rfl, rfl, rfl, rfl, rfl, rfl, rfl, rfl, rfl, rfl⟩ := hs
    simp only [whileTxTy, MarchState.acc, MarchState.stepY, MarchState.done, outY, ARRAY3DData]
    split_ifs
    · simp [Flow.Linear, Outcome.Linear, hh]; ring
    · apply ih
      simp [MarchState.Linear, hh]; ring
    · simp [Flow.Linear, MarchState.Linear]

theorem walkX_linear (a b : K) (f g h : Array3D K)
    (hh : ∀ i j k, h.data i j k = a * f.data i j k + b * g.data i j k)
    (N_x N_y N_z signx signy signz : Int) (Len : Vector3D K) :
    ∀ (n : Nat) (s1 s2 s3 : MarchState K), MarchState.Linear a b s1 s2 s3 →
      Outcome.Linear a b (walkX ⟨f, N_x, N_y, N_z, signx, signy, signz, Len⟩ n s1)
        (walkX ⟨g, N_x, N_y, N_z, signx, signy, signz, Len⟩ n s2)
        (walkX ⟨h, N_x, N_y, N_z, signx, signy, signz, Len⟩ n s3) := by
  intro n
  induction n with
  | zero => intro s1 s2 s3 _; simp [walkX, Outcome.Linear]
  | succ n ih =>
    rintro ⟨v, Tx, Ty, Tz, x, tr⟩ ⟨_, _, _, _, y, _⟩ ⟨_, _, _, _, z, _⟩ hs
    simp only [MarchState.Linear] at hs
    obtain ⟨rfl, rfl, rfl, rfl, rfl, rfl, rfl, rfl, rfl, rfl, rfl⟩ := hs
    simp only [walkX, MarchState.acc, MarchState.stepX, outX, ARRAY3DData]
    split_ifs
    · simp [Outcome.Linear, hh]; ring
    · apply ih
      simp [MarchState.Linear, hh]; ring

theorem walkY_linear (a b : K) (f g h : Array3D K)
    (hh : ∀ i j k, h.data i j k = a * f.data i j k + b * g.data i j k)
    (N_x N_y N_z signx signy signz : Int) (Len : Vector3D K) :
    ∀ (n : Nat) (s1 s2 s3 : MarchState K), MarchState.Linear a b s1 s2 s3 →
      Outcome.Linear a b (walkY ⟨f, N_x, N_y, N_z, signx, signy, signz, Len⟩ n s1)
        (walkY ⟨g, N_x, N_y, N_z, signx, signy, signz, Len⟩ n s2)
        (walkY ⟨h, N_x, N_y, N_z, signx, signy, signz, Len⟩ n s3) := by
  intro n
  induction n with
  | zero => intro s1 s2 s3 _; simp [walkY, Outcome.Linear]
  | succ n ih =>
    rintro ⟨v, Tx, Ty, Tz, x, tr⟩ ⟨_, _, _, _, y, _⟩ ⟨_, _, _, _, z, _⟩ hs
    simp only [MarchState.Linear] at hs
    obtain ⟨rfl, rfl, rfl, rfl, rfl, rfl, rfl, rfl, rfl, rfl, rfl⟩ := hs
    simp only [walkY, MarchState.acc, MarchState.stepY, outY, ARRAY3DData]
    split_ifs
    · simp [Outcome.Linear, hh]; ring
    · apply ih
      simp [MarchState.Linear, hh]; ring

theorem xCrossZ_linear (a b : K) (f g h : Array3D K)
    (hh : ∀ i j k, h.data i j k = a * f.data i j k + b * g.data i j k)
    (N_x N_y N_z signx signy signz : Int) (Len : Vector3D K) :
    ∀ (n : Nat) (s1 s2 s3 : MarchState K), MarchState.Linear a b s1 s2 s3 →
      Flow.Linear a b (xCrossZ ⟨f, N_x, N_y, N_z, signx, signy, signz, Len⟩ n s1)
        (xCrossZ ⟨g, N_x, N_y, N_z, signx, signy, signz, Len⟩ n s2)
        (xCrossZ ⟨h, N_x, N_y, N_z, signx, signy, signz, Len⟩ n s3) := by
  intro n
  rintro ⟨v, Tx, Ty, Tz, x, tr⟩ ⟨_, _, _, _, y, _⟩ ⟨_, _, _, _, z, _⟩ hs
  simp only [MarchState.Linear] at hs
  obtain ⟨rfl, rfl, rfl, rfl, rfl, rfl, rfl, rfl, rfl, rfl, rfl⟩ := hs
  simp only [xCrossZ, MarchState.acc, MarchState.stepX, MarchState.stepY, MarchState.stepZ,
    MarchState.done, outX, outY, outZ, ARRAY3DData]
  split_ifs
  · simp [Flow.Linear, Outcome.Linear, hh]; ring
  · simp [Flow.Linear, MarchState.Linear, hh]; ring
  · simp [Flow.Linear, Outcome.Linear, hh]; ring
  · generalize hr1 : whileTzTx ⟨f, N_x, N_y, N_z, signx, signy, signz, Len⟩ n _ = r1
    generalize hr2 : whileTzTx ⟨g, N_x, N_y, N_z, signx, signy, signz, Len⟩ n _ = r2
    generalize hr3 : whileTzTx ⟨h, N_x, N_y, N_z, signx, signy, signz, Len⟩ n _ = r3
    have hw : Flow.Linear a b r1 r2 r3 := by
      rw [← hr1, ← hr2, ← hr3]
      apply whileTzTx_linear a b f g h hh
      simp [MarchState.Linear, hh]; ring
    clear hr1 hr2 hr3
    rcases r1 with o1 | ⟨v1, Tx1, Ty1, Tz1, x1, tr1⟩ <;>
      rcases r2 with o2 | ⟨v2, Tx2, Ty2, Tz2, x2, tr2⟩ <;>
      rcases r3 with o3 | ⟨v3, Tx3, Ty3, Tz3, x3, tr3⟩ <;>
      simp only [Flow.Linear] at hw
    · simpa [Flow.Linear] using hw
    · simp only [MarchState.Linear] at hw
      obtain ⟨rfl, rfl, rfl, rfl, rfl, rfl, rfl, rfl, rfl, rfl, rfl⟩ := hw
      simp only []
      split_ifs
      · simp [Flow.Linear, Outcome.Linear, hh]; ring
      · simp [Flow.Linear, MarchState.Linear, hh]; ring

theorem xCrossY_linear (a b : K) (f g h : Array3D K)
    (hh : ∀ i j k, h.data i j k = a * f.data i j k + b * g.data i j k)
    (N_x N_y N_z signx signy signz : Int) (Len : Vector3D K) :
    ∀ (n : Nat) (s1 s2 s3 : MarchState K), MarchState.Linear a b s1 s2 s3 →
      Flow.Linear a b (xCrossY ⟨f, N_x, N_y, N_z, signx, signy, signz, Len⟩ n s1)
        (xCrossY ⟨g, N_x, N_y, N_z, signx, signy, signz, Len⟩ n s2)
        (xCrossY ⟨h, N_x, N_y, N_z, signx, signy, signz, Len⟩ n s3) := by
  intro n
  rintro ⟨v, Tx, Ty, Tz, x, tr⟩ ⟨_, _, _, _, y, _⟩ ⟨_, _, _, _, z, _⟩ hs
  simp only [MarchState.Linear] at hs
  obtain ⟨rfl, rfl, rfl, rfl, rfl, rfl, rfl, rfl, rfl, rfl, rfl⟩ := hs
  simp only [xCrossY, MarchState.acc, MarchState.stepX, MarchState.stepY, MarchState.stepZ,
    MarchState.done, outX, outY, outZ, ARRAY3DData]
  split_ifs
  · simp [Flow.Linear, Outcome.Linear, hh]; ring
  · simp [Flow.Linear, MarchState.Linear, hh]; ring
  · simp [Flow.Linear, Outcome.Linear, hh]; ring
  · generalize hr1 : whileTyTx ⟨f, N_x, N_y, N_z, signx, signy, signz, Len⟩ n _ = r1
    generalize hr2 : whileTyTx ⟨g, N_x, N_y, N_z, signx, signy, signz, Len⟩ n _ = r2
    generalize hr3 : whileTyTx ⟨h, N_x, N_y, N_z, signx, signy, signz, Len⟩ n _ = r3
    have hw : Flow.Linear a b r1 r2 r3 := by
      rw [← hr1, ← hr2, ← hr3]
      apply whileTyTx_linear a b f g h hh
      simp [MarchState.Linear, hh]; ring
    clear hr1 hr2 hr3
    rcases r1 with o1 | ⟨v1, Tx1, Ty1, Tz1, x1, tr1⟩ <;>
      rcases r2 with o2 | ⟨v2, Tx2, Ty2, Tz2, x2, tr2⟩ <;>
      rcases r3 with o3 | ⟨v3, Tx3, Ty3, Tz3, x3, tr3⟩ <;>
      simp only [Flow.Linear] at hw
    · simpa [Flow.Linear] using hw
    · simp only [MarchState.Linear] at hw
      obtain ⟨rfl, rfl, rfl, rfl, rfl, rfl, rfl, rfl, rfl, rfl, rfl⟩ := hw
      simp only []
      split_ifs
      · simp [Flow.Linear, Outcome.Linear, hh]; ring
      · simp [Flow.Linear, MarchState.Linear, hh]; ring

theorem yCrossZ_linear (a b : K) (f g h : Array3D K)
    (hh : ∀ i j k, h.data i j k = a * f.data i j k + b * g.data i j k)
    (N_x N_y N_z signx signy signz : Int) (Len : Vector3D K) :
    ∀ (n : Nat) (s1 s2 s3 : MarchState K), MarchState.Linear a b s1 s2 s3 →
      Flow.Linear a b (yCrossZ ⟨f, N_x, N_y, N_z, signx, signy, signz, Len⟩ n s1)
        (yCrossZ ⟨g, N_x, N_y, N_z, signx, signy, signz, Len⟩ n s2)
        (yCrossZ ⟨h, N_x, N_y, N_z, signx, signy, signz, Len⟩ n s3) := by
  intro n
  rintro ⟨v, Tx, Ty, Tz, x, tr⟩ ⟨_, _, _, _, y, _⟩ ⟨_, _, _, _, z, _⟩ hs
  simp only [MarchState.Linear] at hs
  obtain ⟨rfl, rfl, rfl, rfl, rfl, rfl, rfl, rfl, rfl, rfl, rfl⟩ := hs
  simp only [yCrossZ, MarchState.acc, MarchState.stepX, MarchState.stepY, MarchState.stepZ,
    MarchState.done, outX, outY, outZ, ARRAY3DData]
  split_ifs
  · simp [Flow.Linear, Outcome.Linear, hh]; ring
  · simp [Flow.Linear, MarchState.Linear, hh]; ring
  · simp [Flow.Linear, Outcome.Linear, hh]; ring
  · generalize hr1 : whileTzTy ⟨f, N_x, N_y, N_z, signx, signy, signz, Len⟩ n _ = r1
    generalize hr2 : whileTzTy ⟨g, N_x, N_y, N_z, signx, signy, signz, Len⟩ n _ = r2
    generalize hr3 : whileTzTy ⟨h, N_x, N_y, N_z, signx, signy, signz, Len⟩ n _ = r3
    have hw : Flow.Linear a b r1 r2 r3 := by
      rw [← hr1, ← hr2, ← hr3]
      apply whileTzTy_linear a b f g h hh
      simp [MarchState.Linear, hh]; ring
    clear hr1 hr2 hr3
    rcases r1 with o1 | ⟨v1, Tx1, Ty1, Tz1, x1, tr1⟩ <;>
      rcases r2 with o2 | ⟨v2, Tx2, Ty2, Tz2, x2, tr2⟩ <;>
      rcases r3 with o3 | ⟨v3, Tx3, Ty3, Tz3, x3, tr3⟩ <;>
      simp only [Flow.Linear] at hw
    · simpa [Flow.Linear] using hw
    · simp only [MarchState.Linear] at hw
      obtain ⟨rfl, rfl, rfl, rfl, rfl, rfl, rfl, rfl, rfl, rfl, rfl⟩ := hw
      simp only []
      split_ifs
      · simp [Flow.Linear, Outcome.Linear, hh]; ring
      · simp [Flow.Linear, MarchState.Linear, hh]; ring

theorem yCrossX_linear (a b : K) (f g h : Array3D K)
    (hh : ∀ i j k, h.data i j k = a * f.data i j k + b * g.data i j k)
    (N_x N_y N_z signx signy signz : Int) (Len : Vector3D K) :
    ∀ (n : Nat) (s1 s2 s3 : MarchState K), MarchState.Linear a b s1 s2 s3 →
      Flow.Linear a b (yCrossX ⟨f, N_x, N_y, N_z, signx, signy, signz, Len⟩ n s1)
        (yCrossX ⟨g, N_x, N_y, N_z, signx, signy, signz, Len⟩ n s2)
        (yCrossX ⟨h, N_x, N_y, N_z, signx, signy, signz, Len⟩ n s3) := by
  intro n
  rintro ⟨v, Tx, Ty, Tz, x, tr⟩ ⟨_, _, _, _, y, _⟩ ⟨_, _, _, _, z, _⟩ hs
  simp only [MarchState.Linear] at hs
  obtain ⟨rfl, rfl, rfl, rfl, rfl, rfl, rfl, rfl, rfl, rfl, rfl⟩ := hs
  simp only [yCrossX, MarchState.acc, MarchState.stepX, MarchState.stepY, MarchState.stepZ,
    MarchState.done, outX, outY, outZ, ARRAY3DData]
  split_ifs
  · simp [Flow.Linear, Outcome.Linear, hh]; ring
  · simp [Flow.Linear, MarchState.Linear, hh]; ring
  · simp [Flow.Linear, Outcome.Linear, hh]; ring
  · generalize hr1 : whileTxTy ⟨f, N_x, N_y, N_z, signx, signy, signz, Len⟩ n _ = r1
    generalize hr2 : whileTxTy ⟨g, N_x, N_y, N_z, signx, signy, signz, Len⟩ n _ = r2
    generalize hr3 : whileTxTy ⟨h, N_x, N_y, N_z, signx, signy, signz, Len⟩ n _ = r3
    have hw : Flow.Linear a b r1 r2 r3 := by
      rw [← hr1, ← hr2, ← hr3]
      apply whileTxTy_linear a b f g h hh
      simp [MarchState.Linear, hh]; ring
    clear hr1 hr2 hr3
    rcases r1 with o1 | ⟨v1, Tx1, Ty1, Tz1, x1, tr1⟩ <;>
      rcases r2 with o2 | ⟨v2, Tx2, Ty2, Tz2, x2, tr2⟩ <;>
      rcases r3 with o3 | ⟨v3, Tx3, Ty3, Tz3, x3, tr3⟩ <;>
      simp only [Flow.Linear] at hw
    · simpa [Flow.Linear] using hw
    · simp only [MarchState.Linear] at hw
      obtain ⟨rfl, rfl, rfl, rfl, rfl, rfl, rfl, rfl, rfl, rfl, rfl⟩ := hw
      simp only []
      split_ifs
      · simp [Flow.Linear, Outcome.Linear, hh]; ring
      · simp [Flow.Linear, MarchState.Linear, hh]; ring

theorem marchX_linear (a b : K) (f g h : Array3D K)
    (hh : ∀ i j k, h.data i j k = a * f.data i j k + b * g.data i j k)
    (N_x N_y N_z signx signy signz : Int) (Len : Vector3D K) :
    ∀ (n : Nat) (s1 s2 s3 : MarchState K), MarchState.Linear a b s1 s2 s3 →
      Outcome.Linear a b (marchX ⟨f, N_x, N_y, N_z, signx, signy, signz, Len⟩ n s1)
        (marchX ⟨g, N_x, N_y, N_z, signx, signy, signz, Len⟩ n s2)
        (marchX ⟨h, N_x, N_y, N_z, signx, signy, signz, Len⟩ n s3) := by
  intro n
  induction n with
  | zero => intro s1 s2 s3 _; simp [marchX, Outcome.Linear]
  | succ n ih =>
    rintro ⟨v, Tx, Ty, Tz, x, tr⟩ ⟨_, _, _, _, y, _⟩ ⟨_, _, _, _, z, _⟩ hs
    simp only [MarchState.Linear] at hs
    obtain ⟨rfl, rfl, rfl, rfl, rfl, rfl, rfl, rfl, rfl, rfl, rfl⟩ := hs
    simp only [marchX]
    split_ifs
    · generalize hr1 : xCrossZ ⟨f, N_x, N_y, N_z, signx, signy, signz, Len⟩ n _ = r1
      generalize hr2 : xCrossZ ⟨g, N_x, N_y, N_z, signx, signy, signz, Len⟩ n _ = r2
      generalize hr3 : xCrossZ ⟨h, N_x, N_y, N_z, signx, signy, signz, Len⟩ n _ = r3
      have hw : Flow.Linear a b r1 r2 r3 := by
        rw [← hr1, ← hr2, ← hr3]
        apply xCrossZ_linear a b f g h hh
        simp [MarchState.Linear]
      clear hr1 hr2 hr3
      rcases r1 with o1 | t1 <;> rcases r2 with o2 | t2 <;> rcases r3 with o3 | t3 <;>
        simp only [Flow.Linear] at hw
      · exact hw
      · exact ih _ _ _ hw
    · generalize hr1 : xCrossY ⟨f, N_x, N_y, N_z, signx, signy, signz, Len⟩ n _ = r1
      generalize hr2 : xCrossY ⟨g, N_x, N_y, N_z, signx, signy, signz, Len⟩ n _ = r2
      generalize hr3 : xCrossY ⟨h, N_x, N_y, N_z, signx, signy, signz, Len⟩ n _ = r3
      have hw : Flow.Linear a b r1 r2 r3 := by
        rw [← hr1, ← hr2, ← hr3]
        apply xCrossY_linear a b f g h hh
        simp [MarchState.Linear]
      clear hr1 hr2 hr3
      rcases r1 with o1 | t1 <;> rcases r2 with o2 | t2 <;> rcases r3 with o3 | t3 <;>
        simp only [Flow.Linear] at hw
      · exact hw
      · exact ih _ _ _ hw

theorem marchY_linear (a b : K) (f g h : Array3D K)
    (hh : ∀ i j k, h.data i j k = a * f.data i j k + b * g.data i j k)
    (N_x N_y N_z signx signy signz : Int) (Len : Vector3D K) :
    ∀ (n : Nat) (s1 s2 s3 : MarchState K), MarchState.Linear a b s1 s2 s3 →
      Outcome.Linear a b (marchY ⟨f, N_x, N_y, N_z, signx, signy, signz, Len⟩ n s1)
        (marchY ⟨g, N_x, N_y, N_z, signx, signy, signz, Len⟩ n s2)
        (marchY ⟨h, N_x, N_y, N_z, signx, signy, signz, Len⟩ n s3) := by
  intro n
  induction n with
  | zero => intro s1 s2 s3 _; simp [marchY, Outcome.Linear]
  | succ n ih =>
    rintro ⟨v, Tx, Ty, Tz, x, tr⟩ ⟨_, _, _, _, y, _⟩ ⟨_, _, _, _, z, _⟩ hs
    simp only [MarchState.Linear] at hs
    obtain ⟨rfl, rfl, rfl, rfl, rfl, rfl, rfl, rfl, rfl, rfl, rfl⟩ := hs
    simp only [marchY]
    split_ifs
    · generalize hr1 : yCrossZ ⟨f, N_x, N_y, N_z, signx, signy, signz, Len⟩ n _ = r1
      generalize hr2 : yCrossZ ⟨g, N_x, N_y, N_z, signx, signy, signz, Len⟩ n _ = r2
      generalize hr3 : yCrossZ ⟨h, N_x, N_y, N_z, signx, signy, signz, Len⟩ n _ = r3
      have hw : Flow.Linear a b r1 r2 r3 := by
        rw [← hr1, ← hr2, ← hr3]
        apply yCrossZ_linear a b f g h hh
        simp [MarchState.Linear]
      clear hr1 hr2 hr3
      rcases r1 with o1 | t1 <;> rcases r2 with o2 | t2 <;> rcases r3 with o3 | t3 <;>
        simp only [Flow.Linear] at hw
      · exact hw
      · exact ih _ _ _ hw
    · generalize hr1 : yCrossX ⟨f, N_x, N_y, N_z, signx, signy, signz, Len⟩ n _ = r1
      generalize hr2 : yCrossX ⟨g, N_x, N_y, N_z, signx, signy, signz, Len⟩ n _ = r2
      generalize hr3 : yCrossX ⟨h, N_x, N_y, N_z, signx, signy, signz, Len⟩ n _ = r3
      have hw : Flow.Linear a b r1 r2 r3 := by
        rw [← hr1, ← hr2, ← hr3]
        apply yCrossX_linear a b f g h hh
        simp [MarchState.Linear]
      clear hr1 hr2 hr3
      rcases r1 with o1 | t1 <;> rcases r2 with o2 | t2 <;> rcases r3 with o3 | t3 <;>
        simp only [Flow.Linear] at hw
      · exact hw
      · exact ih _ _ _ hw

/-- Lines 163-620 are linear in the image. -/
theorem dispatch_linear (a b : K) (f g h : Array3D K)
    (hh : ∀ i j k, h.data i j k = a * f.data i j k + b * g.data i j k)
    (N_x N_y N_z signx signy signz : Int) (Len : Vector3D K) (fuel : Nat) (dx dy : K)
    (index : Int) (v : Vector3DInt) (lambda : Vector3D K) (lambda_0 lambda_max : K) :
    Outcome.Linear a b
      (dispatch ⟨f, N_x, N_y, N_z, signx, signy, signz, Len⟩ fuel dx dy index v lambda lambda_0
        lambda_max)
      (dispatch ⟨g, N_x, N_y, N_z, signx, signy, signz, Len⟩ fuel dx dy index v lambda lambda_0
        lambda_max)
      (dispatch ⟨h, N_x, N_y, N_z, signx, signy, signz, Len⟩ fuel dx dy index v lambda lambda_0
        lambda_max) := by
  simp only [dispatch]
  split_ifs
  all_goals first
    | (apply walkX_linear a b f g h hh; simp [MarchState.Linear])
    | (apply walkY_linear a b f g h hh; simp [MarchState.Linear])
    | (apply marchX_linear a b f g h hh; simp [MarchState.Linear])
    | (apply marchY_linear a b f g h hh; simp [MarchState.Linear])
    | (generalize hr1 : xCrossZ ⟨f, N_x, N_y, N_z, signx, signy, signz, Len⟩ fuel _ = r1
       generalize hr2 : xCrossZ ⟨g, N_x, N_y, N_z, signx, signy, signz, Len⟩ fuel _ = r2
       generalize hr3 : xCrossZ ⟨h, N_x, N_y, N_z, signx, signy, signz, Len⟩ fuel _ = r3
       have hw : Flow.Linear a b r1 r2 r3 := by
         rw [← hr1, ← hr2, ← hr3]
         apply xCrossZ_linear a b f g h hh
         simp [MarchState.Linear]
       clear hr1 hr2 hr3
       rcases r1 with o1 | t1 <;> rcases r2 with o2 | t2 <;> rcases r3 with o3 | t3 <;>
         simp only [Flow.Linear] at hw
       · exact hw
       · exact marchX_linear a b f g h hh N_x N_y N_z signx signy signz Len fuel _ _ _ hw)
    | (generalize hr1 : xCrossY ⟨f, N_x, N_y, N_z, signx, signy, signz, Len⟩ fuel _ = r1
       generalize hr2 : xCrossY ⟨g, N_x, N_y, N_z, signx, signy, signz, Len⟩ fuel _ = r2
       generalize hr3 : xCrossY ⟨h, N_x, N_y, N_z, signx, signy, signz, Len⟩ fuel _ = r3
       have hw : Flow.Linear a b r1 r2 r3 := by
         rw [← hr1, ← hr2, ← hr3]
         apply xCrossY_linear a b f g h hh
         simp [MarchState.Linear]
       clear hr1 hr2 hr3
       rcases r1 with o1 | t1 <;> rcases r2 with o2 | t2 <;> rcases r3 with o3 | t3 <;>
         simp only [Flow.Linear] at hw
       · exact hw
       · exact marchX_linear a b f g h hh N_x N_y N_z signx signy signz Len fuel _ _ _ hw)
    | (generalize hr1 : yCrossZ ⟨f, N_x, N_y, N_z, signx, signy, signz, Len⟩ fuel _ = r1
       generalize hr2 : yCrossZ ⟨g, N_x, N_y, N_z, signx, signy, signz, Len⟩ fuel _ = r2
       generalize hr3 : yCrossZ ⟨h, N_x, N_y, N_z, signx, signy, signz, Len⟩ fuel _ = r3
       have hw : Flow.Linear a b r1 r2 r3 := by
         rw [← hr1, ← hr2, ← hr3]
         apply yCrossZ_linear a b f g h hh
         simp [MarchState.Linear]
       clear hr1 hr2 hr3
       rcases r1 with o1 | t1 <;> rcases r2 with o2 | t2 <;> rcases r3 with o3 | t3 <;>
         simp only [Flow.Linear] at hw
       · exact hw
       · exact marchY_linear a b f g h hh N_x N_y N_z signx signy signz Len fuel _ _ _ hw)
    | (generalize hr1 : yCrossX ⟨f, N_x, N_y, N_z, signx, signy, signz, Len⟩ fuel _ = r1
       generalize hr2 : yCrossX ⟨g, N_x, N_y, N_z, signx, signy, signz, Len⟩ fuel _ = r2
       generalize hr3 : yCrossX ⟨h, N_x, N_y, N_z, signx, signy, signz, Len⟩ fuel _ = r3
       have hw : Flow.Linear a b r1 r2 r3 := by
         rw [← hr1, ← hr2, ← hr3]
         apply yCrossX_linear a b f g h hh
         simp [MarchState.Linear]
       clear hr1 hr2 hr3
       rcases r1 with o1 | t1 <;> rcases r2 with o2 | t2 <;> rcases r3 with o3 | t3 <;>
         simp only [Flow.Linear] at hw
       · exact hw
       · exact marchY_linear a b f g h hh N_x N_y N_z signx signy signz Len fuel _ _ _ hw)

end LinearityLoops

section LinearityTracer

variable {K : Type} [LinearOrderedField K] [FloorRing K]

/-- The function `Ray_Tracer_Forward` is linear in the image: for the images
`f`, `g` and `h = a f + b g` the three calls end the same way, with the same
trace, and the value for `h` is `a` times that for `f` plus `b` times that for
`g`. -/
theorem Ray_Tracer_Forward_linear (SQRT : K → K) (index0 : Int) (fuel : Nat)
    (source detector : Vector3D K) (N_x N_y N_z : Int) (a b : K) (f g h : Array3D K)
    (hh : ∀ i j k, h.data i j k = a * f.data i j k + b * g.data i j k) :
    Outcome.Linear a b
      (Ray_Tracer_Forward SQRT index0 fuel source detector N_x N_y N_z f)
      (Ray_Tracer_Forward SQRT index0 fuel source detector N_x N_y N_z g)
      (Ray_Tracer_Forward SQRT index0 fuel source detector N_x N_y N_z h) := by
  simp only [Ray_Tracer_Forward]
  split_ifs
  · simp [Outcome.Linear]
  · split
    · simp only [marchFromEntry]
      apply dispatch_linear a b f g h hh
    · simp [Outcome.Linear]

end LinearityTracer

end RayTracer

/-! ## The marching loops are runs of the minimum-of-three state machine -/

namespace RayTracer

section Caps

theorem cap_out (N v sign : Int) (hs : sign = 1 ∨ sign = -1) :
    (v + sign ≥ N ∨ v + sign < 0) ↔ cap N v sign = 0 := by
  unfold cap
  rcases hs with rfl | rfl
  · simp only [if_true]
    split_ifs with h <;> omega
  · have h1 : ¬ ((-1 : Int) = 1) := by decide
    simp only [h1, if_false]
    split_ifs with h <;> omega

theorem cap_next (N v sign : Int) (hs : sign = 1 ∨ sign = -1)
    (h : ¬ (v + sign ≥ N ∨ v + sign < 0)) : cap N (v + sign) sign + 1 = cap N v sign := by
  unfold cap
  rcases hs with rfl | rfl
  · simp only [if_true]
    split_ifs <;> omega
  · have h1 : ¬ ((-1 : Int) = 1) := by decide
    simp only [h1, if_false]
    split_ifs <;> omega

theorem cap_le (N v sign : Int) (hN : 0 ≤ N) : (cap N v sign : Int) ≤ N := by
  unfold cap
  split_ifs <;> omega

end Caps

section Runs

variable {K : Type} [LinearOrderedField K]

theorem outAxis_iff_cap (e : Env K) (hs : e.SignsOk) (a : Axis) (st : MarchState K) :
    outAxis e a (refStep e a st) = true ↔
      (match a with
        | .x => cap e.N_x st.v.x e.signx
        | .y => cap e.N_y st.v.y e.signy
        | .z => cap e.N_z st.v.z e.signz) = 0 := by
  obtain ⟨hx, hy, hz⟩ := hs
  cases a
  · simpa [outAxis, outX, refStep] using cap_out e.N_x st.v.x e.signx hx
  · simpa [outAxis, outY, refStep] using cap_out e.N_y st.v.y e.signy hy
  · simpa [outAxis, outZ, refStep] using cap_out e.N_z st.v.z e.signz hz

/-- A step that stays in the grid uses up one of the steps that can. -/
theorem mu_step (e : Env K) (hs : e.SignsOk) (a : Axis) (st : MarchState K)
    (h : outAxis e a (refStep e a st) = false) : (refStep e a st).mu e + 1 = st.mu e := by
  obtain ⟨hx, hy, hz⟩ := hs
  cases a
  · have h2 : ¬ (st.v.x + e.signx ≥ e.N_x ∨ st.v.x + e.signx < 0) := by
      simpa [outAxis, outX, refStep] using h
    have := cap_next e.N_x st.v.x e.signx hx h2
    simp only [MarchState.mu, refStep]
    omega
  · have h2 : ¬ (st.v.y + e.signy ≥ e.N_y ∨ st.v.y + e.signy < 0) := by
      simpa [outAxis, outY, refStep] using h
    have := cap_next e.N_y st.v.y e.signy hy h2
    simp only [MarchState.mu, refStep]
    omega
  · have h2 : ¬ (st.v.z + e.signz ≥ e.N_z ∨ st.v.z + e.signz < 0) := by
      simpa [outAxis, outZ, refStep] using h
    have := cap_next e.N_z st.v.z e.signz hz h2
    simp only [MarchState.mu, refStep]
    omega

theorem refStep_trace_length (e : Env K) (a : Axis) (st : MarchState K) :
    (refStep e a st).trace.length = st.trace.length + 1 := by
  cases a <;> simp [refStep]

/-- A run of the state machine makes at most `mu + 1` accumulations. -/
theorem MinRun.length_le {e : Env K} (hs : e.SignsOk) {st : MarchState K} {s : K}
    {tr : List (Vector3DInt × K)} (h : MinRun e st s tr) :
    tr.length ≤ st.trace.length + st.mu e + 1 := by
  induction h with
  | exit a st _ _ => rw [refStep_trace_length]; omega
  | step a st s tr _ hout _ ih =>
    have := mu_step e hs a st hout
    rw [refStep_trace_length] at ih
    omega

theorem Reach.minRun {e : Env K} {st st1 : MarchState K} {s : K}
    {tr : List (Vector3DInt × K)} (h : Reach e st st1) (h1 : MinRun e st1 s tr) :
    MinRun e st s tr := by
  induction h with
  | refl st => exact h1
  | step a st st1 hmin hout _ ih => exact MinRun.step a st s tr hmin hout (ih h1)

theorem Reach.trans {e : Env K} {st st1 st2 : MarchState K} (h : Reach e st st1)
    (h1 : Reach e st1 st2) : Reach e st st2 := by
  induction h with
  | refl st => exact h1
  | step a st st1 hmin hout _ ih => exact Reach.step a st st2 hmin hout (ih h1)

theorem Reach.mu_le {e : Env K} (hs : e.SignsOk) {st st1 : MarchState K} (h : Reach e st st1) :
    st1.mu e ≤ st.mu e := by
  induction h with
  | refl st => exact le_rfl
  | step a st st1 _ hout _ ih =>
    have := mu_step e hs a st hout
    omega

theorem Reach.one {e : Env K} (a : Axis) (st : MarchState K) (hmin : st.IsMin a)
    (hout : outAxis e a (refStep e a st) = false) : Reach e st (refStep e a st) :=
  Reach.step a st _ hmin hout (Reach.refl _)

end Runs

end RayTracer

/-! ## The loops of the code are runs of the minimum-of-three state machine -/

namespace RayTracer

section CodeRuns

variable {K : Type} [LinearOrderedField K]

/-- The loop `while (Tz >= Tx)` of the code: it is entered with `Tx` at its
unit-step length, and the stored `Ty` is the counter of `y` less `Tz`. -/
theorem whileTzTx_spec (e : Env K) (hs : e.SignsOk) :
    ∀ (n : Nat) (v : Vector3DInt) (Tx Ty Tz Tys sn : K) (tr : List (Vector3DInt × K)),
      Ty = Tys + Tz → 0 ≤ Tys → Tx = e.Len.x → cap e.N_x v.x e.signx + 1 ≤ n →
      (∀ o, whileTzTx e n { v := v, Tx := Tx, Ty := Tys, Tz := Tz, sino := sn, trace := tr }
          = .ret o →
        ∃ r t, o = .ret r t ∧
          MinRun e { v := v, Tx := Tx, Ty := Ty, Tz := Tz, sino := sn, trace := tr } r t) ∧
      (∀ s1, whileTzTx e n { v := v, Tx := Tx, Ty := Tys, Tz := Tz, sino := sn, trace := tr }
          = .next s1 →
        s1.Ty = Tys ∧ s1.Tx = e.Len.x ∧ s1.Tz < s1.Tx ∧
        Reach e { v := v, Tx := Tx, Ty := Ty, Tz := Tz, sino := sn, trace := tr }
          { s1 with Ty := s1.Ty + s1.Tz }) := by
  intro n
  induction n with
  | zero => intro v Tx Ty Tz Tys sn tr _ _ _ h; omega
  | succ n ih =>
    intro v Tx Ty Tz Tys sn tr hT h0 hL hn
    have hmin : Tx ≤ Tz → MarchState.IsMin
        ({ v := v, Tx := Tx, Ty := Ty, Tz := Tz, sino := sn, trace := tr } : MarchState K)
        .x := by
      intro h
      simp only [MarchState.IsMin, MarchState.counter]
      refine ⟨?_, ?_, ?_⟩ <;> linarith
    simp only [whileTzTx]
    split_ifs with hc ho
    · -- a step along x that leaves the grid
      refine ⟨fun o ho2 => ?_, fun s1 h => by simp [MarchState.done] at h⟩
      simp only [MarchState.done, Flow.ret.injEq] at ho2
      subst ho2
      refine ⟨_, _, rfl, ?_⟩
      have := MinRun.exit .x
        ({ v := v, Tx := Tx, Ty := Ty, Tz := Tz, sino := sn, trace := tr } : MarchState K)
        (hmin hc)
        (by simpa [outAxis, refStep, outX, MarchState.stepX, MarchState.acc] using ho)
      simpa [refStep, MarchState.stepX, MarchState.acc] using this
    · -- a step along x that stays in the grid
      have hout : outAxis e .x (refStep e .x
          { v := v, Tx := Tx, Ty := Ty, Tz := Tz, sino := sn, trace := tr }) = false := by
        simpa [outAxis, refStep, outX, MarchState.stepX, MarchState.acc] using ho
      have hcap := cap_next e.N_x v.x e.signx hs.1
        (by simpa [outX, MarchState.stepX, MarchState.acc] using ho)
      have hstep : refStep e .x
            { v := v, Tx := Tx, Ty := Ty, Tz := Tz, sino := sn, trace := tr }
          = { v := { v with x := v.x + e.signx }, Tx := Tx, Ty := Tys + (Tz - Tx),
              Tz := Tz - Tx, sino := sn + ARRAY3DData e.image v.x v.y v.z * Tx,
              trace := tr ++ [(v, Tx)] } := by
        simp only [refStep, MarchState.mk.injEq, true_and, and_true]
        constructor <;> first
          | exact hL.symm
          | (rw [hT]; ring)
      obtain ⟨ih1, ih2⟩ := ih { v with x := v.x + e.signx } Tx (Tys + (Tz - Tx))
        (Tz - Tx) Tys (sn + ARRAY3DData e.image v.x v.y v.z * Tx) (tr ++ [(v, Tx)]) rfl h0 hL
        (by simp only; omega)
      refine ⟨fun o ho2 => ?_, fun s1 h1 => ?_⟩
      · obtain ⟨r, t, rfl, hrun⟩ := ih1 o ho2
        exact ⟨r, t, rfl, MinRun.step .x _ r t (hmin hc) hout (hstep ▸ hrun)⟩
      · obtain ⟨a1, a2, a3, hr⟩ := ih2 s1 h1
        exact ⟨a1, a2, a3, Reach.step .x _ _ (hmin hc) hout (hstep ▸ hr)⟩
    · -- the loop ends
      refine ⟨fun o ho2 => by simp at ho2, fun s1 h1 => ?_⟩
      simp only [Flow.next.injEq] at h1
      subst h1
      refine ⟨rfl, hL, lt_of_not_ge hc, ?_⟩
      simp only [hT]
      exact Reach.refl _

/-- The loop `while (Ty >= Tx)` of the code: it is entered with `Tx` at its
unit-step length, and the stored `Tz` is the counter of `z` less `Ty`. -/
theorem whileTyTx_spec (e : Env K) (hs : e.SignsOk) :
    ∀ (n : Nat) (v : Vector3DInt) (Tx Tz Ty Tzs sn : K) (tr : List (Vector3DInt × K)),
      Tz = Tzs + Ty → 0 ≤ Tzs → Tx = e.Len.x → cap e.N_x v.x e.signx + 1 ≤ n →
      (∀ o, whileTyTx e n { v := v, Tx := Tx, Tz := Tzs, Ty := Ty, sino := sn, trace := tr }
          = .ret o →
        ∃ r t, o = .ret r t ∧
          MinRun e { v := v, Tx := Tx, Tz := Tz, Ty := Ty, sino := sn, trace := tr } r t) ∧
      (∀ s1, whileTyTx e n { v := v, Tx := Tx, Tz := Tzs, Ty := Ty, sino := sn, trace := tr }
          = .next s1 →
        s1.Tz = Tzs ∧ s1.Tx = e.Len.x ∧ s1.Ty < s1.Tx ∧
        Reach e { v := v, Tx := Tx, Tz := Tz, Ty := Ty, sino := sn, trace := tr }
          { s1 with Tz := s1.Tz + s1.Ty }) := by
  intro n
  induction n with
  | zero => intro v Tx Tz Ty Tzs sn tr _ _ _ h; omega
  | succ n ih =>
    intro v Tx Tz Ty Tzs sn tr hT h0 hL hn
    have hmin : Tx ≤ Ty → MarchState.IsMin
        ({ v := v, Tx := Tx, Tz := Tz, Ty := Ty, sino := sn, trace := tr } : MarchState K)
        .x := by
      intro h
      simp only [MarchState.IsMin, MarchState.counter]
      refine ⟨?_, ?_, ?_⟩ <;> linarith
    simp only [whileTyTx]
    split_ifs with hc ho
    · -- a step along x that leaves the grid
      refine ⟨fun o ho2 => ?_, fun s1 h => by simp [MarchState.done] at h⟩
      simp only [MarchState.done, Flow.ret.injEq] at ho2
      subst ho2
      refine ⟨_, _, rfl, ?_⟩
      have := MinRun.exit .x
        ({ v := v, Tx := Tx, Tz := Tz, Ty := Ty, sino := sn, trace := tr } : MarchState K)
        (hmin hc)
        (by simpa [outAxis, refStep, outX, MarchState.stepX, MarchState.acc] using ho)
      simpa [refStep, MarchState.stepX, MarchState.acc] using this
    · -- a step along x that stays in the grid
      have hout : outAxis e .x (refStep e .x
          { v := v, Tx := Tx, Tz := Tz, Ty := Ty, sino := sn, trace := tr }) = false := by
        simpa [outAxis, refStep, outX, MarchState.stepX, MarchState.acc] using ho
      have hcap := cap_next e.N_x v.x e.signx hs.1
        (by simpa [outX, MarchState.stepX, MarchState.acc] using ho)
      have hstep : refStep e .x
            { v := v, Tx := Tx, Tz := Tz, Ty := Ty, sino := sn, trace := tr }
          = { v := { v with x := v.x + e.signx }, Tx := Tx, Tz := Tzs + (Ty - Tx),
              Ty := Ty - Tx, sino := sn + ARRAY3DData e.image v.x v.y v.z * Tx,
              trace := tr ++ [(v, Tx)] } := by
        simp only [refStep, MarchState.mk.injEq, true_and, and_true]
        constructor <;> first
          | exact hL.symm
          | (rw [hT]; ring)
      obtain ⟨ih1, ih2⟩ := ih { v with x := v.x + e.signx } Tx (Tzs + (Ty - Tx))
        (Ty - Tx) Tzs (sn + ARRAY3DData e.image v.x v.y v.z * Tx) (tr ++ [(v, Tx)]) rfl h0 hL
        (by simp only; omega)
      refine ⟨fun o ho2 => ?_, fun s1 h1 => ?_⟩
      · obtain ⟨r, t, rfl, hrun⟩ := ih1 o ho2
        exact ⟨r, t, rfl, MinRun.step .x _ r t (hmin hc) hout (hstep ▸ hrun)⟩
      · obtain ⟨a1, a2, a3, hr⟩ := ih2 s1 h1
        exact ⟨a1, a2, a3, Reach.step .x _ _ (hmin hc) hout (hstep ▸ hr)⟩
    · -- the loop ends
      refine ⟨fun o ho2 => by simp at ho2, fun s1 h1 => ?_⟩
      simp only [Flow.next.injEq] at h1
      subst h1
      refine ⟨rfl, hL, lt_of_not_ge hc, ?_⟩
      simp only [hT]
      exact Reach.refl _

/-- The loop `while (Tz >= Ty)` of the code: it is entered with `Ty` at its
unit-step length, and the stored `Tx` is the counter of `x` less `Tz`. -/
theorem whileTzTy_spec (e : Env K) (hs : e.SignsOk) :
    ∀ (n : Nat) (v : Vector3DInt) (Ty Tx Tz Txs sn : K) (tr : List (Vector3DInt × K)),
      Tx = Txs + Tz → 0 ≤ Txs → Ty = e.Len.y → cap e.N_y v.y e.signy + 1 ≤ n →
      (∀ o, whileTzTy e n { v := v, Ty := Ty, Tx := Txs, Tz := Tz, sino := sn, trace := tr }
          = .ret o →
        ∃ r t, o = .ret r t ∧
          MinRun e { v := v, Ty := Ty, Tx := Tx, Tz := Tz, sino := sn, trace := tr } r t) ∧
      (∀ s1, whileTzTy e n { v := v, Ty := Ty, Tx := Txs, Tz := Tz, sino := sn, trace := tr }
          = .next s1 →
        s1.Tx = Txs ∧ s1.Ty = e.Len.y ∧ s1.Tz < s1.Ty ∧
        Reach e { v := v, Ty := Ty, Tx := Tx, Tz := Tz, sino := sn, trace := tr }
          { s1 with Tx := s1.Tx + s1.Tz }) := by
  intro n
  induction n with
  | zero => intro v Ty Tx Tz Txs sn tr _ _ _ h; omega
  | succ n ih =>
    intro v Ty Tx Tz Txs sn tr hT h0 hL hn
    have hmin : Ty ≤ Tz → MarchState.IsMin
        ({ v := v, Ty := Ty, Tx := Tx, Tz := Tz, sino := sn, trace := tr } : MarchState K)
        .y := by
      intro h
      simp only [MarchState.IsMin, MarchState.counter]
      refine ⟨?_, ?_, ?_⟩ <;> linarith
    simp only [whileTzTy]
    split_ifs with hc ho
    · -- a step along y that leaves the grid
      refine ⟨fun o ho2 => ?_, fun s1 h => by simp [MarchState.done] at h⟩
      simp only [MarchState.done, Flow.ret.injEq] at ho2
      subst ho2
      refine ⟨_, _, rfl, ?_⟩
      have := MinRun.exit .y
        ({ v := v, Ty := Ty, Tx := Tx, Tz := Tz, sino := sn, trace := tr } : MarchState K)
        (hmin hc)
        (by simpa [outAxis, refStep, outY, MarchState.stepY, MarchState.acc] using ho)
      simpa [refStep, MarchState.stepY, MarchState.acc] using this
    · -- a step along y that stays in the grid
      have hout : outAxis e .y (refStep e .y
          { v := v, Ty := Ty, Tx := Tx, Tz := Tz, sino := sn, trace := tr }) = false := by
        simpa [outAxis, refStep, outY, MarchState.stepY, MarchState.acc] using ho
      have hcap := cap_next e.N_y v.y e.signy hs.2.1
        (by simpa [outY, MarchState.stepY, MarchState.acc] using ho)
      have hstep : refStep e .y
            { v := v, Ty := Ty, Tx := Tx, Tz := Tz, sino := sn, trace := tr }
          = { v := { v with y := v.y + e.signy }, Ty := Ty, Tx := Txs + (Tz - Ty),
              Tz := Tz - Ty, sino := sn + ARRAY3DData e.image v.x v.y v.z * Ty,
              trace := tr ++ [(v, Ty)] } := by
        simp only [refStep, MarchState.mk.injEq, true_and, and_true]
        constructor <;> first
          | exact hL.symm
          | (rw [hT]; ring)
      obtain ⟨ih1, ih2⟩ := ih { v with y := v.y + e.signy } Ty (Txs + (Tz - Ty))
        (Tz - Ty) Txs (sn + ARRAY3DData e.image v.x v.y v.z * Ty) (tr ++ [(v, Ty)]) rfl h0 hL
        (by simp only; omega)
      refine ⟨fun o ho2 => ?_, fun s1 h1 => ?_⟩
      · obtain ⟨r, t, rfl, hrun⟩ := ih1 o ho2
        exact ⟨r, t, rfl, MinRun.step .y _ r t (hmin hc) hout (hstep ▸ hrun)⟩
      · obtain ⟨a1, a2, a3, hr⟩ := ih2 s1 h1
        exact ⟨a1, a2, a3, Reach.step .y _ _ (hmin hc) hout (hstep ▸ hr)⟩
    · -- the loop ends
      refine ⟨fun o ho2 => by simp at ho2, fun s1 h1 => ?_⟩
      simp only [Flow.next.injEq] at h1
      subst h1
      refine ⟨rfl, hL, lt_of_not_ge hc, ?_⟩
      simp only [hT]
      exact Reach.refl _

/-- The loop `while (Tx >= Ty)` of the code: it is entered with `Ty` at its
unit-step length, and the stored `Tz` is the counter of `z` less `Tx`. -/
theorem whileTxTy_spec (e : Env K) (hs : e.SignsOk) :
    ∀ (n : Nat) (v : Vector3DInt) (Ty Tz Tx Tzs sn : K) (tr : List (Vector3DInt × K)),
      Tz = Tzs + Tx → 0 ≤ Tzs → Ty = e.Len.y → cap e.N_y v.y e.signy + 1 ≤ n →
      (∀ o, whileTxTy e n { v := v, Ty := Ty, Tz := Tzs, Tx := Tx, sino := sn, trace := tr }
          = .ret o →
        ∃ r t, o = .ret r t ∧
          MinRun e { v := v, Ty := Ty, Tz := Tz, Tx := Tx, sino := sn, trace := tr } r t) ∧
      (∀ s1, whileTxTy e n { v := v, Ty := Ty, Tz := Tzs, Tx := Tx, sino := sn, trace := tr }
          = .next s1 →
        s1.Tz = Tzs ∧ s1.Ty = e.Len.y ∧ s1.Tx < s1.Ty ∧
        Reach e { v := v, Ty := Ty, Tz := Tz, Tx := Tx, sino := sn, trace := tr }
          { s1 with Tz := s1.Tz + s1.Tx }) := by
  intro n
  induction n with
  | zero => intro v Ty Tz Tx Tzs sn tr _ _ _ h; omega
  | succ n ih =>
    intro v Ty Tz Tx Tzs sn tr hT h0 hL hn
    have hmin : Ty ≤ Tx → MarchState.IsMin
        ({ v := v, Ty := Ty, Tz := Tz, Tx := Tx, sino := sn, trace := tr } : MarchState K)
        .y := by
      intro h
      simp only [MarchState.IsMin, MarchState.counter]
      refine ⟨?_, ?_, ?_⟩ <;> linarith
    simp only [whileTxTy]
    split_ifs with hc ho
    · -- a step along y that leaves the grid
      refine ⟨fun o ho2 => ?_, fun s1 h => by simp [MarchState.done] at h⟩
      simp only [MarchState.done, Flow.ret.injEq] at ho2
      subst ho2
      refine ⟨_, _, rfl, ?_⟩
      have := MinRun.exit .y
        ({ v := v, Ty := Ty, Tz := Tz, Tx := Tx, sino := sn, trace := tr } : MarchState K)
        (hmin hc)
        (by simpa [outAxis, refStep, outY, MarchState.stepY, MarchState.acc] using ho)
      simpa [refStep, MarchState.stepY, MarchState.acc] using this
    · -- a step along y that stays in the grid
      have hout : outAxis e .y (refStep e .y
          { v := v, Ty := Ty, Tz := Tz, Tx := Tx, sino := sn, trace := tr }) = false := by
        simpa [outAxis, refStep, outY, MarchState.stepY, MarchState.acc] using ho
      have hcap := cap_next e.N_y v.y e.signy hs.2.1
        (by simpa [outY, MarchState.stepY, MarchState.acc] using ho)
      have hstep : refStep e .y
            { v := v, Ty := Ty, Tz := Tz, Tx := Tx, sino := sn, trace := tr }
          = { v := { v with y := v.y + e.signy }, Ty := Ty, Tz := Tzs + (Tx - Ty),
              Tx := Tx - Ty, sino := sn + ARRAY3DData e.image v.x v.y v.z * Ty,
              trace := tr ++ [(v, Ty)] } := by
        simp only [refStep, MarchState.mk.injEq, true_and, and_true]
        constructor <;> first
          | exact hL.symm
          | (rw [hT]; ring)
      obtain ⟨ih1, ih2⟩ := ih { v with y := v.y + e.signy } Ty (Tzs + (Tx - Ty))
        (Tx - Ty) Tzs (sn + ARRAY3DData e.image v.x v.y v.z * Ty) (tr ++ [(v, Ty)]) rfl h0 hL
        (by simp only; omega)
      refine ⟨fun o ho2 => ?_, fun s1 h1 => ?_⟩
      · obtain ⟨r, t, rfl, hrun⟩ := ih1 o ho2
        exact ⟨r, t, rfl, MinRun.step .y _ r t (hmin hc) hout (hstep ▸ hrun)⟩
      · obtain ⟨a1, a2, a3, hr⟩ := ih2 s1 h1
        exact ⟨a1, a2, a3, Reach.step .y _ _ (hmin hc) hout (hstep ▸ hr)⟩
    · -- the loop ends
      refine ⟨fun o ho2 => by simp at ho2, fun s1 h1 => ?_⟩
      simp only [Flow.next.injEq] at h1
      subst h1
      refine ⟨rfl, hL, lt_of_not_ge hc, ?_⟩
      simp only [hT]
      exact Reach.refl _

/-- The block `xCrossZ` of the marching loops, entered with the stored `Ty`
already less `Tz`: it makes steps of the state machine from the state with
the counter of `y` put back. -/
theorem xCrossZ_spec (e : Env K) (hs : e.SignsOk) (n : Nat) (v : Vector3DInt)
    (Tx Ty Tz sn : K) (tr : List (Vector3DInt × K)) (hlt : Tz ≤ Ty)
    (hn : MarchState.mu e
      { v := v, Tx := Tx, Ty := Ty, Tz := Tz, sino := sn, trace := tr } ≤ n) :
    (∀ o, xCrossZ e n
        { v := v, Tx := Tx, Ty := Ty - Tz, Tz := Tz, sino := sn, trace := tr } = .ret o →
      ∃ r t, o = .ret r t ∧
        MinRun e { v := v, Tx := Tx, Ty := Ty, Tz := Tz, sino := sn, trace := tr } r t) ∧
    (∀ s1, xCrossZ e n
        { v := v, Tx := Tx, Ty := Ty - Tz, Tz := Tz, sino := sn, trace := tr }
        = .next s1 →
      Reach e { v := v, Tx := Tx, Ty := Ty, Tz := Tz, sino := sn, trace := tr } s1 ∧
      s1.mu e < MarchState.mu e
        { v := v, Tx := Tx, Ty := Ty, Tz := Tz, sino := sn, trace := tr }) := by
  simp only [xCrossZ]
  split_ifs with h1 ho ho
  · -- the z plane first, leaving the grid
    have hmin : MarchState.IsMin
        ({ v := v, Tx := Tx, Ty := Ty, Tz := Tz, sino := sn, trace := tr } : MarchState K)
        .z := by
      simp only [MarchState.IsMin, MarchState.counter]
      refine ⟨?_, ?_, ?_⟩ <;> linarith
    refine ⟨fun o ho2 => ?_, fun s1 h => by simp [MarchState.done] at h⟩
    simp only [MarchState.done, Flow.ret.injEq] at ho2
    subst ho2
    exact ⟨_, _, rfl, MinRun.exit .z _ hmin (by simpa [outAxis] using ho)⟩
  · -- the z plane first, staying in the grid
    have hmin : MarchState.IsMin
        ({ v := v, Tx := Tx, Ty := Ty, Tz := Tz, sino := sn, trace := tr } : MarchState K)
        .z := by
      simp only [MarchState.IsMin, MarchState.counter]
      refine ⟨?_, ?_, ?_⟩ <;> linarith
    have hout : outAxis e .z (refStep e .z
        { v := v, Tx := Tx, Ty := Ty, Tz := Tz, sino := sn, trace := tr }) = false := by
      simpa [outAxis] using ho
    refine ⟨fun o ho2 => by simp at ho2, fun s1 h => ?_⟩
    simp only [Flow.next.injEq] at h
    subst h
    have := mu_step e hs .z _ hout
    exact ⟨Reach.one .z _ hmin hout, by
      rw [← this]; exact Nat.lt_succ_self _⟩
  · -- the x plane first, leaving the grid
    have hmin : MarchState.IsMin
        ({ v := v, Tx := Tx, Ty := Ty, Tz := Tz, sino := sn, trace := tr } : MarchState K)
        .x := by
      simp only [MarchState.IsMin, MarchState.counter]
      refine ⟨?_, ?_, ?_⟩ <;> linarith
    refine ⟨fun o ho2 => ?_, fun s1 h => by simp [MarchState.done] at h⟩
    simp only [MarchState.done, Flow.ret.injEq] at ho2
    subst ho2
    exact ⟨_, _, rfl, MinRun.exit .x _ hmin (by simpa [outAxis] using ho)⟩
  · -- the x plane first, then the loop and the z plane
    have hmin : MarchState.IsMin
        ({ v := v, Tx := Tx, Ty := Ty, Tz := Tz, sino := sn, trace := tr } : MarchState K)
        .x := by
      simp only [MarchState.IsMin, MarchState.counter]
      refine ⟨?_, ?_, ?_⟩ <;> linarith
    have hout : outAxis e .x (refStep e .x
        { v := v, Tx := Tx, Ty := Ty, Tz := Tz, sino := sn, trace := tr }) = false := by
      simpa [outAxis] using ho
    have hmu := mu_step e hs .x _ hout
    have hcap := cap_next e.N_x v.x e.signx hs.1
      (by simpa [outX, MarchState.stepX, MarchState.acc] using ho)
    have hcapmu : cap e.N_x v.x e.signx ≤ MarchState.mu e
        { v := v, Tx := Tx, Ty := Ty, Tz := Tz, sino := sn, trace := tr } := by
      simp only [MarchState.mu]; omega
    obtain ⟨w1, w2⟩ := whileTzTx_spec e hs n { v with x := v.x + e.signx } e.Len.x
      (Ty - Tx) (Tz - Tx) (Ty - Tz) (sn + ARRAY3DData e.image v.x v.y v.z * Tx)
      (tr ++ [(v, Tx)]) (by ring) (by linarith) rfl (by simp only; omega)
    simp only [MarchState.acc, MarchState.stepX]
    generalize hw : whileTzTx e n _ = w
    have hw1 := hw ▸ w1
    have hw2 := hw ▸ w2
    clear hw w1 w2
    rcases w with o | s2
    · -- the loop leaves the grid
      refine ⟨fun o2 ho2 => ?_, fun s1 h => by simp at h⟩
      simp only [Flow.ret.injEq] at ho2
      subst ho2
      obtain ⟨r, t, rfl, hrun⟩ := hw1 o rfl
      exact ⟨r, t, rfl, MinRun.step .x _ r t hmin hout hrun⟩
    · obtain ⟨b1, b2, b3, hr⟩ := hw2 s2 rfl
      have hr0 : Reach e { v := v, Tx := Tx, Ty := Ty, Tz := Tz, sino := sn, trace := tr }
          { s2 with Ty := s2.Ty + s2.Tz } := Reach.step .x _ _ hmin hout hr
      have hmin2 : MarchState.IsMin ({ s2 with Ty := s2.Ty + s2.Tz } : MarchState K) .z := by
        simp only [MarchState.IsMin, MarchState.counter]
        refine ⟨?_, ?_, ?_⟩ <;> linarith
      have hmule := Reach.mu_le hs hr0
      simp only []
      split_ifs with ho2
      · refine ⟨fun o2 h => ?_, fun s1 h => by simp [MarchState.done] at h⟩
        simp only [MarchState.done, Flow.ret.injEq] at h
        subst h
        refine ⟨_, _, rfl, Reach.minRun hr0 ?_⟩
        exact MinRun.exit .z _ hmin2
          (by simpa [outAxis, outZ, refStep, MarchState.stepZ] using ho2)
      · refine ⟨fun o2 h => by simp at h, fun s1 h => ?_⟩
        simp only [Flow.next.injEq] at h
        subst h
        have hout2 : outAxis e .z (refStep e .z { s2 with Ty := s2.Ty + s2.Tz })
            = false := by
          simpa [outAxis, outZ, refStep, MarchState.stepZ] using ho2
        have hmu2 := mu_step e hs .z _ hout2
        have heq : refStep e .z { s2 with Ty := s2.Ty + s2.Tz }
            = MarchState.stepZ e
                { v := s2.v, Tx := s2.Tx - s2.Tz, Ty := s2.Ty, Tz := e.Len.z,
                  sino := s2.sino + ARRAY3DData e.image s2.v.x s2.v.y s2.v.z * s2.Tz,
                  trace := s2.trace ++ [(s2.v, s2.Tz)] } := by
          simp only [refStep, MarchState.stepZ, MarchState.mk.injEq, true_and, and_true]
          ring
        refine ⟨?_, ?_⟩
        · rw [← heq]
          exact Reach.trans hr0 (Reach.one .z _ hmin2 hout2)
        · rw [← heq]
          omega

/-- The block `xCrossY` of the marching loops, entered with the stored `Tz`
already less `Ty`: it makes steps of the state machine from the state with
the counter of `z` put back. -/
theorem xCrossY_spec (e : Env K) (hs : e.SignsOk) (n : Nat) (v : Vector3DInt)
    (Tx Tz Ty sn : K) (tr : List (Vector3DInt × K)) (hlt : Ty ≤ Tz)
    (hn : MarchState.mu e
      { v := v, Tx := Tx, Tz := Tz, Ty := Ty, sino := sn, trace := tr } ≤ n) :
    (∀ o, xCrossY e n
        { v := v, Tx := Tx, Tz := Tz - Ty, Ty := Ty, sino := sn, trace := tr } = .ret o →
      ∃ r t, o = .ret r t ∧
        MinRun e { v := v, Tx := Tx, Tz := Tz, Ty := Ty, sino := sn, trace := tr } r t) ∧
    (∀ s1, xCrossY e n
        { v := v, Tx := Tx, Tz := Tz - Ty, Ty := Ty, sino := sn, trace := tr }
        = .next s1 →
      Reach e { v := v, Tx := Tx, Tz := Tz, Ty := Ty, sino := sn, trace := tr } s1 ∧
      s1.mu e < MarchState.mu e
        { v := v, Tx := Tx, Tz := Tz, Ty := Ty, sino := sn, trace := tr }) := by
  simp only [xCrossY]
  split_ifs with h1 ho ho
  · -- the y plane first, leaving the grid
    have hmin : MarchState.IsMin
        ({ v := v, Tx := Tx, Tz := Tz, Ty := Ty, sino := sn, trace := tr } : MarchState K)
        .y := by
      simp only [MarchState.IsMin, MarchState.counter]
      refine ⟨?_, ?_, ?_⟩ <;> linarith
    refine ⟨fun o ho2 => ?_, fun s1 h => by simp [MarchState.done] at h⟩
    simp only [MarchState.done, Flow.ret.injEq] at ho2
    subst ho2
    exact ⟨_, _, rfl, MinRun.exit .y _ hmin (by simpa [outAxis] using ho)⟩
  · -- the y plane first, staying in the grid
    have hmin : MarchState.IsMin
        ({ v := v, Tx := Tx, Tz := Tz, Ty := Ty, sino := sn, trace := tr } : MarchState K)
        .y := by
      simp only [MarchState.IsMin, MarchState.counter]
      refine ⟨?_, ?_, ?_⟩ <;> linarith
    have hout : outAxis e .y (refStep e .y
        { v := v, Tx := Tx, Tz := Tz, Ty := Ty, sino := sn, trace := tr }) = false := by
      simpa [outAxis] using ho
    refine ⟨fun o ho2 => by simp at ho2, fun s1 h => ?_⟩
    simp only [Flow.next.injEq] at h
    subst h
    have := mu_step e hs .y _ hout
    exact ⟨Reach.one .y _ hmin hout, by
      rw [← this]; exact Nat.lt_succ_self _⟩
  · -- the x plane first, leaving the grid
    have hmin : MarchState.IsMin
        ({ v := v, Tx := Tx, Tz := Tz, Ty := Ty, sino := sn, trace := tr } : MarchState K)
        .x := by
      simp only [MarchState.IsMin, MarchState.counter]
      refine ⟨?_, ?_, ?_⟩ <;> linarith
    refine ⟨fun o ho2 => ?_, fun s1 h => by simp [MarchState.done] at h⟩
    simp only [MarchState.done, Flow.ret.injEq] at ho2
    subst ho2
    exact ⟨_, _, rfl, MinRun.exit .x _ hmin (by simpa [outAxis] using ho)⟩
  · -- the x plane first, then the loop and the y plane
    have hmin : MarchState.IsMin
        ({ v := v, Tx := Tx, Tz := Tz, Ty := Ty, sino := sn, trace := tr } : MarchState K)
        .x := by
      simp only [MarchState.IsMin, MarchState.counter]
      refine ⟨?_, ?_, ?_⟩ <;> linarith
    have hout : outAxis e .x (refStep e .x
        { v := v, Tx := Tx, Tz := Tz, Ty := Ty, sino := sn, trace := tr }) = false := by
      simpa [outAxis] using ho
    have hmu := mu_step e hs .x _ hout
    have hcap := cap_next e.N_x v.x e.signx hs.1
      (by simpa [outX, MarchState.stepX, MarchState.acc] using ho)
    have hcapmu : cap e.N_x v.x e.signx ≤ MarchState.mu e
        { v := v, Tx := Tx, Tz := Tz, Ty := Ty, sino := sn, trace := tr } := by
      simp only [MarchState.mu]; omega
    obtain ⟨w1, w2⟩ := whileTyTx_spec e hs n { v with x := v.x + e.signx } e.Len.x
      (Tz - Tx) (Ty - Tx) (Tz - Ty) (sn + ARRAY3DData e.image v.x v.y v.z * Tx)
      (tr ++ [(v, Tx)]) (by ring) (by linarith) rfl (by simp only; omega)
    simp only [MarchState.acc, MarchState.stepX]
    generalize hw : whileTyTx e n _ = w
    have hw1 := hw ▸ w1
    have hw2 := hw ▸ w2
    clear hw w1 w2
    rcases w with o | s2
    · -- the loop leaves the grid
      refine ⟨fun o2 ho2 => ?_, fun s1 h => by simp at h⟩
      simp only [Flow.ret.injEq] at ho2
      subst ho2
      obtain ⟨r, t, rfl, hrun⟩ := hw1 o rfl
      exact ⟨r, t, rfl, MinRun.step .x _ r t hmin hout hrun⟩
    · obtain ⟨b1, b2, b3, hr⟩ := hw2 s2 rfl
      have hr0 : Reach e { v := v, Tx := Tx, Tz := Tz, Ty := Ty, sino := sn, trace := tr }
          { s2 with Tz := s2.Tz + s2.Ty } := Reach.step .x _ _ hmin hout hr
      have hmin2 : MarchState.IsMin ({ s2 with Tz := s2.Tz + s2.Ty } : MarchState K) .y := by
        simp only [MarchState.IsMin, MarchState.counter]
        refine ⟨?_, ?_, ?_⟩ <;> linarith
      have hmule := Reach.mu_le hs hr0
      simp only []
      split_ifs with ho2
      · refine ⟨fun o2 h => ?_, fun s1 h => by simp [MarchState.done] at h⟩
        simp only [MarchState.done, Flow.ret.injEq] at h
        subst h
        refine ⟨_, _, rfl, Reach.minRun hr0 ?_⟩
        exact MinRun.exit .y _ hmin2
          (by simpa [outAxis, outY, refStep, MarchState.stepY] using ho2)
      · refine ⟨fun o2 h => by simp at h, fun s1 h => ?_⟩
        simp only [Flow.next.injEq] at h
        subst h
        have hout2 : outAxis e .y (refStep e .y { s2 with Tz := s2.Tz + s2.Ty })
            = false := by
          simpa [outAxis, outY, refStep, MarchState.stepY] using ho2
        have hmu2 := mu_step e hs .y _ hout2
        have heq : refStep e .y { s2 with Tz := s2.Tz + s2.Ty }
            = MarchState.stepY e
                { v := s2.v, Tx := s2.Tx - s2.Ty, Tz := s2.Tz, Ty := e.Len.y,
                  sino := s2.sino + ARRAY3DData e.image s2.v.x s2.v.y s2.v.z * s2.Ty,
                  trace := s2.trace ++ [(s2.v, s2.Ty)] } := by
          simp only [refStep, MarchState.stepY, MarchState.mk.injEq, true_and, and_true]
          ring
        refine ⟨?_, ?_⟩
        · rw [← heq]
          exact Reach.trans hr0 (Reach.one .y _ hmin2 hout2)
        · rw [← heq]
          omega

/-- The block `yCrossZ` of the marching loops, entered with the stored `Tx`
already less `Tz`: it makes steps of the state machine from the state with
the counter of `x` put back. -/
theorem yCrossZ_spec (e : Env K) (hs : e.SignsOk) (n : Nat) (v : Vector3DInt)
    (Ty Tx Tz sn : K) (tr : List (Vector3DInt × K)) (hlt : Tz ≤ Tx)
    (hn : MarchState.mu e
      { v := v, Ty := Ty, Tx := Tx, Tz := Tz, sino := sn, trace := tr } ≤ n) :
    (∀ o, yCrossZ e n
        { v := v, Ty := Ty, Tx := Tx - Tz, Tz := Tz, sino := sn, trace := tr } = .ret o →
      ∃ r t, o = .ret r t ∧
        MinRun e { v := v, Ty := Ty, Tx := Tx, Tz := Tz, sino := sn, trace := tr } r t) ∧
    (∀ s1, yCrossZ e n
        { v := v, Ty := Ty, Tx := Tx - Tz, Tz := Tz, sino := sn, trace := tr }
        = .next s1 →
      Reach e { v := v, Ty := Ty, Tx := Tx, Tz := Tz, sino := sn, trace := tr } s1 ∧
      s1.mu e < MarchState.mu e
        { v := v, Ty := Ty, Tx := Tx, Tz := Tz, sino := sn, trace := tr }) := by
  simp only [yCrossZ]
  split_ifs with h1 ho ho
  · -- the z plane first, leaving the grid
    have hmin : MarchState.IsMin
        ({ v := v, Ty := Ty, Tx := Tx, Tz := Tz, sino := sn, trace := tr } : MarchState K)
        .z := by
      simp only [MarchState.IsMin, MarchState.counter]
      refine ⟨?_, ?_, ?_⟩ <;> linarith
    refine ⟨fun o ho2 => ?_, fun s1 h => by simp [MarchState.done] at h⟩
    simp only [MarchState.done, Flow.ret.injEq] at ho2
    subst ho2
    exact ⟨_, _, rfl, MinRun.exit .z _ hmin (by simpa [outAxis] using ho)⟩
  · -- the z plane first, staying in the grid
    have hmin : MarchState.IsMin
        ({ v := v, Ty := Ty, Tx := Tx, Tz := Tz, sino := sn, trace := tr } : MarchState K)
        .z := by
      simp only [MarchState.IsMin, MarchState.counter]
      refine ⟨?_, ?_, ?_⟩ <;> linarith
    have hout : outAxis e .z (refStep e .z
        { v := v, Ty := Ty, Tx := Tx, Tz := Tz, sino := sn, trace := tr }) = false := by
      simpa [outAxis] using ho
    refine ⟨fun o ho2 => by simp at ho2, fun s1 h => ?_⟩
    simp only [Flow.next.injEq] at h
    subst h
    have := mu_step e hs .z _ hout
    exact ⟨Reach.one .z _ hmin hout, by
      rw [← this]; exact Nat.lt_succ_self _⟩
  · -- the y plane first, leaving the grid
    have hmin : MarchState.IsMin
        ({ v := v, Ty := Ty, Tx := Tx, Tz := Tz, sino := sn, trace := tr } : MarchState K)
        .y := by
      simp only [MarchState.IsMin, MarchState.counter]
      refine ⟨?_, ?_, ?_⟩ <;> linarith
    refine ⟨fun o ho2 => ?_, fun s1 h => by simp [MarchState.done] at h⟩
    simp only [MarchState.done, Flow.ret.injEq] at ho2
    subst ho2
    exact ⟨_, _, rfl, MinRun.exit .y _ hmin (by simpa [outAxis] using ho)⟩
  · -- the y plane first, then the loop and the z plane
    have hmin : MarchState.IsMin
        ({ v := v, Ty := Ty, Tx := Tx, Tz := Tz, sino := sn, trace := tr } : MarchState K)
        .y := by
      simp only [MarchState.IsMin, MarchState.counter]
      refine ⟨?_, ?_, ?_⟩ <;> linarith
    have hout : outAxis e .y (refStep e .y
        { v := v, Ty := Ty, Tx := Tx, Tz := Tz, sino := sn, trace := tr }) = false := by
      simpa [outAxis] using ho
    have hmu := mu_step e hs .y _ hout
    have hcap := cap_next e.N_y v.y e.signy hs.2.1
      (by simpa [outY, MarchState.stepY, MarchState.acc] using ho)
    have hcapmu : cap e.N_y v.y e.signy ≤ MarchState.mu e
        { v := v, Ty := Ty, Tx := Tx, Tz := Tz, sino := sn, trace := tr } := by
      simp only [MarchState.mu]; omega
    obtain ⟨w1, w2⟩ := whileTzTy_spec e hs n { v with y := v.y + e.signy } e.Len.y
      (Tx - Ty) (Tz - Ty) (Tx - Tz) (sn + ARRAY3DData e.image v.x v.y v.z * Ty)
      (tr ++ [(v, Ty)]) (by ring) (by linarith) rfl (by simp only; omega)
    simp only [MarchState.acc, MarchState.stepY]
    generalize hw : whileTzTy e n _ = w
    have hw1 := hw ▸ w1
    have hw2 := hw ▸ w2
    clear hw w1 w2
    rcases w with o | s2
    · -- the loop leaves the grid
      refine ⟨fun o2 ho2 => ?_, fun s1 h => by simp at h⟩
      simp only [Flow.ret.injEq] at ho2
      subst ho2
      obtain ⟨r, t, rfl, hrun⟩ := hw1 o rfl
      exact ⟨r, t, rfl, MinRun.step .y _ r t hmin hout hrun⟩
    · obtain ⟨b1, b2, b3, hr⟩ := hw2 s2 rfl
      have hr0 : Reach e { v := v, Ty := Ty, Tx := Tx, Tz := Tz, sino := sn, trace := tr }
          { s2 with Tx := s2.Tx + s2.Tz } := Reach.step .y _ _ hmin hout hr
      have hmin2 : MarchState.IsMin ({ s2 with Tx := s2.Tx + s2.Tz } : MarchState K) .z := by
        simp only [MarchState.IsMin, MarchState.counter]
        refine ⟨?_, ?_, ?_⟩ <;> linarith
      have hmule := Reach.mu_le hs hr0
      simp only []
      split_ifs with ho2
      · refine ⟨fun o2 h => ?_, fun s1 h => by simp [MarchState.done] at h⟩
        simp only [MarchState.done, Flow.ret.injEq] at h
        subst h
        refine ⟨_, _, rfl, Reach.minRun hr0 ?_⟩
        exact MinRun.exit .z _ hmin2
          (by simpa [outAxis, outZ, refStep, MarchState.stepZ] using ho2)
      · refine ⟨fun o2 h => by simp at h, fun s1 h => ?_⟩
        simp only [Flow.next.injEq] at h
        subst h
        have hout2 : outAxis e .z (refStep e .z { s2 with Tx := s2.Tx + s2.Tz })
            = false := by
          simpa [outAxis, outZ, refStep, MarchState.stepZ] using ho2
        have hmu2 := mu_step e hs .z _ hout2
        have heq : refStep e .z { s2 with Tx := s2.Tx + s2.Tz }
            = MarchState.stepZ e
                { v := s2.v, Ty := s2.Ty - s2.Tz, Tx := s2.Tx, Tz := e.Len.z,
                  sino := s2.sino + ARRAY3DData e.image s2.v.x s2.v.y s2.v.z * s2.Tz,
                  trace := s2.trace ++ [(s2.v, s2.Tz)] } := by
          simp only [refStep, MarchState.stepZ, MarchState.mk.injEq, true_and, and_true]
          ring
        refine ⟨?_, ?_⟩
        · rw [← heq]
          exact Reach.trans hr0 (Reach.one .z _ hmin2 hout2)
        · rw [← heq]
          omega

/-- The block `yCrossX` of the marching loops, entered with the stored `Tz`
already less `Tx`: it makes steps of the state machine from the state with
the counter of `z` put back. -/
theorem yCrossX_spec (e : Env K) (hs : e.SignsOk) (n : Nat) (v : Vector3DInt)
    (Ty Tz Tx sn : K) (tr : List (Vector3DInt × K)) (hlt : Tx ≤ Tz)
    (hn : MarchState.mu e
      { v := v, Ty := Ty, Tz := Tz, Tx := Tx, sino := sn, trace := tr } ≤ n) :
    (∀ o, yCrossX e n
        { v := v, Ty := Ty, Tz := Tz - Tx, Tx := Tx, sino := sn, trace := tr } = .ret o →
      ∃ r t, o = .ret r t ∧
        MinRun e { v := v, Ty := Ty, Tz := Tz, Tx := Tx, sino := sn, trace := tr } r t) ∧
    (∀ s1, yCrossX e n
        { v := v, Ty := Ty, Tz := Tz - Tx, Tx := Tx, sino := sn, trace := tr }
        = .next s1 →
      Reach e { v := v, Ty := Ty, Tz := Tz, Tx := Tx, sino := sn, trace := tr } s1 ∧
      s1.mu e < MarchState.mu e
        { v := v, Ty := Ty, Tz := Tz, Tx := Tx, sino := sn, trace := tr }) := by
  simp only [yCrossX]
  split_ifs with h1 ho ho
  · -- the x plane first, leaving the grid
    have hmin : MarchState.IsMin
        ({ v := v, Ty := Ty, Tz := Tz, Tx := Tx, sino := sn, trace := tr } : MarchState K)
        .x := by
      simp only [MarchState.IsMin, MarchState.counter]
      refine ⟨?_, ?_, ?_⟩ <;> linarith
    refine ⟨fun o ho2 => ?_, fun s1 h => by simp [MarchState.done] at h⟩
    simp only [MarchState.done, Flow.ret.injEq] at ho2
    subst ho2
    exact ⟨_, _, rfl, MinRun.exit .x _ hmin (by simpa [outAxis] using ho)⟩
  · -- the x plane first, staying in the grid
    have hmin : MarchState.IsMin
        ({ v := v, Ty := Ty, Tz := Tz, Tx := Tx, sino := sn, trace := tr } : MarchState K)
        .x := by
      simp only [MarchState.IsMin, MarchState.counter]
      refine ⟨?_, ?_, ?_⟩ <;> linarith
    have hout : outAxis e .x (refStep e .x
        { v := v, Ty := Ty, Tz := Tz, Tx := Tx, sino := sn, trace := tr }) = false := by
      simpa [outAxis] using ho
    refine ⟨fun o ho2 => by simp at ho2, fun s1 h => ?_⟩
    simp only [Flow.next.injEq] at h
    subst h
    have := mu_step e hs .x _ hout
    exact ⟨Reach.one .x _ hmin hout, by
      rw [← this]; exact Nat.lt_succ_self _⟩
  · -- the y plane first, leaving the grid
    have hmin : MarchState.IsMin
        ({ v := v, Ty := Ty, Tz := Tz, Tx := Tx, sino := sn, trace := tr } : MarchState K)
        .y := by
      simp only [MarchState.IsMin, MarchState.counter]
      refine ⟨?_, ?_, ?_⟩ <;> linarith
    refine ⟨fun o ho2 => ?_, fun s1 h => by simp [MarchState.done] at h⟩
    simp only [MarchState.done, Flow.ret.injEq] at ho2
    subst ho2
    exact ⟨_, _, rfl, MinRun.exit .y _ hmin (by simpa [outAxis] using ho)⟩
  · -- the y plane first, then the loop and the x plane
    have hmin : MarchState.IsMin
        ({ v := v, Ty := Ty, Tz := Tz, Tx := Tx, sino := sn, trace := tr } : MarchState K)
        .y := by
      simp only [MarchState.IsMin, MarchState.counter]
      refine ⟨?_, ?_, ?_⟩ <;> linarith
    have hout : outAxis e .y (refStep e .y
        { v := v, Ty := Ty, Tz := Tz, Tx := Tx, sino := sn, trace := tr }) = false := by
      simpa [outAxis] using ho
    have hmu := mu_step e hs .y _ hout
    have hcap := cap_next e.N_y v.y e.signy hs.2.1
      (by simpa [outY, MarchState.stepY, MarchState.acc] using ho)
    have hcapmu : cap e.N_y v.y e.signy ≤ MarchState.mu e
        { v := v, Ty := Ty, Tz := Tz, Tx := Tx, sino := sn, trace := tr } := by
      simp only [MarchState.mu]; omega
    obtain ⟨w1, w2⟩ := whileTxTy_spec e hs n { v with y := v.y + e.signy } e.Len.y
      (Tz - Ty) (Tx - Ty) (Tz - Tx) (sn + ARRAY3DData e.image v.x v.y v.z * Ty)
      (tr ++ [(v, Ty)]) (by ring) (by linarith) rfl (by simp only; omega)
    simp only [MarchState.acc, MarchState.stepY]
    generalize hw : whileTxTy e n _ = w
    have hw1 := hw ▸ w1
    have hw2 := hw ▸ w2
    clear hw w1 w2
    rcases w with o | s2
    · -- the loop leaves the grid
      refine ⟨fun o2 ho2 => ?_, fun s1 h => by simp at h⟩
      simp only [Flow.ret.injEq] at ho2
      subst ho2
      obtain ⟨r, t, rfl, hrun⟩ := hw1 o rfl
      exact ⟨r, t, rfl, MinRun.step .y _ r t hmin hout hrun⟩
    · obtain ⟨b1, b2, b3, hr⟩ := hw2 s2 rfl
      have hr0 : Reach e { v := v, Ty := Ty, Tz := Tz, Tx := Tx, sino := sn, trace := tr }
          { s2 with Tz := s2.Tz + s2.Tx } := Reach.step .y _ _ hmin hout hr
      have hmin2 : MarchState.IsMin ({ s2 with Tz := s2.Tz + s2.Tx } : MarchState K) .x := by
        simp only [MarchState.IsMin, MarchState.counter]
        refine ⟨?_, ?_, ?_⟩ <;> linarith
      have hmule := Reach.mu_le hs hr0
      simp only []
      split_ifs with ho2
      · refine ⟨fun o2 h => ?_, fun s1 h => by simp [MarchState.done] at h⟩
        simp only [MarchState.done, Flow.ret.injEq] at h
        subst h
        refine ⟨_, _, rfl, Reach.minRun hr0 ?_⟩
        exact MinRun.exit .x _ hmin2
          (by simpa [outAxis, outX, refStep, MarchState.stepX] using ho2)
      · refine ⟨fun o2 h => by simp at h, fun s1 h => ?_⟩
        simp only [Flow.next.injEq] at h
        subst h
        have hout2 : outAxis e .x (refStep e .x { s2 with Tz := s2.Tz + s2.Tx })
            = false := by
          simpa [outAxis, outX, refStep, MarchState.stepX] using ho2
        have hmu2 := mu_step e hs .x _ hout2
        have heq : refStep e .x { s2 with Tz := s2.Tz + s2.Tx }
            = MarchState.stepX e
                { v := s2.v, Ty := s2.Ty - s2.Tx, Tz := s2.Tz, Tx := e.Len.x,
                  sino := s2.sino + ARRAY3DData e.image s2.v.x s2.v.y s2.v.z * s2.Tx,
                  trace := s2.trace ++ [(s2.v, s2.Tx)] } := by
          simp only [refStep, MarchState.stepX, MarchState.mk.injEq, true_and, and_true]
          ring
        refine ⟨?_, ?_⟩
        · rw [← heq]
          exact Reach.trans hr0 (Reach.one .x _ hmin2 hout2)
        · rw [← heq]
          omega

/-- The marching loop `marchX` of the code, given fuel for the steps that can
stay in the grid, returns, and what it returns is a run of the
minimum-of-three state machine. -/
theorem marchX_spec (e : Env K) (hs : e.SignsOk) :
    ∀ (n : Nat) (st : MarchState K), st.mu e + 1 ≤ n →
      ∃ r t, marchX e n st = .ret r t ∧ MinRun e st r t := by
  intro n
  induction n with
  | zero => intro st h; omega
  | succ n ih =>
    rintro ⟨v, Tx, Ty, Tz, sn, tr⟩ hn
    simp only [marchX]
    split_ifs with h
    · obtain ⟨w1, w2⟩ := xCrossZ_spec e hs n v Tx Ty Tz sn tr h.le (by omega)
      generalize hw : xCrossZ e n _ = w
      have hw1 := hw ▸ w1
      have hw2 := hw ▸ w2
      clear hw w1 w2
      rcases w with o | s1
      · obtain ⟨r, t, rfl, hrun⟩ := hw1 o rfl
        exact ⟨r, t, rfl, hrun⟩
      · obtain ⟨hr, hmu⟩ := hw2 s1 rfl
        obtain ⟨r, t, h1, h2⟩ := ih s1 (by omega)
        exact ⟨r, t, h1, Reach.minRun hr h2⟩
    · obtain ⟨w1, w2⟩ := xCrossY_spec e hs n v Tx Tz Ty sn tr (not_lt.1 h) (by omega)
      generalize hw : xCrossY e n _ = w
      have hw1 := hw ▸ w1
      have hw2 := hw ▸ w2
      clear hw w1 w2
      rcases w with o | s1
      · obtain ⟨r, t, rfl, hrun⟩ := hw1 o rfl
        exact ⟨r, t, rfl, hrun⟩
      · obtain ⟨hr, hmu⟩ := hw2 s1 rfl
        obtain ⟨r, t, h1, h2⟩ := ih s1 (by omega)
        exact ⟨r, t, h1, Reach.minRun hr h2⟩

/-- The marching loop `marchY` of the code, given fuel for the steps that can
stay in the grid, returns, and what it returns is a run of the
minimum-of-three state machine. -/
theorem marchY_spec (e : Env K) (hs : e.SignsOk) :
    ∀ (n : Nat) (st : MarchState K), st.mu e + 1 ≤ n →
      ∃ r t, marchY e n st = .ret r t ∧ MinRun e st r t := by
  intro n
  induction n with
  | zero => intro st h; omega
  | succ n ih =>
    rintro ⟨v, Tx, Ty, Tz, sn, tr⟩ hn
    simp only [marchY]
    split_ifs with h
    · obtain ⟨w1, w2⟩ := yCrossZ_spec e hs n v Ty Tx Tz sn tr h.le (by omega)
      generalize hw : yCrossZ e n _ = w
      have hw1 := hw ▸ w1
      have hw2 := hw ▸ w2
      clear hw w1 w2
      rcases w with o | s1
      · obtain ⟨r, t, rfl, hrun⟩ := hw1 o rfl
        exact ⟨r, t, rfl, hrun⟩
      · obtain ⟨hr, hmu⟩ := hw2 s1 rfl
        obtain ⟨r, t, h1, h2⟩ := ih s1 (by omega)
        exact ⟨r, t, h1, Reach.minRun hr h2⟩
    · obtain ⟨w1, w2⟩ := yCrossX_spec e hs n v Ty Tz Tx sn tr (not_lt.1 h) (by omega)
      generalize hw : yCrossX e n _ = w
      have hw1 := hw ▸ w1
      have hw2 := hw ▸ w2
      clear hw w1 w2
      rcases w with o | s1
      · obtain ⟨r, t, rfl, hrun⟩ := hw1 o rfl
        exact ⟨r, t, rfl, hrun⟩
      · obtain ⟨hr, hmu⟩ := hw2 s1 rfl
        obtain ⟨r, t, h1, h2⟩ := ih s1 (by omega)
        exact ⟨r, t, h1, Reach.minRun hr h2⟩

end CodeRuns

end RayTracer

/-! ## The value of a run of the state machine -/

namespace RayTracer

section Ahead

variable {K : Type} [LinearOrderedField K]

/-- Moving the origin of the distances by `t`: the ends of the intervals all
move by `t`, and so do the starts, except those of the intervals that start at
the current point. -/
theorem shift_core (t a b c a' b' c' p q r p' q' r' : K) (ht : 0 ≤ t)
    (ha : a = t + a') (hb : b = t + b') (hc : c = t + c')
    (hp : p = t + p' ∨ (p = 0 ∧ p' = 0)) (hq : q = t + q' ∨ (q = 0 ∧ q' = 0))
    (hr : r = t + r' ∨ (r = 0 ∧ r' = 0))
    (hp0 : 0 ≤ p') (hq0 : 0 ≤ q') (hr0 : 0 ≤ r')
    (hone : p = t + p' ∨ q = t + q' ∨ r = t + r') :
    max 0 (min a (min b c) - max p (max q r))
      = max 0 (min a' (min b' c') - max p' (max q' r')) := by
  have h1 : min a (min b c) = t + min a' (min b' c') := by
    rw [ha, hb, hc, min_add_add_left, min_add_add_left]
  have h2 : max p (max q r) = t + max p' (max q' r') := by
    rw [← max_add_add_left, ← max_add_add_left]
    have e1 : max p (max q r) ≤ max (t + p') (max (t + q') (t + r')) := by
      refine max_le ?_ (max_le ?_ ?_)
      · rcases hp with h | ⟨h, _⟩
        · rw [h]; exact le_max_left _ _
        · rw [h]; exact le_trans (by linarith) (le_max_left _ _)
      · rcases hq with h | ⟨h, _⟩
        · rw [h]; exact le_trans (le_max_left _ _) (le_max_right _ _)
        · rw [h]; exact le_trans (by linarith) (le_max_left _ _)
      · rcases hr with h | ⟨h, _⟩
        · rw [h]; exact le_trans (le_max_right _ _) (le_max_right _ _)
        · rw [h]; exact le_trans (by linarith) (le_max_left _ _)
    have e0 : t ≤ max p (max q r) := by
      rcases hone with h | h | h
      · exact le_trans (by linarith) (le_max_left _ _)
      · exact le_trans (by linarith) (le_trans (le_max_left q r) (le_max_right _ _))
      · exact le_trans (by linarith) (le_trans (le_max_right q r) (le_max_right _ _))
    have e2 : max (t + p') (max (t + q') (t + r')) ≤ max p (max q r) := by
      refine max_le ?_ (max_le ?_ ?_)
      · rcases hp with h | ⟨_, h⟩
        · rw [← h]; exact le_max_left _ _
        · rw [h]; simpa using e0
      · rcases hq with h | ⟨_, h⟩
        · rw [← h]; exact le_trans (le_max_left _ _) (le_max_right _ _)
        · rw [h]; simpa using e0
      · rcases hr with h | ⟨_, h⟩
        · rw [← h]; exact le_trans (le_max_right _ _) (le_max_right _ _)
        · rw [h]; simpa using e0
    exact le_antisymm e1 e2
  rw [h1, h2]
  congr 1
  ring

/-- An interval that ends where another starts has no length in common with it. -/
theorem empty_core (a b c p q r m : K) (h1 : min a (min b c) ≤ m) (h2 : m ≤ max p (max q r)) :
    max 0 (min a (min b c) - max p (max q r)) = 0 := by
  apply max_eq_left
  linarith

theorem cellHi_zero (T L : K) : cellHi T L 0 = T := by simp [cellHi]

theorem cellLo_zero (T L : K) : cellLo T L 0 = 0 := by simp [cellLo]

theorem cellHi_shift_same (T L : K) (k : Nat) : cellHi T L (k + 1) = T + cellHi L L k := by
  simp only [cellHi]; push_cast; ring

theorem cellHi_shift_other (T t L : K) (k : Nat) : cellHi T L k = t + cellHi (T - t) L k := by
  simp only [cellHi]; ring

theorem cellLo_shift_same (T L : K) (k : Nat) : cellLo T L (k + 1) = T + cellLo L L k := by
  simp only [cellLo, Nat.succ_ne_zero, if_false]
  split_ifs with h
  · subst h; push_cast; ring
  · push_cast; ring

theorem cellLo_shift_other (T t L : K) (k : Nat) :
    cellLo T L k = t + cellLo (T - t) L k ∨ (cellLo T L k = 0 ∧ cellLo (T - t) L k = 0) := by
  simp only [cellLo]
  split_ifs with h
  · exact Or.inr ⟨rfl, rfl⟩
  · left; ring

theorem cellLo_nonneg (T L : K) (k : Nat) (hT : 0 ≤ T) (hL : 0 ≤ L) : 0 ≤ cellLo T L k := by
  simp only [cellLo]
  split_ifs with h
  · exact le_rfl
  · have : (1 : K) ≤ k := by exact_mod_cast Nat.one_le_iff_ne_zero.2 h
    have : 0 ≤ ((k : K) - 1) * L := mul_nonneg (by linarith) hL
    linarith

theorem cellLo_ge (T L : K) (k : Nat) (hk : k ≠ 0) (hL : 0 ≤ L) : T ≤ cellLo T L k := by
  simp only [cellLo, if_neg hk]
  have : (1 : K) ≤ k := by exact_mod_cast Nat.one_le_iff_ne_zero.2 hk
  have : 0 ≤ ((k : K) - 1) * L := mul_nonneg (by linarith) hL
  linarith

theorem aheadLength_shift_x (e : Env K) (hl : e.LenOk) (st : MarchState K) (hc : st.CountersOk)
    (hmin : st.IsMin .x) (kx ky kz : Nat) :
    aheadLength e st (kx + 1) ky kz = aheadLength e (refStep e .x st) kx ky kz := by
  obtain ⟨l1, l2, l3⟩ := hl
  obtain ⟨c1, c2, c3⟩ := hc
  obtain ⟨_, m2, m3⟩ := hmin
  simp only [MarchState.counter] at m2 m3
  simp only [aheadLength, refStep]
  exact shift_core st.Tx _ _ _ _ _ _ _ _ _ _ _ _ c1
    (cellHi_shift_same _ _ _) (cellHi_shift_other _ _ _ _) (cellHi_shift_other _ _ _ _)
    (Or.inl (cellLo_shift_same _ _ _)) (cellLo_shift_other _ _ _ _) (cellLo_shift_other _ _ _ _)
    (cellLo_nonneg _ _ _ l1 l1) (cellLo_nonneg _ _ _ (by linarith) l2)
    (cellLo_nonneg _ _ _ (by linarith) l3) (Or.inl (cellLo_shift_same _ _ _))

theorem aheadLength_zero_x (e : Env K) (hl : e.LenOk) (st : MarchState K)
    (hmin : st.IsMin .x) (ky kz : Nat) (hk : ky ≠ 0 ∨ kz ≠ 0) :
    aheadLength e st 0 ky kz = 0 := by
  obtain ⟨l1, l2, l3⟩ := hl
  obtain ⟨_, m2, m3⟩ := hmin
  simp only [MarchState.counter] at m2 m3
  simp only [aheadLength]
  apply empty_core _ _ _ _ _ _ st.Tx
  · rw [cellHi_zero]; exact min_le_left _ _
  · rcases hk with h | h
    · exact le_trans (le_trans m2 (cellLo_ge _ _ _ h l2))
        (le_trans (le_max_left _ _) (le_max_right _ _))
    · exact le_trans (le_trans m3 (cellLo_ge _ _ _ h l3))
        (le_trans (le_max_right _ _) (le_max_right _ _))

theorem aheadLength_origin (e : Env K) (st : MarchState K) (hc : st.CountersOk) :
    aheadLength e st 0 0 0 = min st.Tx (min st.Ty st.Tz) := by
  obtain ⟨c1, c2, c3⟩ := hc
  simp only [aheadLength, cellHi_zero, cellLo_zero, max_self, sub_zero]
  exact max_eq_right (le_min c1 (le_min c2 c3))

theorem min_of_isMin_x (st : MarchState K) (hmin : st.IsMin .x) :
    min st.Tx (min st.Ty st.Tz) = st.Tx := by
  obtain ⟨_, m2, m3⟩ := hmin
  simp only [MarchState.counter] at m2 m3
  exact min_eq_left (le_min m2 m3)

/-- A step along `x` takes the part of the current voxel out of the sum of
what lies ahead. -/
theorem aheadSum_step_x (e : Env K) (hs : e.SignsOk) (hl : e.LenOk) (st : MarchState K)
    (hc : st.CountersOk) (hmin : st.IsMin .x) :
    aheadSum e st = ARRAY3DData e.image st.v.x st.v.y st.v.z * st.Tx
      + (if outAxis e .x (refStep e .x st) = true then 0 else aheadSum e (refStep e .x st)) := by
  have hzero : (∑ ky in Finset.range (cap e.N_y st.v.y e.signy + 1),
      ∑ kz in Finset.range (cap e.N_z st.v.z e.signz + 1),
        e.image.data (st.v.x + e.signx * ((0 : Nat) : Int)) (st.v.y + e.signy * ky)
            (st.v.z + e.signz * kz) * aheadLength e st 0 ky kz)
      = ARRAY3DData e.image st.v.x st.v.y st.v.z * st.Tx := by
    rw [Finset.sum_eq_single 0]
    · rw [Finset.sum_eq_single 0]
      · rw [aheadLength_origin e st hc, min_of_isMin_x st hmin]
        simp [ARRAY3DData]
      · intro kz _ hkz
        rw [aheadLength_zero_x e hl st hmin 0 kz (Or.inr hkz), mul_zero]
      · intro h; exact absurd (Finset.mem_range.2 (Nat.succ_pos _)) h
    · intro ky _ hky
      apply Finset.sum_eq_zero
      intro kz _
      rw [aheadLength_zero_x e hl st hmin ky kz (Or.inl hky), mul_zero]
    · intro h; exact absurd (Finset.mem_range.2 (Nat.succ_pos _)) h
  unfold aheadSum
  rw [Finset.sum_range_succ', hzero, add_comm]
  congr 1
  split_ifs with ho
  · have h0 := (outAxis_iff_cap e hs .x st).1 ho
    simp only at h0
    rw [h0, Finset.range_zero, Finset.sum_empty]
  · have ho2 : outAxis e .x (refStep e .x st) = false := by simpa using ho
    have hcap := cap_next e.N_x st.v.x e.signx hs.1
      (by simpa [outAxis, outX, refStep] using ho2)
    rw [← hcap]
    simp only [refStep]
    apply Finset.sum_congr rfl
    intro kx _
    apply Finset.sum_congr rfl
    intro ky _
    apply Finset.sum_congr rfl
    intro kz _
    have hx : st.v.x + e.signx * ((kx + 1 : Nat) : Int) = st.v.x + e.signx + e.signx * kx := by
      push_cast; ring
    rw [hx, aheadLength_shift_x e hl st hc hmin kx ky kz]
    simp only [refStep]

theorem aheadLength_shift_y (e : Env K) (hl : e.LenOk) (st : MarchState K) (hc : st.CountersOk)
    (hmin : st.IsMin .y) (kx ky kz : Nat) :
    aheadLength e st kx (ky + 1) kz = aheadLength e (refStep e .y st) kx ky kz := by
  obtain ⟨l1, l2, l3⟩ := hl
  obtain ⟨c1, c2, c3⟩ := hc
  obtain ⟨m1, _, m3⟩ := hmin
  simp only [MarchState.counter] at m1 m3
  simp only [aheadLength, refStep]
  exact shift_core st.Ty _ _ _ _ _ _ _ _ _ _ _ _ c2
    (cellHi_shift_other _ _ _ _) (cellHi_shift_same _ _ _) (cellHi_shift_other _ _ _ _)
    (cellLo_shift_other _ _ _ _) (Or.inl (cellLo_shift_same _ _ _)) (cellLo_shift_other _ _ _ _)
    (cellLo_nonneg _ _ _ (by linarith) l1) (cellLo_nonneg _ _ _ l2 l2)
    (cellLo_nonneg _ _ _ (by linarith) l3) (Or.inr (Or.inl (cellLo_shift_same _ _ _)))

theorem aheadLength_shift_z (e : Env K) (hl : e.LenOk) (st : MarchState K) (hc : st.CountersOk)
    (hmin : st.IsMin .z) (kx ky kz : Nat) :
    aheadLength e st kx ky (kz + 1) = aheadLength e (refStep e .z st) kx ky kz := by
  obtain ⟨l1, l2, l3⟩ := hl
  obtain ⟨c1, c2, c3⟩ := hc
  obtain ⟨m1, m2, _⟩ := hmin
  simp only [MarchState.counter] at m1 m2
  simp only [aheadLength, refStep]
  exact shift_core st.Tz _ _ _ _ _ _ _ _ _ _ _ _ c3
    (cellHi_shift_other _ _ _ _) (cellHi_shift_other _ _ _ _) (cellHi_shift_same _ _ _)
    (cellLo_shift_other _ _ _ _) (cellLo_shift_other _ _ _ _) (Or.inl (cellLo_shift_same _ _ _))
    (cellLo_nonneg _ _ _ (by linarith) l1) (cellLo_nonneg _ _ _ (by linarith) l2)
    (cellLo_nonneg _ _ _ l3 l3) (Or.inr (Or.inr (cellLo_shift_same _ _ _)))

theorem aheadLength_zero_y (e : Env K) (hl : e.LenOk) (st : MarchState K)
    (hmin : st.IsMin .y) (kx kz : Nat) (hk : kx ≠ 0 ∨ kz ≠ 0) :
    aheadLength e st kx 0 kz = 0 := by
  obtain ⟨l1, l2, l3⟩ := hl
  obtain ⟨m1, _, m3⟩ := hmin
  simp only [MarchState.counter] at m1 m3
  simp only [aheadLength]
  apply empty_core _ _ _ _ _ _ st.Ty
  · rw [cellHi_zero]; exact le_trans (min_le_right _ _) (min_le_left _ _)
  · rcases hk with h | h
    · exact le_trans (le_trans m1 (cellLo_ge _ _ _ h l1)) (le_max_left _ _)
    · exact le_trans (le_trans m3 (cellLo_ge _ _ _ h l3))
        (le_trans (le_max_right _ _) (le_max_right _ _))

theorem aheadLength_zero_z (e : Env K) (hl : e.LenOk) (st : MarchState K)
    (hmin : st.IsMin .z) (kx ky : Nat) (hk : kx ≠ 0 ∨ ky ≠ 0) :
    aheadLength e st kx ky 0 = 0 := by
  obtain ⟨l1, l2, l3⟩ := hl
  obtain ⟨m1, m2, _⟩ := hmin
  simp only [MarchState.counter] at m1 m2
  simp only [aheadLength]
  apply empty_core _ _ _ _ _ _ st.Tz
  · rw [cellHi_zero]; exact le_trans (min_le_right _ _) (min_le_right _ _)
  · rcases hk with h | h
    · exact le_trans (le_trans m1 (cellLo_ge _ _ _ h l1)) (le_max_left _ _)
    · exact le_trans (le_trans m2 (cellLo_ge _ _ _ h l2))
        (le_trans (le_max_left _ _) (le_max_right _ _))

theorem min_of_isMin_y (st : MarchState K) (hmin : st.IsMin .y) :
    min st.Tx (min st.Ty st.Tz) = st.Ty := by
  obtain ⟨m1, _, m3⟩ := hmin
  simp only [MarchState.counter] at m1 m3
  rw [min_eq_left m3, min_eq_right m1]

theorem min_of_isMin_z (st : MarchState K) (hmin : st.IsMin .z) :
    min st.Tx (min st.Ty st.Tz) = st.Tz := by
  obtain ⟨m1, m2, _⟩ := hmin
  simp only [MarchState.counter] at m1 m2
  rw [min_eq_right m2, min_eq_right m1]

/-- A step along `y` takes the part of the current voxel out of the sum of
what lies ahead. -/
theorem aheadSum_step_y (e : Env K) (hs : e.SignsOk) (hl : e.LenOk) (st : MarchState K)
    (hc : st.CountersOk) (hmin : st.IsMin .y) :
    aheadSum e st = ARRAY3DData e.image st.v.x st.v.y st.v.z * st.Ty
      + (if outAxis e .y (refStep e .y st) = true then 0 else aheadSum e (refStep e .y st)) := by
  have hzero : (∑ kx in Finset.range (cap e.N_x st.v.x e.signx + 1),
      ∑ kz in Finset.range (cap e.N_z st.v.z e.signz + 1),
        e.image.data (st.v.x + e.signx * kx) (st.v.y + e.signy * ((0 : Nat) : Int))
            (st.v.z + e.signz * kz) * aheadLength e st kx 0 kz)
      = ARRAY3DData e.image st.v.x st.v.y st.v.z * st.Ty := by
    rw [Finset.sum_eq_single 0]
    · rw [Finset.sum_eq_single 0]
      · rw [aheadLength_origin e st hc, min_of_isMin_y st hmin]
        simp [ARRAY3DData]
      · intro kz _ hkz
        rw [aheadLength_zero_y e hl st hmin 0 kz (Or.inr hkz), mul_zero]
      · intro h; exact absurd (Finset.mem_range.2 (Nat.succ_pos _)) h
    · intro kx _ hkx
      apply Finset.sum_eq_zero
      intro kz _
      rw [aheadLength_zero_y e hl st hmin kx kz (Or.inl hkx), mul_zero]
    · intro h; exact absurd (Finset.mem_range.2 (Nat.succ_pos _)) h
  unfold aheadSum
  simp only [Finset.sum_range_succ' _ (cap e.N_y st.v.y e.signy)]
  rw [Finset.sum_add_distrib, hzero, add_comm]
  congr 1
  split_ifs with ho
  · have h0 := (outAxis_iff_cap e hs .y st).1 ho
    simp only at h0
    simp only [h0, Finset.range_zero, Finset.sum_empty, Finset.sum_const_zero]
  · have ho2 : outAxis e .y (refStep e .y st) = false := by simpa using ho
    have hcap := cap_next e.N_y st.v.y e.signy hs.2.1
      (by simpa [outAxis, outY, refStep] using ho2)
    rw [← hcap]
    simp only [refStep]
    apply Finset.sum_congr rfl
    intro kx _
    apply Finset.sum_congr rfl
    intro ky _
    apply Finset.sum_congr rfl
    intro kz _
    have hy : st.v.y + e.signy * ((ky + 1 : Nat) : Int) = st.v.y + e.signy + e.signy * ky := by
      push_cast; ring
    rw [hy, aheadLength_shift_y e hl st hc hmin kx ky kz]
    simp only [refStep]

/-- A step along `z` takes the part of the current voxel out of the sum of
what lies ahead. -/
theorem aheadSum_step_z (e : Env K) (hs : e.SignsOk) (hl : e.LenOk) (st : MarchState K)
    (hc : st.CountersOk) (hmin : st.IsMin .z) :
    aheadSum e st = ARRAY3DData e.image st.v.x st.v.y st.v.z * st.Tz
      + (if outAxis e .z (refStep e .z st) = true then 0 else aheadSum e (refStep e .z st)) := by
  have hzero : (∑ kx in Finset.range (cap e.N_x st.v.x e.signx + 1),
      ∑ ky in Finset.range (cap e.N_y st.v.y e.signy + 1),
        e.image.data (st.v.x + e.signx * kx) (st.v.y + e.signy * ky)
            (st.v.z + e.signz * ((0 : Nat) : Int)) * aheadLength e st kx ky 0)
      = ARRAY3DData e.image st.v.x st.v.y st.v.z * st.Tz := by
    rw [Finset.sum_eq_single 0]
    · rw [Finset.sum_eq_single 0]
      · rw [aheadLength_origin e st hc, min_of_isMin_z st hmin]
        simp [ARRAY3DData]
      · intro ky _ hky
        rw [aheadLength_zero_z e hl st hmin 0 ky (Or.inr hky), mul_zero]
      · intro h; exact absurd (Finset.mem_range.2 (Nat.succ_pos _)) h
    · intro kx _ hkx
      apply Finset.sum_eq_zero
      intro ky _
      rw [aheadLength_zero_z e hl st hmin kx ky (Or.inl hkx), mul_zero]
    · intro h; exact absurd (Finset.mem_range.2 (Nat.succ_pos _)) h
  unfold aheadSum
  simp only [Finset.sum_range_succ' _ (cap e.N_z st.v.z e.signz)]
  simp only [Finset.sum_add_distrib]
  rw [hzero, add_comm]
  congr 1
  split_ifs with ho
  · have h0 := (outAxis_iff_cap e hs .z st).1 ho
    simp only at h0
    simp only [h0, Finset.range_zero, Finset.sum_empty, Finset.sum_const_zero]
  · have ho2 : outAxis e .z (refStep e .z st) = false := by simpa using ho
    have hcap := cap_next e.N_z st.v.z e.signz hs.2.2
      (by simpa [outAxis, outZ, refStep] using ho2)
    rw [← hcap]
    simp only [refStep]
    apply Finset.sum_congr rfl
    intro kx _
    apply Finset.sum_congr rfl
    intro ky _
    apply Finset.sum_congr rfl
    intro kz _
    have hz : st.v.z + e.signz * ((kz + 1 : Nat) : Int) = st.v.z + e.signz + e.signz * kz := by
      push_cast; ring
    rw [hz, aheadLength_shift_z e hl st hc hmin kx ky kz]
    simp only [refStep]

theorem refStep_countersOk (e : Env K) (hl : e.LenOk) (a : Axis) (st : MarchState K)
    (hmin : st.IsMin a) : (refStep e a st).CountersOk := by
  obtain ⟨l1, l2, l3⟩ := hl
  obtain ⟨m1, m2, m3⟩ := hmin
  cases a <;> simp only [MarchState.counter] at m1 m2 m3 <;>
    simp only [MarchState.CountersOk, refStep] <;> refine ⟨?_, ?_, ?_⟩ <;> linarith

theorem aheadSum_step (e : Env K) (hs : e.SignsOk) (hl : e.LenOk) (a : Axis)
    (st : MarchState K) (hc : st.CountersOk) (hmin : st.IsMin a) :
    st.sino + aheadSum e st = (refStep e a st).sino
      + (if outAxis e a (refStep e a st) = true then 0 else aheadSum e (refStep e a st)) := by
  cases a
  · rw [aheadSum_step_x e hs hl st hc hmin]; simp only [refStep]; ring
  · rw [aheadSum_step_y e hs hl st hc hmin]; simp only [refStep]; ring
  · rw [aheadSum_step_z e hs hl st hc hmin]; simp only [refStep]; ring

/-- The value a run of the state machine returns does not depend on the way
the axis is picked among those with the minimum counter: it is the accumulator
plus the sum of what lies ahead. -/
theorem MinRun.value {e : Env K} (hs : e.SignsOk) (hl : e.LenOk) {st : MarchState K} {r : K}
    {t : List (Vector3DInt × K)} (h : MinRun e st r t) (hc : st.CountersOk) :
    r = st.sino + aheadSum e st := by
  induction h with
  | exit a st hmin hout =>
    rw [aheadSum_step e hs hl a st hc hmin, if_pos hout, add_zero]
  | step a st s tr hmin hout _ ih =>
    rw [aheadSum_step e hs hl a st hc hmin, if_neg (by simp [hout])]
    exact ih (refStep_countersOk e hl a st hmin)

/-- The reference loop, given fuel for the steps that can stay in the grid,
returns, and what it returns is a run of the state machine. -/
theorem refMarch_spec (pick : MarchState K → Axis) (hpick : ∀ s : MarchState K, s.IsMin (pick s))
    (e : Env K) (hs : e.SignsOk) :
    ∀ (n : Nat) (st : MarchState K), st.mu e + 1 ≤ n →
      ∃ r t, refMarch pick e n st = .ret r t ∧ MinRun e st r t := by
  intro n
  induction n with
  | zero => intro st h; omega
  | succ n ih =>
    intro st hn
    simp only [refMarch]
    split_ifs with ho
    · exact ⟨_, _, rfl, MinRun.exit (pick st) st (hpick st) ho⟩
    · have ho2 : outAxis e (pick st) (refStep e (pick st) st) = false := by simpa using ho
      have hmu := mu_step e hs (pick st) st ho2
      obtain ⟨r, t, h1, h2⟩ := ih (refStep e (pick st) st) (by omega)
      exact ⟨r, t, h1, MinRun.step (pick st) st r t (hpick st) ho2 h2⟩

theorem pickFirstMin_isMin (s : MarchState K) : s.IsMin (pickFirstMin s) := by
  unfold pickFirstMin
  split_ifs with h1 h2
  · exact ⟨le_rfl, h1.1, h1.2⟩
  · refine ⟨?_, le_rfl, h2⟩
    show s.Ty ≤ s.Tx
    by_contra h
    exact h1 ⟨(not_le.1 h).le, le_trans (not_le.1 h).le h2⟩
  · refine ⟨?_, (not_le.1 h2).le, le_rfl⟩
    show s.Tz ≤ s.Tx
    by_contra h
    exact h1 ⟨le_trans (not_le.1 h).le (not_le.1 h2).le, (not_le.1 h).le⟩

end Ahead

end RayTracer

/-! ## The slab test -/

namespace RayTracer

section ExtValLemmas

variable {K : Type} [LinearOrderedField K]

theorem MAX_fin_fin (a b : K) : MAX (ExtVal.fin a) (ExtVal.fin b) = ExtVal.fin (max a b) := by
  simp only [MAX, ExtVal.lt]
  by_cases h : b < a
  · simp [h, max_eq_left h.le]
  · simp [h, max_eq_right (not_lt.1 h)]

theorem MIN_fin_fin (a b : K) : MIN (ExtVal.fin a) (ExtVal.fin b) = ExtVal.fin (min a b) := by
  simp only [MIN, ExtVal.lt]
  by_cases h : a < b
  · simp [h, min_eq_left h.le]
  · simp [h, min_eq_right (not_lt.1 h)]

theorem MAX_fin_ninf (a : K) : MAX (ExtVal.fin a) ExtVal.ninf = ExtVal.fin a := by
  simp [MAX, ExtVal.lt]

theorem MAX_ninf_fin (b : K) : MAX ExtVal.ninf (ExtVal.fin b) = ExtVal.fin b := by
  simp [MAX, ExtVal.lt]

theorem MAX_ninf_ninf : MAX (ExtVal.ninf : ExtVal K) ExtVal.ninf = ExtVal.ninf := by
  simp [MAX, ExtVal.lt]

theorem MIN_fin_pinf (a : K) : MIN (ExtVal.fin a) ExtVal.pinf = ExtVal.fin a := by
  simp [MIN, ExtVal.lt]

theorem MIN_pinf_fin (b : K) : MIN ExtVal.pinf (ExtVal.fin b) = ExtVal.fin b := by
  simp [MIN, ExtVal.lt]

theorem MIN_pinf_pinf : MIN (ExtVal.pinf : ExtVal K) ExtVal.pinf = ExtVal.pinf := by
  simp [MIN, ExtVal.lt]

theorem MAX_pinf_right (a : ExtVal K) : MAX a ExtVal.pinf = ExtVal.pinf := by
  cases a <;> simp [MAX, ExtVal.lt]

theorem MAX_pinf_left (b : ExtVal K) (hb : b ≠ ExtVal.nan) : MAX ExtVal.pinf b = ExtVal.pinf := by
  cases b <;> simp_all [MAX, ExtVal.lt]

theorem MIN_ninf_right (a : ExtVal K) : MIN a ExtVal.ninf = ExtVal.ninf := by
  cases a <;> simp [MIN, ExtVal.lt]

theorem MIN_ninf_left (b : ExtVal K) (hb : b ≠ ExtVal.nan) : MIN ExtVal.ninf b = ExtVal.ninf := by
  cases b <;> simp_all [MIN, ExtVal.lt]

theorem MAX_ne_nan (a b : ExtVal K) (ha : a ≠ ExtVal.nan) (hb : b ≠ ExtVal.nan) :
    MAX a b ≠ ExtVal.nan := by
  unfold MAX; split_ifs <;> assumption

theorem MIN_ne_nan (a b : ExtVal K) (ha : a ≠ ExtVal.nan) (hb : b ≠ ExtVal.nan) :
    MIN a b ≠ ExtVal.nan := by
  unfold MIN; split_ifs <;> assumption

theorem ge_pinf_left (b : ExtVal K) (hb : b ≠ ExtVal.nan) : ExtVal.ge ExtVal.pinf b = true := by
  cases b <;> simp_all [ExtVal.ge]

theorem ge_ninf_right (a : ExtVal K) (ha : a ≠ ExtVal.nan) : ExtVal.ge a ExtVal.ninf = true := by
  cases a <;> simp_all [ExtVal.ge]

end ExtValLemmas

section AxisSlab

variable {K : Type} [LinearOrderedField K]

/-- The slab of an axis on which the ray moves. -/
theorem axis_moving (s t L : K) (N : Int) (hd : t - s ≠ 0) :
    MIN (ExtVal.quot (L * (((0 : Int) : K) - s)) (t - s)) (ExtVal.quot (L * ((N : K) - s)) (t - s))
      = ExtVal.fin (axisNear s t L N) ∧
    MAX (ExtVal.quot (L * (((0 : Int) : K) - s)) (t - s)) (ExtVal.quot (L * ((N : K) - s)) (t - s))
      = ExtVal.fin (axisFar s t L N) := by
  simp only [ExtVal.quot, if_neg hd, MIN_fin_fin, MAX_fin_fin, axisNear, axisFar]
  exact ⟨trivial, trivial⟩

theorem quot_zero_pos (n d : K) (hd : d = 0) (hn : 0 < n) : ExtVal.quot n d = ExtVal.pinf := by
  unfold ExtVal.quot; rw [if_pos hd, if_pos hn]

theorem quot_zero_neg (n d : K) (hd : d = 0) (hn : n < 0) : ExtVal.quot n d = ExtVal.ninf := by
  unfold ExtVal.quot; rw [if_pos hd, if_neg (not_lt.2 hn.le), if_pos hn]

/-- The slab of an axis on which the ray does not move, with the coordinate
strictly inside the slab. -/
theorem axis_inside (s t L : K) (N : Int) (hL : 0 < L) (hd : t - s = 0) (h0 : 0 < s)
    (hN : s < (N : K)) :
    MIN (ExtVal.quot (L * (((0 : Int) : K) - s)) (t - s)) (ExtVal.quot (L * ((N : K) - s)) (t - s))
      = ExtVal.ninf ∧
    MAX (ExtVal.quot (L * (((0 : Int) : K) - s)) (t - s)) (ExtVal.quot (L * ((N : K) - s)) (t - s))
      = ExtVal.pinf := by
  have h1 : L * (((0 : Int) : K) - s) < 0 :=
    mul_neg_of_pos_of_neg hL (by rw [Int.cast_zero]; linarith)
  have h2 : 0 < L * ((N : K) - s) := mul_pos hL (by linarith)
  rw [quot_zero_neg _ _ hd h1, quot_zero_pos _ _ hd h2]
  simp [MIN, MAX, ExtVal.lt]

/-- The slab of an axis on which the ray does not move, with the coordinate
outside the slab. -/
theorem axis_outside (s t L : K) (N : Int) (hL : 0 < L) (hN : 0 < N) (hd : t - s = 0)
    (hs : s < 0 ∨ (N : K) < s) :
    (MIN (ExtVal.quot (L * (((0 : Int) : K) - s)) (t - s))
        (ExtVal.quot (L * ((N : K) - s)) (t - s)) = ExtVal.pinf ∧
      MAX (ExtVal.quot (L * (((0 : Int) : K) - s)) (t - s))
        (ExtVal.quot (L * ((N : K) - s)) (t - s)) = ExtVal.pinf) ∨
    (MIN (ExtVal.quot (L * (((0 : Int) : K) - s)) (t - s))
        (ExtVal.quot (L * ((N : K) - s)) (t - s)) = ExtVal.ninf ∧
      MAX (ExtVal.quot (L * (((0 : Int) : K) - s)) (t - s))
        (ExtVal.quot (L * ((N : K) - s)) (t - s)) = ExtVal.ninf) := by
  have hNK : (0 : K) < N := by exact_mod_cast hN
  rcases hs with h | h
  · left
    have h1 : 0 < L * (((0 : Int) : K) - s) := mul_pos hL (by rw [Int.cast_zero]; linarith)
    have h2 : 0 < L * ((N : K) - s) := mul_pos hL (by linarith)
    rw [quot_zero_pos _ _ hd h1, quot_zero_pos _ _ hd h2]
    simp [MIN, MAX, ExtVal.lt]
  · right
    have h1 : L * (((0 : Int) : K) - s) < 0 :=
      mul_neg_of_pos_of_neg hL (by rw [Int.cast_zero]; linarith)
    have h2 : L * ((N : K) - s) < 0 := mul_neg_of_pos_of_neg hL (by linarith)
    rw [quot_zero_neg _ _ hd h1, quot_zero_neg _ _ hd h2]
    simp [MIN, MAX, ExtVal.lt]

/-- The two slab values of an axis on which the ray moves or stays strictly
inside the slab. -/
theorem axis_in (s t L : K) (N : Int) (hL : 0 < L) (h : AxisIn s t N) :
    (MIN (ExtVal.quot (L * (((0 : Int) : K) - s)) (t - s))
        (ExtVal.quot (L * ((N : K) - s)) (t - s)) = ExtVal.fin (axisNear s t L N) ∨
      (MIN (ExtVal.quot (L * (((0 : Int) : K) - s)) (t - s))
        (ExtVal.quot (L * ((N : K) - s)) (t - s)) = ExtVal.ninf ∧ axisNear s t L N = 0)) ∧
    (MAX (ExtVal.quot (L * (((0 : Int) : K) - s)) (t - s))
        (ExtVal.quot (L * ((N : K) - s)) (t - s)) = ExtVal.fin (axisFar s t L N) ∨
      (MAX (ExtVal.quot (L * (((0 : Int) : K) - s)) (t - s))
        (ExtVal.quot (L * ((N : K) - s)) (t - s)) = ExtVal.pinf ∧ axisFar s t L N = L)) := by
  by_cases hd : t - s = 0
  · rcases h with h | ⟨h0, hN⟩
    · exact absurd hd h
    · obtain ⟨h1, h2⟩ := axis_inside s t L N hL hd h0 hN
      exact ⟨Or.inr ⟨h1, by simp [axisNear, hd]⟩, Or.inr ⟨h2, by simp [axisFar, hd]⟩⟩
  · obtain ⟨h1, h2⟩ := axis_moving s t L N hd
    exact ⟨Or.inl h1, Or.inl h2⟩

theorem combine_near (nx ny nz : K) (mx my mz : ExtVal K)
    (hx : mx = ExtVal.fin nx ∨ (mx = ExtVal.ninf ∧ nx = 0))
    (hy : my = ExtVal.fin ny ∨ (my = ExtVal.ninf ∧ ny = 0))
    (hz : mz = ExtVal.fin nz ∨ (mz = ExtVal.ninf ∧ nz = 0)) :
    MAX (MAX (ExtVal.fin 0) mx) (MAX my mz) = ExtVal.fin (max (max 0 nx) (max ny nz)) := by
  rcases hx with rfl | ⟨rfl, rfl⟩ <;> rcases hy with rfl | ⟨rfl, rfl⟩ <;>
    rcases hz with rfl | ⟨rfl, rfl⟩ <;>
    simp only [MAX_fin_fin, MAX_fin_ninf, MAX_ninf_fin, MAX_ninf_ninf, ExtVal.fin.injEq] <;>
    simp only [max_def] <;> split_ifs <;> linarith

theorem combine_far (L fx fy fz : K) (Mx My Mz : ExtVal K)
    (hx : Mx = ExtVal.fin fx ∨ (Mx = ExtVal.pinf ∧ fx = L))
    (hy : My = ExtVal.fin fy ∨ (My = ExtVal.pinf ∧ fy = L))
    (hz : Mz = ExtVal.fin fz ∨ (Mz = ExtVal.pinf ∧ fz = L)) :
    MIN (MIN (ExtVal.fin L) Mx) (MIN My Mz) = ExtVal.fin (min (min L fx) (min fy fz)) := by
  rcases hx with rfl | ⟨rfl, rfl⟩ <;> rcases hy with rfl | ⟨rfl, rfl⟩ <;>
    rcases hz with rfl | ⟨rfl, rfl⟩ <;>
    simp only [MIN_fin_fin, MIN_fin_pinf, MIN_pinf_fin, MIN_pinf_pinf, ExtVal.fin.injEq] <;>
    simp only [min_def] <;> split_ifs <;> linarith

theorem combine_pinf (mx my mz : ExtVal K) (hx : mx ≠ ExtVal.nan) (hy : my ≠ ExtVal.nan)
    (hz : mz ≠ ExtVal.nan) (h : mx = ExtVal.pinf ∨ my = ExtVal.pinf ∨ mz = ExtVal.pinf) :
    MAX (MAX (ExtVal.fin 0) mx) (MAX my mz) = ExtVal.pinf := by
  rcases h with rfl | rfl | rfl
  · rw [MAX_pinf_right, MAX_pinf_left _ (MAX_ne_nan _ _ hy hz)]
  · rw [MAX_pinf_left _ hz, MAX_pinf_right]
  · rw [MAX_pinf_right, MAX_pinf_right]

theorem combine_ninf (L : K) (Mx My Mz : ExtVal K) (hx : Mx ≠ ExtVal.nan)
    (hy : My ≠ ExtVal.nan) (hz : Mz ≠ ExtVal.nan)
    (h : Mx = ExtVal.ninf ∨ My = ExtVal.ninf ∨ Mz = ExtVal.ninf) :
    MIN (MIN (ExtVal.fin L) Mx) (MIN My Mz) = ExtVal.ninf := by
  rcases h with rfl | rfl | rfl
  · rw [MIN_ninf_right, MIN_ninf_left _ (MIN_ne_nan _ _ hy hz)]
  · rw [MIN_ninf_left _ hz, MIN_ninf_right]
  · rw [MIN_ninf_right, MIN_ninf_right]

end AxisSlab

end RayTracer

namespace RayTracer
section Cells
variable {K : Type} [LinearOrderedField K]

theorem cap_pos_eq (N v : Int) (h0 : 0 ≤ v) (h1 : v < N) : (cap N v 1 : Int) = N - 1 - v := by
  unfold cap
  simp only [if_true]
  split_ifs with h
  · rw [Int.toNat_of_nonneg (by omega)]
  · simp; omega

theorem cap_neg_eq (N v : Int) (h0 : 0 ≤ v) (h1 : v < N) : (cap N v (-1) : Int) = v := by
  unfold cap
  have hne : ¬ ((-1 : Int) = 1) := by decide
  simp only [if_neg hne]
  split_ifs with h
  · rw [Int.toNat_of_nonneg h0]
  · simp; omega

theorem interval_pos (s d L : K) (hL : 0 < L) (hd : 0 < d) (i : Int) :
    axisInterval s d L i = (L * ((i : K) - s) / d, L * ((i : K) + 1 - s) / d) := by
  have h : L * ((i : K) - s) / d ≤ L * ((i : K) + 1 - s) / d := by
    apply div_le_div_of_nonneg_right _ hd.le
    apply mul_le_mul_of_nonneg_left _ hL.le
    linarith
  simp only [axisInterval, if_neg hd.ne.symm, min_eq_left h, max_eq_right h]

theorem interval_neg (s d L : K) (hL : 0 < L) (hd : d < 0) (i : Int) :
    axisInterval s d L i = (L * ((i : K) + 1 - s) / d, L * ((i : K) - s) / d) := by
  have h : L * ((i : K) + 1 - s) / d ≤ L * ((i : K) - s) / d := by
    apply div_le_div_of_nonpos_of_le hd.le
    apply mul_le_mul_of_nonneg_left _ hL.le
    linarith
  simp only [axisInterval, if_neg hd.ne, min_eq_right h, max_eq_left h]

end Cells

section Entry
variable {K : Type} [LinearOrderedField K] [FloorRing K]

theorem toInt_nonneg_eq (x : K) (h : 0 ≤ x) : toInt x = ⌊x⌋ := by
  simp [toInt, h]

/-- The entry coordinate `c >= 0` of an axis with a positive direction: the
current voxel `v` has `v <= c < v + 1`, the next plane is `v + 1`, and the
coordinate is taken to lie on a grid plane exactly when `c = v`. -/
theorem entryAxis_pos (c d : K) (hc0 : 0 ≤ c) (hd : 0 < d)
    (hc : (∃ n : Int, c = n) ∨ ∀ n : Int, 1 / 10000 ≤ |c - n|) :
    ∃ (v : Int) (onp : Bool), entryAxis c d 1 = (v, v + 1, onp) ∧ (v : K) ≤ c ∧ c < v + 1 ∧
      (onp = true ↔ c = v) := by
  have hnd : ¬ d < 0 := not_lt.2 hd.le
  rcases hc with ⟨n, hn⟩ | hfar
  · -- the coordinate is an integer
    subst hn
    have hr : toInt ((n : K) + 1 / 2) = n := by
      rw [toInt_nonneg_eq _ (by linarith), Int.floor_eq_iff]
      constructor <;> linarith
    refine ⟨n, true, ?_, le_refl _, by linarith, by simp⟩
    have h0 : |(n : K) - ((n : Int) : K)| < 1 / 10000 := by
      rw [sub_self, abs_zero]; norm_num
    simp only [entryAxis, hr, if_pos h0, if_neg hnd]
  · -- the coordinate is away from the integers
    have h1 : ¬ |c - ((toInt (c + 1 / 2) : Int) : K)| < 1 / 10000 := not_lt.2 (hfar _)
    have hv : toInt c = ⌊c⌋ := toInt_nonneg_eq c hc0
    have hu : toInt (c + 1) = ⌊c⌋ + 1 := by
      rw [toInt_nonneg_eq _ (by linarith), Int.floor_add_one]
    refine ⟨⌊c⌋, false, ?_, Int.floor_le c, Int.lt_floor_add_one c, ?_⟩
    · simp only [entryAxis, if_neg h1, if_neg hnd, hv, hu]
    · constructor
      · intro h; cases h
      · intro h
        have := hfar ⌊c⌋
        rw [← h, sub_self, abs_zero] at this
        norm_num at this

/-- The entry coordinate `c >= 0` of an axis with a negative direction: the
current voxel `v` has `v < c <= v + 1`, the next plane is `v`, and the
coordinate is taken to lie on a grid plane exactly when `c = v + 1`. -/
theorem entryAxis_neg (c d : K) (hc0 : 0 ≤ c) (hd : d < 0)
    (hc : (∃ n : Int, c = n) ∨ ∀ n : Int, 1 / 10000 ≤ |c - n|) :
    ∃ (v : Int) (onp : Bool), entryAxis c d (-1) = (v, v, onp) ∧ (v : K) < c ∧ c ≤ v + 1 ∧
      (onp = true ↔ c = v + 1) := by
  rcases hc with ⟨n, hn⟩ | hfar
  · subst hn
    have hr : toInt ((n : K) + 1 / 2) = n := by
      rw [toInt_nonneg_eq _ (by linarith), Int.floor_eq_iff]
      constructor <;> linarith
    refine ⟨n - 1, true, ?_, by push_cast; linarith, by push_cast; linarith, by simp⟩
    have h0 : |(n : K) - ((n : Int) : K)| < 1 / 10000 := by
      rw [sub_self, abs_zero]; norm_num
    simp only [entryAxis, hr, if_pos h0, if_pos hd]
    rfl
  · have h1 : ¬ |c - ((toInt (c + 1 / 2) : Int) : K)| < 1 / 10000 := not_lt.2 (hfar _)
    have hv : toInt c = ⌊c⌋ := toInt_nonneg_eq c hc0
    have hne : (⌊c⌋ : K) ≠ c := by
      intro h
      have := hfar ⌊c⌋
      rw [h, sub_self, abs_zero] at this
      norm_num at this
    refine ⟨⌊c⌋, false, ?_, lt_of_le_of_ne (Int.floor_le c) hne, (Int.lt_floor_add_one c).le, ?_⟩
    · simp only [entryAxis, if_neg h1, if_pos hd, hv]
    · constructor
      · intro h; cases h
      · intro h
        have h2 := hfar (⌊c⌋ + 1)
        have h3 : c - (((⌊c⌋ + 1 : Int)) : K) = 0 := by push_cast; linarith
        rw [h3, abs_zero] at h2
        norm_num at h2

/-- The geometry of an axis along which the coordinate grows. -/
theorem axis_geo_pos (s tt L t E : K) (N : Int) (hL : 0 < L) (hN : 0 < N) (hd : 0 < tt - s)
    (hbig : 1 / 10000 < |tt - s|) (hnear : axisNear s tt L N ≤ t)
    (hfar : t < axisFar s tt L N)
    (hc : (∃ n : Int, s + t * (tt - s) / L = n) ∨
      ∀ n : Int, 1 / 10000 ≤ |s + t * (tt - s) / L - n|) :
    ∃ (v : Int) (onp : Bool),
      entryAxis (entryCoord s (tt - s) L t) (tt - s) (signOf (tt - s)) = (v, v + 1, onp) ∧
      signOf (tt - s) = 1 ∧
      AxisGeo s tt L t E N v 1 (nextLambda (v + 1) s tt L - t) (unitLen L (tt - s)) ∧
      (t = axisNear s tt L N → onp = true) ∧
      (onp = true → nextLambda (v + 1) s tt L - t = unitLen L (tt - s)) ∧
      nextLambda (v + 1) s tt L ≤ axisFar s tt L N ∧
      t + cellHi (nextLambda (v + 1) s tt L - t) (unitLen L (tt - s)) (cap N v 1)
        = axisFar s tt L N := by
  have hdne : tt - s ≠ 0 := hd.ne.symm
  have hg : 0 < L / (tt - s) := div_pos hL hd
  have hNK : (0 : K) < (N : K) := by exact_mod_cast hN
  have hφ : ∀ x : K, L * (x - s) / (tt - s) = L / (tt - s) * (x - s) := by intro x; ring
  have hmono : ∀ x y : K, x ≤ y → L * (x - s) / (tt - s) ≤ L * (y - s) / (tt - s) := by
    intro x y h
    rw [hφ, hφ]
    exact mul_le_mul_of_nonneg_left (by linarith) hg.le
  have hent : L * (s + t * (tt - s) / L - s) / (tt - s) = t := by
    field_simp
    ring
  have hinv : ∀ x : K, L * (x - s) / (tt - s) ≤ t → x ≤ s + t * (tt - s) / L := by
    intro x h
    by_contra hx
    push_neg at hx
    have h2 : L * (s + t * (tt - s) / L - s) / (tt - s) < L * (x - s) / (tt - s) := by
      rw [hφ, hφ]
      exact mul_lt_mul_of_pos_left (by linarith) hg
    rw [hent] at h2
    linarith
  have hinv2 : ∀ x : K, t < L * (x - s) / (tt - s) → s + t * (tt - s) / L < x := by
    intro x h
    by_contra hx
    push_neg at hx
    have := hmono _ _ hx
    rw [hent] at this
    linarith
  have hnearv : axisNear s tt L N = L * (((0 : Int) : K) - s) / (tt - s) := by
    simp only [axisNear, if_neg hdne]
    exact min_eq_left (hmono _ _ (by push_cast; linarith))
  have hfarv : axisFar s tt L N = L * ((N : K) - s) / (tt - s) := by
    simp only [axisFar, if_neg hdne]
    exact max_eq_right (hmono _ _ (by push_cast; linarith))
  have hc0 : 0 ≤ s + t * (tt - s) / L := by
    have := hinv 0 (by rw [hnearv] at hnear; simpa using hnear)
    exact this
  have hcN : s + t * (tt - s) / L < (N : K) := hinv2 _ (by rw [hfarv] at hfar; exact hfar)
  have hsign : signOf (tt - s) = 1 := by simp [signOf, hd]
  have hcoord : entryCoord s (tt - s) L t = s + t * (tt - s) / L := by
    unfold entryCoord
    split_ifs with h
    · rfl
    · push_neg at h
      exact le_antisymm hc0 h
  obtain ⟨v, onp, hv, hv1, hv2, hon⟩ := entryAxis_pos (s + t * (tt - s) / L) (tt - s) hc0 hd hc
  have hlen : unitLen L (tt - s) = L / (tt - s) := by
    unfold unitLen
    rw [if_pos hbig, abs_of_pos hd]
  have hlam : ∀ u : Int, nextLambda u s tt L = L * ((u : K) - s) / (tt - s) := by
    intro u
    simp only [nextLambda, if_neg (not_lt.2 hbig.le)]
  have hv0 : 0 ≤ v := by
    have : (-1 : K) < (v : K) := by linarith
    have : ((-1 : Int) : K) < (v : K) := by push_cast; linarith
    have := Int.cast_lt.1 this
    omega
  have hvN : v < N := by
    have : (v : K) < (N : K) := by linarith
    exact_mod_cast this
  have hcap : (cap N v 1 : Int) = N - 1 - v := cap_pos_eq N v hv0 hvN
  have hT : nextLambda (v + 1) s tt L - t = L / (tt - s) * ((v : K) + 1 - (s + t * (tt - s) / L)) := by
    rw [hlam]
    push_cast
    field_simp
    ring
  have hT0 : 0 ≤ nextLambda (v + 1) s tt L - t := by
    rw [hT]
    exact mul_nonneg hg.le (by linarith)
  have hhi : ∀ k : Nat, L * (((v + 1 * (k : Int) : Int) : K) + 1 - s) / (tt - s)
      = t + cellHi (nextLambda (v + 1) s tt L - t) (unitLen L (tt - s)) k := by
    intro k
    rw [hlam, hlen]
    simp only [cellHi]
    push_cast
    ring
  have hlo : ∀ k : Nat, k ≠ 0 → L * (((v + 1 * (k : Int) : Int) : K) - s) / (tt - s)
      = t + cellLo (nextLambda (v + 1) s tt L - t) (unitLen L (tt - s)) k := by
    intro k hk
    rw [hlam, hlen]
    simp only [cellLo, if_neg hk]
    push_cast
    ring
  refine ⟨v, onp, ?_, hsign, ?_, ?_, ?_, ?_, ?_⟩
  · rw [hcoord, hsign, hv]
  · refine ⟨Or.inl rfl, ?_, hT0, ⟨hv0, hvN⟩, ?_, ?_, ?_, ?_⟩
    · rw [hlen]; exact hg.le
    · intro i hi0 hiN
      rw [interval_pos s (tt - s) L hL hd i, hnearv, hfarv]
      have h1 : ((0 : Int) : K) ≤ (i : K) := by exact_mod_cast hi0
      have h2 : (i : K) + 1 ≤ (N : K) := by exact_mod_cast hiN
      exact ⟨hmono _ _ h1, hmono _ _ h2⟩
    · intro k _
      left
      rw [interval_pos s (tt - s) L hL hd]
      refine ⟨Or.inl (hhi k), ?_⟩
      by_cases hk : k = 0
      · right
        subst hk
        refine ⟨?_, by simp [cellLo]⟩
        have := hmono _ _ hv1
        rw [hent] at this
        simpa using this
      · left
        exact hlo k hk
    · intro i hi0 hiN hne
      rw [interval_pos s (tt - s) L hL hd]
      have hiv : i < v := by
        by_contra h
        push_neg at h
        refine hne (i - v).toNat ?_ ?_
        · have : ((i - v).toNat : Int) ≤ (cap N v 1 : Int) := by
            rw [hcap, Int.toNat_of_nonneg (by omega)]
            omega
          exact_mod_cast this
        · rw [Int.toNat_of_nonneg (by omega)]
          ring
      have h1 : (i : K) + 1 ≤ (v : K) := by exact_mod_cast hiv
      have := hmono _ _ (le_trans h1 hv1)
      rw [hent] at this
      exact this
    · intro _ k _
      rw [interval_pos s (tt - s) L hL hd]
      exact hhi k
  · intro ht
    rw [hon]
    have h0 : s + t * (tt - s) / L = 0 := by
      rw [ht, hnearv]
      push_cast
      field_simp
      ring
    have : (v : K) ≤ 0 := by linarith
    have h3 : (v : K) = 0 := le_antisymm this (by exact_mod_cast hv0)
    rw [h0, h3]
  · intro h
    rw [hon] at h
    rw [hT, hlen, h]
    ring
  · rw [hlam, hfarv]
    apply hmono
    have : v + 1 ≤ N := hvN
    exact_mod_cast this
  · rw [← hhi, hfarv]
    have : v + 1 * (cap N v 1 : Int) = N - 1 := by rw [hcap]; ring
    rw [this]
    push_cast
    ring

/-- The geometry of an axis along which the coordinate decreases. -/
theorem axis_geo_neg (s tt L t E : K) (N : Int) (hL : 0 < L) (hN : 0 < N) (hd : tt - s < 0)
    (hbig : 1 / 10000 < |tt - s|) (hnear : axisNear s tt L N ≤ t)
    (hfar : t < axisFar s tt L N)
    (hc : (∃ n : Int, s + t * (tt - s) / L = n) ∨
      ∀ n : Int, 1 / 10000 ≤ |s + t * (tt - s) / L - n|) :
    ∃ (v : Int) (onp : Bool),
      entryAxis (entryCoord s (tt - s) L t) (tt - s) (signOf (tt - s)) = (v, v, onp) ∧
      signOf (tt - s) = -1 ∧
      AxisGeo s tt L t E N v (-1) (nextLambda v s tt L - t) (unitLen L (tt - s)) ∧
      (t = axisNear s tt L N → onp = true) ∧
      (onp = true → nextLambda v s tt L - t = unitLen L (tt - s)) ∧
      nextLambda v s tt L ≤ axisFar s tt L N ∧
      t + cellHi (nextLambda v s tt L - t) (unitLen L (tt - s)) (cap N v (-1))
        = axisFar s tt L N := by
  have hdne : tt - s ≠ 0 := hd.ne
  have hg : L / (tt - s) < 0 := div_neg_of_pos_of_neg hL hd
  have hNK : (0 : K) < (N : K) := by exact_mod_cast hN
  have hφ : ∀ x : K, L * (x - s) / (tt - s) = L / (tt - s) * (x - s) := by intro x; ring
  have hmono : ∀ x y : K, x ≤ y → L * (y - s) / (tt - s) ≤ L * (x - s) / (tt - s) := by
    intro x y h
    rw [hφ, hφ]
    exact mul_le_mul_of_nonpos_left (by linarith) hg.le
  have hent : L * (s + t * (tt - s) / L - s) / (tt - s) = t := by
    field_simp
    ring
  have hinv : ∀ x : K, L * (x - s) / (tt - s) ≤ t → s + t * (tt - s) / L ≤ x := by
    intro x h
    by_contra hx
    push_neg at hx
    have h2 : L * (s + t * (tt - s) / L - s) / (tt - s) < L * (x - s) / (tt - s) := by
      rw [hφ, hφ]
      exact mul_lt_mul_of_neg_left (by linarith) hg
    rw [hent] at h2
    linarith
  have hinv2 : ∀ x : K, t < L * (x - s) / (tt - s) → x < s + t * (tt - s) / L := by
    intro x h
    by_contra hx
    push_neg at hx
    have := hmono _ _ hx
    rw [hent] at this
    linarith
  have hnearv : axisNear s tt L N = L * ((N : K) - s) / (tt - s) := by
    simp only [axisNear, if_neg hdne]
    exact min_eq_right (hmono _ _ (by push_cast; linarith))
  have hfarv : axisFar s tt L N = L * (((0 : Int) : K) - s) / (tt - s) := by
    simp only [axisFar, if_neg hdne]
    exact max_eq_left (hmono _ _ (by push_cast; linarith))
  have hcN : s + t * (tt - s) / L ≤ (N : K) := hinv _ (by rw [hnearv] at hnear; exact hnear)
  have hcpos : 0 < s + t * (tt - s) / L := by
    have := hinv2 0 (by rw [hfarv] at hfar; simpa using hfar)
    exact this
  have hc0 : 0 ≤ s + t * (tt - s) / L := hcpos.le
  have hsign : signOf (tt - s) = -1 := by simp [signOf, not_lt.2 hd.le]
  have hcoord : entryCoord s (tt - s) L t = s + t * (tt - s) / L := by
    unfold entryCoord
    rw [if_pos hcpos]
  obtain ⟨v, onp, hv, hv1, hv2, hon⟩ := entryAxis_neg (s + t * (tt - s) / L) (tt - s) hc0 hd hc
  have hlen : unitLen L (tt - s) = - (L / (tt - s)) := by
    unfold unitLen
    rw [if_pos hbig, abs_of_neg hd, div_neg]
  have hlam : ∀ u : Int, nextLambda u s tt L = L * ((u : K) - s) / (tt - s) := by
    intro u
    simp only [nextLambda, if_neg (not_lt.2 hbig.le)]
  have hv0 : 0 ≤ v := by
    have : ((-1 : Int) : K) < (v : K) := by push_cast; linarith
    have := Int.cast_lt.1 this
    omega
  have hvN : v < N := by
    have : (v : K) < (N : K) := by linarith
    exact_mod_cast this
  have hcap : (cap N v (-1) : Int) = v := cap_neg_eq N v hv0 hvN
  have hT : nextLambda v s tt L - t = L / (tt - s) * ((v : K) - (s + t * (tt - s) / L)) := by
    rw [hlam]
    field_simp
    ring
  have hT0 : 0 ≤ nextLambda v s tt L - t := by
    rw [hT]
    exact mul_nonneg_of_nonpos_of_nonpos hg.le (by linarith)
  have hhi : ∀ k : Nat, L * (((v + -1 * (k : Int) : Int) : K) - s) / (tt - s)
      = t + cellHi (nextLambda v s tt L - t) (unitLen L (tt - s)) k := by
    intro k
    rw [hlam, hlen]
    simp only [cellHi]
    push_cast
    ring
  have hlo : ∀ k : Nat, k ≠ 0 → L * (((v + -1 * (k : Int) : Int) : K) + 1 - s) / (tt - s)
      = t + cellLo (nextLambda v s tt L - t) (unitLen L (tt - s)) k := by
    intro k hk
    rw [hlam, hlen]
    simp only [cellLo, if_neg hk]
    push_cast
    ring
  refine ⟨v, onp, ?_, hsign, ?_, ?_, ?_, ?_, ?_⟩
  · rw [hcoord, hsign, hv]
  · refine ⟨Or.inr rfl, ?_, hT0, ⟨hv0, hvN⟩, ?_, ?_, ?_, ?_⟩
    · rw [hlen]; linarith
    · intro i hi0 hiN
      rw [interval_neg s (tt - s) L hL hd i, hnearv, hfarv]
      have h1 : ((0 : Int) : K) ≤ (i : K) := by exact_mod_cast hi0
      have h2 : (i : K) + 1 ≤ (N : K) := by exact_mod_cast hiN
      exact ⟨hmono _ _ h2, hmono _ _ h1⟩
    · intro k _
      left
      rw [interval_neg s (tt - s) L hL hd]
      refine ⟨Or.inl (hhi k), ?_⟩
      by_cases hk : k = 0
      · right
        subst hk
        refine ⟨?_, by simp [cellLo]⟩
        have := hmono _ _ hv2
        rw [hent] at this
        simpa using this
      · left
        exact hlo k hk
    · intro i hi0 hiN hne
      rw [interval_neg s (tt - s) L hL hd]
      have hiv : v < i := by
        by_contra h
        push_neg at h
        refine hne (v - i).toNat ?_ ?_
        · have : ((v - i).toNat : Int) ≤ (cap N v (-1) : Int) := by
            rw [hcap, Int.toNat_of_nonneg (by omega)]
            omega
          exact_mod_cast this
        · rw [Int.toNat_of_nonneg (by omega)]
          ring
      have h1 : (v : K) + 1 ≤ (i : K) := by exact_mod_cast hiv
      have := hmono _ _ (le_trans hv2 h1)
      rw [hent] at this
      exact this
    · intro _ k _
      rw [interval_neg s (tt - s) L hL hd]
      exact hhi k
  · intro ht
    rw [hon]
    have h0 : s + t * (tt - s) / L = (N : K) := by
      rw [ht, hnearv]
      field_simp
    have h1 : (v : K) + 1 ≤ (N : K) := by exact_mod_cast hvN
    linarith
  · intro h
    rw [hon] at h
    rw [hT, hlen, h]
    ring
  · rw [hlam, hfarv]
    apply hmono
    exact_mod_cast hv0
  · rw [← hhi, hfarv]
    have : v + -1 * (cap N v (-1) : Int) = 0 := by rw [hcap]; ring
    rw [this]

/-- The geometry of an axis along which the coordinate does not change, and
lies strictly inside the slab, away from the integers. -/
theorem axis_geo_static (s tt L t E : K) (N : Int) (hL : 0 < L) (hL6 : L < 1000000)
    (hd : tt - s = 0) (hs0 : 0 < s) (hsN : s < (N : K))
    (hfar : ∀ n : Int, 1 / 10000 ≤ |s - n|) (ht : 0 ≤ t) (htE : t ≤ E) (hE : E ≤ L) :
    ∃ v : Int,
      entryAxis (entryCoord s (tt - s) L t) (tt - s) (signOf (tt - s)) = (v, v + 1, false) ∧
      signOf (tt - s) = -1 ∧
      AxisGeo s tt L t E N v (-1) (nextLambda (v + 1) s tt L - t) (unitLen L (tt - s)) ∧
      nextLambda (v + 1) s tt L = 1000000 ∧ axisNear s tt L N = 0 ∧ axisFar s tt L N = L := by
  have hne : ∀ n : Int, s ≠ (n : K) := by
    intro n h
    have := hfar n
    rw [h, sub_self, abs_zero] at this
    norm_num at this
  have hsign : signOf (tt - s) = -1 := by simp [signOf, hd]
  have hcoord : entryCoord s (tt - s) L t = s := by
    unfold entryCoord
    rw [hd, mul_zero, zero_div, add_zero, if_pos hs0]
  have h1 : ¬ |s - ((toInt (s + 1 / 2) : Int) : K)| < 1 / 10000 := not_lt.2 (hfar _)
  have hv : toInt s = ⌊s⌋ := toInt_nonneg_eq s hs0.le
  have hu : toInt (s + 1) = ⌊s⌋ + 1 := by
    rw [toInt_nonneg_eq _ (by linarith), Int.floor_add_one]
  have hlam : ∀ u : Int, nextLambda u s tt L = 1000000 := by
    intro u
    have : |tt - s| < 1 / 10000 := by rw [hd, abs_zero]; norm_num
    simp only [nextLambda, if_pos this]
  have hlen : unitLen L (tt - s) = 1000000 := by
    have : ¬ (1 / 10000 < |tt - s|) := by rw [hd, abs_zero]; norm_num
    unfold unitLen
    rw [if_neg this]
  have hfl : (⌊s⌋ : K) < s := lt_of_le_of_ne (Int.floor_le s) (fun h => hne _ h.symm)
  have hfl2 : s < (⌊s⌋ : K) + 1 := Int.lt_floor_add_one s
  have hv0 : 0 ≤ ⌊s⌋ := Int.floor_nonneg.2 hs0.le
  have hvN : ⌊s⌋ < N := by
    have : ((⌊s⌋ : Int) : K) < (N : K) := lt_trans hfl hsN
    exact_mod_cast this
  have hcap : (cap N ⌊s⌋ (-1) : Int) = ⌊s⌋ := cap_neg_eq N _ hv0 hvN
  have hin : axisInterval s (tt - s) L ⌊s⌋ = (0, L) := by
    simp only [axisInterval, hd, if_true]
    rw [if_pos ⟨hfl.le, hfl2.le⟩]
  have hout : ∀ i : Int, i ≠ ⌊s⌋ → axisInterval s (tt - s) L i = (L, 0) := by
    intro i hi
    simp only [axisInterval, hd, if_true]
    rw [if_neg]
    rintro ⟨h2, h3⟩
    rcases lt_or_gt_of_ne hi with h | h
    · have : (i : K) + 1 ≤ (⌊s⌋ : K) := by exact_mod_cast h
      linarith
    · have : (⌊s⌋ : K) + 1 ≤ (i : K) := by exact_mod_cast h
      linarith
  refine ⟨⌊s⌋, ?_, hsign, ?_, hlam _, by simp [axisNear, hd], by simp [axisFar, hd]⟩
  · rw [hcoord, hsign]
    have hn0 : ¬ (tt - s < 0) := by rw [hd]; exact lt_irrefl 0
    simp only [entryAxis, if_neg h1, if_neg hn0, hv, hu]
  · rw [hlam, hlen]
    refine ⟨Or.inr rfl, by norm_num, by linarith, ⟨hv0, hvN⟩, ?_, ?_, ?_, ?_⟩
    · intro i _ _
      have h0 : axisNear s tt L N = 0 := by simp [axisNear, hd]
      have h1 : axisFar s tt L N = L := by simp [axisFar, hd]
      rw [h0, h1]
      by_cases hi : i = ⌊s⌋
      · rw [hi, hin]; exact ⟨le_refl _, le_refl _⟩
      · rw [hout i hi]; exact ⟨hL.le, hL.le⟩
    · intro k _
      by_cases hk : k = 0
      · subst hk
        left
        have : ⌊s⌋ + -1 * ((0 : Nat) : Int) = ⌊s⌋ := by simp
        rw [this, hin]
        refine ⟨Or.inr ⟨hE, ?_⟩, Or.inr ⟨ht, by simp [cellLo]⟩⟩
        simp only [cellHi]
        push_cast
        linarith
      · right
        have hkpos : (1 : K) ≤ (k : K) := by
          have : 1 ≤ k := Nat.one_le_iff_ne_zero.2 hk
          exact_mod_cast this
        have : ⌊s⌋ + -1 * (k : Int) ≠ ⌊s⌋ := by
          have : (k : Int) ≠ 0 := by exact_mod_cast hk
          omega
        rw [hout _ this]
        refine ⟨ht, ?_⟩
        simp only [cellLo, if_neg hk]
        have : 0 ≤ ((k : K) - 1) * 1000000 := mul_nonneg (by linarith) (by norm_num)
        linarith
    · intro i _ _ hne2
      have : i ≠ ⌊s⌋ := by
        intro h
        exact hne2 0 (Nat.zero_le _) (by simp [h])
      rw [hout i this]
      exact ht
    · intro h
      exact absurd hd h

end Entry
end RayTracer

/-! ## The cells of the grid and the steps of the march -/

namespace RayTracer

section Match

variable {K : Type} [LinearOrderedField K]

/-- The length of the ray in a cell, measured from the source and clipped at
the source and the detector, equals the length measured from the entry point,
when the ends of the three intervals move by the entry distance `t`, or lie
beyond the exit distance `E` on both sides, and the starts move by `t`, or lie
before the entry point on both sides. -/
theorem cell_core (t E L h1 h2 h3 l1 l2 l3 H1 H2 H3 L1 L2 L3 : K) (ht : 0 ≤ t) (hE : E ≤ L)
    (u1 : h1 = t + H1 ∨ (E ≤ h1 ∧ E - t ≤ H1)) (u2 : h2 = t + H2 ∨ (E ≤ h2 ∧ E - t ≤ H2))
    (u3 : h3 = t + H3 ∨ (E ≤ h3 ∧ E - t ≤ H3))
    (w1 : l1 = t + L1 ∨ (l1 ≤ t ∧ L1 = 0)) (w2 : l2 = t + L2 ∨ (l2 ≤ t ∧ L2 = 0))
    (w3 : l3 = t + L3 ∨ (l3 ≤ t ∧ L3 = 0))
    (n1 : 0 ≤ L1)
    (hexit : (h1 = t + H1 ∧ h1 ≤ E) ∨ (h2 = t + H2 ∧ h2 ≤ E) ∨ (h3 = t + H3 ∧ h3 ≤ E))
    (hentry : t ≤ l1 ∨ t ≤ l2 ∨ t ≤ l3) :
    max 0 (min L (min h1 (min h2 h3)) - max 0 (max l1 (max l2 l3)))
      = max 0 (min H1 (min H2 H3) - max L1 (max L2 L3)) := by
  have a1 : min L (min h1 (min h2 h3)) ≤ h1 := le_trans (min_le_right _ _) (min_le_left _ _)
  have a2 : min L (min h1 (min h2 h3)) ≤ h2 :=
    le_trans (min_le_right _ _) (le_trans (min_le_right _ _) (min_le_left _ _))
  have a3 : min L (min h1 (min h2 h3)) ≤ h3 :=
    le_trans (min_le_right _ _) (le_trans (min_le_right _ _) (min_le_right _ _))
  have b1 : min H1 (min H2 H3) ≤ H1 := min_le_left _ _
  have b2 : min H1 (min H2 H3) ≤ H2 := le_trans (min_le_right _ _) (min_le_left _ _)
  have b3 : min H1 (min H2 H3) ≤ H3 := le_trans (min_le_right _ _) (min_le_right _ _)
  have c1 : l1 ≤ max 0 (max l1 (max l2 l3)) := le_trans (le_max_left _ _) (le_max_right _ _)
  have c2 : l2 ≤ max 0 (max l1 (max l2 l3)) :=
    le_trans (le_max_left _ _) (le_trans (le_max_right _ _) (le_max_right _ _))
  have c3 : l3 ≤ max 0 (max l1 (max l2 l3)) :=
    le_trans (le_max_right _ _) (le_trans (le_max_right _ _) (le_max_right _ _))
  have d1 : L1 ≤ max L1 (max L2 L3) := le_max_left _ _
  have d2 : L2 ≤ max L1 (max L2 L3) := le_trans (le_max_left _ _) (le_max_right _ _)
  have d3 : L3 ≤ max L1 (max L2 L3) := le_trans (le_max_right _ _) (le_max_right _ _)
  have x1 : min L (min h1 (min h2 h3)) ≤ E := by
    rcases hexit with ⟨_, h⟩ | ⟨_, h⟩ | ⟨_, h⟩ <;> linarith
  have x2 : t + min H1 (min H2 H3) ≤ E := by
    rcases hexit with ⟨h0, h⟩ | ⟨h0, h⟩ | ⟨h0, h⟩ <;> linarith
  have y1 : t ≤ max 0 (max l1 (max l2 l3)) := by
    rcases hentry with h | h | h <;> linarith
  have e1 : min L (min h1 (min h2 h3)) = t + min H1 (min H2 H3) := by
    apply le_antisymm
    · have : min L (min h1 (min h2 h3)) - t ≤ min H1 (min H2 H3) := by
        refine le_min ?_ (le_min ?_ ?_)
        · rcases u1 with h | ⟨_, h⟩ <;> linarith
        · rcases u2 with h | ⟨_, h⟩ <;> linarith
        · rcases u3 with h | ⟨_, h⟩ <;> linarith
      linarith
    · refine le_min (by linarith) (le_min ?_ (le_min ?_ ?_))
      · rcases u1 with h | ⟨h, _⟩ <;> linarith
      · rcases u2 with h | ⟨h, _⟩ <;> linarith
      · rcases u3 with h | ⟨h, _⟩ <;> linarith
  have e2 : max 0 (max l1 (max l2 l3)) = t + max L1 (max L2 L3) := by
    apply le_antisymm
    · refine max_le (by linarith) (max_le ?_ (max_le ?_ ?_))
      · rcases w1 with h | ⟨h, _⟩ <;> linarith
      · rcases w2 with h | ⟨h, _⟩ <;> linarith
      · rcases w3 with h | ⟨h, _⟩ <;> linarith
    · have : max L1 (max L2 L3) ≤ max 0 (max l1 (max l2 l3)) - t := by
        refine max_le ?_ (max_le ?_ ?_)
        · rcases w1 with h | ⟨_, h⟩ <;> linarith
        · rcases w2 with h | ⟨_, h⟩ <;> linarith
        · rcases w3 with h | ⟨_, h⟩ <;> linarith
      linarith
  rw [e1, e2]
  congr 1
  ring

/-- A cell one of whose intervals ends at or before a distance at which
another one starts has no length in common with the clipped ray. -/
theorem cell_empty (L h1 h2 h3 l1 l2 l3 m : K) (hm : min h1 (min h2 h3) ≤ m)
    (hl : m ≤ max l1 (max l2 l3)) :
    max 0 (min L (min h1 (min h2 h3)) - max 0 (max l1 (max l2 l3))) = 0 := by
  apply max_eq_left
  have a : min L (min h1 (min h2 h3)) ≤ min h1 (min h2 h3) := min_le_right _ _
  have b : max l1 (max l2 l3) ≤ max 0 (max l1 (max l2 l3)) := le_max_right _ _
  linarith

end Match

section Sums
variable {K : Type} [LinearOrderedField K]

/-- The voxels that the steps of an axis reach are in the grid. -/
theorem cap_range (N v sign : Int) (hs : sign = 1 ∨ sign = -1) (h0 : 0 ≤ v) (h1 : v < N)
    (k : Nat) (hk : k ≤ cap N v sign) : 0 ≤ v + sign * k ∧ v + sign * k < N := by
  have hk2 : (k : Int) ≤ (cap N v sign : Int) := by exact_mod_cast hk
  rcases hs with h | h
  · subst h
    rw [cap_pos_eq N v h0 h1] at hk2
    constructor <;> omega
  · subst h
    rw [cap_neg_eq N v h0 h1] at hk2
    constructor <;> omega

/-- A sum over the indices of one axis of the grid is the sum over the voxels
that the steps reach, when the other terms are zero. -/
theorem sum_reindex (N v sign : Int) (hs : sign = 1 ∨ sign = -1) (h0 : 0 ≤ v) (h1 : v < N)
    (F : Int → K)
    (hz : ∀ i : Int, 0 ≤ i → i < N → (∀ k : Nat, k ≤ cap N v sign → i ≠ v + sign * k) → F i = 0) :
    ∑ i in Finset.range N.toNat, F (i : Int)
      = ∑ k in Finset.range (cap N v sign + 1), F (v + sign * (k : Int)) := by
  have hinj : ∀ a ∈ Finset.range (cap N v sign + 1), ∀ b ∈ Finset.range (cap N v sign + 1),
      (v + sign * (a : Int)).toNat = (v + sign * (b : Int)).toNat → a = b := by
    intro a ha b hb hab
    have ra := cap_range N v sign hs h0 h1 a (by simpa [Nat.lt_succ_iff] using ha)
    have rb := cap_range N v sign hs h0 h1 b (by simpa [Nat.lt_succ_iff] using hb)
    have : v + sign * (a : Int) = v + sign * (b : Int) := by
      have h2 := congrArg (fun n : Nat => (n : Int)) hab
      simp only [Int.toNat_of_nonneg ra.1, Int.toNat_of_nonneg rb.1] at h2
      exact h2
    rcases hs with h | h <;> subst h <;> omega
  have himg : ∑ k in Finset.range (cap N v sign + 1), F (v + sign * (k : Int))
      = ∑ i in (Finset.range (cap N v sign + 1)).image (fun k : Nat => (v + sign * (k : Int)).toNat),
          F (i : Int) := by
    rw [Finset.sum_image hinj]
    apply Finset.sum_congr rfl
    intro k hk
    have rk := cap_range N v sign hs h0 h1 k (by simpa [Nat.lt_succ_iff] using hk)
    rw [Int.toNat_of_nonneg rk.1]
  rw [himg]
  symm
  apply Finset.sum_subset
  · intro i hi
    rw [Finset.mem_image] at hi
    obtain ⟨k, hk, rfl⟩ := hi
    have rk := cap_range N v sign hs h0 h1 k (by simpa [Nat.lt_succ_iff] using hk)
    rw [Finset.mem_range]
    omega
  · intro i hi hni
    rw [Finset.mem_range] at hi
    apply hz i (by omega) (by omega)
    intro k hk hik
    apply hni
    rw [Finset.mem_image]
    refine ⟨k, by simpa [Nat.lt_succ_iff] using hk, ?_⟩
    rw [← hik]
    simp

end Sums

section Integral
variable {K : Type} [LinearOrderedField K]

/-- Every cell of the grid starts, on some axis, at or after the entry point. -/
theorem entry_le_start (source detector : Vector3D K) (L t E : K) (N_x N_y N_z : Int)
    (vx vy vz sx sy sz : Int) (Tx Ty Tz : K) (Len : Vector3D K)
    (gx : AxisGeo source.x detector.x L t E N_x vx sx Tx Len.x)
    (gy : AxisGeo source.y detector.y L t E N_y vy sy Ty Len.y)
    (gz : AxisGeo source.z detector.z L t E N_z vz sz Tz Len.z)
    (hentry : axisNear source.x detector.x L N_x = t ∨ axisNear source.y detector.y L N_y = t ∨
      axisNear source.z detector.z L N_z = t)
    (i j k : Int) (hi : 0 ≤ i ∧ i < N_x) (hj : 0 ≤ j ∧ j < N_y) (hk : 0 ≤ k ∧ k < N_z) :
    t ≤ (axisInterval source.x (detector.x - source.x) L i).1 ∨
      t ≤ (axisInterval source.y (detector.y - source.y) L j).1 ∨
      t ≤ (axisInterval source.z (detector.z - source.z) L k).1 := by
  rcases hentry with h | h | h
  · left; rw [← h]; exact (gx.slab i hi.1 hi.2).1
  · right; left; rw [← h]; exact (gy.slab j hj.1 hj.2).1
  · right; right; rw [← h]; exact (gz.slab k hk.1 hk.2).1

/-- A cell of the grid that ends, on some axis, at or before the entry point
has no length in common with the ray. -/
theorem cellLength_behind (source detector : Vector3D K) (L t E : K) (N_x N_y N_z : Int)
    (vx vy vz sx sy sz : Int) (Tx Ty Tz : K) (Len : Vector3D K)
    (gx : AxisGeo source.x detector.x L t E N_x vx sx Tx Len.x)
    (gy : AxisGeo source.y detector.y L t E N_y vy sy Ty Len.y)
    (gz : AxisGeo source.z detector.z L t E N_z vz sz Tz Len.z)
    (hentry : axisNear source.x detector.x L N_x = t ∨ axisNear source.y detector.y L N_y = t ∨
      axisNear source.z detector.z L N_z = t)
    (i j k : Int) (hi : 0 ≤ i ∧ i < N_x) (hj : 0 ≤ j ∧ j < N_y) (hk : 0 ≤ k ∧ k < N_z)
    (hb : (axisInterval source.x (detector.x - source.x) L i).2 ≤ t ∨
      (axisInterval source.y (detector.y - source.y) L j).2 ≤ t ∨
      (axisInterval source.z (detector.z - source.z) L k).2 ≤ t) :
    cellLength source detector L i j k = 0 := by
  have he := entry_le_start source detector L t E N_x N_y N_z vx vy vz sx sy sz Tx Ty Tz Len
    gx gy gz hentry i j k hi hj hk
  unfold cellLength cellLengthBetween
  apply cell_empty _ _ _ _ _ _ _ t
  · rcases hb with h | h | h
    · exact le_trans (min_le_left _ _) h
    · exact le_trans (le_trans (min_le_right _ _) (min_le_left _ _)) h
    · exact le_trans (le_trans (min_le_right _ _) (min_le_right _ _)) h
  · rcases he with h | h | h
    · exact le_trans h (le_max_left _ _)
    · exact le_trans h (le_trans (le_max_left _ _) (le_max_right _ _))
    · exact le_trans h (le_trans (le_max_right _ _) (le_max_right _ _))

/-- The length of the ray in the cell that is `kx`, `ky`, `kz` steps away from
the entry voxel, as the geometry has it and as the counters have it. -/
theorem cellLength_ahead (source detector : Vector3D K) (L t E : K) (N_x N_y N_z : Int)
    (image : Array3D K)
    (vx vy vz sx sy sz : Int) (Tx Ty Tz : K) (Len : Vector3D K)
    (gx : AxisGeo source.x detector.x L t E N_x vx sx Tx Len.x)
    (gy : AxisGeo source.y detector.y L t E N_y vy sy Ty Len.y)
    (gz : AxisGeo source.z detector.z L t E N_z vz sz Tz Len.z)
    (ht : 0 ≤ t) (hE : E ≤ L)
    (hentry : axisNear source.x detector.x L N_x = t ∨ axisNear source.y detector.y L N_y = t ∨
      axisNear source.z detector.z L N_z = t)
    (hexit : (detector.x - source.x ≠ 0 ∧ axisFar source.x detector.x L N_x = E) ∨
      (detector.y - source.y ≠ 0 ∧ axisFar source.y detector.y L N_y = E) ∨
      (detector.z - source.z ≠ 0 ∧ axisFar source.z detector.z L N_z = E))
    (kx ky kz : Nat) (hkx : kx ≤ cap N_x vx sx) (hky : ky ≤ cap N_y vy sy)
    (hkz : kz ≤ cap N_z vz sz) :
    cellLength source detector L (vx + sx * kx) (vy + sy * ky) (vz + sz * kz)
      = aheadLength ⟨image, N_x, N_y, N_z, sx, sy, sz, Len⟩ ⟨⟨vx, vy, vz⟩, Tx, Ty, Tz, 0, []⟩
          kx ky kz := by
  have rx := cap_range N_x vx sx gx.sign_ok gx.v_range.1 gx.v_range.2 kx hkx
  have ry := cap_range N_y vy sy gy.sign_ok gy.v_range.1 gy.v_range.2 ky hky
  have rz := cap_range N_z vz sz gz.sign_ok gz.v_range.1 gz.v_range.2 kz hkz
  have he := entry_le_start source detector L t E N_x N_y N_z vx vy vz sx sy sz Tx Ty Tz Len
    gx gy gz hentry _ _ _ rx ry rz
  have hx : ((axisInterval source.x (detector.x - source.x) L (vx + sx * kx)).2
        = t + cellHi Tx Len.x kx ∧
      (axisInterval source.x (detector.x - source.x) L (vx + sx * kx)).2 ≤ E) ∨
      ((axisInterval source.y (detector.y - source.y) L (vy + sy * ky)).2
        = t + cellHi Ty Len.y ky ∧
      (axisInterval source.y (detector.y - source.y) L (vy + sy * ky)).2 ≤ E) ∨
      ((axisInterval source.z (detector.z - source.z) L (vz + sz * kz)).2
        = t + cellHi Tz Len.z kz ∧
      (axisInterval source.z (detector.z - source.z) L (vz + sz * kz)).2 ≤ E) := by
    rcases hexit with ⟨h, h2⟩ | ⟨h, h2⟩ | ⟨h, h2⟩
    · left; exact ⟨gx.moving h kx hkx, by rw [← h2]; exact (gx.slab _ rx.1 rx.2).2⟩
    · right; left; exact ⟨gy.moving h ky hky, by rw [← h2]; exact (gy.slab _ ry.1 ry.2).2⟩
    · right; right; exact ⟨gz.moving h kz hkz, by rw [← h2]; exact (gz.slab _ rz.1 rz.2).2⟩
  have hmH : min (cellHi Tx Len.x kx) (min (cellHi Ty Len.y ky) (cellHi Tz Len.z kz)) ≤ E - t := by
    rcases hx with ⟨h, h2⟩ | ⟨h, h2⟩ | ⟨h, h2⟩
    · exact le_trans (min_le_left _ _) (by linarith)
    · exact le_trans (le_trans (min_le_right _ _) (min_le_left _ _)) (by linarith)
    · exact le_trans (le_trans (min_le_right _ _) (min_le_right _ _)) (by linarith)
  have dead : ∀ (hb : (axisInterval source.x (detector.x - source.x) L (vx + sx * kx)).2 ≤ t ∨
      (axisInterval source.y (detector.y - source.y) L (vy + sy * ky)).2 ≤ t ∨
      (axisInterval source.z (detector.z - source.z) L (vz + sz * kz)).2 ≤ t)
      (_ : E - t ≤ max (cellLo Tx Len.x kx) (max (cellLo Ty Len.y ky) (cellLo Tz Len.z kz))),
      cellLength source detector L (vx + sx * kx) (vy + sy * ky) (vz + sz * kz)
        = aheadLength ⟨image, N_x, N_y, N_z, sx, sy, sz, Len⟩
            ⟨⟨vx, vy, vz⟩, Tx, Ty, Tz, 0, []⟩ kx ky kz := by
    intro hb hl
    rw [cellLength_behind source detector L t E N_x N_y N_z vx vy vz sx sy sz Tx Ty Tz Len
      gx gy gz hentry _ _ _ rx ry rz hb]
    unfold aheadLength
    exact (empty_core _ _ _ _ _ _ (E - t) hmH hl).symm
  rcases gx.ahead kx hkx with ⟨ux, wx⟩ | ⟨dx1, dx2⟩
  · rcases gy.ahead ky hky with ⟨uy, wy⟩ | ⟨dy1, dy2⟩
    · rcases gz.ahead kz hkz with ⟨uz, wz⟩ | ⟨dz1, dz2⟩
      · unfold cellLength cellLengthBetween aheadLength
        exact cell_core t E L _ _ _ _ _ _ _ _ _ _ _ _ ht hE ux uy uz wx wy wz
          (cellLo_nonneg _ _ _ gx.counter_nonneg gx.len_nonneg) hx he
      · exact dead (Or.inr (Or.inr dz1))
          (le_trans dz2 (le_trans (le_max_right _ _) (le_max_right _ _)))
    · exact dead (Or.inr (Or.inl dy1))
        (le_trans dy2 (le_trans (le_max_left _ _) (le_max_right _ _)))
  · exact dead (Or.inl dx1) (le_trans dx2 (le_max_left _ _))

/-- The sum over the voxels ahead of the entry voxel, with the lengths that the
counters give, is the line integral of the image along the segment. -/
theorem aheadSum_eq_lineIntegral (source detector : Vector3D K) (L t E : K) (N_x N_y N_z : Int)
    (image : Array3D K)
    (vx vy vz sx sy sz : Int) (Tx Ty Tz : K) (Len : Vector3D K)
    (gx : AxisGeo source.x detector.x L t E N_x vx sx Tx Len.x)
    (gy : AxisGeo source.y detector.y L t E N_y vy sy Ty Len.y)
    (gz : AxisGeo source.z detector.z L t E N_z vz sz Tz Len.z)
    (ht : 0 ≤ t) (hE : E ≤ L)
    (hentry : axisNear source.x detector.x L N_x = t ∨ axisNear source.y detector.y L N_y = t ∨
      axisNear source.z detector.z L N_z = t)
    (hexit : (detector.x - source.x ≠ 0 ∧ axisFar source.x detector.x L N_x = E) ∨
      (detector.y - source.y ≠ 0 ∧ axisFar source.y detector.y L N_y = E) ∨
      (detector.z - source.z ≠ 0 ∧ axisFar source.z detector.z L N_z = E)) :
    aheadSum ⟨image, N_x, N_y, N_z, sx, sy, sz, Len⟩ ⟨⟨vx, vy, vz⟩, Tx, Ty, Tz, 0, []⟩
      = lineIntegral source detector L N_x N_y N_z image := by
  have behind := cellLength_behind source detector L t E N_x N_y N_z vx vy vz sx sy sz
    Tx Ty Tz Len gx gy gz hentry
  have ahead := cellLength_ahead source detector L t E N_x N_y N_z image vx vy vz sx sy sz
    Tx Ty Tz Len gx gy gz ht hE hentry hexit
  have rng : ∀ (N : Int) (n : Nat), n ∈ Finset.range N.toNat → 0 ≤ (n : Int) ∧ (n : Int) < N := by
    intro N n hn
    rw [Finset.mem_range] at hn
    omega
  unfold lineIntegral gridSum aheadSum
  simp only
  rw [sum_reindex N_x vx sx gx.sign_ok gx.v_range.1 gx.v_range.2
    (fun i => ∑ j in Finset.range N_y.toNat, ∑ k in Finset.range N_z.toNat,
      image.data i j k * cellLength source detector L i j k)]
  · apply Finset.sum_congr rfl
    intro kx hkx
    have hkx2 : kx ≤ cap N_x vx sx := by simpa [Nat.lt_succ_iff] using hkx
    have rx := cap_range N_x vx sx gx.sign_ok gx.v_range.1 gx.v_range.2 kx hkx2
    rw [sum_reindex N_y vy sy gy.sign_ok gy.v_range.1 gy.v_range.2
      (fun j => ∑ k in Finset.range N_z.toNat,
        image.data (vx + sx * kx) j k * cellLength source detector L (vx + sx * kx) j k)]
    · apply Finset.sum_congr rfl
      intro ky hky
      have hky2 : ky ≤ cap N_y vy sy := by simpa [Nat.lt_succ_iff] using hky
      have ry := cap_range N_y vy sy gy.sign_ok gy.v_range.1 gy.v_range.2 ky hky2
      rw [sum_reindex N_z vz sz gz.sign_ok gz.v_range.1 gz.v_range.2
        (fun k => image.data (vx + sx * kx) (vy + sy * ky) k
          * cellLength source detector L (vx + sx * kx) (vy + sy * ky) k)]
      · apply Finset.sum_congr rfl
        intro kz hkz
        have hkz2 : kz ≤ cap N_z vz sz := by simpa [Nat.lt_succ_iff] using hkz
        rw [ahead kx ky kz hkx2 hky2 hkz2]
      · intro k hk0 hkN hne
        rw [behind _ _ k rx ry ⟨hk0, hkN⟩ (Or.inr (Or.inr (gz.behind k hk0 hkN hne))), mul_zero]
    · intro j hj0 hjN hne
      apply Finset.sum_eq_zero
      intro k hk
      rw [behind _ j k rx ⟨hj0, hjN⟩ (rng _ _ hk) (Or.inr (Or.inl (gy.behind j hj0 hjN hne))),
        mul_zero]
  · intro i hi0 hiN hne
    apply Finset.sum_eq_zero
    intro j hj
    apply Finset.sum_eq_zero
    intro k hk
    rw [behind i j k ⟨hi0, hiN⟩ (rng _ _ hj) (rng _ _ hk) (Or.inl (gx.behind i hi0 hiN hne)),
      mul_zero]

end Integral

end RayTracer

namespace RayTracer
section Walk
variable {K : Type} [LinearOrderedField K]

/-- The one-axis walk along x is a run of the state machine in which the x
counter is the minimum at every step, when the other two counters are beyond
the exit of the grid along x. -/
theorem walkX_spec (e : Env K) (hs : e.SignsOk) (hL : 0 ≤ e.Len.x) :
    ∀ (n : Nat) (v : Vector3DInt) (a b c s : K) (tr : List (Vector3DInt × K)) (Ty Tz : K)
      (trm : List (Vector3DInt × K)),
      cap e.N_x v.x e.signx + 1 ≤ n →
      ((cap e.N_x v.x e.signx : K) + 1) * e.Len.x ≤ Ty →
      ((cap e.N_x v.x e.signx : K) + 1) * e.Len.x ≤ Tz →
      ∃ r t t2, walkX e n ⟨v, a, b, c, s, tr⟩ = .ret r t ∧
        MinRun e ⟨v, e.Len.x, Ty, Tz, s * e.Len.x, trm⟩ r t2 := by
  intro n
  induction n with
  | zero => intro v a b c s tr Ty Tz trm h; omega
  | succ n ih =>
    intro v a b c s tr Ty Tz trm hn hTy hTz
    have hc0 : (0 : K) ≤ (cap e.N_x v.x e.signx : K) := Nat.cast_nonneg _
    have hcl : 0 ≤ (cap e.N_x v.x e.signx : K) * e.Len.x := mul_nonneg hc0 hL
    have hmin : MarchState.IsMin
        (⟨v, e.Len.x, Ty, Tz, s * e.Len.x, trm⟩ : MarchState K) .x := by
      simp only [MarchState.IsMin, MarchState.counter]
      refine ⟨le_refl _, ?_, ?_⟩ <;> nlinarith
    have heq : refStep e .x (⟨v, e.Len.x, Ty, Tz, s * e.Len.x, trm⟩ : MarchState K)
        = ⟨⟨v.x + e.signx, v.y, v.z⟩, e.Len.x, Ty - e.Len.x, Tz - e.Len.x,
            (s + ARRAY3DData e.image v.x v.y v.z * 1) * e.Len.x, trm ++ [(v, e.Len.x)]⟩ := by
      simp only [refStep]
      congr 1
      ring
    simp only [walkX, MarchState.acc, MarchState.stepX]
    by_cases ho : outX e (⟨⟨v.x + e.signx, v.y, v.z⟩, a, b, c,
        s + ARRAY3DData e.image v.x v.y v.z * 1, tr ++ [(v, 1)]⟩ : MarchState K) = true
    · rw [if_pos ho]
      have ho2 : outAxis e .x (refStep e .x
          (⟨v, e.Len.x, Ty, Tz, s * e.Len.x, trm⟩ : MarchState K)) = true := by
        simpa [outAxis, outX, refStep] using ho
      have := MinRun.exit .x _ hmin ho2
      rw [heq] at this
      exact ⟨_, _, _, rfl, this⟩
    · rw [if_neg ho]
      have ho2 : outAxis e .x (refStep e .x
          (⟨v, e.Len.x, Ty, Tz, s * e.Len.x, trm⟩ : MarchState K)) = false := by
        simpa [outAxis, outX, refStep] using ho
      have hno : ¬ (v.x + e.signx ≥ e.N_x ∨ v.x + e.signx < 0) := by
        simpa [outX] using ho
      have hcap := cap_next e.N_x v.x e.signx hs.1 hno
      have hcapK : (cap e.N_x (v.x + e.signx) e.signx : K) + 1 = (cap e.N_x v.x e.signx : K) := by
        exact_mod_cast hcap
      obtain ⟨r, t, t2, h1, h2⟩ := ih ⟨v.x + e.signx, v.y, v.z⟩ a b c
        (s + ARRAY3DData e.image v.x v.y v.z * 1) (tr ++ [(v, 1)]) (Ty - e.Len.x) (Tz - e.Len.x)
        (trm ++ [(v, e.Len.x)]) (by simp only; omega) (by simp only; rw [hcapK]; linarith)
        (by simp only; rw [hcapK]; linarith)
      refine ⟨r, t, t2, h1, MinRun.step .x _ r t2 hmin ho2 ?_⟩
      rw [heq]
      exact h2

/-- The one-axis walk along y is a run of the state machine in which the y
counter is the minimum at every step, when the other two counters are beyond
the exit of the grid along y. -/
theorem walkY_spec (e : Env K) (hs : e.SignsOk) (hL : 0 ≤ e.Len.y) :
    ∀ (n : Nat) (v : Vector3DInt) (a b c s : K) (tr : List (Vector3DInt × K)) (Tx Tz : K)
      (trm : List (Vector3DInt × K)),
      cap e.N_y v.y e.signy + 1 ≤ n →
      ((cap e.N_y v.y e.signy : K) + 1) * e.Len.y ≤ Tx →
      ((cap e.N_y v.y e.signy : K) + 1) * e.Len.y ≤ Tz →
      ∃ r t t2, walkY e n ⟨v, a, b, c, s, tr⟩ = .ret r t ∧
        MinRun e ⟨v, Tx, e.Len.y, Tz, s * e.Len.y, trm⟩ r t2 := by
  intro n
  induction n with
  | zero => intro v a b c s tr Tx Tz trm h; omega
  | succ n ih =>
    intro v a b c s tr Tx Tz trm hn hTx hTz
    have hc0 : (0 : K) ≤ (cap e.N_y v.y e.signy : K) := Nat.cast_nonneg _
    have hcl : 0 ≤ (cap e.N_y v.y e.signy : K) * e.Len.y := mul_nonneg hc0 hL
    have hmin : MarchState.IsMin
        (⟨v, Tx, e.Len.y, Tz, s * e.Len.y, trm⟩ : MarchState K) .y := by
      simp only [MarchState.IsMin, MarchState.counter]
      refine ⟨?_, le_refl _, ?_⟩ <;> nlinarith
    have heq : refStep e .y (⟨v, Tx, e.Len.y, Tz, s * e.Len.y, trm⟩ : MarchState K)
        = ⟨⟨v.x, v.y + e.signy, v.z⟩, Tx - e.Len.y, e.Len.y, Tz - e.Len.y,
            (s + ARRAY3DData e.image v.x v.y v.z * 1) * e.Len.y, trm ++ [(v, e.Len.y)]⟩ := by
      simp only [refStep]
      congr 1
      ring
    simp only [walkY, MarchState.acc, MarchState.stepY]
    by_cases ho : outY e (⟨⟨v.x, v.y + e.signy, v.z⟩, a, b, c,
        s + ARRAY3DData e.image v.x v.y v.z * 1, tr ++ [(v, 1)]⟩ : MarchState K) = true
    · rw [if_pos ho]
      have ho2 : outAxis e .y (refStep e .y
          (⟨v, Tx, e.Len.y, Tz, s * e.Len.y, trm⟩ : MarchState K)) = true := by
        simpa [outAxis, outY, refStep] using ho
      have := MinRun.exit .y _ hmin ho2
      rw [heq] at this
      exact ⟨_, _, _, rfl, this⟩
    · rw [if_neg ho]
      have ho2 : outAxis e .y (refStep e .y
          (⟨v, Tx, e.Len.y, Tz, s * e.Len.y, trm⟩ : MarchState K)) = false := by
        simpa [outAxis, outY, refStep] using ho
      have hno : ¬ (v.y + e.signy ≥ e.N_y ∨ v.y + e.signy < 0) := by
        simpa [outY] using ho
      have hcap := cap_next e.N_y v.y e.signy hs.2.1 hno
      have hcapK : (cap e.N_y (v.y + e.signy) e.signy : K) + 1 = (cap e.N_y v.y e.signy : K) := by
        exact_mod_cast hcap
      obtain ⟨r, t, t2, h1, h2⟩ := ih ⟨v.x, v.y + e.signy, v.z⟩ a b c
        (s + ARRAY3DData e.image v.x v.y v.z * 1) (tr ++ [(v, 1)]) (Tx - e.Len.y) (Tz - e.Len.y)
        (trm ++ [(v, e.Len.y)]) (by simp only; omega) (by simp only; rw [hcapK]; linarith)
        (by simp only; rw [hcapK]; linarith)
      refine ⟨r, t, t2, h1, MinRun.step .y _ r t2 hmin ho2 ?_⟩
      rw [heq]
      exact h2

end Walk
section Dispatch
variable {K : Type} [LinearOrderedField K]

/-- A prelude block followed by the marching loop is a run of the state
machine, when the block and the loop are. -/
theorem cross_then_march (e : Env K) (fuel : Nat) (st0 : MarchState K) (fl : Flow K)
    (march : Nat → MarchState K → Outcome K)
    (hmarch : ∀ (n : Nat) (st : MarchState K), st.mu e + 1 ≤ n →
      ∃ r t, march n st = .ret r t ∧ MinRun e st r t)
    (h1 : ∀ o, fl = .ret o → ∃ r t, o = .ret r t ∧ MinRun e st0 r t)
    (h2 : ∀ s1, fl = .next s1 → Reach e st0 s1 ∧ s1.mu e < st0.mu e)
    (hfuel : st0.mu e + 1 ≤ fuel) :
    ∃ r t t2, (match fl with
      | .ret o => o
      | .next st => march fuel st) = .ret r t ∧ MinRun e st0 r t2 := by
  cases fl with
  | ret o =>
    obtain ⟨r, t, ho, hm⟩ := h1 o rfl
    exact ⟨r, t, t, ho, hm⟩
  | next s1 =>
    obtain ⟨hr, hmu⟩ := h2 s1 rfl
    obtain ⟨r, t, hm1, hm2⟩ := hmarch fuel s1 (by omega)
    exact ⟨r, t, t, hm1, hr.minRun hm2⟩

/-- Lines 163-620 make a run of the minimum-of-three state machine from the
entry voxel with the three counters measured from the entry point, when the
entry point lies on a grid plane of some axis and the counter of such an axis
is its unit-step length. -/
theorem dispatch_minRun (e : Env K) (hs : e.SignsOk) (hl : e.LenOk) (fuel : Nat) (dx dy : K)
    (index0 : Int) (onx ony onz : Bool) (v : Vector3DInt) (lambda : Vector3D K) (t E : K)
    (hon : onx = true ∨ ony = true ∨ onz = true)
    (hTx : onx = true → lambda.x - t = e.Len.x) (hTy : ony = true → lambda.y - t = e.Len.y)
    (hTz : onz = true → lambda.z - t = e.Len.z)
    (hwx : onx = true → E < min lambda.z lambda.y →
      ((cap e.N_x v.x e.signx : K) + 1) * e.Len.x ≤ E - t)
    (hwy : ony = true → E < min lambda.z lambda.x →
      ((cap e.N_y v.y e.signy : K) + 1) * e.Len.y ≤ E - t)
    (hfuel : (⟨v, lambda.x - t, lambda.y - t, lambda.z - t, 0, []⟩ : MarchState K).mu e + 1
      ≤ fuel) :
    ∃ r tr tr2, dispatch e fuel dx dy (indexOf index0 onx ony onz) v lambda t E = .ret r tr ∧
      MinRun e ⟨v, lambda.x - t, lambda.y - t, lambda.z - t, 0, []⟩ r tr2 := by
  have hmu : cap e.N_x v.x e.signx + cap e.N_y v.y e.signy + cap e.N_z v.z e.signz + 1 ≤ fuel := by
    simpa [MarchState.mu] using hfuel
  have mX : ∀ st : MarchState K, st = ⟨v, lambda.x - t, lambda.y - t, lambda.z - t, 0, []⟩ →
      ∃ r tr tr2, marchX e fuel st = .ret r tr ∧
        MinRun e ⟨v, lambda.x - t, lambda.y - t, lambda.z - t, 0, []⟩ r tr2 := by
    intro st hst
    subst hst
    obtain ⟨r, tr, h1, h2⟩ := marchX_spec e hs fuel _ hfuel
    exact ⟨r, tr, tr, h1, h2⟩
  have mY : ∀ st : MarchState K, st = ⟨v, lambda.x - t, lambda.y - t, lambda.z - t, 0, []⟩ →
      ∃ r tr tr2, marchY e fuel st = .ret r tr ∧
        MinRun e ⟨v, lambda.x - t, lambda.y - t, lambda.z - t, 0, []⟩ r tr2 := by
    intro st hst
    subst hst
    obtain ⟨r, tr, h1, h2⟩ := marchY_spec e hs fuel _ hfuel
    exact ⟨r, tr, tr, h1, h2⟩
  simp only [dispatch]
  by_cases hdom : |dx| > |dy|
  · rw [if_pos hdom]
    by_cases h1 : onx = true
    · have hi : indexOf index0 onx ony onz = 1 := by simp [indexOf, h1]
      rw [hi, if_pos rfl]
      by_cases hw : min lambda.z lambda.y > E
      · rw [if_pos hw]
        have hb := hwx h1 hw
        obtain ⟨r, tr, tr2, w1, w2⟩ := walkX_spec e hs hl.1 fuel v 0 0 0 0 []
          (lambda.y - t) (lambda.z - t) [] (by omega)
          (by have := min_le_right lambda.z lambda.y; linarith)
          (by have := min_le_left lambda.z lambda.y; linarith)
        refine ⟨r, tr, tr2, w1, ?_⟩
        rw [hTx h1]
        simpa using w2
      · rw [if_neg hw]
        by_cases hzy : lambda.z < lambda.y
        · rw [if_pos hzy]
          obtain ⟨w1, w2⟩ := xCrossZ_spec e hs fuel v (lambda.x - t) (lambda.y - t)
            (lambda.z - t) 0 [] (by linarith) (by simp only [MarchState.mu]; omega)
          have hsub : lambda.y - t - (lambda.z - t) = lambda.y - lambda.z := by ring
          rw [hsub] at w1 w2
          exact cross_then_march e fuel _ _ (marchX e) (marchX_spec e hs) w1 w2 hfuel
        · rw [if_neg hzy]
          obtain ⟨w1, w2⟩ := xCrossY_spec e hs fuel v (lambda.x - t) (lambda.z - t)
            (lambda.y - t) 0 [] (by linarith) (by simp only [MarchState.mu]; omega)
          have hsub : lambda.z - t - (lambda.y - t) = lambda.z - lambda.y := by ring
          rw [hsub] at w1 w2
          exact cross_then_march e fuel _ _ (marchX e) (marchX_spec e hs) w1 w2 hfuel
    · have h1f : onx = false := by simpa using h1
      by_cases h2 : ony = true
      · have hi : indexOf index0 onx ony onz = 2 := by simp [indexOf, h1f, h2]
        rw [hi, if_neg (by decide), if_pos rfl]
        exact mX _ (by rw [hTy h2])
      · have h2f : ony = false := by simpa using h2
        have h3 : onz = true := by
          rcases hon with h | h | h
          · exact absurd h h1
          · exact absurd h h2
          · exact h
        have hi : indexOf index0 onx ony onz = 3 := by simp [indexOf, h1f, h2f, h3]
        rw [hi, if_neg (by decide), if_neg (by decide)]
        exact mX _ (by rw [hTz h3])
  · rw [if_neg hdom]
    by_cases h1 : onx = true
    · have hi : indexOf index0 onx ony onz = 1 := by simp [indexOf, h1]
      rw [hi, if_neg (by decide), if_pos rfl]
      exact mY _ (by rw [hTx h1])
    · have h1f : onx = false := by simpa using h1
      by_cases h2 : ony = true
      · have hi : indexOf index0 onx ony onz = 2 := by simp [indexOf, h1f, h2]
        rw [hi, if_pos rfl]
        by_cases hw : min lambda.z lambda.x > E
        · rw [if_pos hw]
          have hb := hwy h2 hw
          obtain ⟨r, tr, tr2, w1, w2⟩ := walkY_spec e hs hl.2.1 fuel v 0 0 0 0 []
            (lambda.x - t) (lambda.z - t) [] (by omega)
            (by have := min_le_right lambda.z lambda.x; linarith)
            (by have := min_le_left lambda.z lambda.x; linarith)
          refine ⟨r, tr, tr2, w1, ?_⟩
          rw [hTy h2]
          simpa using w2
        · rw [if_neg hw]
          by_cases hzx : lambda.z < lambda.x
          · rw [if_pos hzx]
            obtain ⟨w1, w2⟩ := yCrossZ_spec e hs fuel v (lambda.y - t) (lambda.x - t)
              (lambda.z - t) 0 [] (by linarith) (by simp only [MarchState.mu]; omega)
            have hsub : lambda.x - t - (lambda.z - t) = lambda.x - lambda.z := by ring
            rw [hsub] at w1 w2
            exact cross_then_march e fuel _ _ (marchY e) (marchY_spec e hs) w1 w2 hfuel
          · rw [if_neg hzx]
            obtain ⟨w1, w2⟩ := yCrossX_spec e hs fuel v (lambda.y - t) (lambda.z - t)
              (lambda.x - t) 0 [] (by linarith) (by simp only [MarchState.mu]; omega)
            have hsub : lambda.z - t - (lambda.x - t) = lambda.z - lambda.x := by ring
            rw [hsub] at w1 w2
            exact cross_then_march e fuel _ _ (marchY e) (marchY_spec e hs) w1 w2 hfuel
      · have h2f : ony = false := by simpa using h2
        have h3 : onz = true := by
          rcases hon with h | h | h
          · exact absurd h h1
          · exact absurd h h2
          · exact h
        have hi : indexOf index0 onx ony onz = 3 := by simp [indexOf, h1f, h2f, h3]
        rw [hi, if_neg (by decide), if_neg (by decide)]
        exact mY _ (by rw [hTz h3])

end Dispatch

end RayTracer

namespace RayTracer
section Slab
variable {K : Type} [LinearOrderedField K]

/-- The cells of the grid lie, on each axis, between the distances at which the
ray enters and leaves the slab of the axis. -/
theorem axis_slab (s tt L : K) (N : Int) (hL : 0 < L) (i : Int) (h0 : 0 ≤ i) (h1 : i < N) :
    axisNear s tt L N ≤ (axisInterval s (tt - s) L i).1 ∧
      (axisInterval s (tt - s) L i).2 ≤ axisFar s tt L N := by
  have i0 : ((0 : Int) : K) ≤ (i : K) := by exact_mod_cast h0
  have i1 : (i : K) + 1 ≤ (N : K) := by exact_mod_cast h1
  rcases lt_trichotomy (tt - s) 0 with hd | hd | hd
  · have hmono : ∀ x y : K, x ≤ y → L * (y - s) / (tt - s) ≤ L * (x - s) / (tt - s) := by
      intro x y h
      apply div_le_div_of_nonpos_of_le hd.le
      exact mul_le_mul_of_nonneg_left (by linarith) hL.le
    rw [interval_neg s (tt - s) L hL hd i]
    simp only [axisNear, axisFar, if_neg hd.ne]
    exact ⟨le_trans (min_le_right _ _) (hmono _ _ i1), le_trans (hmono _ _ i0) (le_max_left _ _)⟩
  · simp only [axisNear, axisFar, axisInterval, hd, if_true]
    split_ifs
    · exact ⟨le_refl _, le_refl _⟩
    · exact ⟨hL.le, hL.le⟩
  · have hmono : ∀ x y : K, x ≤ y → L * (x - s) / (tt - s) ≤ L * (y - s) / (tt - s) := by
      intro x y h
      apply div_le_div_of_nonneg_right _ hd.le
      exact mul_le_mul_of_nonneg_left (by linarith) hL.le
    rw [interval_pos s (tt - s) L hL hd i]
    simp only [axisNear, axisFar, if_neg hd.ne.symm]
    exact ⟨le_trans (min_le_left _ _) (hmono _ _ i0), le_trans (hmono _ _ i1) (le_max_right _ _)⟩

/-- A point of the ray between the distances at which the ray enters and leaves
the slab of an axis has its coordinate in the slab. -/
theorem axis_mem (s tt L : K) (N : Int) (hL : 0 < L) (hN : 0 < N) (hin : AxisIn s tt N) (lam : K)
    (h1 : axisNear s tt L N ≤ lam) (h2 : lam ≤ axisFar s tt L N) :
    0 ≤ s + lam * (tt - s) / L ∧ s + lam * (tt - s) / L ≤ (N : K) := by
  have hNK : (0 : K) ≤ (N : K) := by exact_mod_cast hN.le
  have key : ∀ c : K, c = s + lam * (tt - s) / L → c * L = s * L + lam * (tt - s) := by
    intro c hc
    rw [hc]
    field_simp
  have hc := key _ rfl
  generalize s + lam * (tt - s) / L = c at hc ⊢
  rcases lt_trichotomy (tt - s) 0 with hd | hd | hd
  · simp only [axisNear, axisFar, if_neg hd.ne, min_le_iff, le_max_iff, Int.cast_zero] at h1 h2
    rw [div_le_iff_of_neg hd, div_le_iff_of_neg hd] at h1
    rw [le_div_iff_of_neg hd, le_div_iff_of_neg hd] at h2
    constructor
    · rcases h2 with h | h
      · by_contra hneg
        push_neg at hneg
        nlinarith
      · by_contra hneg
        push_neg at hneg
        nlinarith
    · rcases h1 with h | h
      · by_contra hneg
        push_neg at hneg
        nlinarith
      · by_contra hneg
        push_neg at hneg
        nlinarith
  · rcases hin with h | ⟨h3, h4⟩
    · exact absurd hd h
    · rw [hd, mul_zero, add_zero] at hc
      have : c = s := mul_right_cancel₀ hL.ne.symm hc
      rw [this]
      exact ⟨h3.le, h4.le⟩
  · simp only [axisNear, axisFar, if_neg hd.ne.symm, min_le_iff, le_max_iff, Int.cast_zero]
      at h1 h2
    rw [div_le_iff₀ hd, div_le_iff₀ hd] at h1
    rw [le_div_iff₀ hd, le_div_iff₀ hd] at h2
    constructor
    · rcases h1 with h | h
      · by_contra hneg
        push_neg at hneg
        nlinarith
      · by_contra hneg
        push_neg at hneg
        nlinarith
    · rcases h2 with h | h
      · by_contra hneg
        push_neg at hneg
        nlinarith
      · by_contra hneg
        push_neg at hneg
        nlinarith

end Slab
section Unified
variable {K : Type} [LinearOrderedField K] [FloorRing K]

/-- The geometry of an axis of a ray that goes through the grid: the entry
voxel, the plane that the first counter measures, and the facts `AxisGeo`. -/
theorem axis_geo (s tt L t E : K) (N : Int) (hL : 0 < L) (hL6 : L < 1000000) (hN : 0 < N)
    (hdir : tt - s = 0 ∨ 1 / 10000 < |tt - s|)
    (hin : tt - s = 0 → 0 < s ∧ s < (N : K))
    (hnear : axisNear s tt L N ≤ t) (hfar : t < axisFar s tt L N)
    (ht : 0 ≤ t) (htE : t ≤ E) (hE : E ≤ L)
    (hc : (∃ n : Int, s + t * (tt - s) / L = n) ∨
      ∀ n : Int, 1 / 10000 ≤ |s + t * (tt - s) / L - n|)
    (hst : tt - s = 0 → ∀ n : Int, s ≠ (n : K)) :
    ∃ (v u : Int) (onp : Bool),
      entryAxis (entryCoord s (tt - s) L t) (tt - s) (signOf (tt - s)) = (v, u, onp) ∧
      AxisGeo s tt L t E N v (signOf (tt - s)) (nextLambda u s tt L - t) (unitLen L (tt - s)) ∧
      (tt - s ≠ 0 → t = axisNear s tt L N → onp = true) ∧
      (onp = true → nextLambda u s tt L - t = unitLen L (tt - s)) ∧
      (tt - s ≠ 0 → t + cellHi (nextLambda u s tt L - t) (unitLen L (tt - s))
        (cap N v (signOf (tt - s))) = axisFar s tt L N) ∧
      (tt - s = 0 → E < nextLambda u s tt L) := by
  rcases hdir with hd | hbig
  · have hfar2 : ∀ n : Int, 1 / 10000 ≤ |s - n| := by
      rcases hc with ⟨n, hn⟩ | h
      · rw [hd, mul_zero, zero_div, add_zero] at hn
        exact absurd hn (hst hd n)
      · intro n
        have := h n
        rw [hd, mul_zero, zero_div, add_zero] at this
        exact this
    obtain ⟨v, h1, h2, h3, h4, _, _⟩ := axis_geo_static s tt L t E N hL hL6 hd (hin hd).1 (hin hd).2
      hfar2 ht htE hE
    refine ⟨v, v + 1, false, h1, ?_, (fun h => absurd hd h), (fun h => Bool.noConfusion h),
      (fun h => absurd hd h), (fun _ => ?_)⟩
    · rw [h2]; exact h3
    · rw [h4]; linarith
  · have hdne : tt - s ≠ 0 := by
      intro h
      rw [h, abs_zero] at hbig
      norm_num at hbig
    rcases lt_or_gt_of_ne hdne with hd | hd
    · obtain ⟨v, onp, h1, h2, h3, h4, h5, _, h7⟩ :=
        axis_geo_neg s tt L t E N hL hN hd hbig hnear hfar hc
      refine ⟨v, v, onp, h1, ?_, fun _ => h4, h5, fun _ => ?_, fun h => absurd h hdne⟩
      · rw [h2]; exact h3
      · rw [h2]; exact h7
    · obtain ⟨v, onp, h1, h2, h3, h4, h5, _, h7⟩ :=
        axis_geo_pos s tt L t E N hL hN hd hbig hnear hfar hc
      refine ⟨v, v + 1, onp, h1, ?_, fun _ => h4, h5, fun _ => ?_, fun h => absurd h hdne⟩
      · rw [h2]; exact h3
      · rw [h2]; exact h7

end Unified
end RayTracer

namespace RayTracer
section Test
variable {K : Type} [LinearOrderedField K]

/-- The slab values of an axis are not NaN when the coordinate changes along
the ray or is not on a face plane. -/
theorem axis_ne_nan (s t L : K) (N : Int) (hL : 0 < L) (hN : 0 < N)
    (h : AxisIn s t N ∨ AxisOut s t N) :
    MIN (ExtVal.quot (L * (((0 : Int) : K) - s)) (t - s)) (ExtVal.quot (L * ((N : K) - s)) (t - s))
      ≠ ExtVal.nan ∧
    MAX (ExtVal.quot (L * (((0 : Int) : K) - s)) (t - s)) (ExtVal.quot (L * ((N : K) - s)) (t - s))
      ≠ ExtVal.nan := by
  rcases h with h | ⟨h1, h2⟩
  · obtain ⟨a, b⟩ := axis_in s t L N hL h
    constructor
    · rcases a with a | ⟨a, _⟩ <;> rw [a] <;> simp
    · rcases b with b | ⟨b, _⟩ <;> rw [b] <;> simp
  · rcases axis_outside s t L N hL hN h1 h2 with ⟨a, b⟩ | ⟨a, b⟩ <;> rw [a, b] <;> simp

/-- The slab test when the ray moves along every axis or stays strictly inside
its slab: `lambda_min` and `lambda_max` are the entry and exit distances. -/
theorem slab_all_in (source detector : Vector3D K) (L : K) (N_x N_y N_z : Int) (hL : 0 < L)
    (hx : AxisIn source.x detector.x N_x) (hy : AxisIn source.y detector.y N_y)
    (hz : AxisIn source.z detector.z N_z) :
    slabMin source detector N_x N_y N_z L = .fin (entryDist source detector L N_x N_y N_z) ∧
    slabMax source detector N_x N_y N_z L = .fin (exitDist source detector L N_x N_y N_z) := by
  obtain ⟨ax, bx⟩ := axis_in source.x detector.x L N_x hL hx
  obtain ⟨ay, b_y⟩ := axis_in source.y detector.y L N_y hL hy
  obtain ⟨az, bz⟩ := axis_in source.z detector.z L N_z hL hz
  exact ⟨combine_near _ _ _ _ _ _ ax ay az, combine_far L _ _ _ _ _ _ bx b_y bz⟩

/-- The slab test when the ray stays outside the slab of some axis: the test
`lambda_min >= lambda_max` holds. -/
theorem slab_some_out (source detector : Vector3D K) (L : K) (N_x N_y N_z : Int) (hL : 0 < L)
    (hN : 0 < N_x ∧ 0 < N_y ∧ 0 < N_z)
    (hx : AxisIn source.x detector.x N_x ∨ AxisOut source.x detector.x N_x)
    (hy : AxisIn source.y detector.y N_y ∨ AxisOut source.y detector.y N_y)
    (hz : AxisIn source.z detector.z N_z ∨ AxisOut source.z detector.z N_z)
    (hout : AxisOut source.x detector.x N_x ∨ AxisOut source.y detector.y N_y ∨
      AxisOut source.z detector.z N_z) :
    (slabMin source detector N_x N_y N_z L).ge (slabMax source detector N_x N_y N_z L) = true := by
  obtain ⟨nx, mx⟩ := axis_ne_nan source.x detector.x L N_x hL hN.1 hx
  obtain ⟨ny, my⟩ := axis_ne_nan source.y detector.y L N_y hL hN.2.1 hy
  obtain ⟨nz, mz⟩ := axis_ne_nan source.z detector.z L N_z hL hN.2.2 hz
  have hmin : slabMin source detector N_x N_y N_z L ≠ .nan :=
    MAX_ne_nan _ _ (MAX_ne_nan _ _ (by simp) nx) (MAX_ne_nan _ _ ny nz)
  have hmax : slabMax source detector N_x N_y N_z L ≠ .nan :=
    MIN_ne_nan _ _ (MIN_ne_nan _ _ (by simp) mx) (MIN_ne_nan _ _ my mz)
  have key : slabMin source detector N_x N_y N_z L = .pinf ∨
      slabMax source detector N_x N_y N_z L = .ninf := by
    rcases hout with ⟨h1, h2⟩ | ⟨h1, h2⟩ | ⟨h1, h2⟩
    · rcases axis_outside source.x detector.x L N_x hL hN.1 h1 h2 with ⟨a, _⟩ | ⟨_, b⟩
      · left; exact combine_pinf _ _ _ nx ny nz (Or.inl a)
      · right; exact combine_ninf L _ _ _ mx my mz (Or.inl b)
    · rcases axis_outside source.y detector.y L N_y hL hN.2.1 h1 h2 with ⟨a, _⟩ | ⟨_, b⟩
      · left; exact combine_pinf _ _ _ nx ny nz (Or.inr (Or.inl a))
      · right; exact combine_ninf L _ _ _ mx my mz (Or.inr (Or.inl b))
    · rcases axis_outside source.z detector.z L N_z hL hN.2.2 h1 h2 with ⟨a, _⟩ | ⟨_, b⟩
      · left; exact combine_pinf _ _ _ nx ny nz (Or.inr (Or.inr a))
      · right; exact combine_ninf L _ _ _ mx my mz (Or.inr (Or.inr b))
  rcases key with h | h
  · rw [h]; exact ge_pinf_left _ hmax
  · rw [h]; exact ge_ninf_right _ hmin

/-- The line integral is zero when no cell of the grid has a length in common
with the segment. -/
theorem lineIntegral_zero (source detector : Vector3D K) (L : K) (N_x N_y N_z : Int)
    (image : Array3D K)
    (h : ∀ i j k : Int, 0 ≤ i → i < N_x → 0 ≤ j → j < N_y → 0 ≤ k → k < N_z →
      cellLength source detector L i j k = 0) :
    lineIntegral source detector L N_x N_y N_z image = 0 := by
  have rng : ∀ (N : Int) (n : Nat), n ∈ Finset.range N.toNat → 0 ≤ (n : Int) ∧ (n : Int) < N := by
    intro N n hn
    rw [Finset.mem_range] at hn
    omega
  unfold lineIntegral gridSum
  apply Finset.sum_eq_zero
  intro i hi
  apply Finset.sum_eq_zero
  intro j hj
  apply Finset.sum_eq_zero
  intro k hk
  simp only
  rw [h i j k (rng _ _ hi).1 (rng _ _ hi).2 (rng _ _ hj).1 (rng _ _ hj).2 (rng _ _ hk).1
    (rng _ _ hk).2, mul_zero]

/-- A cell whose clipped end is at or before its clipped start has no length in
common with the segment. -/
theorem cell_empty_clipped (L h1 h2 h3 l1 l2 l3 m : K) (hm : min L (min h1 (min h2 h3)) ≤ m)
    (hl : m ≤ max 0 (max l1 (max l2 l3))) :
    max 0 (min L (min h1 (min h2 h3)) - max 0 (max l1 (max l2 l3))) = 0 := by
  apply max_eq_left
  linarith

/-- The line integral along a ray that stays outside the slab of some axis is
zero. -/
theorem lineIntegral_out (source detector : Vector3D K) (L : K) (N_x N_y N_z : Int)
    (image : Array3D K)
    (hout : AxisOut source.x detector.x N_x ∨ AxisOut source.y detector.y N_y ∨
      AxisOut source.z detector.z N_z) :
    lineIntegral source detector L N_x N_y N_z image = 0 := by
  have key : ∀ (s t : K) (N : Int), AxisOut s t N → ∀ i : Int, 0 ≤ i → i < N →
      axisInterval s (t - s) L i = (L, 0) := by
    intro s t N ⟨h1, h2⟩ i hi0 hiN
    have i0 : (0 : K) ≤ (i : K) := by exact_mod_cast hi0
    have i1 : (i : K) + 1 ≤ (N : K) := by exact_mod_cast hiN
    simp only [axisInterval, h1, if_true]
    rw [if_neg]
    rintro ⟨a, b⟩
    rcases h2 with h | h <;> linarith
  apply lineIntegral_zero
  intro i j k hi0 hiN hj0 hjN hk0 hkN
  unfold cellLength cellLengthBetween
  apply cell_empty_clipped _ _ _ _ _ _ _ 0
  · rcases hout with h | h | h
    · rw [key _ _ _ h i hi0 hiN]
      exact le_trans (min_le_right _ _) (min_le_left _ _)
    · rw [key _ _ _ h j hj0 hjN]
      exact le_trans (min_le_right _ _) (le_trans (min_le_right _ _) (min_le_left _ _))
    · rw [key _ _ _ h k hk0 hkN]
      exact le_trans (min_le_right _ _) (le_trans (min_le_right _ _) (min_le_right _ _))
  · exact le_max_left _ _

/-- The line integral along a ray that leaves the slabs of the axes before it
is inside all three is zero. -/
theorem lineIntegral_miss (source detector : Vector3D K) (L : K) (N_x N_y N_z : Int)
    (image : Array3D K) (hL : 0 < L)
    (h : exitDist source detector L N_x N_y N_z ≤ entryDist source detector L N_x N_y N_z) :
    lineIntegral source detector L N_x N_y N_z image = 0 := by
  apply lineIntegral_zero
  intro i j k hi0 hiN hj0 hjN hk0 hkN
  obtain ⟨ax, bx⟩ := axis_slab source.x detector.x L N_x hL i hi0 hiN
  obtain ⟨ay, b_y⟩ := axis_slab source.y detector.y L N_y hL j hj0 hjN
  obtain ⟨az, bz⟩ := axis_slab source.z detector.z L N_z hL k hk0 hkN
  unfold cellLength cellLengthBetween
  apply cell_empty_clipped _ _ _ _ _ _ _ (exitDist source detector L N_x N_y N_z)
  · unfold exitDist
    exact le_min (le_min (min_le_left _ _) (le_trans (le_trans (min_le_right _ _) (min_le_left _ _)) bx))
      (le_min (le_trans (le_trans (min_le_right _ _) (le_trans (min_le_right _ _) (min_le_left _ _))) b_y)
        (le_trans (le_trans (min_le_right _ _) (le_trans (min_le_right _ _) (min_le_right _ _))) bz))
  · refine le_trans h ?_
    unfold entryDist
    exact max_le (max_le (le_max_left _ _) (le_trans ax (le_trans (le_max_left _ _) (le_max_right _ _))))
      (max_le (le_trans ay (le_trans (le_trans (le_max_left _ _) (le_max_right _ _)) (le_max_right _ _)))
        (le_trans az (le_trans (le_trans (le_max_right _ _) (le_max_right _ _)) (le_max_right _ _))))

end Test
end RayTracer

namespace RayTracer
section Through
variable {K : Type} [LinearOrderedField K]

/-- A ray whose source and detector are outside the box, and that is inside
the slabs of all three axes over some distance, enters the box after the
source and leaves it before the detector. -/
theorem through_facts (source detector : Vector3D K) (L : K) (N_x N_y N_z : Int) (hL : 0 < L)
    (hN : 0 < N_x ∧ 0 < N_y ∧ 0 < N_z)
    (hx : AxisIn source.x detector.x N_x) (hy : AxisIn source.y detector.y N_y)
    (hz : AxisIn source.z detector.z N_z)
    (hlt : entryDist source detector L N_x N_y N_z < exitDist source detector L N_x N_y N_z)
    (hs : ¬ InBox source N_x N_y N_z) (hd : ¬ InBox detector N_x N_y N_z) :
    0 < entryDist source detector L N_x N_y N_z ∧
      exitDist source detector L N_x N_y N_z < L := by
  have n0 : 0 ≤ entryDist source detector L N_x N_y N_z :=
    le_trans (le_max_left _ _) (le_max_left _ _)
  have nx : axisNear source.x detector.x L N_x ≤ entryDist source detector L N_x N_y N_z :=
    le_trans (le_max_right _ _) (le_max_left _ _)
  have ny : axisNear source.y detector.y L N_y ≤ entryDist source detector L N_x N_y N_z :=
    le_trans (le_max_left _ _) (le_max_right _ _)
  have nz : axisNear source.z detector.z L N_z ≤ entryDist source detector L N_x N_y N_z :=
    le_trans (le_max_right _ _) (le_max_right _ _)
  have f0 : exitDist source detector L N_x N_y N_z ≤ L :=
    le_trans (min_le_left _ _) (min_le_left _ _)
  have fx : exitDist source detector L N_x N_y N_z ≤ axisFar source.x detector.x L N_x :=
    le_trans (min_le_left _ _) (min_le_right _ _)
  have fy : exitDist source detector L N_x N_y N_z ≤ axisFar source.y detector.y L N_y :=
    le_trans (min_le_right _ _) (min_le_left _ _)
  have fz : exitDist source detector L N_x N_y N_z ≤ axisFar source.z detector.z L N_z :=
    le_trans (min_le_right _ _) (min_le_right _ _)
  constructor
  · by_contra h
    push_neg at h
    apply hs
    have ax := axis_mem source.x detector.x L N_x hL hN.1 hx 0 (by linarith) (by linarith)
    have ay := axis_mem source.y detector.y L N_y hL hN.2.1 hy 0 (by linarith) (by linarith)
    have az := axis_mem source.z detector.z L N_z hL hN.2.2 hz 0 (by linarith) (by linarith)
    simp only [zero_mul, zero_div, add_zero] at ax ay az
    exact ⟨ax, ay, az⟩
  · by_contra h
    push_neg at h
    apply hd
    have e : ∀ s tt : K, s + L * (tt - s) / L = tt := by
      intro s tt
      field_simp
    have ax := axis_mem source.x detector.x L N_x hL hN.1 hx L (by linarith) (by linarith)
    have ay := axis_mem source.y detector.y L N_y hL hN.2.1 hy L (by linarith) (by linarith)
    have az := axis_mem source.z detector.z L N_z hL hN.2.2 hz L (by linarith) (by linarith)
    rw [e] at ax ay az
    exact ⟨ax, ay, az⟩

/-- The entry distance of a ray that enters the box after its source is the
distance at which the ray enters the slab of one of the axes. -/
theorem entry_axis (source detector : Vector3D K) (L : K) (N_x N_y N_z : Int)
    (h : 0 < entryDist source detector L N_x N_y N_z) :
    axisNear source.x detector.x L N_x = entryDist source detector L N_x N_y N_z ∨
      axisNear source.y detector.y L N_y = entryDist source detector L N_x N_y N_z ∨
      axisNear source.z detector.z L N_z = entryDist source detector L N_x N_y N_z := by
  unfold entryDist at h ⊢
  rcases max_choice (max 0 (axisNear source.x detector.x L N_x))
    (max (axisNear source.y detector.y L N_y) (axisNear source.z detector.z L N_z)) with h1 | h1
  · rcases max_choice 0 (axisNear source.x detector.x L N_x) with h2 | h2
    · rw [h1, h2] at h
      exact absurd h (lt_irrefl _)
    · left; rw [h1, h2]
  · rcases max_choice (axisNear source.y detector.y L N_y)
      (axisNear source.z detector.z L N_z) with h2 | h2
    · right; left; rw [h1, h2]
    · right; right; rw [h1, h2]

/-- The exit distance of a ray that leaves the box before its detector is the
distance at which the ray leaves the slab of one of the axes, along which the
coordinate changes. -/
theorem exit_axis (source detector : Vector3D K) (L : K) (N_x N_y N_z : Int)
    (h : exitDist source detector L N_x N_y N_z < L) :
    (detector.x - source.x ≠ 0 ∧
        axisFar source.x detector.x L N_x = exitDist source detector L N_x N_y N_z) ∨
      (detector.y - source.y ≠ 0 ∧
        axisFar source.y detector.y L N_y = exitDist source detector L N_x N_y N_z) ∨
      (detector.z - source.z ≠ 0 ∧
        axisFar source.z detector.z L N_z = exitDist source detector L N_x N_y N_z) := by
  have key : ∀ (s tt : K) (N : Int), axisFar s tt L N < L → tt - s ≠ 0 := by
    intro s tt N h1 h2
    simp only [axisFar, h2, if_true] at h1
    exact absurd h1 (lt_irrefl _)
  have h0 : axisFar source.x detector.x L N_x = exitDist source detector L N_x N_y N_z ∨
      axisFar source.y detector.y L N_y = exitDist source detector L N_x N_y N_z ∨
      axisFar source.z detector.z L N_z = exitDist source detector L N_x N_y N_z := by
    unfold exitDist at h ⊢
    rcases min_choice (min L (axisFar source.x detector.x L N_x))
      (min (axisFar source.y detector.y L N_y) (axisFar source.z detector.z L N_z)) with h1 | h1
    · rcases min_choice L (axisFar source.x detector.x L N_x) with h2 | h2
      · rw [h1, h2] at h
        exact absurd h (lt_irrefl _)
      · left; rw [h1, h2]
    · rcases min_choice (axisFar source.y detector.y L N_y)
        (axisFar source.z detector.z L N_z) with h2 | h2
      · right; left; rw [h1, h2]
      · right; right; rw [h1, h2]
  rcases h0 with h1 | h1 | h1
  · exact Or.inl ⟨key _ _ _ (by rw [h1]; exact h), h1⟩
  · exact Or.inr (Or.inl ⟨key _ _ _ (by rw [h1]; exact h), h1⟩)
  · exact Or.inr (Or.inr ⟨key _ _ _ (by rw [h1]; exact h), h1⟩)

/-- From a voxel of the grid fewer steps than the extent stay in the grid. -/
theorem cap_lt (N v sign : Int) (hs : sign = 1 ∨ sign = -1) (h0 : 0 ≤ v) (h1 : v < N) :
    (cap N v sign : Int) + 1 ≤ N := by
  rcases hs with h | h
  · subst h
    rw [cap_pos_eq N v h0 h1]
    omega
  · subst h
    rw [cap_neg_eq N v h0 h1]
    omega

end Through
end RayTracer

namespace RayTracer
section Main
variable {K : Type} [LinearOrderedField K] [FloorRing K]

/-- Lines 94-620 on a ray that goes through the grid from outside to outside:
the call makes a run of the minimum-of-three state machine from the entry voxel,
with the counters measured from the entry point. -/
theorem marchFromEntry_run (index0 : Int) (fuel : Nat) (source detector : Vector3D K)
    (N_x N_y N_z : Int) (image : Array3D K) (L : K) (hL : 0 < L) (hL6 : L < 1000000)
    (hN : 0 < N_x ∧ 0 < N_y ∧ 0 < N_z) (hfuel : N_x + N_y + N_z ≤ (fuel : Int))
    (hx : AxisIn source.x detector.x N_x) (hy : AxisIn source.y detector.y N_y)
    (hz : AxisIn source.z detector.z N_z)
    (hb : (detector.x - source.x = 0 ∨ 1 / 10000 < |detector.x - source.x|) ∧
      (detector.y - source.y = 0 ∨ 1 / 10000 < |detector.y - source.y|) ∧
      (detector.z - source.z = 0 ∨ 1 / 10000 < |detector.z - source.z|))
    (hd0 : (detector.x - source.x = 0 → ∀ n : Int, source.x ≠ (n : K)) ∧
      (detector.y - source.y = 0 → ∀ n : Int, source.y ≠ (n : K)) ∧
      (detector.z - source.z = 0 → ∀ n : Int, source.z ≠ (n : K)))
    (hlt : entryDist source detector L N_x N_y N_z < exitDist source detector L N_x N_y N_z)
    (hs : ¬ InBox source N_x N_y N_z) (hd : ¬ InBox detector N_x N_y N_z)
    (hc : ((∃ n : Int, source.x + entryDist source detector L N_x N_y N_z
            * (detector.x - source.x) / L = n) ∨
          ∀ n : Int, 1 / 10000 ≤ |source.x + entryDist source detector L N_x N_y N_z
            * (detector.x - source.x) / L - n|) ∧
      ((∃ n : Int, source.y + entryDist source detector L N_x N_y N_z
            * (detector.y - source.y) / L = n) ∨
          ∀ n : Int, 1 / 10000 ≤ |source.y + entryDist source detector L N_x N_y N_z
            * (detector.y - source.y) / L - n|) ∧
      ((∃ n : Int, source.z + entryDist source detector L N_x N_y N_z
            * (detector.z - source.z) / L = n) ∨
          ∀ n : Int, 1 / 10000 ≤ |source.z + entryDist source detector L N_x N_y N_z
            * (detector.z - source.z) / L - n|)) :
    ∃ (vx vy vz ux uy uz : Int) (r : K) (tr tr2 : List (Vector3DInt × K)),
      marchFromEntry index0 fuel source detector N_x N_y N_z image L
        (entryDist source detector L N_x N_y N_z) (exitDist source detector L N_x N_y N_z)
        = .ret r tr ∧
      MinRun (⟨image, N_x, N_y, N_z, signOf (detector.x - source.x),
          signOf (detector.y - source.y), signOf (detector.z - source.z),
          ⟨unitLen L (detector.x - source.x), unitLen L (detector.y - source.y),
            unitLen L (detector.z - source.z)⟩⟩ : Env K)
        ⟨⟨vx, vy, vz⟩,
          nextLambda ux source.x detector.x L - entryDist source detector L N_x N_y N_z,
          nextLambda uy source.y detector.y L - entryDist source detector L N_x N_y N_z,
          nextLambda uz source.z detector.z L - entryDist source detector L N_x N_y N_z,
          0, []⟩ r tr2 ∧
      AxisGeo source.x detector.x L (entryDist source detector L N_x N_y N_z)
        (exitDist source detector L N_x N_y N_z) N_x vx (signOf (detector.x - source.x))
        (nextLambda ux source.x detector.x L - entryDist source detector L N_x N_y N_z)
        (unitLen L (detector.x - source.x)) ∧
      AxisGeo source.y detector.y L (entryDist source detector L N_x N_y N_z)
        (exitDist source detector L N_x N_y N_z) N_y vy (signOf (detector.y - source.y))
        (nextLambda uy source.y detector.y L - entryDist source detector L N_x N_y N_z)
        (unitLen L (detector.y - source.y)) ∧
      AxisGeo source.z detector.z L (entryDist source detector L N_x N_y N_z)
        (exitDist source detector L N_x N_y N_z) N_z vz (signOf (detector.z - source.z))
        (nextLambda uz source.z detector.z L - entryDist source detector L N_x N_y N_z)
        (unitLen L (detector.z - source.z)) ∧
      ((detector.x - source.x ≠ 0 → entryDist source detector L N_x N_y N_z
          + cellHi (nextLambda ux source.x detector.x L - entryDist source detector L N_x N_y N_z)
            (unitLen L (detector.x - source.x)) (cap N_x vx (signOf (detector.x - source.x)))
          = axisFar source.x detector.x L N_x) ∧
        (detector.y - source.y ≠ 0 → entryDist source detector L N_x N_y N_z
          + cellHi (nextLambda uy source.y detector.y L - entryDist source detector L N_x N_y N_z)
            (unitLen L (detector.y - source.y)) (cap N_y vy (signOf (detector.y - source.y)))
          = axisFar source.y detector.y L N_y) ∧
        (detector.z - source.z ≠ 0 → entryDist source detector L N_x N_y N_z
          + cellHi (nextLambda uz source.z detector.z L - entryDist source detector L N_x N_y N_z)
            (unitLen L (detector.z - source.z)) (cap N_z vz (signOf (detector.z - source.z)))
          = axisFar source.z detector.z L N_z)) ∧
      ((detector.x - source.x = 0 →
          exitDist source detector L N_x N_y N_z < nextLambda ux source.x detector.x L) ∧
        (detector.y - source.y = 0 →
          exitDist source detector L N_x N_y N_z < nextLambda uy source.y detector.y L) ∧
        (detector.z - source.z = 0 →
          exitDist source detector L N_x N_y N_z < nextLambda uz source.z detector.z L)) := by
  obtain ⟨ht0, hEL⟩ := through_facts source detector L N_x N_y N_z hL hN hx hy hz hlt hs hd
  have hentry := entry_axis source detector L N_x N_y N_z ht0
  have hexit := exit_axis source detector L N_x N_y N_z hEL
  have nx : axisNear source.x detector.x L N_x ≤ entryDist source detector L N_x N_y N_z :=
    le_trans (le_max_right _ _) (le_max_left _ _)
  have ny : axisNear source.y detector.y L N_y ≤ entryDist source detector L N_x N_y N_z :=
    le_trans (le_max_left _ _) (le_max_right _ _)
  have nz : axisNear source.z detector.z L N_z ≤ entryDist source detector L N_x N_y N_z :=
    le_trans (le_max_right _ _) (le_max_right _ _)
  have fx : exitDist source detector L N_x N_y N_z ≤ axisFar source.x detector.x L N_x :=
    le_trans (min_le_left _ _) (min_le_right _ _)
  have fy : exitDist source detector L N_x N_y N_z ≤ axisFar source.y detector.y L N_y :=
    le_trans (min_le_right _ _) (min_le_left _ _)
  have fz : exitDist source detector L N_x N_y N_z ≤ axisFar source.z detector.z L N_z :=
    le_trans (min_le_right _ _) (min_le_right _ _)
  have stat : ∀ (s tt : K) (N : Int), AxisIn s tt N → tt - s = 0 → 0 < s ∧ s < (N : K) := by
    intro s tt N h h0
    rcases h with h | h
    · exact absurd h0 h
    · exact h
  have near0 : ∀ (s tt : K) (N : Int), tt - s = 0 → axisNear s tt L N = 0 := by
    intro s tt N h
    simp [axisNear, h]
  generalize ht : entryDist source detector L N_x N_y N_z = t at *
  generalize hE : exitDist source detector L N_x N_y N_z = E at *
  obtain ⟨vx, ux, onx, hex, gx, honx, hTx, hfx, hsx⟩ :=
    axis_geo source.x detector.x L t E N_x hL hL6 hN.1 hb.1 (stat _ _ _ hx) nx
      (lt_of_lt_of_le hlt fx) ht0.le hlt.le hEL.le hc.1 hd0.1
  obtain ⟨vy, uy, ony, hey, gy, hony, hTy, hfy, hsy⟩ :=
    axis_geo source.y detector.y L t E N_y hL hL6 hN.2.1 hb.2.1 (stat _ _ _ hy) ny
      (lt_of_lt_of_le hlt fy) ht0.le hlt.le hEL.le hc.2.1 hd0.2.1
  obtain ⟨vz, uz, onz, hez, gz, honz, hTz, hfz, hsz⟩ :=
    axis_geo source.z detector.z L t E N_z hL hL6 hN.2.2 hb.2.2 (stat _ _ _ hz) nz
      (lt_of_lt_of_le hlt fz) ht0.le hlt.le hEL.le hc.2.2 hd0.2.2
  have hon : onx = true ∨ ony = true ∨ onz = true := by
    rcases hentry with h | h | h
    · left
      apply honx _ h.symm
      intro h0
      rw [near0 _ _ _ h0] at h
      linarith
    · right; left
      apply hony _ h.symm
      intro h0
      rw [near0 _ _ _ h0] at h
      linarith
    · right; right
      apply honz _ h.symm
      intro h0
      rw [near0 _ _ _ h0] at h
      linarith
  have hi : ∀ (T Len : K) (k : Nat), 0 ≤ Len → T ≤ cellHi T Len k := by
    intro T Len k h
    have : 0 ≤ (k : K) * Len := mul_nonneg (Nat.cast_nonneg _) h
    simp only [cellHi]
    linarith
  have lamx : nextLambda ux source.x detector.x L ≤ E ∨
      (E < nextLambda ux source.x detector.x L ∧
        ¬ (detector.x - source.x ≠ 0 ∧ axisFar source.x detector.x L N_x = E)) := by
    by_cases h : nextLambda ux source.x detector.x L ≤ E
    · exact Or.inl h
    · right
      refine ⟨not_le.1 h, ?_⟩
      rintro ⟨h1, h2⟩
      have := hfx h1
      have := hi (nextLambda ux source.x detector.x L - t) (unitLen L (detector.x - source.x))
        (cap N_x vx (signOf (detector.x - source.x))) gx.len_nonneg
      apply h
      linarith
  have lamy : nextLambda uy source.y detector.y L ≤ E ∨
      (E < nextLambda uy source.y detector.y L ∧
        ¬ (detector.y - source.y ≠ 0 ∧ axisFar source.y detector.y L N_y = E)) := by
    by_cases h : nextLambda uy source.y detector.y L ≤ E
    · exact Or.inl h
    · right
      refine ⟨not_le.1 h, ?_⟩
      rintro ⟨h1, h2⟩
      have := hfy h1
      have := hi (nextLambda uy source.y detector.y L - t) (unitLen L (detector.y - source.y))
        (cap N_y vy (signOf (detector.y - source.y))) gy.len_nonneg
      apply h
      linarith
  have lamz : nextLambda uz source.z detector.z L ≤ E ∨
      (E < nextLambda uz source.z detector.z L ∧
        ¬ (detector.z - source.z ≠ 0 ∧ axisFar source.z detector.z L N_z = E)) := by
    by_cases h : nextLambda uz source.z detector.z L ≤ E
    · exact Or.inl h
    · right
      refine ⟨not_le.1 h, ?_⟩
      rintro ⟨h1, h2⟩
      have := hfz h1
      have := hi (nextLambda uz source.z detector.z L - t) (unitLen L (detector.z - source.z))
        (cap N_z vz (signOf (detector.z - source.z))) gz.len_nonneg
      apply h
      linarith
  have hsigns : Env.SignsOk (⟨image, N_x, N_y, N_z, signOf (detector.x - source.x),
      signOf (detector.y - source.y), signOf (detector.z - source.z),
      ⟨unitLen L (detector.x - source.x), unitLen L (detector.y - source.y),
        unitLen L (detector.z - source.z)⟩⟩ : Env K) :=
    ⟨gx.sign_ok, gy.sign_ok, gz.sign_ok⟩
  have hlens : Env.LenOk (⟨image, N_x, N_y, N_z, signOf (detector.x - source.x),
      signOf (detector.y - source.y), signOf (detector.z - source.z),
      ⟨unitLen L (detector.x - source.x), unitLen L (detector.y - source.y),
        unitLen L (detector.z - source.z)⟩⟩ : Env K) :=
    ⟨gx.len_nonneg, gy.len_nonneg, gz.len_nonneg⟩
  have cx := cap_lt N_x vx _ gx.sign_ok gx.v_range.1 gx.v_range.2
  have cy := cap_lt N_y vy _ gy.sign_ok gy.v_range.1 gy.v_range.2
  have cz := cap_lt N_z vz _ gz.sign_ok gz.v_range.1 gz.v_range.2
  obtain ⟨r, tr, tr2, hrun, hmin⟩ := dispatch_minRun
    (⟨image, N_x, N_y, N_z, signOf (detector.x - source.x),
      signOf (detector.y - source.y), signOf (detector.z - source.z),
      ⟨unitLen L (detector.x - source.x), unitLen L (detector.y - source.y),
        unitLen L (detector.z - source.z)⟩⟩ : Env K) hsigns hlens fuel
    (detector.x - source.x) (detector.y - source.y) index0 onx ony onz ⟨vx, vy, vz⟩
    ⟨nextLambda ux source.x detector.x L, nextLambda uy source.y detector.y L,
      nextLambda uz source.z detector.z L⟩ t E hon hTx hTy hTz
    (by
      intro h1 h2
      simp only [lt_min_iff] at h2
      rcases hexit with h | h | h
      · have := hfx h.1
        rw [h.2, hTx h1] at this
        simp only [cellHi] at this
        simp only
        linarith
      · rcases lamy with h3 | ⟨_, h3⟩
        · linarith
        · exact absurd h h3
      · rcases lamz with h3 | ⟨_, h3⟩
        · linarith
        · exact absurd h h3)
    (by
      intro h1 h2
      simp only [lt_min_iff] at h2
      rcases hexit with h | h | h
      · rcases lamx with h3 | ⟨_, h3⟩
        · linarith
        · exact absurd h h3
      · have := hfy h.1
        rw [h.2, hTy h1] at this
        simp only [cellHi] at this
        simp only
        linarith
      · rcases lamz with h3 | ⟨_, h3⟩
        · linarith
        · exact absurd h h3)
    (by
      simp only [MarchState.mu]
      omega)
  refine ⟨vx, vy, vz, ux, uy, uz, r, tr, tr2, ?_, hmin, gx, gy, gz, ⟨hfx, hfy, hfz⟩,
    ⟨hsx, hsy, hsz⟩⟩
  simp only [marchFromEntry, hex, hey, hez]
  exact hrun

/-- Lines 94-620 on a ray that goes through the grid from outside to outside:
the result is the line integral of the image along the segment. -/
theorem marchFromEntry_spec (index0 : Int) (fuel : Nat) (source detector : Vector3D K)
    (N_x N_y N_z : Int) (image : Array3D K) (L : K) (hL : 0 < L) (hL6 : L < 1000000)
    (hN : 0 < N_x ∧ 0 < N_y ∧ 0 < N_z) (hfuel : N_x + N_y + N_z ≤ (fuel : Int))
    (hx : AxisIn source.x detector.x N_x) (hy : AxisIn source.y detector.y N_y)
    (hz : AxisIn source.z detector.z N_z)
    (hb : (detector.x - source.x = 0 ∨ 1 / 10000 < |detector.x - source.x|) ∧
      (detector.y - source.y = 0 ∨ 1 / 10000 < |detector.y - source.y|) ∧
      (detector.z - source.z = 0 ∨ 1 / 10000 < |detector.z - source.z|))
    (hd0 : (detector.x - source.x = 0 → ∀ n : Int, source.x ≠ (n : K)) ∧
      (detector.y - source.y = 0 → ∀ n : Int, source.y ≠ (n : K)) ∧
      (detector.z - source.z = 0 → ∀ n : Int, source.z ≠ (n : K)))
    (hlt : entryDist source detector L N_x N_y N_z < exitDist source detector L N_x N_y N_z)
    (hs : ¬ InBox source N_x N_y N_z) (hd : ¬ InBox detector N_x N_y N_z)
    (hc : ((∃ n : Int, source.x + entryDist source detector L N_x N_y N_z
            * (detector.x - source.x) / L = n) ∨
          ∀ n : Int, 1 / 10000 ≤ |source.x + entryDist source detector L N_x N_y N_z
            * (detector.x - source.x) / L - n|) ∧
      ((∃ n : Int, source.y + entryDist source detector L N_x N_y N_z
            * (detector.y - source.y) / L = n) ∨
          ∀ n : Int, 1 / 10000 ≤ |source.y + entryDist source detector L N_x N_y N_z
            * (detector.y - source.y) / L - n|) ∧
      ((∃ n : Int, source.z + entryDist source detector L N_x N_y N_z
            * (detector.z - source.z) / L = n) ∨
          ∀ n : Int, 1 / 10000 ≤ |source.z + entryDist source detector L N_x N_y N_z
            * (detector.z - source.z) / L - n|)) :
    ∃ tr, marchFromEntry index0 fuel source detector N_x N_y N_z image L
        (entryDist source detector L N_x N_y N_z) (exitDist source detector L N_x N_y N_z)
      = .ret (lineIntegral source detector L N_x N_y N_z image) tr := by
  obtain ⟨ht0, hEL⟩ := through_facts source detector L N_x N_y N_z hL hN hx hy hz hlt hs hd
  have hentry := entry_axis source detector L N_x N_y N_z ht0
  have hexit := exit_axis source detector L N_x N_y N_z hEL
  obtain ⟨vx, vy, vz, ux, uy, uz, r, tr, tr2, hrun, hmin, gx, gy, gz, _, _⟩ :=
    marchFromEntry_run index0 fuel source detector N_x N_y N_z image L hL hL6 hN hfuel hx hy hz
      hb hd0 hlt hs hd hc
  have hval := MinRun.value ⟨gx.sign_ok, gy.sign_ok, gz.sign_ok⟩
    ⟨gx.len_nonneg, gy.len_nonneg, gz.len_nonneg⟩ hmin
    ⟨gx.counter_nonneg, gy.counter_nonneg, gz.counter_nonneg⟩
  have hsum := aheadSum_eq_lineIntegral source detector L _ _ N_x N_y N_z image vx vy vz
    (signOf (detector.x - source.x)) (signOf (detector.y - source.y))
    (signOf (detector.z - source.z)) _ _ _
    ⟨unitLen L (detector.x - source.x), unitLen L (detector.y - source.y),
        unitLen L (detector.z - source.z)⟩ gx gy gz ht0.le hEL.le hentry hexit
  refine ⟨tr, ?_⟩
  rw [hrun, hval, hsum, zero_add]

end Main
end RayTracer

namespace RayTracer
section Classes
variable {K : Type} [LinearOrderedField K]

/-- An axis along which the coordinate changes, or does not change and is not
an integer, is either in or out. -/
theorem axis_class (s tt : K) (N : Int)
    (hd0 : tt - s = 0 → ∀ n : Int, s ≠ (n : K)) : AxisIn s tt N ∨ AxisOut s tt N := by
  by_cases h : tt - s = 0
  · have h0 : s ≠ 0 := by simpa using hd0 h 0
    have hN := hd0 h N
    rcases lt_trichotomy s 0 with a | a | a
    · exact Or.inr ⟨h, Or.inl a⟩
    · exact absurd a h0
    · rcases lt_trichotomy s (N : K) with b | b | b
      · exact Or.inl (Or.inr ⟨a, b⟩)
      · exact absurd b hN
      · exact Or.inr ⟨h, Or.inr b⟩
  · exact Or.inl (Or.inl h)

/-- The length of a ray between two different points is positive. -/
theorem rayLength_pos (SQRT : K → K) (source detector : Vector3D K) (hne : source ≠ detector)
    (hsq : 0 ≤ rayLength SQRT source detector ∧
      rayLength SQRT source detector * rayLength SQRT source detector
        = (detector.x - source.x) * (detector.x - source.x)
          + (detector.y - source.y) * (detector.y - source.y)
          + (detector.z - source.z) * (detector.z - source.z)) :
    0 < rayLength SQRT source detector := by
  rcases lt_or_eq_of_le hsq.1 with h | h
  · exact h
  · exfalso
    have h2 := hsq.2
    rw [← h, mul_zero] at h2
    apply hne
    have hx : detector.x - source.x = 0 := by
      nlinarith [mul_self_nonneg (detector.x - source.x), mul_self_nonneg (detector.y - source.y),
        mul_self_nonneg (detector.z - source.z)]
    have hy : detector.y - source.y = 0 := by
      nlinarith [mul_self_nonneg (detector.x - source.x), mul_self_nonneg (detector.y - source.y),
        mul_self_nonneg (detector.z - source.z)]
    have hz : detector.z - source.z = 0 := by
      nlinarith [mul_self_nonneg (detector.x - source.x), mul_self_nonneg (detector.y - source.y),
        mul_self_nonneg (detector.z - source.z)]
    cases source
    cases detector
    simp only [Vector3D.mk.injEq]
    simp only at hx hy hz
    exact ⟨by linarith, by linarith, by linarith⟩

end Classes

section Top
variable {K : Type} [LinearOrderedField K] [FloorRing K]

/-- On a ray with both ends outside the box, whose direction components are `0`
or above the tolerance, whose entry point has coordinates that are integers or
away from the integers, and whose constant coordinates are not integers,
`Ray_Tracer_Forward` returns the line integral of the image. -/
theorem Ray_Tracer_Forward_through (SQRT : K → K) (index0 : Int) (fuel : Nat)
    (source detector : Vector3D K) (N_x N_y N_z : Int) (image : Array3D K)
    (hN : 0 < N_x ∧ 0 < N_y ∧ 0 < N_z) (hfuel : N_x + N_y + N_z ≤ (fuel : Int))
    (hne : source ≠ detector)
    (hsq : 0 ≤ rayLength SQRT source detector ∧
      rayLength SQRT source detector * rayLength SQRT source detector
        = (detector.x - source.x) * (detector.x - source.x)
          + (detector.y - source.y) * (detector.y - source.y)
          + (detector.z - source.z) * (detector.z - source.z))
    (hL6 : rayLength SQRT source detector < 1000000)
    (hs : ¬ InBox source N_x N_y N_z) (hd : ¬ InBox detector N_x N_y N_z)
    (hb : (detector.x - source.x = 0 ∨ 1 / 10000 < |detector.x - source.x|) ∧
      (detector.y - source.y = 0 ∨ 1 / 10000 < |detector.y - source.y|) ∧
      (detector.z - source.z = 0 ∨ 1 / 10000 < |detector.z - source.z|))
    (hc : ∀ lmin : K,
      slabMin source detector N_x N_y N_z (rayLength SQRT source detector) = .fin lmin →
      ((∃ n : Int, source.x + lmin * (detector.x - source.x)
            / rayLength SQRT source detector = n) ∨
          ∀ n : Int, 1 / 10000 ≤ |source.x + lmin * (detector.x - source.x)
            / rayLength SQRT source detector - n|) ∧
      ((∃ n : Int, source.y + lmin * (detector.y - source.y)
            / rayLength SQRT source detector = n) ∨
          ∀ n : Int, 1 / 10000 ≤ |source.y + lmin * (detector.y - source.y)
            / rayLength SQRT source detector - n|) ∧
      ((∃ n : Int, source.z + lmin * (detector.z - source.z)
            / rayLength SQRT source detector = n) ∨
          ∀ n : Int, 1 / 10000 ≤ |source.z + lmin * (detector.z - source.z)
            / rayLength SQRT source detector - n|))
    (hd0 : (detector.x - source.x = 0 → ∀ n : Int, source.x ≠ (n : K)) ∧
      (detector.y - source.y = 0 → ∀ n : Int, source.y ≠ (n : K)) ∧
      (detector.z - source.z = 0 → ∀ n : Int, source.z ≠ (n : K))) :
    ∃ tr, Ray_Tracer_Forward SQRT index0 fuel source detector N_x N_y N_z image
      = .ret (lineIntegral source detector (rayLength SQRT source detector) N_x N_y N_z image)
          tr := by
  have hL := rayLength_pos SQRT source detector hne hsq
  have cx := axis_class source.x detector.x N_x hd0.1
  have cy := axis_class source.y detector.y N_y hd0.2.1
  have cz := axis_class source.z detector.z N_z hd0.2.2
  by_cases hout : AxisOut source.x detector.x N_x ∨ AxisOut source.y detector.y N_y ∨
      AxisOut source.z detector.z N_z
  · refine ⟨[], ?_⟩
    simp only [Ray_Tracer_Forward]
    rw [if_pos (slab_some_out source detector _ N_x N_y N_z hL hN cx cy cz hout),
      lineIntegral_out source detector _ N_x N_y N_z image hout]
  · push_neg at hout
    have ix : AxisIn source.x detector.x N_x := cx.resolve_right hout.1
    have iy : AxisIn source.y detector.y N_y := cy.resolve_right hout.2.1
    have iz : AxisIn source.z detector.z N_z := cz.resolve_right hout.2.2
    obtain ⟨h1, h2⟩ := slab_all_in source detector _ N_x N_y N_z hL ix iy iz
    by_cases hle : exitDist source detector (rayLength SQRT source detector) N_x N_y N_z
        ≤ entryDist source detector (rayLength SQRT source detector) N_x N_y N_z
    · refine ⟨[], ?_⟩
      simp only [Ray_Tracer_Forward]
      rw [h1, h2, lineIntegral_miss source detector _ N_x N_y N_z image hL hle]
      simp [ExtVal.ge, hle]
    · obtain ⟨tr, htr⟩ := marchFromEntry_spec index0 fuel source detector N_x N_y N_z image
        (rayLength SQRT source detector) hL hL6 hN hfuel ix iy iz hb hd0 (not_le.1 hle) hs hd
        (hc _ h1)
      refine ⟨tr, ?_⟩
      simp only [Ray_Tracer_Forward]
      rw [h1, h2]
      simp only [ExtVal.ge, decide_eq_true_eq, if_neg hle]
      exact htr

end Top
end RayTracer

namespace RayTracer
section AxisRay
variable {K : Type} [LinearOrderedField K]

/-- The line integral of an image that is zero at every voxel of the grid but
one is the value at that voxel times the length of the segment in its cell. -/
theorem lineIntegral_single (source detector : Vector3D K) (L : K) (N_x N_y N_z : Int)
    (image : Array3D K) (i0 j0 k0 : Int) (hi : 0 ≤ i0 ∧ i0 < N_x) (hj : 0 ≤ j0 ∧ j0 < N_y)
    (hk : 0 ≤ k0 ∧ k0 < N_z)
    (hzero : ∀ i j k : Int, (0 ≤ i ∧ i < N_x) → (0 ≤ j ∧ j < N_y) → (0 ≤ k ∧ k < N_z) →
      ¬ (i = i0 ∧ j = j0 ∧ k = k0) → image.data i j k = 0) :
    lineIntegral source detector L N_x N_y N_z image
      = image.data i0 j0 k0 * cellLength source detector L i0 j0 k0 := by
  have rng : ∀ (N : Int) (n : Nat), n ∈ Finset.range N.toNat → 0 ≤ (n : Int) ∧ (n : Int) < N := by
    intro N n hn
    rw [Finset.mem_range] at hn
    omega
  have mem : ∀ (N v : Int), 0 ≤ v → v < N → v.toNat ∈ Finset.range N.toNat := by
    intro N v h0 h1
    rw [Finset.mem_range]
    omega
  have cast : ∀ v : Int, 0 ≤ v → ((v.toNat : Nat) : Int) = v := fun v h => Int.toNat_of_nonneg h
  have ne : ∀ (v : Int) (n : Nat), 0 ≤ v → n ≠ v.toNat → (n : Int) ≠ v := by
    intro v n h0 h1 h2
    apply h1
    omega
  unfold lineIntegral gridSum
  rw [Finset.sum_eq_single i0.toNat]
  · rw [Finset.sum_eq_single j0.toNat]
    · rw [Finset.sum_eq_single k0.toNat]
      · simp only [cast i0 hi.1, cast j0 hj.1, cast k0 hk.1]
      · intro k hk1 hk2
        simp only
        rw [hzero _ _ _ (rng _ _ (mem _ _ hi.1 hi.2)) (rng _ _ (mem _ _ hj.1 hj.2)) (rng _ _ hk1)
          (fun h => ne k0 k hk.1 hk2 h.2.2), zero_mul]
      · intro h
        exact absurd (mem _ _ hk.1 hk.2) h
    · intro j hj1 hj2
      apply Finset.sum_eq_zero
      intro k hk1
      simp only
      rw [hzero _ _ _ (rng _ _ (mem _ _ hi.1 hi.2)) (rng _ _ hj1) (rng _ _ hk1)
        (fun h => ne j0 j hj.1 hj2 h.2.1), zero_mul]
    · intro h
      exact absurd (mem _ _ hj.1 hj.2) h
  · intro i hi1 hi2
    apply Finset.sum_eq_zero
    intro j hj1
    apply Finset.sum_eq_zero
    intro k hk1
    simp only
    rw [hzero _ _ _ (rng _ _ hi1) (rng _ _ hj1) (rng _ _ hk1)
      (fun h => ne i0 i hi.1 hi2 h.1), zero_mul]
  · intro h
    exact absurd (mem _ _ hi.1 hi.2) h

/-- The facts about an axis along which the coordinate of a ray does not
change, when the coordinate lies strictly inside the cell `j` of the grid and
away from the integers. -/
theorem static_axis_facts (s tt L : K) (N j : Int) (hd : tt - s = 0) (hj : 0 ≤ j ∧ j < N)
    (h1 : (j : K) < s) (h2 : s < (j : K) + 1) (hfar : ∀ n : Int, 1 / 10000 ≤ |s - n|) :
    (0 ≤ s ∧ s ≤ (N : K)) ∧ tt = s ∧ (∀ n : Int, s ≠ (n : K)) ∧
      (∀ lmin : K, ∀ n : Int, 1 / 10000 ≤ |s + lmin * (tt - s) / L - n|) ∧
      axisNear s tt L N = 0 ∧ axisInterval s (tt - s) L j = (0, L) := by
  have j0 : (0 : K) ≤ (j : K) := by exact_mod_cast hj.1
  have j1 : (j : K) + 1 ≤ (N : K) := by exact_mod_cast hj.2
  refine ⟨⟨by linarith, by linarith⟩, by linarith, ?_, ?_, by simp [axisNear, hd], ?_⟩
  · intro n hn
    have := hfar n
    rw [hn, sub_self, abs_zero] at this
    norm_num at this
  · intro lmin n
    rw [hd, mul_zero, zero_div, add_zero]
    exact hfar n
  · simp only [axisInterval, hd, if_true]
    rw [if_pos ⟨h1.le, h2.le⟩]

/-- The facts about the axis along which an axis-parallel ray moves, when the
two ends of the ray are outside the slab of the axis and a point of the ray is
in the cell `i` of the grid. -/
theorem moving_axis_facts (s tt L : K) (N i : Int) (t : K) (ht0 : 0 ≤ t) (ht1 : t ≤ 1)
    (hi : 0 ≤ i ∧ i < N) (h1 : (i : K) < s + t * (tt - s)) (h2 : s + t * (tt - s) < (i : K) + 1)
    (hs : s < 0 ∨ (N : K) < s) (hd : tt < 0 ∨ (N : K) < tt) (hL : L = |tt - s|) :
    1 / 10000 < |tt - s| ∧ tt - s ≠ 0 ∧
      0 < axisNear s tt L N ∧
      (∃ n : Int, s + axisNear s tt L N * (tt - s) / L = n) ∧
      (∃ l h : K, axisInterval s (tt - s) L i = (l, h) ∧ 0 ≤ l ∧ h ≤ L ∧ h - l = 1) := by
  have i0 : (0 : K) ≤ (i : K) := by exact_mod_cast hi.1
  have i1 : (i : K) + 1 ≤ (N : K) := by exact_mod_cast hi.2
  have hN : (1 : K) ≤ (N : K) := by linarith
  have hside : (s < 0 ∧ (N : K) < tt) ∨ ((N : K) < s ∧ tt < 0) := by
    rcases hs with a | a
    · rcases hd with b | b
      · exfalso
        nlinarith
      · exact Or.inl ⟨a, b⟩
    · rcases hd with b | b
      · exact Or.inr ⟨a, b⟩
      · exfalso
        nlinarith
  rcases hside with ⟨a, b⟩ | ⟨a, b⟩
  · have hdp : 0 < tt - s := by linarith
    have hLd : L = tt - s := by rw [hL, abs_of_pos hdp]
    have hφ : ∀ x : K, L * (x - s) / (tt - s) = x - s := by
      intro x
      rw [hLd]
      field_simp
    have hn : axisNear s tt L N = 0 - s := by
      simp only [axisNear, if_neg hdp.ne.symm, hφ, Int.cast_zero]
      exact min_eq_left (by linarith)
    refine ⟨by rw [abs_of_pos hdp]; linarith, hdp.ne.symm, by rw [hn]; linarith, ⟨0, ?_⟩, ?_⟩
    · rw [hn, hLd]
      field_simp
    · refine ⟨(i : K) - s, (i : K) + 1 - s, ?_, by linarith, by rw [hLd]; linarith, by ring⟩
      rw [interval_pos s (tt - s) L (by rw [hLd]; exact hdp) hdp i, hφ, hφ]
  · have hdn : tt - s < 0 := by linarith
    have hLd : L = -(tt - s) := by rw [hL, abs_of_neg hdn]
    have hLpos : 0 < L := by rw [hLd]; linarith
    have hne : tt - s ≠ 0 := hdn.ne
    have hφ : ∀ x : K, L * (x - s) / (tt - s) = s - x := by
      intro x
      rw [hLd, div_eq_iff hne]
      ring
    have hn : axisNear s tt L N = s - (N : K) := by
      simp only [axisNear, if_neg hdn.ne, hφ, Int.cast_zero]
      exact min_eq_right (by linarith)
    refine ⟨by rw [abs_of_neg hdn]; linarith, hdn.ne, by rw [hn]; linarith, ⟨N, ?_⟩, ?_⟩
    · rw [hn, mul_div_assoc, hLd, div_neg, div_self hne]
      ring
    · refine ⟨s - ((i : K) + 1), s - (i : K), ?_, by linarith, by rw [hLd]; linarith, by ring⟩
      rw [interval_neg s (tt - s) L hLpos hdn i, hφ, hφ]

end AxisRay
end RayTracer

/-! ## Rays parallel to an axis -/

namespace RayTracer

section Single

variable {K : Type} [LinearOrderedField K] [FloorRing K]

/-- A ray parallel to the x axis, both ends outside the box, through the cell
of the only voxel of the grid that is not zero: the result is the value of that
voxel. -/
theorem x_ray_single_voxel (SQRT : K → K) (index0 : Int) (fuel : Nat)
    (source detector : Vector3D K) (N_x N_y N_z : Int) (image : Array3D K) (i0 j0 k0 : Int)
    (hN : 0 < N_x ∧ 0 < N_y ∧ 0 < N_z) (hfuel : N_x + N_y + N_z ≤ (fuel : Int))
    (hsq : 0 ≤ rayLength SQRT source detector ∧
      rayLength SQRT source detector * rayLength SQRT source detector
        = (detector.x - source.x) * (detector.x - source.x)
          + (detector.y - source.y) * (detector.y - source.y)
          + (detector.z - source.z) * (detector.z - source.z))
    (hL6 : rayLength SQRT source detector < 1000000)
    (hs : ¬ InBox source N_x N_y N_z) (hd : ¬ InBox detector N_x N_y N_z)
    (hdy : detector.y - source.y = 0) (hdz : detector.z - source.z = 0)
    (hfy : ∀ n : Int, 1 / 10000 ≤ |source.y - n|)
    (hfz : ∀ n : Int, 1 / 10000 ≤ |source.z - n|)
    (hi : 0 ≤ i0 ∧ i0 < N_x) (hj : 0 ≤ j0 ∧ j0 < N_y) (hk : 0 ≤ k0 ∧ k0 < N_z)
    (hon : OnPath source detector i0 j0 k0)
    (hzero : ∀ i j k : Int, (0 ≤ i ∧ i < N_x) → (0 ≤ j ∧ j < N_y) → (0 ≤ k ∧ k < N_z) →
      ¬ (i = i0 ∧ j = j0 ∧ k = k0) → image.data i j k = 0) :
    ∃ tr, Ray_Tracer_Forward SQRT index0 fuel source detector N_x N_y N_z image
      = .ret (image.data i0 j0 k0) tr := by
  obtain ⟨t, ht0, ht1, ⟨hx1, hx2⟩, ⟨hy1, hy2⟩, ⟨hz1, hz2⟩⟩ := hon
  simp only [pointAt] at hx1 hx2 hy1 hy2 hz1 hz2
  rw [hdy, mul_zero, add_zero] at hy1 hy2
  rw [hdz, mul_zero, add_zero] at hz1 hz2
  obtain ⟨ain, att, ane, ac, an, aI⟩ := static_axis_facts source.y detector.y
    (rayLength SQRT source detector) N_y j0 hdy hj hy1 hy2 hfy
  obtain ⟨bin, btt, bne, bc, bn, bI⟩ := static_axis_facts source.z detector.z
    (rayLength SQRT source detector) N_z k0 hdz hk hz1 hz2 hfz
  have sm : source.x < 0 ∨ (N_x : K) < source.x := by
    by_contra h
    push_neg at h
    exact hs ⟨⟨h.1, h.2⟩, ain, bin⟩
  have dm : detector.x < 0 ∨ (N_x : K) < detector.x := by
    by_contra h
    push_neg at h
    apply hd
    have ha : 0 ≤ detector.y ∧ detector.y ≤ (N_y : K) := by rw [att]; exact ain
    have hb : 0 ≤ detector.z ∧ detector.z ≤ (N_z : K) := by rw [btt]; exact bin
    exact ⟨⟨h.1, h.2⟩, ha, hb⟩
  have hLabs : rayLength SQRT source detector = |detector.x - source.x| := by
    have h2 := hsq.2
    rw [hdy, hdz] at h2
    simp only [mul_zero, add_zero, zero_add] at h2
    rcases mul_self_eq_mul_self_iff.1 h2 with h | h
    · rw [h, abs_of_nonneg (by rw [← h]; exact hsq.1)]
    · rw [h, abs_of_nonpos (by have := hsq.1; rw [h] at this; linarith)]
  obtain ⟨mb, mne, mn, ⟨n, mc⟩, ⟨l, h, mI, ml, mh, md⟩⟩ := moving_axis_facts source.x
    detector.x (rayLength SQRT source detector) N_x i0 t ht0 ht1 hi hx1 hx2 sm dm hLabs
  have hne : source ≠ detector := by
    intro e
    apply mne
    rw [e, sub_self]
  have hL := rayLength_pos SQRT source detector hne hsq
  have ja : (0 : K) ≤ (j0 : K) := by exact_mod_cast hj.1
  have ja1 : (j0 : K) + 1 ≤ (N_y : K) := by exact_mod_cast hj.2
  have jb : (0 : K) ≤ (k0 : K) := by exact_mod_cast hk.1
  have jb1 : (k0 : K) + 1 ≤ (N_z : K) := by exact_mod_cast hk.2
  have inm : AxisIn source.x detector.x N_x := Or.inl mne
  have ina : AxisIn source.y detector.y N_y := Or.inr ⟨by linarith, by linarith⟩
  have inb : AxisIn source.z detector.z N_z := Or.inr ⟨by linarith, by linarith⟩
  have hentry : entryDist source detector (rayLength SQRT source detector) N_x N_y N_z
      = axisNear source.x detector.x (rayLength SQRT source detector) N_x := by
    unfold entryDist
    rw [an, bn]
    rw [max_self, max_eq_right mn.le, max_eq_left mn.le]
  obtain ⟨hmin, _⟩ := slab_all_in source detector (rayLength SQRT source detector) N_x N_y N_z hL
    inm ina inb
  obtain ⟨tr, htr⟩ := Ray_Tracer_Forward_through SQRT index0 fuel source detector N_x N_y N_z
    image hN hfuel hne hsq hL6 hs hd ⟨Or.inr mb, Or.inl hdy, Or.inl hdz⟩
    (by
      intro lmin hl
      rw [hmin] at hl
      have e : lmin = axisNear source.x detector.x (rayLength SQRT source detector) N_x := by
        injection hl with hl
        rw [← hl, hentry]
      subst e
      exact ⟨Or.inl ⟨n, mc⟩, Or.inr (ac _), Or.inr (bc _)⟩)
    ⟨fun h => absurd h mne, fun _ => ane, fun _ => bne⟩
  refine ⟨tr, ?_⟩
  rw [htr, lineIntegral_single source detector _ N_x N_y N_z image i0 j0 k0 hi hj hk hzero]
  unfold cellLength cellLengthBetween
  rw [mI, aI, bI]
  simp only
  have e1 : min (rayLength SQRT source detector) (min h (min (rayLength SQRT source detector) (rayLength SQRT source detector))) = h := by
    rw [min_self, min_eq_left mh, min_eq_right mh]
  have e2 : max 0 (max l (max 0 0)) = l := by
    rw [max_self, max_eq_left ml, max_eq_right ml]
  rw [e1, e2, md, max_eq_right (by norm_num : (0 : K) ≤ 1), mul_one]

/-- A ray parallel to the y axis, both ends outside the box, through the cell
of the only voxel of the grid that is not zero: the result is the value of that
voxel. -/
theorem y_ray_single_voxel (SQRT : K → K) (index0 : Int) (fuel : Nat)
    (source detector : Vector3D K) (N_x N_y N_z : Int) (image : Array3D K) (i0 j0 k0 : Int)
    (hN : 0 < N_x ∧ 0 < N_y ∧ 0 < N_z) (hfuel : N_x + N_y + N_z ≤ (fuel : Int))
    (hsq : 0 ≤ rayLength SQRT source detector ∧
      rayLength SQRT source detector * rayLength SQRT source detector
        = (detector.x - source.x) * (detector.x - source.x)
          + (detector.y - source.y) * (detector.y - source.y)
          + (detector.z - source.z) * (detector.z - source.z))
    (hL6 : rayLength SQRT source detector < 1000000)
    (hs : ¬ InBox source N_x N_y N_z) (hd : ¬ InBox detector N_x N_y N_z)
    (hdx : detector.x - source.x = 0) (hdz : detector.z - source.z = 0)
    (hfx : ∀ n : Int, 1 / 10000 ≤ |source.x - n|)
    (hfz : ∀ n : Int, 1 / 10000 ≤ |source.z - n|)
    (hi : 0 ≤ i0 ∧ i0 < N_x) (hj : 0 ≤ j0 ∧ j0 < N_y) (hk : 0 ≤ k0 ∧ k0 < N_z)
    (hon : OnPath source detector i0 j0 k0)
    (hzero : ∀ i j k : Int, (0 ≤ i ∧ i < N_x) → (0 ≤ j ∧ j < N_y) → (0 ≤ k ∧ k < N_z) →
      ¬ (i = i0 ∧ j = j0 ∧ k = k0) → image.data i j k = 0) :
    ∃ tr, Ray_Tracer_Forward SQRT index0 fuel source detector N_x N_y N_z image
      = .ret (image.data i0 j0 k0) tr := by
  obtain ⟨t, ht0, ht1, ⟨hx1, hx2⟩, ⟨hy1, hy2⟩, ⟨hz1, hz2⟩⟩ := hon
  simp only [pointAt] at hx1 hx2 hy1 hy2 hz1 hz2
  rw [hdx, mul_zero, add_zero] at hx1 hx2
  rw [hdz, mul_zero, add_zero] at hz1 hz2
  obtain ⟨ain, att, ane, ac, an, aI⟩ := static_axis_facts source.x detector.x
    (rayLength SQRT source detector) N_x i0 hdx hi hx1 hx2 hfx
  obtain ⟨bin, btt, bne, bc, bn, bI⟩ := static_axis_facts source.z detector.z
    (rayLength SQRT source detector) N_z k0 hdz hk hz1 hz2 hfz
  have sm : source.y < 0 ∨ (N_y : K) < source.y := by
    by_contra h
    push_neg at h
    exact hs ⟨ain, ⟨h.1, h.2⟩, bin⟩
  have dm : detector.y < 0 ∨ (N_y : K) < detector.y := by
    by_contra h
    push_neg at h
    apply hd
    have ha : 0 ≤ detector.x ∧ detector.x ≤ (N_x : K) := by rw [att]; exact ain
    have hb : 0 ≤ detector.z ∧ detector.z ≤ (N_z : K) := by rw [btt]; exact bin
    exact ⟨ha, ⟨h.1, h.2⟩, hb⟩
  have hLabs : rayLength SQRT source detector = |detector.y - source.y| := by
    have h2 := hsq.2
    rw [hdx, hdz] at h2
    simp only [mul_zero, add_zero, zero_add] at h2
    rcases mul_self_eq_mul_self_iff.1 h2 with h | h
    · rw [h, abs_of_nonneg (by rw [← h]; exact hsq.1)]
    · rw [h, abs_of_nonpos (by have := hsq.1; rw [h] at this; linarith)]
  obtain ⟨mb, mne, mn, ⟨n, mc⟩, ⟨l, h, mI, ml, mh, md⟩⟩ := moving_axis_facts source.y
    detector.y (rayLength SQRT source detector) N_y j0 t ht0 ht1 hj hy1 hy2 sm dm hLabs
  have hne : source ≠ detector := by
    intro e
    apply mne
    rw [e, sub_self]
  have hL := rayLength_pos SQRT source detector hne hsq
  have ja : (0 : K) ≤ (i0 : K) := by exact_mod_cast hi.1
  have ja1 : (i0 : K) + 1 ≤ (N_x : K) := by exact_mod_cast hi.2
  have jb : (0 : K) ≤ (k0 : K) := by exact_mod_cast hk.1
  have jb1 : (k0 : K) + 1 ≤ (N_z : K) := by exact_mod_cast hk.2
  have inm : AxisIn source.y detector.y N_y := Or.inl mne
  have ina : AxisIn source.x detector.x N_x := Or.inr ⟨by linarith, by linarith⟩
  have inb : AxisIn source.z detector.z N_z := Or.inr ⟨by linarith, by linarith⟩
  have hentry : entryDist source detector (rayLength SQRT source detector) N_x N_y N_z
      = axisNear source.y detector.y (rayLength SQRT source detector) N_y := by
    unfold entryDist
    rw [an, bn]
    rw [max_self, max_eq_left mn.le, max_eq_right mn.le]
  obtain ⟨hmin, _⟩ := slab_all_in source detector (rayLength SQRT source detector) N_x N_y N_z hL
    ina inm inb
  obtain ⟨tr, htr⟩ := Ray_Tracer_Forward_through SQRT index0 fuel source detector N_x N_y N_z
    image hN hfuel hne hsq hL6 hs hd ⟨Or.inl hdx, Or.inr mb, Or.inl hdz⟩
    (by
      intro lmin hl
      rw [hmin] at hl
      have e : lmin = axisNear source.y detector.y (rayLength SQRT source detector) N_y := by
        injection hl with hl
        rw [← hl, hentry]
      subst e
      exact ⟨Or.inr (ac _), Or.inl ⟨n, mc⟩, Or.inr (bc _)⟩)
    ⟨fun _ => ane, fun h => absurd h mne, fun _ => bne⟩
  refine ⟨tr, ?_⟩
  rw [htr, lineIntegral_single source detector _ N_x N_y N_z image i0 j0 k0 hi hj hk hzero]
  unfold cellLength cellLengthBetween
  rw [mI, aI, bI]
  simp only
  have e1 : min (rayLength SQRT source detector) (min (rayLength SQRT source detector) (min h (rayLength SQRT source detector))) = h := by
    rw [min_eq_left mh, min_eq_right mh, min_eq_right mh]
  have e2 : max 0 (max 0 (max l 0)) = l := by
    rw [max_eq_left ml, max_eq_right ml, max_eq_right ml]
  rw [e1, e2, md, max_eq_right (by norm_num : (0 : K) ≤ 1), mul_one]

/-- A ray parallel to the z axis, both ends outside the box, through the cell
of the only voxel of the grid that is not zero: the result is the value of that
voxel. -/
theorem z_ray_single_voxel (SQRT : K → K) (index0 : Int) (fuel : Nat)
    (source detector : Vector3D K) (N_x N_y N_z : Int) (image : Array3D K) (i0 j0 k0 : Int)
    (hN : 0 < N_x ∧ 0 < N_y ∧ 0 < N_z) (hfuel : N_x + N_y + N_z ≤ (fuel : Int))
    (hsq : 0 ≤ rayLength SQRT source detector ∧
      rayLength SQRT source detector * rayLength SQRT source detector
        = (detector.x - source.x) * (detector.x - source.x)
          + (detector.y - source.y) * (detector.y - source.y)
          + (detector.z - source.z) * (detector.z - source.z))
    (hL6 : rayLength SQRT source detector < 1000000)
    (hs : ¬ InBox source N_x N_y N_z) (hd : ¬ InBox detector N_x N_y N_z)
    (hdx : detector.x - source.x = 0) (hdy : detector.y - source.y = 0)
    (hfx : ∀ n : Int, 1 / 10000 ≤ |source.x - n|)
    (hfy : ∀ n : Int, 1 / 10000 ≤ |source.y - n|)
    (hi : 0 ≤ i0 ∧ i0 < N_x) (hj : 0 ≤ j0 ∧ j0 < N_y) (hk : 0 ≤ k0 ∧ k0 < N_z)
    (hon : OnPath source detector i0 j0 k0)
    (hzero : ∀ i j k : Int, (0 ≤ i ∧ i < N_x) → (0 ≤ j ∧ j < N_y) → (0 ≤ k ∧ k < N_z) →
      ¬ (i = i0 ∧ j = j0 ∧ k = k0) → image.data i j k = 0) :
    ∃ tr, Ray_Tracer_Forward SQRT index0 fuel source detector N_x N_y N_z image
      = .ret (image.data i0 j0 k0) tr := by
  obtain ⟨t, ht0, ht1, ⟨hx1, hx2⟩, ⟨hy1, hy2⟩, ⟨hz1, hz2⟩⟩ := hon
  simp only [pointAt] at hx1 hx2 hy1 hy2 hz1 hz2
  rw [hdx, mul_zero, add_zero] at hx1 hx2
  rw [hdy, mul_zero, add_zero] at hy1 hy2
  obtain ⟨ain, att, ane, ac, an, aI⟩ := static_axis_facts source.x detector.x
    (rayLength SQRT source detector) N_x i0 hdx hi hx1 hx2 hfx
  obtain ⟨bin, btt, bne, bc, bn, bI⟩ := static_axis_facts source.y detector.y
    (rayLength SQRT source detector) N_y j0 hdy hj hy1 hy2 hfy
  have sm : source.z < 0 ∨ (N_z : K) < source.z := by
    by_contra h
    push_neg at h
    exact hs ⟨ain, bin, ⟨h.1, h.2⟩⟩
  have dm : detector.z < 0 ∨ (N_z : K) < detector.z := by
    by_contra h
    push_neg at h
    apply hd
    have ha : 0 ≤ detector.x ∧ detector.x ≤ (N_x : K) := by rw [att]; exact ain
    have hb : 0 ≤ detector.y ∧ detector.y ≤ (N_y : K) := by rw [btt]; exact bin
    exact ⟨ha, hb, ⟨h.1, h.2⟩⟩
  have hLabs : rayLength SQRT source detector = |detector.z - source.z| := by
    have h2 := hsq.2
    rw [hdx, hdy] at h2
    simp only [mul_zero, add_zero, zero_add] at h2
    rcases mul_self_eq_mul_self_iff.1 h2 with h | h
    · rw [h, abs_of_nonneg (by rw [← h]; exact hsq.1)]
    · rw [h, abs_of_nonpos (by have := hsq.1; rw [h] at this; linarith)]
  obtain ⟨mb, mne, mn, ⟨n, mc⟩, ⟨l, h, mI, ml, mh, md⟩⟩ := moving_axis_facts source.z
    detector.z (rayLength SQRT source detector) N_z k0 t ht0 ht1 hk hz1 hz2 sm dm hLabs
  have hne : source ≠ detector := by
    intro e
    apply mne
    rw [e, sub_self]
  have hL := rayLength_pos SQRT source detector hne hsq
  have ja : (0 : K) ≤ (i0 : K) := by exact_mod_cast hi.1
  have ja1 : (i0 : K) + 1 ≤ (N_x : K) := by exact_mod_cast hi.2
  have jb : (0 : K) ≤ (j0 : K) := by exact_mod_cast hj.1
  have jb1 : (j0 : K) + 1 ≤ (N_y : K) := by exact_mod_cast hj.2
  have inm : AxisIn source.z detector.z N_z := Or.inl mne
  have ina : AxisIn source.x detector.x N_x := Or.inr ⟨by linarith, by linarith⟩
  have inb : AxisIn source.y detector.y N_y := Or.inr ⟨by linarith, by linarith⟩
  have hentry : entryDist source detector (rayLength SQRT source detector) N_x N_y N_z
      = axisNear source.z detector.z (rayLength SQRT source detector) N_z := by
    unfold entryDist
    rw [an, bn]
    rw [max_self, max_eq_right mn.le, max_eq_right mn.le]
  obtain ⟨hmin, _⟩ := slab_all_in source detector (rayLength SQRT source detector) N_x N_y N_z hL
    ina inb inm
  obtain ⟨tr, htr⟩ := Ray_Tracer_Forward_through SQRT index0 fuel source detector N_x N_y N_z
    image hN hfuel hne hsq hL6 hs hd ⟨Or.inl hdx, Or.inl hdy, Or.inr mb⟩
    (by
      intro lmin hl
      rw [hmin] at hl
      have e : lmin = axisNear source.z detector.z (rayLength SQRT source detector) N_z := by
        injection hl with hl
        rw [← hl, hentry]
      subst e
      exact ⟨Or.inr (ac _), Or.inr (bc _), Or.inl ⟨n, mc⟩⟩)
    ⟨fun _ => ane, fun _ => bne, fun h => absurd h mne⟩
  refine ⟨tr, ?_⟩
  rw [htr, lineIntegral_single source detector _ N_x N_y N_z image i0 j0 k0 hi hj hk hzero]
  unfold cellLength cellLengthBetween
  rw [mI, aI, bI]
  simp only
  have e1 : min (rayLength SQRT source detector) (min (rayLength SQRT source detector) (min (rayLength SQRT source detector) h)) = h := by
    rw [min_eq_right mh, min_eq_right mh, min_eq_right mh]
  have e2 : max 0 (max 0 (max 0 l)) = l := by
    rw [max_eq_right ml, max_eq_right ml, max_eq_right ml]
  rw [e1, e2, md, max_eq_right (by norm_num : (0 : K) ≤ 1), mul_one]

end Single

end RayTracer

namespace RayTracer
section Uniform
variable {K : Type} [LinearOrderedField K]

end Uniform

section UniformTracer
variable {K : Type} [LinearOrderedField K] [FloorRing K]

end UniformTracer

end RayTracer

namespace RayTracer
section Parallel
variable {K : Type} [LinearOrderedField K]

end Parallel

section ParallelTracer
variable {K : Type} [LinearOrderedField K] [FloorRing K]

end ParallelTracer
end RayTracer

/-! ## The claims -/

namespace RayTracer

/-- Claim C2, evaluated at a failing input. The segment from `(3, 4, 5/2)` to
`(3, 8, 11/2)` has `y >= 4` throughout and so no point in the closed box of
the 3x3x3 grid, yet `Ray_Tracer_Forward` does not return at the slab test: it
reads four voxels of the all-ones grid and returns `35/12`. -/
theorem missing_ray_in_face_plane_is_marched :
    (¬ SegmentMeetsBox (⟨3, 4, 5/2⟩ : Vector3D ℚ) ⟨3, 8, 11/2⟩ 3 3 3) ∧
    Ray_Tracer_Forward Rat.sqrt 0 9 ⟨3, 4, 5/2⟩ ⟨3, 8, 11/2⟩ 3 3 3 onesGrid
      = .ret (35/12) [(⟨3, 0, 0⟩, 5/12), (⟨3, 1, 0⟩, 5/4), (⟨3, 2, 0⟩, 0), (⟨3, 2, 1⟩, 5/4)] := by
  refine ⟨?_, eval_face_plane 0⟩
  rintro ⟨t, h0, _, _, ⟨_, hy⟩, _⟩
  simp only [pointAt] at hy
  norm_num at hy
  linarith

/-- Claim C5, evaluated at a failing input. On the 3x3x3 grid the ray from
`(5/2 - 1/20000, -1, -1/2)` to `(7/2 - 1/20000, 1, 3/2)` enters at
`x = 3 - 1/20000`; the first voxel `Ray_Tracer_Forward` reads is `(3, 0, 0)`,
and every voxel it reads has the first index `3 = N_x`. -/
theorem first_voxel_read_out_of_range (i0 : Int) :
    Ray_Tracer_Forward Rat.sqrt i0 9 ⟨5/2 - 1/20000, -1, -1/2⟩ ⟨7/2 - 1/20000, 1, 3/2⟩
        3 3 3 onesGrid
      = .ret 3 [(⟨3, 0, 0⟩, 3/4), (⟨3, 0, 1⟩, 3/4), (⟨3, 1, 1⟩, 3/4), (⟨3, 1, 2⟩, 3/4),
          (⟨3, 2, 2⟩, 0)] :=
  eval_corner i0

/-- Claim C8, evaluated at a failing input. The ray from `(1/2, 9/4, 9/4)` to
`(-1/2, 1/4, 1/4)` starts inside the 3x3x3 all-ones grid with no coordinate
near a grid plane, so `index` is never assigned: with the initial content `1`
`Ray_Tracer_Forward` returns `3`, with `2` it returns `3/2`. -/
theorem result_depends_on_initial_index :
    Ray_Tracer_Forward Rat.sqrt 1 9 ⟨1/2, 9/4, 9/4⟩ ⟨-1/2, 1/4, 1/4⟩ 3 3 3 onesGrid
      = .ret 3 [(⟨0, 2, 2⟩, 3/8), (⟨0, 1, 2⟩, 0), (⟨0, 1, 1⟩, 3/2), (⟨0, 0, 1⟩, 0),
          (⟨0, 0, 0⟩, 9/8)] ∧
    Ray_Tracer_Forward Rat.sqrt 2 9 ⟨1/2, 9/4, 9/4⟩ ⟨-1/2, 1/4, 1/4⟩ 3 3 3 onesGrid
      = .ret (3/2) [(⟨0, 2, 2⟩, 3/8), (⟨0, 1, 2⟩, 0), (⟨0, 1, 1⟩, 9/8)] :=
  ⟨eval_outward_one, eval_outward_two⟩

end RayTracer

namespace RayTracer

/-- Claim C4, evaluated at a failing input. The ray from `(-1/2, 1/4, 1/4)` to
`(1/2, 9/4, 9/4)` ends inside the 3x3x3 all-ones grid: `lambda_min = 3/2`,
`lambda_max = L = 3`, and the part of the segment inside the box has the length
`3/2`. `Ray_Tracer_Forward` does not stop at the detector: it marches on to
the face `z = 3` and returns `21/8`. -/
theorem march_goes_past_detector (i0 : Int) :
    InBox (⟨1/2, 9/4, 9/4⟩ : Vector3D ℚ) 3 3 3 ∧
    rayLength Rat.sqrt (⟨-1/2, 1/4, 1/4⟩ : Vector3D ℚ) ⟨1/2, 9/4, 9/4⟩ = 3 ∧
    slabMin (⟨-1/2, 1/4, 1/4⟩ : Vector3D ℚ) ⟨1/2, 9/4, 9/4⟩ 3 3 3 3 = .fin (3/2) ∧
    slabMax (⟨-1/2, 1/4, 1/4⟩ : Vector3D ℚ) ⟨1/2, 9/4, 9/4⟩ 3 3 3 3 = .fin 3 ∧
    Ray_Tracer_Forward Rat.sqrt i0 9 ⟨-1/2, 1/4, 1/4⟩ ⟨1/2, 9/4, 9/4⟩ 3 3 3 onesGrid
      = .ret (21/8) [(⟨0, 1, 1⟩, 9/8), (⟨0, 2, 1⟩, 0), (⟨0, 2, 2⟩, 3/2)] := by
  refine ⟨?_, ?_, ?_, ?_, eval_inward i0⟩
  · norm_num [InBox]
  · norm_num [rayLength, sqrt_nine]
  · norm_num [slabMin, LAMBDA_X, LAMBDA_Y, LAMBDA_Z, ExtVal.quot, MIN, MAX, ExtVal.lt]
  · norm_num [slabMax, LAMBDA_X, LAMBDA_Y, LAMBDA_Z, ExtVal.quot, MIN, MAX, ExtVal.lt]

/-- Claim C7, evaluated at a failing input. On the 3x3x3 all-ones grid the call
from `(-1/2, 1/4, 1/4)` to `(1/2, 9/4, 9/4)` returns `21/8` and the call with the
endpoints swapped returns `3` or `3/2`: whatever `index` holds at the start of
each call, the two calls do not return the same value. -/
theorem swapped_endpoints_differ :
    ¬ ∃ (i0 j0 : Int) (s : ℚ) (t1 t2 : List (Vector3DInt × ℚ)),
      Ray_Tracer_Forward Rat.sqrt i0 9 ⟨-1/2, 1/4, 1/4⟩ ⟨1/2, 9/4, 9/4⟩ 3 3 3 onesGrid
        = .ret s t1 ∧
      Ray_Tracer_Forward Rat.sqrt j0 9 ⟨1/2, 9/4, 9/4⟩ ⟨-1/2, 1/4, 1/4⟩ 3 3 3 onesGrid
        = .ret s t2 := by
  rintro ⟨i0, j0, s, t1, t2, h1, h2⟩
  rw [eval_inward i0] at h1
  injection h1 with hs _
  subst hs
  by_cases e1 : j0 = 1
  · subst e1
    rw [eval_outward_one] at h2
    injection h2 with hs _
    norm_num at hs
  · by_cases e2 : j0 = 2
    · subst e2
      rw [eval_outward_two] at h2
      injection h2 with hs _
      norm_num at hs
    · rw [eval_outward_other j0 e1 e2] at h2
      injection h2 with hs _
      norm_num at hs

/-- Claim C14, evaluated at a failing input. The ray from `(3, -1000004, 3/2)`
to `(3, -1000000, 3/2)` has the length `4`, below the sentinel `1000000`. On the
3x3x3 grid `lambda_min` is `1000004`, above the sentinel, the counter `Tz`
starts at `-4`, and the first length multiplied into the accumulator is `-4`. -/
theorem negative_length_below_sentinel (i0 : Int) :
    rayLength Rat.sqrt (⟨3, -1000004, 3/2⟩ : Vector3D ℚ) ⟨3, -1000000, 3/2⟩ = 4 ∧
    slabMin (⟨3, -1000004, 3/2⟩ : Vector3D ℚ) ⟨3, -1000000, 3/2⟩ 3 3 3 4 = .fin 1000004 ∧
    Ray_Tracer_Forward Rat.sqrt i0 9 ⟨3, -1000004, 3/2⟩ ⟨3, -1000000, 3/2⟩ 3 3 3 onesGrid
      = .ret 3 [(⟨3, 0, 1⟩, -4), (⟨3, 0, 0⟩, 5), (⟨3, 1, 0⟩, 1), (⟨3, 2, 0⟩, 1)] := by
  refine ⟨?_, ?_, eval_far_face_plane i0⟩
  · norm_num [rayLength, sqrt_sixteen]
  · norm_num [slabMin, LAMBDA_X, LAMBDA_Y, LAMBDA_Z, ExtVal.quot, MIN, MAX, ExtVal.lt]

end RayTracer

namespace RayTracer

section SweepClaims

variable {K : Type} [LinearOrderedField K] [FloorRing K]

theorem toInt_of_nonneg (x : K) (h : 0 ≤ x) : toInt x = ⌊x⌋ := by
  simp [toInt, h]

/-- Claim C9 (sweep wiring). For `dtheta > 0`, every angle index `i` in
`0..floor(359/dtheta)`, column `j` in `-q..q` and row `k` in `-qz..qz` (so that
`q >= 0` and `qz >= 0`): after `Forward_Projection` the output cell `(j+q, k+qz, i)` holds
what `Ray_Tracer_Forward` comes to on the volume for the source
`(D cos(theta_i) + d, D sin(theta_i) + d, d)` and the detector
`(D cos(j ss pi/180 + pi + theta_i) + d, D sin(j ss pi/180 + pi + theta_i) + d, k ssz + d)`
with `theta_i = i dtheta pi/180`. -/
theorem sweep_wiring (SQRT cos sin : K → K) (PI : K) (index0 : Int → Int → Int → Int)
    (fuel : Nat) (D : K) (q : Int) (ss d dtheta ssz : K) (qz : Int) (m : Mem K)
    (i j k : Int) (hdt : 0 < dtheta)
    (hi : 0 ≤ i ∧ i ≤ ⌊359 / dtheta⌋) (hj : -q ≤ j ∧ j ≤ q) (hk : -qz ≤ k ∧ k ≤ qz) :
    (Forward_Projection SQRT cos sin PI index0 fuel D q ss d dtheta ssz qz m).sino.data
        (j + q) (k + qz) i
      = Ray_Tracer_Forward SQRT (index0 i j k) fuel
          ⟨D * cos ((i : K) * dtheta * PI / 180) + d, D * sin ((i : K) * dtheta * PI / 180) + d, d⟩
          ⟨D * cos ((j : K) * ss * PI / 180 + PI + (i : K) * dtheta * PI / 180) + d,
            D * sin ((j : K) * ss * PI / 180 + PI + (i : K) * dtheta * PI / 180) + d,
            (k : K) * ssz + d⟩
          m.image.index1Size m.image.index2Size m.image.index3Size m.image := by
  have hf := (Forward_Projection_frame SQRT cos sin PI index0 fuel D q ss d dtheta ssz qz m).2
    ⟨j + q, k + qz, i⟩
  have hNS : toInt (359 / dtheta) = ⌊359 / dtheta⌋ :=
    toInt_of_nonneg _ (div_nonneg (by norm_num) hdt.le)
  have hR := (sweep_region q qz (toInt (359 / dtheta)) ⟨j + q, k + qz, i⟩).2
    ⟨⟨by simp only; omega, by simp only; omega⟩, ⟨by simp only; omega, by simp only; omega⟩,
      by simp only; omega, by simp only; omega⟩
  have h1 : (i : K) * dtheta * PI / 180 = (i : K) * (dtheta * PI / 180) := by ring
  have h2 : (j : K) * ss * PI / 180 = (j : K) * (ss * PI / 180) := by ring
  rw [(hf.1 hR).2, h2, h1]
  simp [sweepCell, sweepSource, sweepDetector]

end SweepClaims

theorem floor_quarter_turns : ⌊(359 : ℚ) / 90⌋ = 3 := by
  norm_num [Rat.floor_def']

/-- Claim C9 at a concrete sweep: `q = qz = 1`, `dtheta = 90`, the cell of
`i = 1`, `j = 0`, `k = -1`. -/
theorem sweep_wiring_witness :
    ((0 : ℚ) < 90 ∧
      ((0 : Int) ≤ 1 ∧ (1 : Int) ≤ ⌊(359 : ℚ) / 90⌋) ∧ ((-1 : Int) ≤ 0 ∧ (0 : Int) ≤ 1) ∧
      ((-1 : Int) ≤ -1 ∧ (-1 : Int) ≤ 1)) ∧
    (Forward_Projection Rat.sqrt (fun x => 1 - x * x / 2) (fun x => x) (22 / 7) (fun _ _ _ => 0)
        9 10 1 1 (3 / 2) 90 1 1 onesMem).sino.data (0 + 1) (-1 + 1) 1
      = Ray_Tracer_Forward Rat.sqrt 0 9
          ⟨10 * (1 - (((1 : Int) : ℚ) * 90 * (22 / 7) / 180)
              * (((1 : Int) : ℚ) * 90 * (22 / 7) / 180) / 2) + 3 / 2,
            10 * (((1 : Int) : ℚ) * 90 * (22 / 7) / 180) + 3 / 2, 3 / 2⟩
          ⟨10 * (1 - (((0 : Int) : ℚ) * 1 * (22 / 7) / 180 + 22 / 7
                + ((1 : Int) : ℚ) * 90 * (22 / 7) / 180)
              * (((0 : Int) : ℚ) * 1 * (22 / 7) / 180 + 22 / 7
                + ((1 : Int) : ℚ) * 90 * (22 / 7) / 180) / 2) + 3 / 2,
            10 * (((0 : Int) : ℚ) * 1 * (22 / 7) / 180 + 22 / 7
                + ((1 : Int) : ℚ) * 90 * (22 / 7) / 180) + 3 / 2,
            ((-1 : Int) : ℚ) * 1 + 3 / 2⟩
          onesMem.image.index1Size onesMem.image.index2Size onesMem.image.index3Size
          onesMem.image :=
  ⟨⟨by norm_num, ⟨by norm_num, by rw [floor_quarter_turns]; norm_num⟩,
      ⟨by norm_num, by norm_num⟩, ⟨by norm_num, by norm_num⟩⟩,
    sweep_wiring Rat.sqrt (fun x => 1 - x * x / 2) (fun x => x) (22 / 7) (fun _ _ _ => 0)
      9 10 1 1 (3 / 2) 90 1 1 onesMem 1 0 (-1) (by norm_num)
      ⟨by norm_num, by rw [floor_quarter_turns]; norm_num⟩ ⟨by norm_num, by norm_num⟩
      ⟨by norm_num, by norm_num⟩⟩

end RayTracer

namespace RayTracer

section ReferenceClaim

variable {K : Type} [LinearOrderedField K]

/-- Claim C12 (the nested marching loops equal the minimum-of-three state
machine). For every image, extents and signs (each `1` or `-1`), positive
unit-step lengths, starting voxel, accumulator and counters `Tx, Ty, Tz >= 0`,
and every way `pick` of picking an axis whose counter is the minimum of the
three: started from that state with fuel for the steps that can stay in the
grid, the x-dominant loop `marchX` (lines 302-401), the y-dominant loop
`marchY` (lines 523-619) and the reference loop `refMarch pick` all return,
and they return the same value. -/
theorem march_loops_equal_reference (e : Env K) (st : MarchState K)
    (pick : MarchState K → Axis) (fuel : Nat) (hs : e.SignsOk)
    (hLen : 0 < e.Len.x ∧ 0 < e.Len.y ∧ 0 < e.Len.z)
    (hT : 0 ≤ st.Tx ∧ 0 ≤ st.Ty ∧ 0 ≤ st.Tz)
    (hpick : ∀ s : MarchState K, s.IsMin (pick s)) (hfuel : st.mu e + 1 ≤ fuel) :
    ∃ (r : K) (t1 t2 t3 : List (Vector3DInt × K)),
      marchX e fuel st = .ret r t1 ∧ marchY e fuel st = .ret r t2 ∧
      refMarch pick e fuel st = .ret r t3 := by
  have hl : e.LenOk := ⟨hLen.1.le, hLen.2.1.le, hLen.2.2.le⟩
  obtain ⟨r1, t1, h1, m1⟩ := marchX_spec e hs fuel st hfuel
  obtain ⟨r2, t2, h2, m2⟩ := marchY_spec e hs fuel st hfuel
  obtain ⟨r3, t3, h3, m3⟩ := refMarch_spec pick hpick e hs fuel st hfuel
  have e1 := m1.value hs hl hT
  have e2 := m2.value hs hl hT
  have e3 := m3.value hs hl hT
  exact ⟨r1, t1, t2, t3, h1, by rw [h2, e2, e1], by rw [h3, e3, e1]⟩

end ReferenceClaim

/-- Claim C12 at a concrete state: the 3x3x3 all-ones grid, the signs `1`, the
unit-step lengths `3, 3/2, 3/2`, the voxel `(0, 0, 0)` and the counters
`3, 3/2, 3/2` (a tie between `y` and `z`), picking the first minimum. -/
theorem march_loops_equal_reference_witness :
    (Env.SignsOk (⟨onesGrid, 3, 3, 3, 1, 1, 1, ⟨3, 3/2, 3/2⟩⟩ : Env ℚ) ∧
      ((0 : ℚ) < 3 ∧ (0 : ℚ) < 3/2 ∧ (0 : ℚ) < 3/2) ∧
      ((0 : ℚ) ≤ 3 ∧ (0 : ℚ) ≤ 3/2 ∧ (0 : ℚ) ≤ 3/2) ∧
      (∀ s : MarchState ℚ, s.IsMin (pickFirstMin s)) ∧
      MarchState.mu (⟨onesGrid, 3, 3, 3, 1, 1, 1, ⟨3, 3/2, 3/2⟩⟩ : Env ℚ)
        ⟨⟨0, 0, 0⟩, 3, 3/2, 3/2, 0, []⟩ + 1 ≤ 9) ∧
    ∃ (r : ℚ) (t1 t2 t3 : List (Vector3DInt × ℚ)),
      marchX ⟨onesGrid, 3, 3, 3, 1, 1, 1, ⟨3, 3/2, 3/2⟩⟩ 9 ⟨⟨0, 0, 0⟩, 3, 3/2, 3/2, 0, []⟩
        = .ret r t1 ∧
      marchY ⟨onesGrid, 3, 3, 3, 1, 1, 1, ⟨3, 3/2, 3/2⟩⟩ 9 ⟨⟨0, 0, 0⟩, 3, 3/2, 3/2, 0, []⟩
        = .ret r t2 ∧
      refMarch pickFirstMin ⟨onesGrid, 3, 3, 3, 1, 1, 1, ⟨3, 3/2, 3/2⟩⟩ 9
        ⟨⟨0, 0, 0⟩, 3, 3/2, 3/2, 0, []⟩ = .ret r t3 :=
  ⟨⟨⟨Or.inl rfl, Or.inl rfl, Or.inl rfl⟩, ⟨by norm_num, by norm_num, by norm_num⟩,
      ⟨by norm_num, by norm_num, by norm_num⟩, pickFirstMin_isMin, by decide⟩,
    march_loops_equal_reference ⟨onesGrid, 3, 3, 3, 1, 1, 1, ⟨3, 3/2, 3/2⟩⟩
      ⟨⟨0, 0, 0⟩, 3, 3/2, 3/2, 0, []⟩ pickFirstMin 9 ⟨Or.inl rfl, Or.inl rfl, Or.inl rfl⟩
      ⟨by norm_num, by norm_num, by norm_num⟩ ⟨by norm_num, by norm_num, by norm_num⟩
      pickFirstMin_isMin (by decide)⟩

end RayTracer

namespace RayTracer

section LinearityClaim

variable {K : Type} [LinearOrderedField K] [FloorRing K]

/-- Linearity of the embedding under two conditions: the three calls find the
same initial content in `index`, and `h = a f + b g` holds at every index, also
outside the grid. Then the three calls of `Ray_Tracer_Forward` end the same way
with the same trace, the value for `h` is `a` times the value for `f` plus `b`
times the value for `g`, and the same holds for every output cell
`(j + q, k + qz, i)` that `Forward_Projection` writes from the three volumes. -/
theorem linear_of_same_index_and_memory (SQRT cos sin : K → K) (PI : K) (index0 : Int) (fuel : Nat)
    (source detector : Vector3D K) (N_x N_y N_z : Int) (a b : K) (f g h : Array3D K)
    (index1 : Int → Int → Int → Int) (D : K) (q : Int) (ss d dtheta ssz : K) (qz : Int)
    (sf sg sh : Array3D (Outcome K)) (wf wg wh : List Vector3DInt) (c : Vector3DInt)
    (hh : ∀ i j k, h.data i j k = a * f.data i j k + b * g.data i j k)
    (hsize : (f.index1Size = h.index1Size ∧ f.index2Size = h.index2Size ∧
        f.index3Size = h.index3Size) ∧
      (g.index1Size = h.index1Size ∧ g.index2Size = h.index2Size ∧
        g.index3Size = h.index3Size))
    (hc : (0 ≤ c.x ∧ c.x ≤ 2 * q) ∧ (0 ≤ c.y ∧ c.y ≤ 2 * qz) ∧
      (0 ≤ c.z ∧ c.z < toInt (359 / dtheta) + 1)) :
    Outcome.Linear a b
      (Ray_Tracer_Forward SQRT index0 fuel source detector N_x N_y N_z f)
      (Ray_Tracer_Forward SQRT index0 fuel source detector N_x N_y N_z g)
      (Ray_Tracer_Forward SQRT index0 fuel source detector N_x N_y N_z h) ∧
    Outcome.Linear a b
      ((Forward_Projection SQRT cos sin PI index1 fuel D q ss d dtheta ssz qz
        ⟨f, sf, wf⟩).sino.data c.x c.y c.z)
      ((Forward_Projection SQRT cos sin PI index1 fuel D q ss d dtheta ssz qz
        ⟨g, sg, wg⟩).sino.data c.x c.y c.z)
      ((Forward_Projection SQRT cos sin PI index1 fuel D q ss d dtheta ssz qz
        ⟨h, sh, wh⟩).sino.data c.x c.y c.z) := by
  refine ⟨Ray_Tracer_Forward_linear SQRT index0 fuel source detector N_x N_y N_z a b f g h hh, ?_⟩
  have hR := (sweep_region q qz (toInt (359 / dtheta)) c).2 hc
  have e1 := (((Forward_Projection_frame SQRT cos sin PI index1 fuel D q ss d dtheta ssz qz
    ⟨f, sf, wf⟩).2 c).1 hR).2
  have e2 := (((Forward_Projection_frame SQRT cos sin PI index1 fuel D q ss d dtheta ssz qz
    ⟨g, sg, wg⟩).2 c).1 hR).2
  have e3 := (((Forward_Projection_frame SQRT cos sin PI index1 fuel D q ss d dtheta ssz qz
    ⟨h, sh, wh⟩).2 c).1 hR).2
  rw [e1, e2, e3]
  obtain ⟨⟨h1, h2, h3⟩, h4, h5, h6⟩ := hsize
  simp only [sweepCell, h1, h2, h3, h4, h5, h6]
  exact Ray_Tracer_Forward_linear _ _ _ _ _ _ _ _ a b f g h hh

end LinearityClaim

/-- Claim C13, evaluated at two failing inputs. On the 3x3x3 grid `mixGrid` is
`2 onesGrid + 3 centreGrid` voxel by voxel. On the ray from
`(5/2 - 1/20000, -1, -1/2)` to `(7/2 - 1/20000, 1, 3/2)` the code reads five
voxels with `v.x = 3 = N_x`, outside the image: it returns `3` for `onesGrid`,
`0` for `centreGrid` and `21` for `mixGrid`, not `2 * 3 + 3 * 0 = 6`. On the ray
from `(1/2, 9/4, 9/4)` to `(-1/2, 1/4, 1/4)` two calls on the same image
`onesGrid` read different sequences of voxels and return `3` and `3/2`,
according to the content `1` or `2` that the unassigned `index` holds. -/
theorem result_not_linear_in_image :
    (∀ i j k : Int, (0 ≤ i ∧ i < 3) ∧ (0 ≤ j ∧ j < 3) ∧ (0 ≤ k ∧ k < 3) →
      mixGrid.data i j k = 2 * onesGrid.data i j k + 3 * centreGrid.data i j k) ∧
    (Ray_Tracer_Forward Rat.sqrt 0 9 ⟨5/2 - 1/20000, -1, -1/2⟩ ⟨7/2 - 1/20000, 1, 3/2⟩
        3 3 3 onesGrid
      = .ret 3 [(⟨3, 0, 0⟩, 3/4), (⟨3, 0, 1⟩, 3/4), (⟨3, 1, 1⟩, 3/4), (⟨3, 1, 2⟩, 3/4),
          (⟨3, 2, 2⟩, 0)] ∧
    Ray_Tracer_Forward Rat.sqrt 0 9 ⟨5/2 - 1/20000, -1, -1/2⟩ ⟨7/2 - 1/20000, 1, 3/2⟩
        3 3 3 centreGrid
      = .ret 0 [(⟨3, 0, 0⟩, 3/4), (⟨3, 0, 1⟩, 3/4), (⟨3, 1, 1⟩, 3/4), (⟨3, 1, 2⟩, 3/4),
          (⟨3, 2, 2⟩, 0)] ∧
    Ray_Tracer_Forward Rat.sqrt 0 9 ⟨5/2 - 1/20000, -1, -1/2⟩ ⟨7/2 - 1/20000, 1, 3/2⟩
        3 3 3 mixGrid
      = .ret 21 [(⟨3, 0, 0⟩, 3/4), (⟨3, 0, 1⟩, 3/4), (⟨3, 1, 1⟩, 3/4), (⟨3, 1, 2⟩, 3/4),
          (⟨3, 2, 2⟩, 0)]) ∧
    (Ray_Tracer_Forward Rat.sqrt 1 9 ⟨1/2, 9/4, 9/4⟩ ⟨-1/2, 1/4, 1/4⟩ 3 3 3 onesGrid
      = .ret 3 [(⟨0, 2, 2⟩, 3/8), (⟨0, 1, 2⟩, 0), (⟨0, 1, 1⟩, 3/2), (⟨0, 0, 1⟩, 0),
          (⟨0, 0, 0⟩, 9/8)] ∧
    Ray_Tracer_Forward Rat.sqrt 2 9 ⟨1/2, 9/4, 9/4⟩ ⟨-1/2, 1/4, 1/4⟩ 3 3 3 onesGrid
      = .ret (3/2) [(⟨0, 2, 2⟩, 3/8), (⟨0, 1, 2⟩, 0), (⟨0, 1, 1⟩, 9/8)]) := by
  refine ⟨?_, ⟨eval_corner 0, eval_corner_centre 0, eval_corner_mix 0⟩,
    eval_outward_one, eval_outward_two⟩
  intro i j k h
  simp only [mixGrid, if_pos h]

end RayTracer

/-! ## C1: the line integral along a ray that goes through the grid -/

namespace RayTracer

theorem sqrt_oblique : Rat.sqrt (625 / 16) = 25 / 4 := by
  rw [show (625 / 16 : ℚ) = 25 / 4 * (25 / 4) by norm_num, Rat.sqrt_eq]; norm_num

/-- A half-integer is at least `1/2` away from every integer. -/
theorem half_far (m n : Int) : (1 / 10000 : ℚ) ≤ |(m : ℚ) + 1 / 2 - n| := by
  rw [le_abs]
  rcases le_or_lt n m with h | h
  · left
    have : (n : ℚ) ≤ (m : ℚ) := by exact_mod_cast h
    linarith
  · right
    have : (m : ℚ) + 1 ≤ (n : ℚ) := by exact_mod_cast h
    linarith

/-- C1. For every grid with positive extents and every ray with source !=
detector and length `L < 1e6` (`L` the exact square root) such that source and
detector lie outside the closed box, every direction component is `0` or above
`1e-4` in magnitude, every coordinate of the point at `lambda_min` is an integer
or at least `1e-4` away from every integer, and a coordinate that does not
change is not an integer, `Ray_Tracer_Forward` returns, whatever the initial
content of `index`, the sum over all voxels of `image[i][j][k]` times the length
of the part of the segment inside the unit cell of the voxel. -/
theorem through_ray_is_line_integral {K : Type} [LinearOrderedField K] [FloorRing K]
    (SQRT : K → K) (index0 : Int) (fuel : Nat)
    (source detector : Vector3D K) (N_x N_y N_z : Int) (image : Array3D K)
    (hN : 0 < N_x ∧ 0 < N_y ∧ 0 < N_z) (hfuel : N_x + N_y + N_z ≤ (fuel : Int))
    (hne : source ≠ detector)
    (hsq : 0 ≤ rayLength SQRT source detector ∧
      rayLength SQRT source detector * rayLength SQRT source detector
        = (detector.x - source.x) * (detector.x - source.x)
          + (detector.y - source.y) * (detector.y - source.y)
          + (detector.z - source.z) * (detector.z - source.z))
    (hL6 : rayLength SQRT source detector < 1000000)
    (hs : ¬ InBox source N_x N_y N_z) (hd : ¬ InBox detector N_x N_y N_z)
    (hb : (detector.x - source.x = 0 ∨ 1 / 10000 < |detector.x - source.x|) ∧
      (detector.y - source.y = 0 ∨ 1 / 10000 < |detector.y - source.y|) ∧
      (detector.z - source.z = 0 ∨ 1 / 10000 < |detector.z - source.z|))
    (hc : ∀ lmin : K,
      slabMin source detector N_x N_y N_z (rayLength SQRT source detector) = .fin lmin →
      ((∃ n : Int, source.x + lmin * (detector.x - source.x)
            / rayLength SQRT source detector = n) ∨
          ∀ n : Int, 1 / 10000 ≤ |source.x + lmin * (detector.x - source.x)
            / rayLength SQRT source detector - n|) ∧
      ((∃ n : Int, source.y + lmin * (detector.y - source.y)
            / rayLength SQRT source detector = n) ∨
          ∀ n : Int, 1 / 10000 ≤ |source.y + lmin * (detector.y - source.y)
            / rayLength SQRT source detector - n|) ∧
      ((∃ n : Int, source.z + lmin * (detector.z - source.z)
            / rayLength SQRT source detector = n) ∨
          ∀ n : Int, 1 / 10000 ≤ |source.z + lmin * (detector.z - source.z)
            / rayLength SQRT source detector - n|))
    (hd0 : (detector.x - source.x = 0 → ∀ n : Int, source.x ≠ (n : K)) ∧
      (detector.y - source.y = 0 → ∀ n : Int, source.y ≠ (n : K)) ∧
      (detector.z - source.z = 0 → ∀ n : Int, source.z ≠ (n : K))) :
    ∃ tr, Ray_Tracer_Forward SQRT index0 fuel source detector N_x N_y N_z image
      = .ret (lineIntegral source detector (rayLength SQRT source detector) N_x N_y N_z image)
          tr := by
  have hL := rayLength_pos SQRT source detector hne hsq
  have cx := axis_class source.x detector.x N_x hd0.1
  have cy := axis_class source.y detector.y N_y hd0.2.1
  have cz := axis_class source.z detector.z N_z hd0.2.2
  by_cases hout : AxisOut source.x detector.x N_x ∨ AxisOut source.y detector.y N_y ∨
      AxisOut source.z detector.z N_z
  · refine ⟨[], ?_⟩
    simp only [Ray_Tracer_Forward]
    rw [if_pos (slab_some_out source detector _ N_x N_y N_z hL hN cx cy cz hout),
      lineIntegral_out source detector _ N_x N_y N_z image hout]
  · push_neg at hout
    have ix : AxisIn source.x detector.x N_x := cx.resolve_right hout.1
    have iy : AxisIn source.y detector.y N_y := cy.resolve_right hout.2.1
    have iz : AxisIn source.z detector.z N_z := cz.resolve_right hout.2.2
    obtain ⟨h1, h2⟩ := slab_all_in source detector _ N_x N_y N_z hL ix iy iz
    by_cases hle : exitDist source detector (rayLength SQRT source detector) N_x N_y N_z
        ≤ entryDist source detector (rayLength SQRT source detector) N_x N_y N_z
    · refine ⟨[], ?_⟩
      simp only [Ray_Tracer_Forward]
      rw [h1, h2, lineIntegral_miss source detector _ N_x N_y N_z image hL hle]
      simp [ExtVal.ge, hle]
    · obtain ⟨tr, htr⟩ := marchFromEntry_spec index0 fuel source detector N_x N_y N_z image
        (rayLength SQRT source detector) hL hL6 hN hfuel ix iy iz hb hd0 (not_le.1 hle) hs hd
        (hc _ h1)
      refine ⟨tr, ?_⟩
      simp only [Ray_Tracer_Forward]
      rw [h1, h2]
      simp only [ExtVal.ge, decide_eq_true_eq, if_neg hle]
      exact htr

/-- The line integral of the 3x3x3 grid that is 0 except `image[1][1][1] = 5`
along the segment from `(-3/4, -1/2, 3/2)` to `(3, 9/2, 3/2)`: the segment is in
the cell of the voxel `(1, 1, 1)` over the length `5/24`. -/
theorem lineIntegral_oblique :
    lineIntegral (⟨-3/4, -1/2, 3/2⟩ : Vector3D ℚ) ⟨3, 9/2, 3/2⟩ (25 / 4) 3 3 3 centreGrid
      = 25 / 24 := by
  rw [lineIntegral_single _ _ _ 3 3 3 centreGrid 1 1 1 (by decide) (by decide) (by decide)
    (by
      intro i j k _ _ _ h
      simp only [centreGrid]
      rw [if_neg h])]
  norm_num [cellLength, cellLengthBetween, axisInterval, centreGrid]

/-- C1 at the oblique ray from `(-3/4, -1/2, 3/2)` to `(3, 9/2, 3/2)`, of length
`25/4`, through the 3x3x3 grid that is 0 except `image[1][1][1] = 5`: the ray
enters the grid at `(0, 1/2, 3/2)`, and the call returns `25/24`. -/
theorem through_ray_is_line_integral_witness :
    ∃ tr, Ray_Tracer_Forward Rat.sqrt 0 9 (⟨-3/4, -1/2, 3/2⟩ : Vector3D ℚ) ⟨3, 9/2, 3/2⟩ 3 3 3
        centreGrid = .ret (25 / 24) tr := by
  have hL : rayLength Rat.sqrt (⟨-3/4, -1/2, 3/2⟩ : Vector3D ℚ) ⟨3, 9/2, 3/2⟩ = 25 / 4 := by
    norm_num [rayLength, sqrt_oblique]
  have h1 : slabMin (⟨-3/4, -1/2, 3/2⟩ : Vector3D ℚ) ⟨3, 9/2, 3/2⟩ 3 3 3 (25 / 4)
      = .fin (5 / 4) := by
    norm_num [slabMin, LAMBDA_X, LAMBDA_Y, LAMBDA_Z, ExtVal.quot, MIN, MAX, ExtVal.lt]
  have key := through_ray_is_line_integral Rat.sqrt 0 9 ⟨-3/4, -1/2, 3/2⟩ ⟨3, 9/2, 3/2⟩ 3 3 3
    centreGrid (by decide) (by decide)
    (by
      intro h
      have := congrArg Vector3D.x h
      norm_num at this)
    (by rw [hL]; norm_num) (by rw [hL]; norm_num) (by norm_num [InBox]) (by norm_num [InBox])
    (by refine ⟨Or.inr ?_, Or.inr ?_, Or.inl ?_⟩ <;> norm_num [lt_abs])
    (by
      intro lmin h
      rw [hL, h1] at h
      have h2 : lmin = 5 / 4 := by
        injection h with h
        exact h.symm
      subst h2
      rw [hL]
      refine ⟨Or.inl ⟨0, by norm_num⟩, Or.inr ?_, Or.inr ?_⟩
      · intro n
        have := half_far 0 n
        norm_num at this ⊢
        exact this
      · intro n
        have := half_far 1 n
        norm_num at this ⊢
        exact this)
    (by
      refine ⟨fun h => ?_, fun h => ?_, fun _ n hn => ?_⟩
      · norm_num at h
      · norm_num at h
      · have := half_far 1 n
        simp only at hn
        rw [← hn] at this
        norm_num at this)
  rw [hL, lineIntegral_oblique] at key
  exact key

end RayTracer

/-! ## C3: a ray parallel to an axis through a single nonzero voxel -/

namespace RayTracer

/-- C3 fails as stated. The ray from `(-10, 19999/20000, 3/2)` to
`(10, 19999/20000, 3/2)` is parallel to the x axis and goes through the 3x3x3
grid from outside the box to outside the box; the voxel `(1, 0, 1)` is on its
path, holds 5, and all other voxels are 0. The constant coordinate
`y = 0.99995` is within `1e-4` of the grid plane `y = 1`, so the call takes the
ray to lie on that plane, reads the row `j = 1` and returns 0, not 5. -/
theorem near_plane_ray_misses_its_voxel :
    ¬ InBox (⟨-10, 19999/20000, 3/2⟩ : Vector3D ℚ) 3 3 3 ∧
    ¬ InBox (⟨10, 19999/20000, 3/2⟩ : Vector3D ℚ) 3 3 3 ∧
    OnPath (⟨-10, 19999/20000, 3/2⟩ : Vector3D ℚ) ⟨10, 19999/20000, 3/2⟩ 1 0 1 ∧
    rowGrid.data 1 0 1 = 5 ∧
    (∀ i j k : Int, ¬ (i = 1 ∧ j = 0 ∧ k = 1) → rowGrid.data i j k = 0) ∧
    Ray_Tracer_Forward Rat.sqrt 0 9 ⟨-10, 19999/20000, 3/2⟩ ⟨10, 19999/20000, 3/2⟩ 3 3 3 rowGrid
      = .ret 0 [(⟨0, 1, 1⟩, 1), (⟨1, 1, 1⟩, 1), (⟨2, 1, 1⟩, 1)] := by
  refine ⟨by norm_num [InBox], by norm_num [InBox], ⟨23/40, ?_⟩, by simp [rowGrid], ?_, ?_⟩
  · norm_num [pointAt]
  · intro i j k h
    simp only [rowGrid]
    rw [if_neg h]
  · rw [eval_x_axis_near_plane 0 rowGrid]
    norm_num [rowGrid]

/-- C3, amended. For every grid with positive extents and every ray parallel to
an axis (two direction components are 0), of length `L < 1e6`, with source and
detector outside the closed box, whose two constant coordinates are at least
`1e-4` away from every integer: if the voxel `(i0, j0, k0)` of the grid is on
the path of the ray (the segment has a point strictly inside its unit cell) and
holds `c`, and every other voxel of the grid holds 0, `Ray_Tracer_Forward`
returns exactly `c`, whatever `index` holds at the start. -/
theorem axis_ray_single_voxel {K : Type} [LinearOrderedField K] [FloorRing K]
    (SQRT : K → K) (index0 : Int) (fuel : Nat)
    (source detector : Vector3D K) (N_x N_y N_z : Int) (image : Array3D K) (i0 j0 k0 : Int)
    (c : K)
    (hN : 0 < N_x ∧ 0 < N_y ∧ 0 < N_z) (hfuel : N_x + N_y + N_z ≤ (fuel : Int))
    (hsq : 0 ≤ rayLength SQRT source detector ∧
      rayLength SQRT source detector * rayLength SQRT source detector
        = (detector.x - source.x) * (detector.x - source.x)
          + (detector.y - source.y) * (detector.y - source.y)
          + (detector.z - source.z) * (detector.z - source.z))
    (hL6 : rayLength SQRT source detector < 1000000)
    (hs : ¬ InBox source N_x N_y N_z) (hd : ¬ InBox detector N_x N_y N_z)
    (hpar : (detector.y - source.y = 0 ∧ detector.z - source.z = 0) ∨
      (detector.x - source.x = 0 ∧ detector.z - source.z = 0) ∨
      (detector.x - source.x = 0 ∧ detector.y - source.y = 0))
    (hfar : (detector.x - source.x = 0 → ∀ n : Int, 1 / 10000 ≤ |source.x - n|) ∧
      (detector.y - source.y = 0 → ∀ n : Int, 1 / 10000 ≤ |source.y - n|) ∧
      (detector.z - source.z = 0 → ∀ n : Int, 1 / 10000 ≤ |source.z - n|))
    (hi : 0 ≤ i0 ∧ i0 < N_x) (hj : 0 ≤ j0 ∧ j0 < N_y) (hk : 0 ≤ k0 ∧ k0 < N_z)
    (hon : OnPath source detector i0 j0 k0)
    (hval : image.data i0 j0 k0 = c)
    (hzero : ∀ i j k : Int, (0 ≤ i ∧ i < N_x) → (0 ≤ j ∧ j < N_y) → (0 ≤ k ∧ k < N_z) →
      ¬ (i = i0 ∧ j = j0 ∧ k = k0) → image.data i j k = 0) :
    ∃ tr, Ray_Tracer_Forward SQRT index0 fuel source detector N_x N_y N_z image
      = .ret c tr := by
  rw [← hval]
  rcases hpar with ⟨h1, h2⟩ | ⟨h1, h2⟩ | ⟨h1, h2⟩
  · exact x_ray_single_voxel SQRT index0 fuel source detector N_x N_y N_z image i0 j0 k0 hN hfuel
      hsq hL6 hs hd h1 h2 (hfar.2.1 h1) (hfar.2.2 h2) hi hj hk hon hzero
  · exact y_ray_single_voxel SQRT index0 fuel source detector N_x N_y N_z image i0 j0 k0 hN hfuel
      hsq hL6 hs hd h1 h2 (hfar.1 h1) (hfar.2.2 h2) hi hj hk hon hzero
  · exact z_ray_single_voxel SQRT index0 fuel source detector N_x N_y N_z image i0 j0 k0 hN hfuel
      hsq hL6 hs hd h1 h2 (hfar.1 h1) (hfar.2.1 h2) hi hj hk hon hzero

/-- The amended C3 at the example of the specification: the 3x3x3 grid that is
0 except `image[1][1][1] = 5`, with the ray from `(-10, 3/2, 3/2)` to
`(10, 3/2, 3/2)`, returns 5. -/
theorem axis_ray_single_voxel_witness :
    ∃ tr, Ray_Tracer_Forward Rat.sqrt 0 9 (⟨-10, 3/2, 3/2⟩ : Vector3D ℚ) ⟨10, 3/2, 3/2⟩ 3 3 3
      centreGrid = .ret 5 tr := by
  have hL : rayLength Rat.sqrt (⟨-10, 3/2, 3/2⟩ : Vector3D ℚ) ⟨10, 3/2, 3/2⟩ = 20 := by
    norm_num [rayLength, sqrt_fourhundred]
  have far : ∀ n : Int, (1 / 10000 : ℚ) ≤ |(3 / 2 : ℚ) - (n : ℚ)| := by
    intro n
    rw [le_abs]
    rcases le_or_lt n 1 with h | h
    · left
      have : (n : ℚ) ≤ 1 := by exact_mod_cast h
      linarith
    · right
      have : (2 : ℚ) ≤ (n : ℚ) := by exact_mod_cast h
      linarith
  refine axis_ray_single_voxel Rat.sqrt 0 9 ⟨-10, 3/2, 3/2⟩ ⟨10, 3/2, 3/2⟩ 3 3 3 centreGrid
    1 1 1 5 (by decide) (by decide) ?_ ?_ ?_ ?_ ?_ ?_ (by decide) (by decide) (by decide) ?_ ?_ ?_
  · rw [hL]; norm_num
  · rw [hL]; norm_num
  · norm_num [InBox]
  · norm_num [InBox]
  · left; norm_num
  · exact ⟨fun h => by norm_num at h, fun _ => far, fun _ => far⟩
  · refine ⟨23/40, ?_⟩
    norm_num [pointAt]
  · simp [centreGrid]
  · intro i j k _ _ _ h
    simp only [centreGrid]
    rw [if_neg h]

end RayTracer

/-! ## C11: the sweep on an all-ones volume -/

namespace RayTracer

section SweepOnes

variable {K : Type} [LinearOrderedField K] [FloorRing K]

end SweepOnes

end RayTracer
